import Mathlib

/-! # Row-based reduced-grid mesh generation (atlas `ReducedGridMeshGenerator`)

A shallow embedding of `src/atlas/meshgen/ReducedGridMeshGenerator.cc`.

Modelling conventions

* C++ `int` values that can hold the sentinel `-1` are `Int`; cursors, row
  indices and counters that are never negative are `Nat`.
* `double` longitudes and latitudes are exact rationals.  Longitudes are kept
  in degrees: the classification rules only use ratios and comparisons of
  longitude differences, which the positive factor `to_rad` leaves unchanged
  (the stagger shift `M_PI/nlon` radians is `180/nlon` degrees).
* The angle test `std::abs(atan2(t,1)*to_deg) <= max_angle` is the Boolean
  function `within_angle` of the option record, applied to the tangent `t`.
* `while (true)` is a loop with explicit fuel; running out of fuel is the
  result `none`.
-/

namespace Atlas

/-! ## Grid capability (`grids::ReducedGrid`, consumed interface) -/

/-- Reduced grid: row lengths north to south, latitude of each row and
longitude of each (row, column); column `nlon` of a row is its periodic point. -/
structure ReducedGrid where
  nlons : List Nat
  lat : Nat → ℚ
  lon : Nat → Nat → ℚ

namespace ReducedGrid

/-- Number of rows, `rg.nlat()`. -/
def nlat (rg : ReducedGrid) : Nat := rg.nlons.length

/-- Number of points of a row, `rg.nlon(jlat)`. -/
def nlon (rg : ReducedGrid) (jlat : Nat) : Nat := rg.nlons.getD jlat 0

/-- Total number of points, `rg.npts()`. -/
def npts (rg : ReducedGrid) : Nat := rg.nlons.sum

/-- Cumulative row offset: the loop `offset[jlat]=n; n+=rg.nlon(jlat)`. -/
def offset (rg : ReducedGrid) (jlat : Nat) : Nat := (rg.nlons.take jlat).sum

end ReducedGrid

/-! ## Options -/

/-- Generator options (`options.get<...>(...)`). -/
structure Options where
  within_angle : ℚ → Bool
  triangulate : Bool
  three_dimensional : Bool
  unique_pole : Bool
  stagger : Bool
  include_pole : Bool
  patch_pole : Bool
  nb_parts : Int
  part : Int

/-! ## Region -/

/-- One slot of the classification buffer: `elem[0..3]`, `-1` marks the
missing corner of a triangle. -/
structure Elem where
  e0 : Int
  e1 : Int
  e2 : Int
  e3 : Int
deriving DecidableEq, Repr

/-- Transient classification result (`struct Region`).  Entry `ilat` of `elems`
holds the first `nb_lat_elems` slots of buffer row `ilat`; `lat_begin`,
`lat_end` and `nb_lat_elems` are the vectors of length `nlat`. -/
structure Region where
  north : Nat
  south : Nat
  elems : List (List Elem)
  ntriags : Nat
  nquads : Nat
  nnodes : Int
  lat_begin : List Int
  lat_end : List Int
  nb_lat_elems : List Nat
deriving DecidableEq, Repr

/-- Read `v[i]` of an `int` vector. -/
def geti (v : List Int) (i : Nat) : Int := v.getD i (-1)

/-- Errors raised by the generator. `indexOutOfRange` stands for an access
outside an array, which the source does not check. -/
inductive MeshError where
  | tooManyPartitions
  | badParameter
  | indexOutOfRange
  | badCast
deriving DecidableEq, Repr

/-! ## Ownership tests of `generate_region` -/

/-- Largest entry, `*std::max_element(pcnts, pcnts+k)` for counts. -/
def max_element (l : List Nat) : Nat := l.foldl max 0

/-- Quad ownership (source lines 488-527): value of `add_quad`. -/
def add_quad (pN1 pN2 pS1 pS2 mypart : Int) (latN latS nlat : Int) (yN yS : ℚ) : Bool :=
  let np := [pN1, pN2, pS1, pS2]
  let cnt_mypart := np.count mypart
  if cnt_mypart > 0 then
    let pcnts := np.map (fun p => np.count p)
    let cnt_max := max_element pcnts
    if latN = 0 then decide (pN1 = mypart)
    else if latS = nlat - 1 then decide (pS2 = mypart)
    else if cnt_mypart > 2 then true
    else if cnt_max < 3 then
      if (1 / 2 : ℚ) * (yN + yS) > 1 / 1000000 then decide (pS1 = mypart)
      else decide (pN2 = mypart)
    else false
  else false

/-- Triangle-down ownership (source lines 558-602): value of `add_triag`. -/
def add_triag_down (pN1 pN2 pS1 mypart : Int) (latN latS nlat : Int) (yN yS : ℚ) : Bool :=
  let np := [pN1, pN2, pS1]
  let cnt_mypart := np.count mypart
  if latN = 0 then decide (pN1 = mypart)
  else if latS = nlat - 1 then decide (pS1 = mypart)
  else if cnt_mypart > 1 then true
  else if cnt_mypart = 1 then
    let pcnts := np.map (fun p => np.count p)
    let cnt_max := max_element pcnts
    if cnt_max = 1 then
      if (1 / 2 : ℚ) * (yN + yS) > 1 / 1000000 then decide (pS1 = mypart)
      else decide (pN1 = mypart)
    else false
  else false

/-- Triangle-up ownership (source lines 634-683): value of `add_triag`. -/
def add_triag_up (pN1 pS1 pS2 mypart : Int) (latN latS nlat : Int) (yN yS : ℚ) : Bool :=
  let np := [pN1, pS1, pS2]
  let cnt_mypart := np.count mypart
  if latN = 0 then decide (pN1 = mypart)
  else if latS = nlat - 1 then decide (pS2 = mypart)
  else if cnt_mypart > 1 then true
  else if cnt_mypart = 1 then
    let pcnts := np.map (fun p => np.count p)
    let cnt_max := max_element pcnts
    if cnt_max = 1 then
      if latN = 0 ∨ latS = nlat - 1 then true
      else if (1 / 2 : ℚ) * (yN + yS) > 1 / 1000000 then decide (pS2 = mypart)
      else decide (pN1 = mypart)
    else false
  else false

/-- Partition that passes the quad test (see `add_quad_iff`). -/
def quad_owner (pN1 pN2 pS1 pS2 : Int) (latN latS nlat : Int) (yN yS : ℚ) : Int :=
  if latN = 0 then pN1
  else if latS = nlat - 1 then pS2
  else if pN1 = pN2 ∧ (pN1 = pS1 ∨ pN1 = pS2) then pN1
  else if pS1 = pS2 ∧ (pS1 = pN1 ∨ pS1 = pN2) then pS1
  else if (1 / 2 : ℚ) * (yN + yS) > 1 / 1000000 then pS1 else pN2

/-- Partition that passes the triangle-down test (see `add_triag_down_iff`). -/
def triag_down_owner (pN1 pN2 pS1 : Int) (latN latS nlat : Int) (yN yS : ℚ) : Int :=
  if latN = 0 then pN1
  else if latS = nlat - 1 then pS1
  else if pN1 = pN2 then pN1
  else if pN1 = pS1 then pN1
  else if pN2 = pS1 then pN2
  else if (1 / 2 : ℚ) * (yN + yS) > 1 / 1000000 then pS1 else pN1

/-- Partition that passes the triangle-up test (see `add_triag_up_iff`). -/
def triag_up_owner (pN1 pS1 pS2 : Int) (latN latS nlat : Int) (yN yS : ℚ) : Int :=
  if latN = 0 then pN1
  else if latS = nlat - 1 then pS2
  else if pN1 = pS1 then pN1
  else if pN1 = pS2 then pN1
  else if pS1 = pS2 then pS1
  else if (1 / 2 : ℚ) * (yN + yS) > 1 / 1000000 then pS2 else pN1

/-! ## Classification rules of `generate_region` -/

/-- Outcome of the rules block (source lines 393-462): the three flags
`try_make_triangle_up`, `try_make_triangle_down`, `try_make_quad`. -/
structure Try where
  up : Bool
  down : Bool
  quad : Bool
deriving DecidableEq, Repr

/-- The decisions of the rules block (source lines 402-462) as a function of
the values the block has computed: `within` is the outcome of the test
`std::abs(alpha1) <= max_angle && std::abs(alpha2) <= max_angle`, and `dN1S2`,
`dS1N2` are the values held by the two `double` variables of these names (the
comparisons `==`, `<`, `<=` of two finite doubles compare their values).  In
the last `else` the source builds an `Exception` object without throwing it,
so all flags stay false. -/
def rules_of (opts : Options) (jlat ipN1 ipN2 ipS1 ipS2 : Nat) (within : Bool)
    (dN1S2 dS1N2 : ℚ) : Try :=
  if within then
    if opts.triangulate then
      if dN1S2 = dS1N2 then
        ⟨decide ((jlat + ipN1) % 2 ≠ 0), decide ((jlat + ipN1 + 1) % 2 ≠ 0), false⟩
      else if dN1S2 < dS1N2 then
        if ipS1 ≠ ipS2 then ⟨true, false, false⟩ else ⟨false, true, false⟩
      else
        if ipN1 ≠ ipN2 then ⟨false, true, false⟩ else ⟨true, false, false⟩
    else
      if ipN1 = ipN2 then ⟨true, false, false⟩
      else if ipS1 = ipS2 then ⟨false, true, false⟩
      else ⟨false, false, true⟩
  else
    if dN1S2 ≤ dS1N2 ∧ ipS1 ≠ ipS2 then ⟨true, false, false⟩
    else if dN1S2 ≥ dS1N2 ∧ ipN1 ≠ ipN2 then ⟨false, true, false⟩
    else ⟨false, false, false⟩

/-- The rules block, source lines 393-462, on the four longitudes.  The
quantities `dx`, the two tangents and the two diagonals are computed here in
exact rational arithmetic; the source computes them in `double`, where a
rounded difference can turn an exact tie of the diagonals into an inequality
and the reverse. -/
def rules (opts : Options) (jlat ipN1 ipN2 ipS1 ipS2 : Nat) (xN1 xN2 xS1 xS2 : ℚ) : Try :=
  let dxN := |xN2 - xN1|
  let dxS := |xS2 - xS1|
  let dx := min dxN dxS
  let t1 := if dx = 0 then 0 else (xN1 - xS1) / dx
  let t2 := if dx = 0 then 0 else (xN2 - xS2) / dx
  let dN1S2 := |xN1 - xS2|
  let dS1N2 := |xS1 - xN2|
  rules_of opts jlat ipN1 ipN2 ipS1 ipS2 (opts.within_angle t1 && opts.within_angle t2)
    dN1S2 dS1N2

/-- Longitude used by the rules: `rg.lon(jlat,jlon)`, shifted by half a cell
on even-numbered rows when `stagger` is set (source lines 376-384).  The value
is an exact rational in degrees; the source holds it as a `double` in radians
(`lon*to_rad`, `+= M_PI/nlon`), so only the ratios and comparisons of the exact
values are represented. -/
def rule_lon (rg : ReducedGrid) (opts : Options) (jlat jlon : Nat) : ℚ :=
  if opts.stagger ∧ (jlat + 1) % 2 = 0 then rg.lon jlat jlon + 180 / (rg.nlon jlat : ℚ)
  else rg.lon jlat jlon

/-! ## The zipper loop of `generate_region` -/

/-- Loop state of the `while (true)` of one row pair, together with the region
fields it updates.  `row` is the list of accepted slots, so `jelem = row.length`. -/
structure ZState where
  ipN1 : Nat
  ipS1 : Nat
  ipN2 : Nat
  ipS2 : Nat
  row : List Elem
  nquads : Nat
  ntriags : Nat
  nelems : Nat
  lat_begin : List Int
  lat_end : List Int

/-- Update of `lat_begin` when an element is accepted (the four statements on
`region.lat_begin`, e.g. source lines 534-537). -/
def touch_begin (lat_begin : List Int) (latN latS : Nat) (bN bS : Int) : List Int :=
  let lb1 := if geti lat_begin latN = -1 then lat_begin.set latN bN else lat_begin
  let lb2 := if geti lb1 latS = -1 then lb1.set latS bS else lb1
  let lb3 := lb2.set latN (min (geti lb2 latN) bN)
  lb3.set latS (min (geti lb3 latS) bS)

/-- Update of `lat_end` when an element is accepted (the two statements on
`region.lat_end`, e.g. source lines 538-539). -/
def touch_end (lat_end : List Int) (latN latS : Nat) (eN eS : Int) : List Int :=
  let le1 := lat_end.set latN (max (geti lat_end latN) eN)
  le1.set latS (max (geti le1 latS) eS)

/-- Owner `pN1` of the north cursor point (source lines 354-357); at the
periodic column it is the owner of the last point of the row. -/
def owner_N1 (rg : ReducedGrid) (parts : Nat → Int) (jlat : Nat) (s : ZState) : Int :=
  if s.ipN1 ≠ rg.nlon jlat then parts (rg.offset jlat + s.ipN1)
  else parts (rg.offset jlat + s.ipN1 - 1)

/-- Owner `pS1` of the south cursor point (source lines 358-361). -/
def owner_S1 (rg : ReducedGrid) (parts : Nat → Int) (jlat : Nat) (s : ZState) : Int :=
  if s.ipS1 ≠ rg.nlon (jlat + 1) then parts (rg.offset (jlat + 1) + s.ipS1)
  else parts (rg.offset (jlat + 1) + s.ipS1 - 1)

/-- Owner `pN2` (source lines 363-366). -/
def owner_N2 (rg : ReducedGrid) (parts : Nat → Int) (jlat : Nat) (s : ZState) : Int :=
  if s.ipN2 = rg.nlon jlat then owner_N1 rg parts jlat s
  else parts (rg.offset jlat + s.ipN2)

/-- Owner `pS2` (source lines 367-370). -/
def owner_S2 (rg : ReducedGrid) (parts : Nat → Int) (jlat : Nat) (s : ZState) : Int :=
  if s.ipS2 = rg.nlon (jlat + 1) then owner_S1 rg parts jlat s
  else parts (rg.offset (jlat + 1) + s.ipS2)

/-- The flags chosen by the rules block for the current cursors (source lines
376-462). -/
def step_try (rg : ReducedGrid) (opts : Options) (jlat : Nat) (s : ZState) : Try :=
  rules opts jlat s.ipN1 s.ipN2 s.ipS1 s.ipS2
    (rule_lon rg opts jlat s.ipN1) (rule_lon rg opts jlat s.ipN2)
    (rule_lon rg opts (jlat + 1) s.ipS1) (rule_lon rg opts (jlat + 1) s.ipS2)

/-- Bookkeeping of an accepted element (e.g. source lines 528-540): counters,
the slot `elem` is kept (`++jelem`), `lat_begin` and `lat_end` are widened. -/
def accept_elem (s : ZState) (latN latS : Nat) (quad : Bool) (elem : Elem) (eN eS : Int) :
    ZState :=
  { s with
    nquads := if quad then s.nquads + 1 else s.nquads
    ntriags := if quad then s.ntriags else s.ntriags + 1
    row := s.row ++ [elem]
    nelems := s.nelems + 1
    lat_begin := touch_begin s.lat_begin latN latS s.ipN1 s.ipS1
    lat_end := touch_end s.lat_end latN latS eN eS }

/-- Cursor update at the end of the loop body: the new `ipN1`, `ipS1` and
`ipN2 = min(endN,ipN1+1)`, `ipS2 = min(endS,ipS1+1)` (source lines 702-703). -/
def next_cursors (endN endS : Nat) (s : ZState) (ipN1 ipS1 : Nat) : ZState :=
  { s with ipN1 := ipN1, ipS1 := ipS1, ipN2 := min endN (ipN1 + 1), ipS2 := min endS (ipS1 + 1) }

/-- One iteration of the `while (true)` body after the exit test (source
lines 353-703): quad, triangle down, or triangle up (also when no flag is
set). -/
def zipper_step (rg : ReducedGrid) (opts : Options) (parts : Nat → Int) (mypart : Int)
    (jlat endN endS : Nat) (s : ZState) : ZState :=
  let latN := jlat
  let latS := jlat + 1
  let yN := rg.lat latN
  let yS := rg.lat latS
  let pN1 := owner_N1 rg parts jlat s
  let pS1 := owner_S1 rg parts jlat s
  let pN2 := owner_N2 rg parts jlat s
  let pS2 := owner_S2 rg parts jlat s
  let t := step_try rg opts jlat s
  if t.quad then
    next_cursors endN endS
      (if add_quad pN1 pN2 pS1 pS2 mypart latN latS rg.nlat yN yS
       then accept_elem s latN latS true ⟨s.ipN1, s.ipS1, s.ipS2, s.ipN2⟩ s.ipN2 s.ipS2 else s)
      s.ipN2 s.ipS2
  else if t.down then
    next_cursors endN endS
      (if add_triag_down pN1 pN2 pS1 mypart latN latS rg.nlat yN yS
       then accept_elem s latN latS false ⟨s.ipN1, s.ipS1, -1, s.ipN2⟩ s.ipN2 s.ipS1 else s)
      s.ipN2 s.ipS1
  else
    next_cursors endN endS
      (if add_triag_up pN1 pS1 pS2 mypart latN latS rg.nlat yN yS
       then accept_elem s latN latS false ⟨s.ipN1, s.ipS1, s.ipS2, -1⟩ s.ipN1 s.ipS2 else s)
      s.ipN1 s.ipS2

/-- The `while (true)` loop: leave when both cursors are at their end, else
run the body.  `none` when the fuel runs out before the loop is left. -/
def zipper_loop (rg : ReducedGrid) (opts : Options) (parts : Nat → Int) (mypart : Int)
    (jlat endN endS : Nat) : Nat → ZState → Option ZState
  | 0, s => if s.ipN1 = endN ∧ s.ipS1 = endS then some s else none
  | fuel + 1, s =>
    if s.ipN1 = endN ∧ s.ipS1 = endS then some s
    else zipper_loop rg opts parts mypart jlat endN endS fuel
      (zipper_step rg opts parts mypart jlat endN endS s)

/-- The part of the region that the row-pair loop updates. -/
structure RState where
  elems : List (List Elem)
  nquads : Nat
  ntriags : Nat
  nelems : Nat
  lat_begin : List Int
  lat_end : List Int
  nb_lat_elems : List Nat

/-- End columns of the two rows of a row pair (source lines 323-332): the
row length, or 0 for a pole row when `unique_pole` is active. -/
def row_ends (rg : ReducedGrid) (up : Bool) (jlat : Nat) : Nat × Nat :=
  (if rg.lat jlat = 90 ∧ up then 0 else rg.nlon jlat,
   if rg.lat (jlat + 1) = -90 ∧ up then 0 else rg.nlon (jlat + 1))

/-- Loop state at the start of a row pair (source lines 334-339), with the
region fields of `r`. -/
def start_state (rg : ReducedGrid) (up : Bool) (jlat : Nat) (r : RState) : ZState :=
  { ipN1 := 0, ipS1 := 0
    ipN2 := min (0 + 1) (row_ends rg up jlat).1, ipS2 := min (0 + 1) (row_ends rg up jlat).2
    row := [], nquads := r.nquads, ntriags := r.ntriags, nelems := r.nelems
    lat_begin := r.lat_begin, lat_end := r.lat_end }

/-- Clipping of `lat_end` after the loop of a row pair (source lines 706-711). -/
def clip_lat_end (rg : ReducedGrid) (up : Bool) (jlat : Nat) (lat_end : List Int) : List Int :=
  let latN := jlat
  let latS := jlat + 1
  let le1 := lat_end.set latN (min (geti lat_end latN) ((rg.nlon latN : Int) - 1))
  let le2 := le1.set latS (min (geti le1 latS) ((rg.nlon latS : Int) - 1))
  let le3 := if rg.lat latN = 90 ∧ up then le2.set latN ((rg.nlon latN : Int) - 1) else le2
  if rg.lat latS = -90 ∧ up then le3.set latS ((rg.nlon latS : Int) - 1) else le3

/-- Body of `for (jlat=lat_north; jlat<lat_south; ++jlat)` (source lines
300-715) for one row pair.  The row pairs are visited in increasing order, so
buffer row `ilat = jlat - region.north` is the next entry of `elems`. -/
def region_row (rg : ReducedGrid) (opts : Options) (parts : Nat → Int) (mypart : Int)
    (unique_pole : Bool) (fuel jlat : Nat) (r : RState) : Option RState :=
  match zipper_loop rg opts parts mypart jlat (row_ends rg unique_pole jlat).1
      (row_ends rg unique_pole jlat).2 fuel (start_state rg unique_pole jlat r) with
  | none => none
  | some s =>
    some { elems := r.elems ++ [s.row]
           nquads := s.nquads, ntriags := s.ntriags, nelems := s.nelems
           lat_begin := s.lat_begin, lat_end := clip_lat_end rg unique_pole jlat s.lat_end
           nb_lat_elems := r.nb_lat_elems.set jlat s.row.length }

/-- The row-pair loop over `jlat = lat_north, ..., lat_south-1`. -/
def region_rows (rg : ReducedGrid) (opts : Options) (parts : Nat → Int) (mypart : Int)
    (unique_pole : Bool) (fuel : Nat) : List Nat → RState → Option RState
  | [], r => some r
  | jlat :: rest, r =>
    match region_row rg opts parts mypart unique_pole fuel jlat r with
    | none => none
    | some r1 => region_rows rg opts parts mypart unique_pole fuel rest r1

/-- Whether row `jlat` holds a point of `mypart` (inner loops of the two
searches, source lines 242-263; there `n = offset[jlat] + jlon`). -/
def row_has_part (rg : ReducedGrid) (parts : Nat → Int) (mypart : Int) (jlat : Nat) : Bool :=
  (List.range (rg.nlon jlat)).any (fun jlon => parts (rg.offset jlat + jlon) == mypart)

/-- Northernmost row of `mypart`; `none` is the source value `-1`. -/
def find_lat_north (rg : ReducedGrid) (parts : Nat → Int) (mypart : Int) : Option Nat :=
  (List.range rg.nlat).find? (row_has_part rg parts mypart)

/-- Southernmost row of `mypart`; `none` is the source value `-1`. -/
def find_lat_south (rg : ReducedGrid) (parts : Nat → Int) (mypart : Int) : Option Nat :=
  (List.range rg.nlat).reverse.find? (row_has_part rg parts mypart)

/-- Node count of the region (source lines 721-730): clamps `lat_begin` and
adds the row extents plus one periodic node per row that reaches its end. -/
def region_nodes (rg : ReducedGrid) : List Nat → List Int → List Int → Int →
    List Int × Int
  | [], lat_begin, _, n => (lat_begin, n)
  | jlat :: rest, lat_begin, lat_end, n =>
    let lb := lat_begin.set jlat (max 0 (geti lat_begin jlat))
    let n1 := n + (geti lat_end jlat - geti lb jlat + 1)
    let n2 := if geti lat_end jlat = (rg.nlon jlat : Int) - 1 then n1 + 1 else n1
    region_nodes rg rest lb lat_end n2

/-- `unique_pole` of `generate_region` (source lines 232-234). -/
def unique_pole_active (rg : ReducedGrid) (opts : Options) : Bool :=
  opts.unique_pole && opts.three_dimensional && decide (rg.lat 0 = 90)
    && decide (rg.lat (rg.nlat - 1) = -90)

/-- Connect to the region above: `if (lat_north-1 >= 0 && rg.nlon(lat_north-1) > 0)
--lat_north` (source lines 278-279). -/
def connect_north (rg : ReducedGrid) (lat_north : Nat) : Nat :=
  if 1 ≤ lat_north ∧ rg.nlon (lat_north - 1) > 0 then lat_north - 1 else lat_north

/-- Connect to the region below: `if (lat_south+1 <= rg.nlat()-1 &&
rg.nlon(lat_south+1) > 0) ++lat_south` (source lines 280-281). -/
def connect_south (rg : ReducedGrid) (lat_south : Nat) : Nat :=
  if lat_south + 1 + 1 ≤ rg.nlat ∧ rg.nlon (lat_south + 1) > 0 then lat_south + 1 else lat_south

/-- Region fields before the row-pair loop (source lines 282-295). -/
def initial_rstate (rg : ReducedGrid) : RState :=
  { elems := [], nquads := 0, ntriags := 0, nelems := 0
    lat_begin := List.replicate rg.nlat (-1), lat_end := List.replicate rg.nlat (-1)
    nb_lat_elems := List.replicate rg.nlat 0 }

/-- End of `generate_region` (source lines 721-736): node count, clamped
`lat_begin`, and the error for a region without nodes. -/
def finish_region (rg : ReducedGrid) (lat_north lat_south : Nat) (r : RState) :
    Except MeshError Region :=
  let p := region_nodes rg (List.range' lat_north (lat_south + 1 - lat_north))
    r.lat_begin r.lat_end 0
  if p.2 = 0 then .error .tooManyPartitions
  else .ok
    { north := lat_north, south := lat_south, elems := r.elems
      ntriags := r.ntriags, nquads := r.nquads, nnodes := p.2
      lat_begin := p.1, lat_end := r.lat_end, nb_lat_elems := r.nb_lat_elems }

/-- `ReducedGridMeshGenerator::generate_region`.  The outer `Option` is `none`
when a zipper loop does not finish within `fuel` iterations.  A part without
any point leaves `lat_north = -1` and the source then indexes row `-1`; that
is the error `indexOutOfRange`. -/
def generate_region (fuel : Nat) (rg : ReducedGrid) (opts : Options) (parts : Nat → Int)
    (mypart : Int) : Option (Except MeshError Region) :=
  match find_lat_north rg parts mypart, find_lat_south rg parts mypart with
  | some lat_north0, some lat_south0 =>
    let lat_north := connect_north rg lat_north0
    let lat_south := connect_south rg lat_south0
    match region_rows rg opts parts mypart (unique_pole_active rg opts) fuel
        (List.range' lat_north (lat_south - lat_north)) (initial_rstate rg) with
    | none => none
    | some r => some (finish_region rg lat_north lat_south r)
  | _, _ => some (.error .indexOutOfRange)

/-! ## Mesh storage written by `generate_mesh` -/

/-- Boundary flags of a node: the bits of `Topology` that `generate_mesh` sets. -/
structure Flags where
  ghost : Bool
  bc : Bool
  north : Bool
  south : Bool
  east : Bool
  west : Bool
deriving DecidableEq, Repr

/-- `Topology::reset`. -/
def Flags.reset : Flags := ⟨false, false, false, false, false, false⟩

/-- One row of the node fields `lonlat`, `glb_idx`, `partition`, `flags`. -/
structure Node where
  lon : ℚ
  lat : ℚ
  glb_idx : Int
  part : Int
  flags : Flags
deriving DecidableEq, Repr

/-- One row of the quad fields `nodes`, `glb_idx`, `partition`. -/
structure Quad where
  n0 : Int
  n1 : Int
  n2 : Int
  n3 : Int
  glb_idx : Int
  part : Int
deriving DecidableEq, Repr

/-- One row of the triangle fields `nodes`, `glb_idx`, `partition`. -/
structure Triag where
  n0 : Int
  n1 : Int
  n2 : Int
  glb_idx : Int
  part : Int
deriving DecidableEq, Repr

/-- The function spaces of the mesh.  `nnodes`, `nquads`, `ntriags` are the
allocated row counts; `nodes`, `quads`, `triags` are the rows in the order
they are written (`jnode`, `jquad`, `jtriag` are the list lengths).  Row `k`
of a list is the write at row index `k` of the field: a list longer than the
allocated count records writes past the last row of the field, which the
source does not check (`FullStorage` states that the two agree). -/
structure Mesh where
  nnodes : Int
  nquads : Int
  ntriags : Int
  nodes : List Node
  quads : List Quad
  triags : List Triag
  nodes_max_glb_idx : Int
  elems_max_glb_idx : Int
deriving DecidableEq, Repr

/-! ## `generate_mesh` -/

/-- The vector `periodic_glb` (source lines 816-838); entries of empty rows
keep the initial value 0. -/
def periodic_glb (rg : ReducedGrid) (three_dimensional : Bool) (jlat : Nat) : Int :=
  if rg.nlon jlat > 0 then
    if !three_dimensional then
      (rg.npts : Int) + (((rg.nlons.take jlat).filter (fun k => decide (k > 0))).length : Int)
    else
      (rg.offset jlat : Int) + (rg.nlon jlat : Int) - 1
  else 0

/-- State of the node fill loop: local offset `l`, the vector `offset_loc`
filled so far and the node rows written so far. -/
structure NState where
  l : Int
  offset_loc : List Int
  nodes : List Node
deriving DecidableEq, Repr

/-- Regular node of row `jlat`, column `jlon` (source lines 868-887). -/
def regular_node (rg : ReducedGrid) (opts : Options) (parts : Nat → Int) (mypart : Int)
    (include_north_pole include_south_pole : Bool) (jlat jlon : Nat) : Node :=
  let n := rg.offset jlat + jlon
  let x := rg.lon jlat jlon
  let x := if opts.stagger ∧ (jlat + 1) % 2 = 0 then x + 180 / (rg.nlon jlat : ℚ) else x
  let part := parts n
  let f0 := Flags.reset
  let f1 := if jlat = 0 ∧ !include_north_pole then { f0 with bc := true, north := true } else f0
  let f2 := if (jlat : Int) = (rg.nlat : Int) - 1 ∧ !include_south_pole
            then { f1 with bc := true, south := true } else f1
  let f3 := if jlon = 0 ∧ !opts.three_dimensional then { f2 with bc := true, west := true } else f2
  let f4 := if part ≠ mypart then { f3 with ghost := true } else f3
  { lon := x, lat := rg.lat jlat, glb_idx := (n : Int) + 1, part := part, flags := f4 }

/-- Periodic node of row `jlat` (source lines 889-903); `prev_part` is
`part(jnode-1)`. -/
def periodic_node (rg : ReducedGrid) (opts : Options) (jlat : Nat) (prev_part : Int) : Node :=
  let x := rg.lon jlat (rg.nlon jlat)
  let x := if opts.stagger ∧ (jlat + 1) % 2 = 0 then x + 180 / (rg.nlon jlat : ℚ) else x
  { lon := x, lat := rg.lat jlat, glb_idx := periodic_glb rg opts.three_dimensional jlat + 1
    part := prev_part
    flags := { Flags.reset with bc := true, east := true, ghost := true } }

/-- Body of the node loop `for (jlat=region.north; jlat<=region.south; ++jlat)`
(source lines 859-904) for one row.  Reading `part(jnode-1)` with `jnode = 0`
is outside the array: `indexOutOfRange`. -/
def fill_row (rg : ReducedGrid) (opts : Options) (parts : Nat → Int) (mypart : Int)
    (region : Region) (include_north_pole include_south_pole : Bool) (jlat : Nat)
    (s : NState) : Except MeshError NState :=
  let lb := geti region.lat_begin jlat
  let le := geti region.lat_end jlat
  let offset_loc := s.offset_loc ++ [s.l]
  let l := s.l + (le - lb + 1)
  let row := (List.range' lb.toNat (le + 1 - lb).toNat).map
    (regular_node rg opts parts mypart include_north_pole include_south_pole jlat)
  let nodes := s.nodes ++ row
  if !opts.three_dimensional ∧ le = (rg.nlon jlat : Int) - 1 then
    match nodes.getLast? with
    | none => .error .indexOutOfRange
    | some prev =>
      .ok { l := l + 1, offset_loc := offset_loc
            nodes := nodes ++ [periodic_node rg opts jlat prev.part] }
  else
    .ok { l := l, offset_loc := offset_loc, nodes := nodes }

/-- The node loop over the rows `region.north, ..., region.south`. -/
def fill_rows (rg : ReducedGrid) (opts : Options) (parts : Nat → Int) (mypart : Int)
    (region : Region) (include_north_pole include_south_pole : Bool) :
    List Nat → NState → Except MeshError NState
  | [], s => .ok s
  | jlat :: rest, s =>
    match fill_row rg opts parts mypart region include_north_pole include_south_pole jlat s with
    | .error e => .error e
    | .ok s1 => fill_rows rg opts parts mypart region include_north_pole include_south_pole rest s1

/-- State of the connectivity loops: the quad and triangle rows written so
far (`jquad`, `jtriag` are their lengths). -/
structure EState where
  quads : List Quad
  triags : List Triag
deriving DecidableEq, Repr

/-- Append a triangle with `glb_idx = jquad+jtriag+1` and `part = mypart`. -/
def push_triag (mypart : Int) (s : EState) (n0 n1 n2 : Int) : EState :=
  { s with triags := s.triags ++
      [{ n0 := n0, n1 := n1, n2 := n2
         glb_idx := (s.quads.length : Int) + (s.triags.length : Int) + 1, part := mypart }] }

/-- Connectivity of one region element (source lines 967-1014). -/
def fill_elem (rg : ReducedGrid) (opts : Options) (mypart : Int) (region : Region)
    (offset_loc : List Int) (jlat : Nat) (s : EState) (elem : Elem) : EState :=
  let ilat := jlat - region.north
  let jlatN := jlat
  let jlatS := jlat + 1
  let oN := geti offset_loc ilat
  let oS := geti offset_loc (ilat + 1)
  let bN := geti region.lat_begin jlatN
  let bS := geti region.lat_begin jlatS
  if elem.e2 > 0 ∧ elem.e3 > 0 then
    let q0 := oN + elem.e0 - bN
    let q1 := oS + elem.e1 - bS
    let q2 := oS + elem.e2 - bS
    let q3 := oN + elem.e3 - bN
    let q2 := if opts.three_dimensional ∧ elem.e2 = (rg.nlon jlatS : Int) then oS else q2
    let q3 := if opts.three_dimensional ∧ elem.e3 = (rg.nlon jlatN : Int) then oN else q3
    { s with quads := s.quads ++
        [{ n0 := q0, n1 := q1, n2 := q2, n3 := q3
           glb_idx := (s.quads.length : Int) + (s.triags.length : Int) + 1, part := mypart }] }
  else if elem.e3 < 0 then
    let t0 := oN + elem.e0 - bN
    let t1 := oS + elem.e1 - bS
    let t2 := oS + elem.e2 - bS
    let t0 := if opts.three_dimensional ∧ elem.e0 = (rg.nlon jlatN : Int) then oN else t0
    let t2 := if opts.three_dimensional ∧ elem.e2 = (rg.nlon jlatS : Int) then oS else t2
    push_triag mypart s t0 t1 t2
  else
    let t0 := oN + elem.e0 - bN
    let t1 := oS + elem.e1 - bS
    let t2 := oN + elem.e3 - bN
    let t1 := if opts.three_dimensional ∧ elem.e1 = (rg.nlon jlatS : Int) then oS else t1
    let t2 := if opts.three_dimensional ∧ elem.e3 = (rg.nlon jlatN : Int) then oN else t2
    push_triag mypart s t0 t1 t2

/-- The connectivity loop over the row pairs of the region (source lines
957-1016). -/
def fill_elems (rg : ReducedGrid) (opts : Options) (mypart : Int) (region : Region)
    (offset_loc : List Int) (s : EState) : EState :=
  (List.range' region.north (region.south - region.north)).foldl
    (fun (s : EState) (jlat : Nat) =>
      ((region.elems.getD (jlat - region.north) []).take (region.nb_lat_elems.getD jlat 0)).foldl
        (fill_elem rg opts mypart region offset_loc jlat) s)
    s

/-- Fan around the explicit north pole node (source lines 1018-1034). -/
def north_fan (rg : ReducedGrid) (opts : Options) (mypart : Int) (offset_loc : List Int)
    (jnorth : Int) (s : EState) : EState :=
  (List.range (rg.nlon 0)).foldl
    (fun (s : EState) (ip2 : Nat) =>
      let ip3 : Nat := if opts.three_dimensional ∧ ip2 + 1 = rg.nlon 0 then 0 else ip2 + 1
      push_triag mypart s (jnorth + 0) (geti offset_loc 0 + (ip2 : Int))
        (geti offset_loc 0 + (ip3 : Int)))
    s

/-- Fan around the explicit south pole node (source lines 1097-1115). -/
def south_fan (rg : ReducedGrid) (opts : Options) (mypart : Int) (region : Region)
    (offset_loc : List Int) (jsouth : Int) (s : EState) : EState :=
  let jlat := rg.nlat - 1
  let ilat := region.south - region.north
  (List.range' 1 (rg.nlon jlat)).foldl
    (fun (s : EState) (ip2 : Nat) =>
      let ip3 : Int := (ip2 : Int) - 1
      let t1 := if opts.three_dimensional ∧ ip2 = rg.nlon jlat then geti offset_loc ilat + 0
                else geti offset_loc ilat + (ip2 : Int)
      push_triag mypart s (jsouth + 0) t1 (geti offset_loc ilat + ip3))
    s

/-- State of the pole patch loop: the corners `q1`, `q4` and the elements. -/
structure PState where
  q1 : Int
  q4 : Int
  es : EState
deriving DecidableEq, Repr

/-- Pole patch (source lines 1035-1095 and 1116-1176): a first triangle, two
triangles per loop pass and a last triangle.  `nlon_first` is `rg.nlon(0)`,
`nlon_loop` the row length in the loop bound `(rg.nlon(jlat)-4)/2`; `swap`
exchanges slots 1 and 2 (south pole).  Each triangle is written at the running
index `jtriag`, whatever number of rows `final_counts` has allocated for the
patch: the writes are appended to the list of written rows. -/
def pole_patch (mypart : Int) (o : Int) (nlon_first nlon_loop : Nat) (swap : Bool)
    (s : EState) : EState :=
  let push := fun (s : EState) (ip1 ip2 ip3 : Int) =>
    if swap then push_triag mypart s (o + ip1) (o + ip3) (o + ip2)
    else push_triag mypart s (o + ip1) (o + ip2) (o + ip3)
  let s1 := push s 0 1 ((nlon_first : Int) - 1)
  let p0 : PState := { q1 := 1, q4 := (nlon_first : Int) - 1, es := s1 }
  let p := (List.range (((nlon_loop : Int) - 4) / 2).toNat).foldl
    (fun (p : PState) _ =>
      let q2 := p.q1 + 1
      let q3 := p.q4 - 1
      let sa := push p.es p.q1 q3 p.q4
      let sb := push sa p.q1 q2 q3
      { q1 := q2, q4 := q3, es := sb })
    p0
  push p.es p.q1 (p.q1 + 1) p.q4

/-- Value of an `int` expression whose mathematical value is `x`: reduced to
the 32-bit two's complement range.  Inside the range it is `x`; outside it is
the value an overflowing `int` addition takes on the usual targets (the C++
standard leaves signed overflow undefined). -/
def wrap_int (x : Int) : Int := (x + 2147483648) % 4294967296 - 2147483648

/-- Numbering offset of a rank: `elem_displs[rank]` of the loop
`elem_displs[jpart] = elem_displs[jpart-1] + elem_counts[jpart-1]` over the
gathered counts (source lines 1221-1225); both vectors are `std::vector<int>`,
so each sum is an `int` addition. -/
def elem_displs (elem_counts : List Nat) : Nat → Int
  | 0 => 0
  | jpart + 1 => wrap_int (elem_displs elem_counts jpart + (elem_counts.getD jpart 0 : Int))

/-- `generate_global_element_numbering`: the element function spaces, quads
then triangles, receive the ids `gid++` starting at `1 + elem_displs[rank]`.
Each loop runs over the allocated rows `e < elements.shape(0)`, which are
`mesh.nquads` and `mesh.ntriags`. -/
def generate_global_element_numbering (rank : Nat) (elem_counts : List Nat) (mesh : Mesh) :
    Mesh :=
  let gid : Int := 1 + (elem_displs elem_counts rank : Int)
  let quads := mesh.quads.enum.map (fun eq =>
    if (eq.1 : Int) < mesh.nquads then { eq.2 with glb_idx := gid + (eq.1 : Int) } else eq.2)
  let gid2 : Int := gid + (mesh.nquads.toNat : Int)
  let triags := mesh.triags.enum.map (fun et =>
    if (et.1 : Int) < mesh.ntriags then { et.2 with glb_idx := gid2 + (et.1 : Int) } else et.2)
  { mesh with quads := quads, triags := triags }

/-- `has_north_pole` of `generate_mesh` (source line 753). -/
def has_north_pole (rg : ReducedGrid) : Bool := decide (rg.lat 0 = 90 ∧ rg.nlon 0 > 0)

/-- `has_south_pole` of `generate_mesh` (source line 754). -/
def has_south_pole (rg : ReducedGrid) : Bool :=
  decide (rg.lat (rg.nlat - 1) = -90 ∧ rg.nlon (rg.nlat - 1) > 0)

/-- `include_north_pole` (source line 756). -/
def include_north_pole (rg : ReducedGrid) (opts : Options) : Bool :=
  decide (opts.part = 0) && opts.include_pole && !has_north_pole rg

/-- `include_south_pole` (source line 757). -/
def include_south_pole (rg : ReducedGrid) (opts : Options) : Bool :=
  decide (opts.part = opts.nb_parts - 1) && opts.include_pole && !has_south_pole rg

/-- `patch_north_pole` (source lines 759-760). -/
def patch_north_pole (rg : ReducedGrid) (opts : Options) : Bool :=
  decide (opts.part = 0) && opts.patch_pole && opts.three_dimensional
    && !has_north_pole rg && decide (rg.nlon 1 > 0)

/-- `patch_south_pole` (source lines 761-762). -/
def patch_south_pole (rg : ReducedGrid) (opts : Options) : Bool :=
  decide (opts.part = opts.nb_parts - 1) && opts.patch_pole && opts.three_dimensional
    && !has_south_pole rg && decide (rg.nlon (rg.nlat - 2) > 0)

/-- Node row of the explicit north pole (source lines 907-919). -/
def north_pole_node (rg : ReducedGrid) (opts : Options) : Node :=
  { lon := 180, lat := 90
    glb_idx := periodic_glb rg opts.three_dimensional (rg.nlat - 1) + 2
    part := opts.part, flags := { Flags.reset with north := true } }

/-- Node row of the explicit south pole (source lines 922-934). -/
def south_pole_node (rg : ReducedGrid) (opts : Options) : Node :=
  { lon := 180, lat := -90
    glb_idx := periodic_glb rg opts.three_dimensional (rg.nlat - 1) + 3
    part := opts.part, flags := { Flags.reset with south := true } }

/-- Allocated node and triangle counts (source lines 766-791). -/
def final_counts (rg : ReducedGrid) (opts : Options) (region : Region) : Int × Int :=
  let nnodes : Int := region.nnodes
  let ntriags : Int := region.ntriags
  let (nnodes, ntriags) :=
    if include_north_pole rg opts then (nnodes + 1, ntriags + (rg.nlon 0 : Int))
    else if patch_north_pole rg opts then (nnodes, ntriags + ((rg.nlon 0 : Int) - 2))
    else (nnodes, ntriags)
  let (nnodes, ntriags) :=
    if include_south_pole rg opts then (nnodes + 1, ntriags + (rg.nlon (rg.nlat - 1) : Int))
    else if patch_south_pole rg opts then
      (nnodes, ntriags + ((rg.nlon (rg.nlat - 1) : Int) - 2))
    else (nnodes, ntriags)
  let nnodes :=
    if opts.three_dimensional then
      nnodes - (((List.range rg.nlat).filter (fun jlat => decide (rg.nlon jlat > 0))).length : Int)
    else nnodes
  (nnodes, ntriags)

/-- `ReducedGridMeshGenerator::generate_mesh` on a fresh mesh.  `rank` and
`elem_counts` are the MPI rank and the result of the all-gather used by the
element numbering. -/
def generate_mesh (rg : ReducedGrid) (opts : Options) (parts : Nat → Int) (region : Region)
    (rank : Nat) (elem_counts : List Nat) : Except MeshError Mesh :=
  let mypart := opts.part
  let nparts := opts.nb_parts
  if opts.three_dimensional ∧ nparts ≠ 1 then .error .badParameter
  else
    let nquads : Int := region.nquads
    let (nnodes, ntriags) := final_counts rg opts region
    match fill_rows rg opts parts mypart region (include_north_pole rg opts)
        (include_south_pole rg opts)
        (List.range' region.north (region.south + 1 - region.north))
        { l := 0, offset_loc := [], nodes := [] } with
    | .error e => .error e
    | .ok ns =>
      let offset_loc := ns.offset_loc
      let nodes := ns.nodes
      let jnorth : Int := if include_north_pole rg opts then (nodes.length : Int) else -1
      let nodes := if include_north_pole rg opts then nodes ++ [north_pole_node rg opts] else nodes
      let jsouth : Int := if include_south_pole rg opts then (nodes.length : Int) else -1
      let nodes := if include_south_pole rg opts then nodes ++ [south_pole_node rg opts] else nodes
      let es := fill_elems rg opts mypart region offset_loc { quads := [], triags := [] }
      let es :=
        if include_north_pole rg opts then north_fan rg opts mypart offset_loc jnorth es
        else if patch_north_pole rg opts then
          pole_patch mypart (geti offset_loc 0) (rg.nlon 0) (rg.nlon 0) false es
        else es
      let es :=
        if include_south_pole rg opts then south_fan rg opts mypart region offset_loc jsouth es
        else if patch_south_pole rg opts then
          pole_patch mypart (geti offset_loc (region.south - region.north)) (rg.nlon 0)
            (rg.nlon (rg.nlat - 1)) true es
        else es
      let max_glb_idx : Int := (rg.npts : Int) + (rg.nlat : Int)
      let max_glb_idx :=
        if opts.three_dimensional then max_glb_idx - (rg.nlat : Int) else max_glb_idx
      let max_glb_idx := if include_north_pole rg opts then max_glb_idx + 1 else max_glb_idx
      let max_glb_idx := if include_south_pole rg opts then max_glb_idx + 1 else max_glb_idx
      .ok (generate_global_element_numbering rank elem_counts
        { nnodes := nnodes, nquads := nquads, ntriags := ntriags
          nodes := nodes, quads := es.quads, triags := es.triags
          nodes_max_glb_idx := max_glb_idx, elems_max_glb_idx := nquads + ntriags })

/-- `ReducedGridMeshGenerator::generate(grid, distribution, mesh)` for a
reduced grid: the region of part `options.part`, then the mesh. -/
def generate (fuel : Nat) (rg : ReducedGrid) (opts : Options) (parts : Nat → Int)
    (rank : Nat) (elem_counts : List Nat) : Option (Except MeshError Mesh) :=
  match generate_region fuel rg opts parts opts.part with
  | none => none
  | some (.error e) => some (.error e)
  | some (.ok region) => some (generate_mesh rg opts parts region rank elem_counts)

/-! ## Auxiliary definitions used in the statements -/

/-- Global indices written by the node loop for one row. -/
def row_glbs (rg : ReducedGrid) (opts : Options) (region : Region) (jlat : Nat) : List Int :=
  let lb := geti region.lat_begin jlat
  let le := geti region.lat_end jlat
  (List.range' lb.toNat (le + 1 - lb).toNat).map (fun jlon => ((rg.offset jlat + jlon : Nat) : Int) + 1)
    ++ (if !opts.three_dimensional ∧ le = (rg.nlon jlat : Int) - 1
        then [periodic_glb rg opts.three_dimensional jlat + 1] else [])

/-- Node row that the node loop of `generate_mesh` writes for grid point
(`jlat`, `jlon`). -/
def grid_node (rg : ReducedGrid) (opts : Options) (parts : Nat → Int) (jlat jlon : Nat) : Node :=
  regular_node rg opts parts opts.part (include_north_pole rg opts) (include_south_pole rg opts)
    jlat jlon

/-- Regular node rows written for one row of the region. -/
def row_regular (rg : ReducedGrid) (opts : Options) (parts : Nat → Int) (region : Region)
    (jlat : Nat) : List Node :=
  (List.range' (geti region.lat_begin jlat).toNat
      (geti region.lat_end jlat + 1 - geti region.lat_begin jlat).toNat).map
    (grid_node rg opts parts jlat)

deriving instance DecidableEq for Except

/-- Region returned by a run of `generate_region` (an empty region when it
fails). -/
def region_of (r : Option (Except MeshError Region)) : Region :=
  match r with
  | some (.ok region) => region
  | _ => ⟨0, 0, [], 0, 0, 0, [], [], []⟩

/-- Mesh returned by a run of `generate_mesh` (an empty mesh when it fails). -/
def mesh_of (r : Except MeshError Mesh) : Mesh :=
  match r with
  | .ok mesh => mesh
  | _ => ⟨0, 0, 0, [], [], [], 0, 0⟩

/-- Partition assignment of `grid4664` into two contiguous row ranges: rows 0
and 1 (points 0..9) belong to partition 0, rows 2 and 3 to partition 1. -/
def parts_rows2 : Nat → Int := fun n => if n < 10 then 0 else 1

/-- Grid of 5 rows of 4 points (longitudes `90*c`, latitudes 80, 40, 0, -40,
-80). -/
def grid5x4 : ReducedGrid :=
  { nlons := [4, 4, 4, 4, 4], lat := fun j => 80 - 40 * (j : ℚ)
    lon := fun _ c => 90 * (c : ℚ) }

/-- Partition assignment of `grid5x4`: points 0 (row 0, column 0) and 11 (row 2,
column 3) belong to partition 1, all others to partition 0. -/
def parts_corner : Nat → Int := fun n => if n = 0 ∨ n = 11 then 1 else 0

/-- Grid of 4 rows of 4 points (longitudes `90*c`, latitudes 60, 20, -20, -60). -/
def grid4x4 : ReducedGrid :=
  { nlons := [4, 4, 4, 4], lat := fun j => 60 - 40 * (j : ℚ)
    lon := fun _ c => 90 * (c : ℚ) }

/-- Partition assignment of `grid4x4`: point 5 (row 1, column 1) and the last
row (points 12..15) belong to partition 1, all others to partition 0. -/
def parts_isolated : Nat → Int := fun n => if n = 5 ∨ n ≥ 12 then 1 else 0

/-- Retained column ranges of a region stay inside the rows: the property of
the regions returned by `generate_region` that the node loop relies on. -/
def RegionBounds (rg : ReducedGrid) (region : Region) : Prop :=
  region.south < rg.nlat ∧
  ∀ j, region.north ≤ j → j ≤ region.south →
    0 ≤ geti region.lat_begin j ∧ geti region.lat_end j ≤ (rg.nlon j : Int) - 1

/-! ### Candidate elements of a row pair

The element a loop pass stores in the buffer, the partition test it applies
and the cursors it moves to depend on the loop state only through the four
cursors.  The definitions below name these three parts of `zipper_step`. -/

/-- Element written into the buffer slot by a loop pass. -/
def step_elem (rg : ReducedGrid) (opts : Options) (jlat : Nat) (s : ZState) : Elem :=
  if (step_try rg opts jlat s).quad then ⟨s.ipN1, s.ipS1, s.ipS2, s.ipN2⟩
  else if (step_try rg opts jlat s).down then ⟨s.ipN1, s.ipS1, -1, s.ipN2⟩
  else ⟨s.ipN1, s.ipS1, s.ipS2, -1⟩

/-- Value of `add_quad` / `add_triag` in a loop pass. -/
def step_accept (rg : ReducedGrid) (opts : Options) (parts : Nat → Int) (mypart : Int)
    (jlat : Nat) (s : ZState) : Bool :=
  if (step_try rg opts jlat s).quad then
    add_quad (owner_N1 rg parts jlat s) (owner_N2 rg parts jlat s) (owner_S1 rg parts jlat s)
      (owner_S2 rg parts jlat s) mypart jlat ((jlat + 1 : Nat) : Int) rg.nlat (rg.lat jlat)
      (rg.lat (jlat + 1))
  else if (step_try rg opts jlat s).down then
    add_triag_down (owner_N1 rg parts jlat s) (owner_N2 rg parts jlat s)
      (owner_S1 rg parts jlat s) mypart jlat ((jlat + 1 : Nat) : Int) rg.nlat (rg.lat jlat)
      (rg.lat (jlat + 1))
  else
    add_triag_up (owner_N1 rg parts jlat s) (owner_S1 rg parts jlat s)
      (owner_S2 rg parts jlat s) mypart jlat ((jlat + 1 : Nat) : Int) rg.nlat (rg.lat jlat)
      (rg.lat (jlat + 1))

/-- Partition that accepts the element of a loop pass (see `step_accept_iff`). -/
def step_owner (rg : ReducedGrid) (opts : Options) (parts : Nat → Int) (jlat : Nat)
    (s : ZState) : Int :=
  if (step_try rg opts jlat s).quad then
    quad_owner (owner_N1 rg parts jlat s) (owner_N2 rg parts jlat s) (owner_S1 rg parts jlat s)
      (owner_S2 rg parts jlat s) jlat ((jlat + 1 : Nat) : Int) rg.nlat (rg.lat jlat)
      (rg.lat (jlat + 1))
  else if (step_try rg opts jlat s).down then
    triag_down_owner (owner_N1 rg parts jlat s) (owner_N2 rg parts jlat s)
      (owner_S1 rg parts jlat s) jlat ((jlat + 1 : Nat) : Int) rg.nlat (rg.lat jlat)
      (rg.lat (jlat + 1))
  else
    triag_up_owner (owner_N1 rg parts jlat s) (owner_S1 rg parts jlat s)
      (owner_S2 rg parts jlat s) jlat ((jlat + 1 : Nat) : Int) rg.nlat (rg.lat jlat)
      (rg.lat (jlat + 1))

/-- Cursors `(ipN1, ipS1)` after a loop pass. -/
def step_cursors (rg : ReducedGrid) (opts : Options) (jlat : Nat) (s : ZState) : Nat × Nat :=
  if (step_try rg opts jlat s).quad then (s.ipN2, s.ipS2)
  else if (step_try rg opts jlat s).down then (s.ipN2, s.ipS1)
  else (s.ipN1, s.ipS2)

/-- Two loop states with the same four cursors. -/
def SameCursors (s t : ZState) : Prop :=
  s.ipN1 = t.ipN1 ∧ s.ipS1 = t.ipS1 ∧ s.ipN2 = t.ipN2 ∧ s.ipS2 = t.ipS2

/-- Loop states visited by the zipper of a row pair, in order (at most `fuel`
of them); the cursors do not depend on the partition data. -/
def snapshots (rg : ReducedGrid) (opts : Options) (jlat endN endS : Nat) :
    Nat → ZState → List ZState
  | 0, _ => []
  | fuel + 1, s =>
    if s.ipN1 = endN ∧ s.ipS1 = endS then []
    else s :: snapshots rg opts jlat endN endS fuel
      (zipper_step rg opts (fun _ => 0) 0 jlat endN endS s)

/-- Candidate loop states of row pair `jlat`. -/
def candidates (fuel : Nat) (rg : ReducedGrid) (opts : Options) (jlat : Nat) : List ZState :=
  snapshots rg opts jlat (row_ends rg (unique_pole_active rg opts) jlat).1
    (row_ends rg (unique_pole_active rg opts) jlat).2 fuel
    (start_state rg (unique_pole_active rg opts) jlat (initial_rstate rg))

/-- Partition `p` owns a point of row `r`. -/
def OwnsIn (rg : ReducedGrid) (parts : Nat → Int) (p : Int) (r : Nat) : Prop :=
  ∃ i, i < rg.nlon r ∧ parts (rg.offset r + i) = p

/-- Cursor invariant of the zipper loop: the cursors stay inside the rows and
`ipN2`, `ipS2` are the clamped successors. -/
def CursorInv (endN endS : Nat) (s : ZState) : Prop :=
  s.ipN1 ≤ endN ∧ s.ipS1 ≤ endS ∧ s.ipN2 = min endN (s.ipN1 + 1) ∧ s.ipS2 = min endS (s.ipS1 + 1)

/-- Accepted candidates of row pair `jlat` for part `mypart`. -/
def accepted_row (fuel : Nat) (rg : ReducedGrid) (opts : Options) (parts : Nat → Int)
    (mypart : Int) (jlat : Nat) : List Elem :=
  ((candidates fuel rg opts jlat).filter (step_accept rg opts parts mypart jlat)).map
    (step_elem rg opts jlat)

/-- Whether the zipper of row pair `jlat` leaves its loop within `fuel` passes. -/
def row_finishes (fuel : Nat) (rg : ReducedGrid) (opts : Options) (jlat : Nat) : Bool :=
  (zipper_loop rg opts (fun _ => 0) 0 jlat (row_ends rg (unique_pole_active rg opts) jlat).1
    (row_ends rg (unique_pole_active rg opts) jlat).2 fuel
    (start_state rg (unique_pole_active rg opts) jlat (initial_rstate rg))).isSome

/-- Elements of row pair `jlat` stored in a region (none outside its row pairs). -/
def row_elems (region : Region) (jlat : Nat) : List Elem :=
  if region.north ≤ jlat ∧ jlat < region.south then region.elems.getD (jlat - region.north) []
  else []

/-- Elements of row pair `jlat` accepted by a run of `generate_region`; a run
that raises an error returns no region, hence no element. -/
def accepted_elems (r : Option (Except MeshError Region)) (jlat : Nat) : List Elem :=
  match r with
  | some (.ok region) => row_elems region jlat
  | _ => []

/-- The three node indices of a triangle row. -/
def Triag.vertices (t : Triag) : Int × Int × Int := (t.n0, t.n1, t.n2)

/-- Local column of column `c` of a polar row of `K` points: in
three-dimensional mode the periodic column `K` is column 0. -/
def fan_column (three_dimensional : Bool) (K c : Nat) : Int :=
  if three_dimensional ∧ c = K then 0 else (c : Int)

/-- Number of non-ghost node rows of a mesh. -/
def owned_count (mesh : Mesh) : Nat := (mesh.nodes.filter (fun nd => !nd.flags.ghost)).length

/-- Whether a run of `generate` returned a mesh. -/
def succeeded (r : Option (Except MeshError Mesh)) : Bool :=
  match r with
  | some (.ok _) => true
  | _ => false

/-- Mesh returned by a run of `generate` (an empty mesh when it fails). -/
def run_mesh (r : Option (Except MeshError Mesh)) : Mesh :=
  match r with
  | some (.ok mesh) => mesh
  | _ => ⟨0, 0, 0, [], [], [], 0, 0⟩

/-- Node rows of a run of `generate` (empty when it fails). -/
def result_nodes (r : Option (Except MeshError Mesh)) : List Node :=
  match r with
  | some (.ok m) => m.nodes
  | _ => []

/-- Angle test for `max_angle = 0` (the default of the `angle` option):
`abs(atan2(t,1)*to_deg) <= 0` holds exactly for `t = 0`. -/
def angle_zero : ℚ → Bool := fun t => decide (t = 0)

/-- Default options for one partition: `angle = 0`, `triangulate`, no pole
option, not three-dimensional. -/
def default_options : Options :=
  { within_angle := angle_zero, triangulate := true, three_dimensional := false
    unique_pole := true, stagger := false, include_pole := false, patch_pole := false
    nb_parts := 1, part := 0 }

/-- Default options with `include_pole` set. -/
def include_pole_options : Options := { default_options with include_pole := true }

/-- Default options for part `part` of two partitions. -/
def two_parts_options (part : Int) : Options :=
  { default_options with nb_parts := 2, part := part }

/-- Global reduced grid with row lengths `[4,6,6,4]`, latitudes 60, 20, -20,
-60 and longitudes `360*c/nlon`. -/
def grid4664 : ReducedGrid :=
  { nlons := [4, 6, 6, 4], lat := fun j => 60 - 40 * (j : ℚ)
    lon := fun j c => 360 * (c : ℚ) / (([4, 6, 6, 4] : List Nat).getD j 1 : ℚ) }

/-- Invariant of the retained ranges: `lat_begin` is unset (`-1`) or a column
of the row (possibly the periodic column), and `lat_end` is not below
`lat_begin` unless it is the last column of the row. -/
def RowInv (rg : ReducedGrid) (lb le : List Int) : Prop :=
  lb.length = le.length ∧
  ∀ j, (geti lb j = -1 ∨ (0 ≤ geti lb j ∧ geti lb j ≤ (rg.nlon j : Int))) ∧
    (geti lb j ≤ geti le j ∨ (rg.nlon j : Int) - 1 ≤ geti le j)

/-- Every entry of `lat_end` is at most the last column of its row. -/
def EndBounded (rg : ReducedGrid) (le : List Int) : Prop :=
  ∀ j, geti le j ≤ (rg.nlon j : Int) - 1






/-- Well-formed rule longitudes: the longitudes the rules compare increase
strictly along each row up to the periodic column, and the periodic columns
of adjacent rows lie at the same longitude. -/
def WellFormedLon (rg : ReducedGrid) (opts : Options) : Prop :=
  (∀ j, j < rg.nlat → ∀ c, c < rg.nlon j →
    rule_lon rg opts j c < rule_lon rg opts j (c + 1)) ∧
  (∀ j, j < rg.nlat - 1 →
    rule_lon rg opts j (rg.nlon j) = rule_lon rg opts (j + 1) (rg.nlon (j + 1)))

instance (rg : ReducedGrid) (opts : Options) : Decidable (WellFormedLon rg opts) := by
  unfold WellFormedLon
  infer_instance

/-- `loc_nb_elems` of `generate_global_element_numbering` (source lines
1208-1217): the sum of `shape(0)` over the element function spaces. -/
def loc_nb_elems (mesh : Mesh) : Nat := mesh.nquads.toNat + mesh.ntriags.toNat

/-- Global ids held by the element rows, quads then triangles. -/
def elem_ids (mesh : Mesh) : List Int :=
  mesh.quads.map (fun q => q.glb_idx) ++ mesh.triags.map (fun t => t.glb_idx)

/-- Every allocated element row has been written: the lists of rows are as
long as the allocated function spaces. -/
def FullStorage (mesh : Mesh) : Prop :=
  mesh.quads.length = mesh.nquads.toNat ∧ mesh.triags.length = mesh.ntriags.toNat

/-- Ids gathered over all ranks: rank `r` numbers its mesh with the gathered
counts `c`. -/
def gathered_ids (c : List Nat) (meshes : List Mesh) : List Int :=
  meshes.enum.flatMap (fun p => elem_ids (generate_global_element_numbering p.1 c p.2))

/-- Three ranks holding 2 quads and 1 triangle, no element, and 2 triangles. -/
def three_ranks : List Mesh :=
  [ { nnodes := 0, nquads := 2, ntriags := 1, nodes := []
      quads := [⟨0, 1, 2, 3, 0, 0⟩, ⟨1, 4, 5, 2, 0, 0⟩], triags := [⟨2, 5, 6, 0, 0⟩]
      nodes_max_glb_idx := 0, elems_max_glb_idx := 0 },
    { nnodes := 0, nquads := 0, ntriags := 0, nodes := [], quads := [], triags := []
      nodes_max_glb_idx := 0, elems_max_glb_idx := 0 },
    { nnodes := 0, nquads := 0, ntriags := 2, nodes := []
      quads := [], triags := [⟨0, 1, 2, 0, 1⟩, ⟨2, 1, 3, 0, 1⟩]
      nodes_max_glb_idx := 0, elems_max_glb_idx := 0 } ]

instance (mesh : Mesh) : Decidable (FullStorage mesh) := by
  unfold FullStorage
  infer_instance

/-- Default options without triangulation of the quadrilaterals. -/
def quad_options : Options := { default_options with triangulate := false }

/-! ## The call `generate(grid, distribution, mesh)` on a mesh passed by reference -/

/-- Argument `grid` of `generate`: either the `dynamic_cast` to `ReducedGrid`
succeeds, or the grid is of another type. -/
inductive Grid where
  | reduced (rg : ReducedGrid)
  | other

/-- Operations that the generator performs on the mesh it receives by
reference, in program order: the creation of the function space `nodes` and
its fields (source lines 840-851), all later writes (node rows, element
function spaces, connectivity, metadata, numbering; lines 853-1190) with the
rows they leave in the mesh, and `mesh.set_grid` (line 220). -/
inductive MeshOp where
  | create_nodes (nnodes : Int)
  | fill (mesh : Mesh)
  | set_grid
deriving DecidableEq, Repr

/-- Mesh operations and outcome of `generate_mesh`.  The check of
`three_dimensional` (lines 764-765) precedes every access to the mesh; the
node loop runs after the function space `nodes` has been created. -/
def generate_mesh_ops (rg : ReducedGrid) (opts : Options) (parts : Nat → Int) (region : Region)
    (rank : Nat) (elem_counts : List Nat) : List MeshOp × Except MeshError Unit :=
  if opts.three_dimensional ∧ opts.nb_parts ≠ 1 then ([], .error .badParameter)
  else
    match generate_mesh rg opts parts region rank elem_counts with
    | .error e => ([.create_nodes (final_counts rg opts region).1], .error e)
    | .ok mesh => ([.create_nodes mesh.nnodes, .fill mesh], .ok ())

/-- Mesh operations and outcome of `generate(grid, distribution, mesh)`
(source lines 208-221): the cast, `generate_region` on a local `Region`,
`generate_mesh`, `mesh.set_grid`. -/
def generate_ops (fuel : Nat) (grid : Grid) (opts : Options) (parts : Nat → Int)
    (rank : Nat) (elem_counts : List Nat) : Option (List MeshOp × Except MeshError Unit) :=
  match grid with
  | .other => some ([], .error .badCast)
  | .reduced rg =>
    match generate_region fuel rg opts parts opts.part with
    | none => none
    | some (.error e) => some ([], .error e)
    | some (.ok region) =>
      match generate_mesh_ops rg opts parts region rank elem_counts with
      | (ops, .error e) => some (ops, .error e)
      | (ops, .ok _) => some (ops ++ [.set_grid], .ok ())

/-- The call on a mesh in state `mesh`, for any type `σ` of mesh states and
any effect `apply` of the mesh operations: the state after the call and the
outcome. -/
def generate_on {σ : Type} (apply : σ → MeshOp → σ) (mesh : σ) (fuel : Nat) (grid : Grid)
    (opts : Options) (parts : Nat → Int) (rank : Nat) (elem_counts : List Nat) :
    Option (σ × Except MeshError Unit) :=
  (generate_ops fuel grid opts parts rank elem_counts).map
    (fun r => (r.1.foldl apply mesh, r.2))

/-- Mesh state that records the operations performed on it. -/
def record_ops : List MeshOp → MeshOp → List MeshOp := fun log op => log ++ [op]

/-- Three-dimensional options for part 0 of two partitions. -/
def parallel_3d_options : Options :=
  { default_options with three_dimensional := true, nb_parts := 2 }

/-- Three-dimensional options with `patch_pole`, one partition. -/
def patch_options : Options :=
  { default_options with three_dimensional := true, patch_pole := true }

/-- Global reduced grid with row lengths `[3,6,6,5]`, latitudes 60, 20, -20,
-60 and longitudes `360*c/nlon`: a polar row of 3 points in the north and of
5 points in the south. -/
def grid3665 : ReducedGrid :=
  { nlons := [3, 6, 6, 5], lat := fun j => 60 - 40 * (j : ℚ)
    lon := fun j c => 360 * (c : ℚ) / (([3, 6, 6, 5] : List Nat).getD j 1 : ℚ) }

/-- Number of triangles the pole patch writes for a polar row of `K` points:
the first and the last triangle and two per pass of the loop
`for (k=0; k<(K-4)/2; ++k)`. -/
def patch_count (K : Nat) : Nat := 2 + 2 * (((K : Int) - 4) / 2).toNat

/-- Grid with an empty middle row: row lengths `[4,0,4]`, latitudes 40, 0,
-40, longitudes `90*c`. -/
def grid404 : ReducedGrid :=
  { nlons := [4, 0, 4], lat := fun j => 40 - 40 * (j : ℚ)
    lon := fun _ c => 90 * (c : ℚ) }

/-- Whether a run of `generate_region` returned a `Region`. -/
def returned_region (r : Option (Except MeshError Region)) : Bool :=
  match r with
  | some (.ok _) => true
  | _ => false

/-! ## Triangulation path: `DelaunayMeshGenerator::generate`

`src/atlas/meshgenerator/detail/DelaunayMeshGenerator.cc`.  The grid points
(`grid.xy()` and their projection to lon/lat) and the triangles returned by
the library action `BuildConvexHull3D` are parameters.  Node indices
(`idx_t`) are natural numbers. -/

/-- One row of the node fields `xy`, `lonlat`, `ghost`, `global_index`,
`partition`. -/
structure DNode where
  xy : ℚ × ℚ
  lonlat : ℚ × ℚ
  ghost : Int
  gidx : Int
  part : Int
deriving DecidableEq, Repr

/-- One row of the cell fields `node_connectivity`, `global_index`,
`partition`. -/
structure DCell where
  n0 : Nat
  n1 : Nat
  n2 : Nat
  gidx : Int
  part : Int
deriving DecidableEq, Repr

/-- Nodes and triangles of a mesh of the triangulation path. -/
structure DMesh where
  nodes : List DNode
  cells : List DCell
deriving DecidableEq, Repr

/-- Row `j` of the node fields. -/
def DMesh.node (g : DMesh) (j : Nat) : DNode := g.nodes.getD j ⟨(0, 0), (0, 0), 0, 0, 0⟩

/-- Row `j` of the cell fields. -/
def DMesh.cell (g : DMesh) (j : Nat) : DCell := g.cells.getD j ⟨0, 0, 0, 0, 0⟩

/-- The lambda `build_global_mesh` (source lines 61-93): one node per grid
point with `part = dist.partition(jnode)`, `ghost = (part != part_)` and
`gidx = jnode + 1`; the cells are the triangles `hull` of the convex hull with
`gidx = jelem + 1` (their partition field is not written). -/
def build_global_mesh (part_ : Int) (points : List ((ℚ × ℚ) × (ℚ × ℚ))) (dist : Nat → Int)
    (hull : List (Nat × Nat × Nat)) : DMesh :=
  { nodes := points.enum.map (fun p =>
      { xy := p.2.1, lonlat := p.2.2, ghost := if dist p.1 ≠ part_ then 1 else 0
        gidx := (p.1 : Int) + 1, part := dist p.1 })
    cells := hull.enum.map (fun t =>
      { n0 := t.2.1, n1 := t.2.2.1, n2 := t.2.2.2, gidx := (t.1 : Int) + 1, part := 0 }) }

/-- Owner `elem_partition` of a triangle with vertex owners `p0`, `p1`, `p2`
(source lines 136-142). -/
def elem_partition (p0 p1 p2 : Int) : Int :=
  let e : Int := -1
  let e := if p0 ≥ 0 then p0 else e
  if p1 = p2 ∧ p1 ≥ 0 then p1 else e

/-- Insertion into a `std::set<idx_t>`, kept in increasing order. -/
def set_insert (x : Nat) : List Nat → List Nat
  | [] => [x]
  | y :: ys => if x < y then x :: y :: ys else if x = y then y :: ys else y :: set_insert x ys

/-- State of the element loop: `ghost_nodes` and `owned_elements`. -/
structure ScanState where
  ghost_nodes : List Nat
  owned_elements : List Nat
deriving DecidableEq, Repr

/-- Owner of global triangle `jelem`. -/
def cell_owner (g : DMesh) (jelem : Nat) : Int :=
  elem_partition (g.node (g.cell jelem).n0).part (g.node (g.cell jelem).n1).part
    (g.node (g.cell jelem).n2).part

/-- Body of the element loop (source lines 126-150). -/
def scan_elem (part_ : Int) (g : DMesh) (s : ScanState) (jelem : Nat) : ScanState :=
  let elem_nodes := [(g.cell jelem).n0, (g.cell jelem).n1, (g.cell jelem).n2]
  let elem_partition := cell_owner g jelem
  if elem_partition = part_ then
    { owned_elements := s.owned_elements ++ [jelem]
      ghost_nodes := elem_nodes.foldl
        (fun gs n => if (g.node n).part ≠ elem_partition then set_insert n gs else gs)
        s.ghost_nodes }
  else s

/-- The element loop over all global triangles. -/
def scan_elems (part_ : Int) (g : DMesh) : ScanState :=
  (List.range g.cells.length).foldl (scan_elem part_ g) { ghost_nodes := [], owned_elements := [] }

/-- The vector `owned_nodes` (source lines 114-120). -/
def owned_nodes (g : DMesh) : List Nat :=
  (List.range g.nodes.length).filter (fun jnode => decide ((g.node jnode).ghost = 0))

/-- The map `from_gnode` after the two node loops: `from_gnode[gnode] = jnode`
for the local nodes in order, a later assignment replacing an earlier one. -/
def from_gnode (local_nodes : List Nat) : List (Nat × Nat) :=
  local_nodes.enum.foldl (fun m p => (p.2, p.1) :: m) []

/-- Read `from_gnode[gnode]`; `operator[]` yields 0 for an absent key. -/
def map_get (m : List (Nat × Nat)) (gnode : Nat) : Nat := (m.lookup gnode).getD 0

/-- The lambda `extract_mesh_partition` (source lines 103-208); the field
`halo` is given by `extract_halo`. -/
def extract_mesh_partition (part_ : Int) (dist : Nat → Int) (g : DMesh) : DMesh :=
  let owned := owned_nodes g
  let s := scan_elems part_ g
  let m := from_gnode (owned ++ s.ghost_nodes)
  { nodes :=
      owned.map (fun gnode =>
        { xy := (g.node gnode).xy, lonlat := (g.node gnode).lonlat, ghost := 0
          gidx := (g.node gnode).gidx, part := part_ })
      ++ s.ghost_nodes.map (fun gnode =>
        { xy := (g.node gnode).xy, lonlat := (g.node gnode).lonlat, ghost := 1
          gidx := (g.node gnode).gidx, part := dist gnode })
    cells := s.owned_elements.map (fun gelem =>
      { n0 := map_get m (g.cell gelem).n0, n1 := map_get m (g.cell gelem).n1
        n2 := map_get m (g.cell gelem).n2, gidx := (gelem : Int) + 1, part := part_ }) }

/-- `DelaunayMeshGenerator::generate(grid, dist, mesh)` (source lines 59-212)
for `part_` and `dist.nb_partitions() = nb_partitions`. -/
def delaunay_generate (part_ : Int) (nb_partitions : Nat)
    (points : List ((ℚ × ℚ) × (ℚ × ℚ))) (dist : Nat → Int) (hull : List (Nat × Nat × Nat)) :
    DMesh :=
  if nb_partitions = 1 then build_global_mesh part_ points dist hull
  else extract_mesh_partition part_ dist (build_global_mesh part_ points dist hull)

/-- The four corners of the unit square. -/
def square_points : List ((ℚ × ℚ) × (ℚ × ℚ)) :=
  [((0, 0), (0, 0)), ((1, 0), (1, 0)), ((1, 1), (1, 1)), ((0, 1), (0, 1))]

/-- The two triangles of the square, split along the diagonal from corner 0
to corner 2. -/
def square_hull : List (Nat × Nat × Nat) := [(0, 1, 2), (0, 2, 3)]

/-- Corners 0 and 1 in partition 0, corners 2 and 3 in partition 1. -/
def square_dist : Nat → Int := fun n => if n < 2 then 0 else 1

/-- Owner of a triangle of the convex hull under the distribution `dist`. -/
def hull_owner (dist : Nat → Int) (t : Nat × Nat × Nat) : Int :=
  elem_partition (dist t.1) (dist t.2.1) (dist t.2.2)

/-- Every vertex of every triangle is a node index. -/
def HullValid (npoints : Nat) (hull : List (Nat × Nat × Nat)) : Prop :=
  ∀ t ∈ hull, t.1 < npoints ∧ t.2.1 < npoints ∧ t.2.2 < npoints

instance (npoints : Nat) (hull : List (Nat × Nat × Nat)) : Decidable (HullValid npoints hull) := by
  unfold HullValid
  infer_instance

/-- Vertices of the triangles owned by `part_` that `part_` does not own, in
triangle order, with repetitions. -/
def foreign_vertices (part_ : Int) (dist : Nat → Int) (hull : List (Nat × Nat × Nat)) :
    List Nat :=
  (hull.filter (fun t => decide (hull_owner dist t = part_))).flatMap
    (fun t => [t.1, t.2.1, t.2.2].filter (fun v => decide (dist v ≠ part_)))



/-! ## Node container: `mesh::Nodes`

`src/atlas/mesh/Nodes.cc`.  A `Field` is a handle to an array object; the
container keeps the array objects it has seen in `store` and a handle is an
index into `store`, so that the members `global_index_`, `partition_`, ... and
the entries of the map `fields_` can refer to the same array.  Row counts are
natural numbers and every array has at least one dimension.  The data type of
a field and the iteration order of the maps are not modelled. -/

/-- Array object behind a `Field` handle: its name, its shape `rows :: extents`
and, for a one-dimensional integer field, the value `data i` of row `i`. -/
structure FieldImpl where
  name : String
  rows : Nat
  extents : List Nat
  data : Nat → Int

/-- Connectivity table (`IrregularConnectivity`): its name and its rows. -/
structure Connectivity where
  name : String
  rows : List (List Int)
deriving DecidableEq, Repr

/-- Failures of the container operations: a thrown `eckit::Exception`, a failed
`ASSERT`, and a write outside an array, which the source does not check. -/
inductive NodesError where
  | exception
  | assertion
  | outOfRange
deriving DecidableEq, Repr

/-- Lookup `m.find(name)` in a `std::map` keyed by strings. -/
def smap_find {α : Type} : List (String × α) → String → Option α
  | [], _ => none
  | (k, v) :: rest, name => if k = name then some v else smap_find rest name

/-- Assignment `m[name] = v`: replaces the entry of an existing key. -/
def smap_set {α : Type} : List (String × α) → String → α → List (String × α)
  | [], name, v => [(name, v)]
  | (k, w) :: rest, name, v =>
    if k = name then (k, v) :: rest else (k, w) :: smap_set rest name v

/-- Removal `m.erase(name)`. -/
def smap_erase {α : Type} (m : List (String × α)) (name : String) : List (String × α) :=
  m.filter (fun p => decide (p.1 ≠ name))

/-- The class `Nodes`: `size_`, the maps `fields_` and `connectivities_`, and the
handles of the built-in fields and connectivities. -/
structure Nodes where
  size_ : Nat
  store : List FieldImpl
  fields_ : List (String × Nat)
  connectivities_ : List (String × Connectivity)
  global_index_ : Nat
  remote_index_ : Nat
  partition_ : Nat
  xy_ : Nat
  lonlat_ : Nat
  ghost_ : Nat
  flags_ : Nat
  halo_ : Nat
  edge_connectivity_ : Option Connectivity
  cell_connectivity_ : Option Connectivity

/-- Array object of handle `h` in a store (an empty array for a handle that
refers to no object). -/
def store_array (store : List FieldImpl) (h : Nat) : FieldImpl :=
  (store[h]?).getD ⟨"", 0, [], fun _ => 0⟩

/-- Array object of handle `h`. -/
def Nodes.array (self : Nodes) (h : Nat) : FieldImpl := store_array self.store h

/-- Constructor `Field(name, datatype, make_shape(rows, extents...))`: a new
array whose entries are not initialised. -/
def new_field (name : String) (rows : Nat) (extents : List Nat) : FieldImpl :=
  ⟨name, rows, extents, fun _ => 0⟩

/-- `Nodes::add(const Field&)` (source lines 51-62); `has_field` is the test
declared in `Nodes.h`.  Returns the container after the call and the handle
stored, or the failure.  A handle always refers to an array, so `ASSERT( field )`
holds. -/
def Nodes.add (has_field : List (String × Nat) → String → Bool) (self : Nodes)
    (field : FieldImpl) : Nodes × Except NodesError Nat :=
  if field.name = "" then (self, .error .assertion)
  else if has_field self.fields_ field.name then (self, .error .exception)
  else
    ({ self with
       store := self.store ++ [field]
       fields_ := smap_set self.fields_ field.name self.store.length },
     .ok self.store.length)

/-- `Nodes::add(Connectivity*)` (source lines 46-49). -/
def Nodes.add_connectivity (self : Nodes) (connectivity : Connectivity) :
    Nodes × Except NodesError Connectivity :=
  ({ self with
     connectivities_ := smap_set self.connectivities_ connectivity.name connectivity },
   .ok connectivity)

/-- `Nodes::remove_field` (source lines 64-71). -/
def Nodes.remove_field (has_field : List (String × Nat) → String → Bool) (self : Nodes)
    (name : String) : Nodes × Except NodesError Unit :=
  if !has_field self.fields_ name then (self, .error .exception)
  else ({ self with fields_ := smap_erase self.fields_ name }, .ok ())

/-- `Nodes::field(const std::string&)` (source lines 73-80): the handle found.
Dereferencing `fields_.end()` is the failure `outOfRange`. -/
def Nodes.field (has_field : List (String × Nat) → String → Bool) (self : Nodes)
    (name : String) : Except NodesError Nat :=
  if !has_field self.fields_ name then .error .exception
  else
    match smap_find self.fields_ name with
    | some h => .ok h
    | none => .error .outOfRange

/-- `Nodes::connectivity(const std::string&)` (source lines 154-173). -/
def Nodes.connectivity (self : Nodes) (name : String) : Except NodesError Connectivity :=
  match smap_find self.connectivities_ name with
  | none => .error .exception
  | some c => .ok c

/-- `field.resize(shape)` with `shape[0] = size_` for the array of handle `h`. -/
def resize_array (store : List FieldImpl) (h size : Nat) : List FieldImpl :=
  match store[h]? with
  | some f => store.set h { f with rows := size }
  | none => store

/-- Write `view(n) = v` into the array of handle `h`; `none` when row `n` is
outside the array. -/
def write_row (store : List FieldImpl) (h n : Nat) (v : Int) : Option (List FieldImpl) :=
  match store[h]? with
  | some f =>
    if n < f.rows then some (store.set h { f with data := fun i => if i = n then v else f.data i })
    else none
  | none => none

/-- Body of the loop over the new rows (source lines 104-107). -/
def default_row (mpi_rank : Int) (self : Nodes) (store : List FieldImpl) (n : Nat) :
    Option (List FieldImpl) :=
  match write_row store self.global_index_ n (1 + (n : Int)) with
  | none => none
  | some s1 =>
    match write_row s1 self.partition_ n mpi_rank with
    | none => none
    | some s2 =>
      match write_row s2 self.flags_ n 0 with
      | none => none
      | some s3 => write_row s3 self.halo_ n 2147483647

/-- The loop `for (n = previous_size; n < size_; ++n)` (source lines 103-108). -/
def default_rows (mpi_rank : Int) (self : Nodes) :
    List Nat → List FieldImpl → Option (List FieldImpl)
  | [], store => some store
  | n :: rest, store =>
    match default_row mpi_rank self store n with
    | none => none
    | some s1 => default_rows mpi_rank self rest s1

/-- `Nodes::resize` (source lines 86-110); `mpi_rank` is `mpi::comm().rank()`. -/
def Nodes.resize (mpi_rank : Int) (self : Nodes) (size : Nat) : Nodes × Except NodesError Unit :=
  if size ≠ self.size_ then
    let previous_size := self.size_
    let store1 := self.fields_.foldl (fun st p => resize_array st p.2 size) self.store
    let s1 := { self with size_ := size, store := store1 }
    match default_rows mpi_rank self (List.range' previous_size (size - previous_size)) store1 with
    | some store2 => ({ s1 with store := store2 }, .ok ())
    | none => (s1, .error .outOfRange)
  else (self, .ok ())

/-- Container before the body of the constructor runs: `size_( 0 )`, empty
maps, no handle set. -/
def Nodes.empty : Nodes :=
  { size_ := 0, store := [], fields_ := [], connectivities_ := []
    global_index_ := 0, remote_index_ := 0, partition_ := 0, xy_ := 0, lonlat_ := 0
    ghost_ := 0, flags_ := 0, halo_ := 0, edge_connectivity_ := none
    cell_connectivity_ := none }

/-- Constructor `Nodes::Nodes()` (source lines 30-44): eight calls of `add` for
the built-in fields and two for the connectivities; an exception of `add`
leaves the constructor.  The calls of `set_variables` on `xy_` and `lonlat_`
set metadata only and are left out. -/
def Nodes.create (has_field : List (String × Nat) → String → Bool) : Except NodesError Nodes :=
  let s := Nodes.empty
  match s.add has_field (new_field "glb_idx" s.size_ []) with
  | (_, .error e) => .error e
  | (s, .ok h) =>
  let s := { s with global_index_ := h }
  match s.add has_field (new_field "remote_idx" s.size_ []) with
  | (_, .error e) => .error e
  | (s, .ok h) =>
  let s := { s with remote_index_ := h }
  match s.add has_field (new_field "partition" s.size_ []) with
  | (_, .error e) => .error e
  | (s, .ok h) =>
  let s := { s with partition_ := h }
  match s.add has_field (new_field "xy" s.size_ [2]) with
  | (_, .error e) => .error e
  | (s, .ok h) =>
  let s := { s with xy_ := h }
  match s.add has_field (new_field "lonlat" s.size_ [2]) with
  | (_, .error e) => .error e
  | (s, .ok h) =>
  let s := { s with lonlat_ := h }
  match s.add has_field (new_field "ghost" s.size_ []) with
  | (_, .error e) => .error e
  | (s, .ok h) =>
  let s := { s with ghost_ := h }
  match s.add has_field (new_field "flags" s.size_ []) with
  | (_, .error e) => .error e
  | (s, .ok h) =>
  let s := { s with flags_ := h }
  match s.add has_field (new_field "halo" s.size_ []) with
  | (_, .error e) => .error e
  | (s, .ok h) =>
  let s := { s with halo_ := h }
  match s.add_connectivity ⟨"edge", []⟩ with
  | (_, .error e) => .error e
  | (s, .ok c) =>
  let s := { s with edge_connectivity_ := some c }
  match s.add_connectivity ⟨"cell", []⟩ with
  | (_, .error e) => .error e
  | (s, .ok c) => .ok { s with cell_connectivity_ := some c }

/-- Membership test of a map by name: `m.find(name) != m.end()`. -/
def has_key : List (String × Nat) → String → Bool := fun m name => (smap_find m name).isSome

/-- The container made by the constructor when `has_field` is the membership
test of `fields_`. -/
def fresh_nodes : Nodes :=
  match Nodes.create has_key with
  | .ok s => s
  | .error _ => Nodes.empty

/-- The four built-in integer fields that `resize` writes are distinct arrays
of the store and are entries of `fields_`. -/
def Nodes.Registered (s : Nodes) : Prop :=
  [s.global_index_, s.partition_, s.flags_, s.halo_].Nodup ∧
  ∀ h ∈ [s.global_index_, s.partition_, s.flags_, s.halo_],
    h < s.store.length ∧ h ∈ s.fields_.map Prod.snd

instance (s : Nodes) : Decidable (Nodes.Registered s) := by
  unfold Nodes.Registered
  infer_instance

/-- Value that the loop of `resize` writes into row `i` of the array of handle
`k`; `old` for an array that the loop does not write. -/
def default_value (mpi_rank : Int) (self : Nodes) (k i : Nat) (old : Int) : Int :=
  if k = self.global_index_ then 1 + (i : Int)
  else if k = self.partition_ then mpi_rank
  else if k = self.flags_ then 0
  else if k = self.halo_ then 2147483647
  else old

/-- One call on a `Nodes` container: `add(field)`, `remove_field(name)` or
`resize(size)`. -/
inductive NodesOp where
  | add (field : FieldImpl)
  | remove_field (name : String)
  | resize (size : Nat)

/-- Container after one call, and whether the call failed. -/
def Nodes.apply (has_field : List (String × Nat) → String → Bool) (mpi_rank : Int) (s : Nodes) :
    NodesOp → Nodes × Except NodesError Unit
  | .add field =>
    match s.add has_field field with
    | (s1, .ok _) => (s1, .ok ())
    | (s1, .error e) => (s1, .error e)
  | .remove_field name => s.remove_field has_field name
  | .resize size => s.resize mpi_rank size

/-- A sequence of calls on a container.  A call that throws leaves the
container as it is at the throw and the sequence goes on; a write outside an
array ends the run (`none`). -/
def Nodes.run (has_field : List (String × Nat) → String → Bool) (mpi_rank : Int) :
    Nodes → List NodesOp → Option Nodes
  | s, [] => some s
  | s, op :: ops =>
    match s.apply has_field mpi_rank op with
    | (_, .error .outOfRange) => none
    | (s1, _) => Nodes.run has_field mpi_rank s1 ops

/-- Every field passed to `add` in the sequence has as many rows as the
container has at that call. -/
def AddsMatch (has_field : List (String × Nat) → String → Bool) (mpi_rank : Int) :
    Nodes → List NodesOp → Prop
  | _, [] => True
  | s, op :: ops =>
    (match op with
     | .add field => field.rows = s.size_
     | _ => True) ∧
    AddsMatch has_field mpi_rank (s.apply has_field mpi_rank op).1 ops

/-- Every array registered in `fields_` is in the store and has `size_` rows. -/
def RowsAgree (s : Nodes) : Prop :=
  ∀ p ∈ s.fields_, p.2 < s.store.length ∧ (s.array p.2).rows = s.size_

instance (s : Nodes) : Decidable (RowsAgree s) := by
  unfold RowsAgree
  infer_instance

/-- A field of five rows named `temperature`. -/
def field5 : FieldImpl := new_field "temperature" 5 []
/-- The field `halo` of the local mesh written by `extract_mesh_partition`:
`mesh.nodes().resize(nb_nodes)` (source line 153) gives it `nb_nodes` rows and
`halo.assign(0.)` (source line 161) sets every row; the two node loops (source
lines 163-189) do not write it. -/
def extract_halo (part_ : Int) (g : DMesh) : List Int :=
  let nb_nodes := (owned_nodes g).length + (scan_elems part_ g).ghost_nodes.length
  (List.replicate nb_nodes (2147483647 : Int)).map (fun _ => 0)
/-! ## Auxiliary definitions for the classification rules -/

/-- Tangents of the two skew angles `alpha1`, `alpha2` of the rules block
(source lines 402-406). -/
def skew_tangents (xN1 xN2 xS1 xS2 : ℚ) : ℚ × ℚ :=
  let dx := min |xN2 - xN1| |xS2 - xS1|
  (if dx = 0 then 0 else (xN1 - xS1) / dx, if dx = 0 then 0 else (xN2 - xS2) / dx)

/-- Default options with the resource `stagger` set. -/
def stagger_options : Options := { default_options with stagger := true }

/-- Two rows of 4 points each at latitudes 45 and -45, longitudes `90*c`. -/
def grid44 : ReducedGrid :=
  { nlons := [4, 4], lat := fun j => 45 - 90 * (j : ℚ)
    lon := fun _ c => 90 * (c : ℚ) }

/-- Angle test for a negative `max_angle`: `abs(alpha) <= max_angle` never
holds. -/
def negative_angle : ℚ → Bool := fun _ => false

/-- Default options with a negative `angle`. -/
def negative_angle_options : Options := { default_options with within_angle := negative_angle }

/-- Two rows of 4 points each; the north row has longitudes `90*c` (periodic
point at 360), the south row `10*c` (periodic point at 40). -/
def grid_ragged : ReducedGrid :=
  { nlons := [4, 4], lat := fun j => 45 - 90 * (j : ℚ)
    lon := fun j c => if j = 0 then 90 * (c : ℚ) else 10 * (c : ℚ) }

/-- Start state of the zipper of row pair `jlat`. -/
def zipper_start (rg : ReducedGrid) (opts : Options) (jlat : Nat) : ZState :=
  start_state rg (unique_pole_active rg opts) jlat (initial_rstate rg)

/-! ## Auxiliary definitions for the ownership rules -/

/-- The most frequent owners of the vertices `l` are tied: two different
partitions own the same number of vertices and no partition owns more. -/
def Tied (l : List Int) : Prop :=
  ∃ p q, p ≠ q ∧ l.count p = l.count q ∧ ∀ r, l.count r ≤ l.count p

/-- Partition `p` owns strictly more of the vertices `l` than every other
partition. -/
def StrictMajority (l : List Int) (p : Int) : Prop :=
  ∀ q, q ≠ p → l.count q < l.count p

/-- Candidates visited by the zipper loop of a row pair when it runs with the
partition data `parts`, `mypart`: for each pass the flags set by the rules, the
element written into the buffer slot, and whether the pass accepts it. -/
def visited (rg : ReducedGrid) (opts : Options) (parts : Nat → Int) (mypart : Int)
    (jlat endN endS : Nat) : Nat → ZState → List (Try × Elem × Bool)
  | 0, _ => []
  | fuel + 1, s =>
    if s.ipN1 = endN ∧ s.ipS1 = endS then []
    else (step_try rg opts jlat s, step_elem rg opts jlat s,
        step_accept rg opts parts mypart jlat s)
      :: visited rg opts parts mypart jlat endN endS fuel
        (zipper_step rg opts parts mypart jlat endN endS s)

/-- Reduced grid with row lengths `[6,8,8,4]`, latitudes 60, 20, -20, -60 and
longitudes `360*c/nlon`. -/
def grid6884 : ReducedGrid :=
  { nlons := [6, 8, 8, 4], lat := fun j => 60 - 40 * (j : ℚ)
    lon := fun j c => 360 * (c : ℚ) / (([6, 8, 8, 4] : List Nat).getD j 1 : ℚ) }

/-! ## Auxiliary definitions for the connectivity -/

/-- Local node index that the connectivity loop computes for column `c` of row
`r`, the row with index `ilat` in the region (e.g. source lines 971-980):
`offset_loc[ilat] + c - region.lat_begin[r]`, or `offset_loc[ilat]` for the
periodic column in three-dimensional mode when `wrap` is set. -/
def node_slot (rg : ReducedGrid) (opts : Options) (region : Region) (offset_loc : List Int)
    (wrap : Bool) (ilat r : Nat) (c : Int) : Int :=
  if wrap ∧ opts.three_dimensional ∧ c = (rg.nlon r : Int) then geti offset_loc ilat
  else geti offset_loc ilat + c - geti region.lat_begin r

/-! ## Faces of the elements: `accumulate_faces`

`src/atlas/util/AccumulateFaces.cc`.  The function space is taken as its name,
its index and its field `nodes` (one list of node indices per element); node
and face indices are natural numbers. -/

/-- Element reference `(f, e)`: index of the function space and of the element. -/
structure ElementRef where
  f : Int
  e : Int
deriving DecidableEq, Repr

/-- The type `Face`: the two elements `[0]` and `[1]` of a face. -/
structure Face where
  first : ElementRef
  second : ElementRef
deriving DecidableEq, Repr

/-- The part of a `FunctionSpace` that `accumulate_faces` reads. -/
structure ElemSpace where
  name : String
  index : Int
  nodes : List (List Nat)
deriving DecidableEq, Repr

/-- The in/out arguments of `accumulate_faces`. -/
structure FaceAcc where
  node_to_face : List (List Nat)
  face_nodes_data : List Nat
  connectivity_edge_to_elem : List Face
  nb_faces : Nat
  nb_inner_faces : Nat
deriving DecidableEq, Repr

/-- The table `face_node_numbering` (source lines 33-60); `none` is the
`BadParameter` exception. -/
def face_node_numbering (name : String) : Option (List (Nat × Nat)) :=
  if name = "quads" then some [(0, 1), (1, 2), (2, 3), (3, 0)]
  else if name = "triags" then some [(0, 1), (1, 2), (2, 0)]
  else none

/-- Whether `face` is in the list of every node of `face_nodes`:
`nb_matched_nodes == nb_nodes_in_face` (source lines 77-90). -/
def face_matches (node_to_face : List (List Nat)) (face_nodes : List Nat) (face : Nat) : Bool :=
  (face_nodes.filter (fun other_node => (node_to_face.getD other_node []).contains face)).length
    == face_nodes.length

/-- The search loop over `node_to_face[face_nodes[0]]` (source lines 72-100):
the first face that matches. -/
def find_face (node_to_face : List (List Nat)) (face_nodes : List Nat) : Option Nat :=
  (node_to_face.getD (face_nodes.getD 0 0) []).find? (face_matches node_to_face face_nodes)

/-- `v[i].push_back(x)` on a vector of vectors. -/
def push_at (v : List (List Nat)) (i x : Nat) : List (List Nat) :=
  match v[i]? with
  | some l => v.set i (l ++ [x])
  | none => v

/-- `v[i][1] = r` on the face vector. -/
def set_second (v : List Face) (i : Nat) (r : ElementRef) : List Face :=
  match v[i]? with
  | some face => v.set i { face with second := r }
  | none => v

/-- `v[i][0] = r` on the face vector. -/
def set_first (v : List Face) (i : Nat) (r : ElementRef) : List Face :=
  match v[i]? with
  | some face => v.set i { face with first := r }
  | none => v

/-- Body of the loop over the faces of an element (source lines 66-117) for the
side with nodes `face_nodes` of element `e`; `face0` is the value of `Face()`. -/
def add_side (index : Int) (face0 : Face) (e : Nat) (face_nodes : List Nat) (s : FaceAcc) :
    FaceAcc :=
  match find_face s.node_to_face face_nodes with
  | some face =>
    { s with
      connectivity_edge_to_elem := set_second s.connectivity_edge_to_elem face ⟨index, e⟩
      nb_inner_faces := s.nb_inner_faces + 1 }
  | none =>
    let conn := s.connectivity_edge_to_elem ++ [face0]
    let conn := set_first conn s.nb_faces ⟨index, e⟩
    let conn := set_second conn s.nb_faces ⟨-1, -1⟩
    let s1 := face_nodes.foldl
      (fun (s : FaceAcc) n =>
        { s with
          node_to_face := push_at s.node_to_face n s.nb_faces
          face_nodes_data := s.face_nodes_data ++ [n] })
      { s with connectivity_edge_to_elem := conn }
    { s1 with nb_faces := s1.nb_faces + 1 }

/-- Nodes of side `f` of element `e`: `elem_nodes(e, face_node_numbering[f][jnode])`. -/
def side_nodes (fs : ElemSpace) (e : Nat) (f : Nat × Nat) : List Nat :=
  [(fs.nodes.getD e []).getD f.1 0, (fs.nodes.getD e []).getD f.2 0]

/-- `accumulate_faces`; `none` is the `BadParameter` exception for a function
space that is neither `quads` nor `triags`. -/
def accumulate_faces (fs : ElemSpace) (face0 : Face) (s : FaceAcc) : Option FaceAcc :=
  match face_node_numbering fs.name with
  | none => none
  | some numbering =>
    some ((List.range fs.nodes.length).foldl
      (fun (s : FaceAcc) e =>
        numbering.foldl (fun (s : FaceAcc) f => add_side fs.index face0 e (side_nodes fs e f) s) s)
      s)

/-- Empty outputs for a mesh of `nb_nodes` nodes. -/
def FaceAcc.empty (nb_nodes : Nat) : FaceAcc :=
  { node_to_face := List.replicate nb_nodes [], face_nodes_data := []
    connectivity_edge_to_elem := [], nb_faces := 0, nb_inner_faces := 0 }

/-- Nodes of the recorded face `k`. -/
def face_pair (s : FaceAcc) (k : Nat) : Nat × Nat :=
  (s.face_nodes_data.getD (2 * k) 0, s.face_nodes_data.getD (2 * k + 1) 0)

/-- Two node pairs that are the same unordered pair. -/
def same_side (p q : Nat × Nat) : Prop :=
  (p.1 = q.1 ∧ p.2 = q.2) ∨ (p.1 = q.2 ∧ p.2 = q.1)

instance (p q : Nat × Nat) : Decidable (same_side p q) := by
  unfold same_side
  infer_instance

/-- Invariant of the outputs: one entry of `connectivity_edge_to_elem` and two
of `face_nodes_data` per face, the list of a node holds exactly the faces with
that node, the two nodes of a face are different node indices, and no two
faces have the same unordered node pair. -/
def FacesInv (s : FaceAcc) : Prop :=
  s.connectivity_edge_to_elem.length = s.nb_faces ∧
  s.face_nodes_data.length = 2 * s.nb_faces ∧
  (∀ n k, k ∈ s.node_to_face.getD n [] ↔
    k < s.nb_faces ∧ ((face_pair s k).1 = n ∨ (face_pair s k).2 = n)) ∧
  (∀ k, k < s.nb_faces → (face_pair s k).1 ≠ (face_pair s k).2 ∧
    (face_pair s k).1 < s.node_to_face.length ∧ (face_pair s k).2 < s.node_to_face.length) ∧
  (∀ k l, k < s.nb_faces → l < s.nb_faces → same_side (face_pair s k) (face_pair s l) → k = l)

/-- The sides of the elements join two different node indices below
`nb_nodes`. -/
def ValidSides (fs : ElemSpace) (nb_nodes : Nat) : Prop :=
  ∀ e, e < fs.nodes.length → ∀ f ∈ (face_node_numbering fs.name).getD [],
    (fs.nodes.getD e []).getD f.1 0 ≠ (fs.nodes.getD e []).getD f.2 0 ∧
    (fs.nodes.getD e []).getD f.1 0 < nb_nodes ∧ (fs.nodes.getD e []).getD f.2 0 < nb_nodes

instance (fs : ElemSpace) (nb_nodes : Nat) : Decidable (ValidSides fs nb_nodes) := by
  unfold ValidSides
  infer_instance

/-- Two triangles that share the side between nodes 1 and 2. -/
def two_triags : ElemSpace := { name := "triags", index := 1, nodes := [[0, 1, 2], [2, 1, 3]] }

/-- Value of `Face()` with both references unset. -/
def face_unset : Face := ⟨⟨-1, -1⟩, ⟨-1, -1⟩⟩

/-! ## Auxiliary definitions for the connectivity entries -/

/-- Grid points (row, column) that the connectivity entries of a stored
element stand for, in the order of the entries; the shape is decoded as in the
connectivity loop of `generate_mesh` (source lines 967, 984). -/
def elem_vertices (jlat : Nat) (elem : Elem) : List (Nat × Int) :=
  if elem.e2 > 0 ∧ elem.e3 > 0 then
    [(jlat, elem.e0), (jlat + 1, elem.e1), (jlat + 1, elem.e2), (jlat, elem.e3)]
  else if elem.e3 < 0 then [(jlat, elem.e0), (jlat + 1, elem.e1), (jlat + 1, elem.e2)]
  else [(jlat, elem.e0), (jlat + 1, elem.e1), (jlat, elem.e3)]

/-- The node indices of a quad row. -/
def Quad.entries (q : Quad) : List Int := [q.n0, q.n1, q.n2, q.n3]

/-- The node indices of a triangle row. -/
def Triag.entries (t : Triag) : List Int := [t.n0, t.n1, t.n2]

/-- Connectivity entries of the rows written between the states `s` and `s1`
of the connectivity loop. -/
def new_entries (s s1 : EState) : List Int :=
  ((s1.quads.drop s.quads.length).map Quad.entries).flatten
    ++ ((s1.triags.drop s.triags.length).map Triag.entries).flatten

/-- Column `c` of row `r` lies in the retained range of the row, where the
periodic column `nlon r` counts as retained when the range ends at the last
column. -/
def Covered (rg : ReducedGrid) (lb le : List Int) (r : Nat) (c : Int) : Prop :=
  0 ≤ geti lb r ∧ geti lb r ≤ c ∧ min c ((rg.nlon r : Int) - 1) ≤ geti le r

/-! ## Auxiliary definitions for the element counts -/

/-- Shape test of the connectivity loop (source line 967): a slot with
`elem[2] > 0` and `elem[3] > 0` is written as a quad, any other slot as a
triangle. -/
def quad_slot (elem : Elem) : Bool := decide (elem.e2 > 0 ∧ elem.e3 > 0)

/-- Three-dimensional options with `include_pole`, one partition. -/
def pole_3d_options : Options :=
  { default_options with three_dimensional := true, include_pole := true }

/-- Global grid with the row lengths `[3,6,6,3]`. -/
def grid3663 : ReducedGrid :=
  { nlons := [3, 6, 6, 3], lat := fun j => 60 - 40 * (j : ℚ)
    lon := fun j c => 360 * (c : ℚ) / (([3, 6, 6, 3] : List Nat).getD j 1 : ℚ) }

/-- Partition assignment of `grid44` into two partitions: row 0 (points 0..3)
belongs to partition 0, row 1 (points 4..7) to partition 1. -/
def parts_halves : Nat → Int := fun n => if n < 4 then 0 else 1

/-! ## Ownership is decided by exactly one partition -/

theorem add_triag_down_iff (pN1 pN2 pS1 mypart latN latS nlat : Int) (yN yS : ℚ) :
    add_triag_down pN1 pN2 pS1 mypart latN latS nlat yN yS = true ↔
      mypart = triag_down_owner pN1 pN2 pS1 latN latS nlat yN yS := by
  unfold add_triag_down triag_down_owner max_element
  simp only [List.count_cons, List.count_nil, List.map, List.foldl, beq_iff_eq]
  by_cases h1 : latN = 0
  · simp [h1, eq_comm]
  by_cases h2 : latS = nlat - 1
  · simp [h1, h2, eq_comm]
  simp only [h1, h2, if_false]
  by_cases hh : (1 / 2 : ℚ) * (yN + yS) > 1 / 1000000 <;> simp only [hh, if_true, if_false] <;>
  by_cases a : pN1 = pN2 <;> by_cases b : pN1 = pS1 <;> by_cases c : pN2 = pS1 <;>
    (try (exfalso; omega)) <;>
    by_cases d : pN1 = mypart <;> by_cases e : pN2 = mypart <;> by_cases f : pS1 = mypart <;>
    (try (exfalso; omega)) <;>
    (try have a' := Ne.symm a) <;> (try have b' := Ne.symm b) <;> (try have c' := Ne.symm c) <;>
    (try have d' := Ne.symm d) <;> (try have e' := Ne.symm e) <;> (try have f' := Ne.symm f) <;>
    subst_vars <;> simp [*]

theorem add_triag_up_iff (pN1 pS1 pS2 mypart latN latS nlat : Int) (yN yS : ℚ) :
    add_triag_up pN1 pS1 pS2 mypart latN latS nlat yN yS = true ↔
      mypart = triag_up_owner pN1 pS1 pS2 latN latS nlat yN yS := by
  unfold add_triag_up triag_up_owner max_element
  simp only [List.count_cons, List.count_nil, List.map, List.foldl, beq_iff_eq]
  by_cases h1 : latN = 0
  · simp [h1, eq_comm]
  by_cases h2 : latS = nlat - 1
  · simp [h1, h2, eq_comm]
  simp only [h1, h2, if_false, or_self]
  by_cases hh : (1 / 2 : ℚ) * (yN + yS) > 1 / 1000000 <;> simp only [hh, if_true, if_false] <;>
  by_cases a : pN1 = pS1 <;> by_cases b : pN1 = pS2 <;> by_cases c : pS1 = pS2 <;>
    (try (exfalso; omega)) <;>
    by_cases d : pN1 = mypart <;> by_cases e : pS1 = mypart <;> by_cases f : pS2 = mypart <;>
    (try (exfalso; omega)) <;>
    (try have a' := Ne.symm a) <;> (try have b' := Ne.symm b) <;> (try have c' := Ne.symm c) <;>
    (try have d' := Ne.symm d) <;> (try have e' := Ne.symm e) <;> (try have f' := Ne.symm f) <;>
    subst_vars <;> simp [*]

set_option maxHeartbeats 4000000 in
theorem add_quad_iff (pN1 pN2 pS1 pS2 mypart latN latS nlat : Int) (yN yS : ℚ) :
    add_quad pN1 pN2 pS1 pS2 mypart latN latS nlat yN yS = true ↔
      mypart = quad_owner pN1 pN2 pS1 pS2 latN latS nlat yN yS := by
  unfold add_quad quad_owner max_element
  simp only [List.count_cons, List.count_nil, List.map, List.foldl, beq_iff_eq]
  by_cases h1 : latN = 0
  · simp only [h1, if_true]
    by_cases d : pN1 = mypart <;> simp [d, eq_comm]
  by_cases h2 : latS = nlat - 1
  · simp only [h1, h2, if_true, if_false]
    by_cases d : pS2 = mypart <;> simp [d, eq_comm]
  simp only [h1, h2, if_false]
  by_cases hh : (1 / 2 : ℚ) * (yN + yS) > 1 / 1000000 <;> simp only [hh, if_true, if_false] <;>
  by_cases a : pN1 = pN2 <;> by_cases b : pN1 = pS1 <;> by_cases a2 : pN2 = pS1 <;>
    (try (exfalso; omega)) <;>
    by_cases c : pN1 = pS2 <;> by_cases b2 : pN2 = pS2 <;> by_cases c2 : pS1 = pS2 <;>
    (try (exfalso; omega)) <;>
    by_cases d : pN1 = mypart <;> by_cases e : pN2 = mypart <;> by_cases f : pS1 = mypart <;>
        by_cases g : pS2 = mypart <;>
    (try (exfalso; omega)) <;>
    (try have a' := Ne.symm a) <;> (try have b' := Ne.symm b) <;> (try have c' := Ne.symm c) <;>
    (try have a2' := Ne.symm a2) <;> (try have b2' := Ne.symm b2) <;> (try have c2' := Ne.symm c2) <;>
    (try have d' := Ne.symm d) <;> (try have e' := Ne.symm e) <;> (try have f' := Ne.symm f) <;>
    (try have g' := Ne.symm g) <;>
    subst_vars <;> simp [*]

/-- C2: for each element shape, every choice of vertex owners, row position and
latitudes, exactly one value of `mypart` makes the ownership test of
`generate_region` true. -/
theorem ownership_exactly_one (pN1 pN2 pS1 pS2 latN latS nlat : Int) (yN yS : ℚ) :
    (∃! mypart, add_quad pN1 pN2 pS1 pS2 mypart latN latS nlat yN yS = true) ∧
    (∃! mypart, add_triag_down pN1 pN2 pS1 mypart latN latS nlat yN yS = true) ∧
    (∃! mypart, add_triag_up pN1 pS1 pS2 mypart latN latS nlat yN yS = true) := by
  refine ⟨⟨quad_owner pN1 pN2 pS1 pS2 latN latS nlat yN yS, ?_, ?_⟩,
    ⟨triag_down_owner pN1 pN2 pS1 latN latS nlat yN yS, ?_, ?_⟩,
    ⟨triag_up_owner pN1 pS1 pS2 latN latS nlat yN yS, ?_, ?_⟩⟩
  · exact (add_quad_iff _ _ _ _ _ _ _ _ _ _).2 rfl
  · intro m hm; exact (add_quad_iff _ _ _ _ _ _ _ _ _ _).1 hm
  · exact (add_triag_down_iff _ _ _ _ _ _ _ _ _).2 rfl
  · intro m hm; exact (add_triag_down_iff _ _ _ _ _ _ _ _ _).1 hm
  · exact (add_triag_up_iff _ _ _ _ _ _ _ _ _).2 rfl
  · intro m hm; exact (add_triag_up_iff _ _ _ _ _ _ _ _ _).1 hm

/-! ## Node fill of `generate_mesh` -/

theorem regular_node_glb (rg : ReducedGrid) (opts : Options) (parts : Nat → Int) (mypart : Int)
    (inp isp : Bool) (jlat jlon : Nat) :
    (regular_node rg opts parts mypart inp isp jlat jlon).glb_idx
      = ((rg.offset jlat + jlon : Nat) : Int) + 1 := rfl

theorem fill_row_glbs {rg : ReducedGrid} {opts : Options} {parts : Nat → Int} {mypart : Int}
    {region : Region} {inp isp : Bool} {jlat : Nat} {s s1 : NState}
    (h : fill_row rg opts parts mypart region inp isp jlat s = .ok s1) :
    s1.nodes.map (fun nd => nd.glb_idx)
      = s.nodes.map (fun nd => nd.glb_idx) ++ row_glbs rg opts region jlat := by
  unfold fill_row at h
  simp only at h
  unfold row_glbs
  split at h
  · rename_i hc
    split at h
    · cases h
    · cases h
      simp [hc, periodic_node, List.map_append, Function.comp_def, regular_node_glb]
  · rename_i hc
    cases h
    simp [List.map_append, Function.comp_def, regular_node_glb]
    intro h3 h4
    exact hc ⟨by simp [h3], h4⟩

theorem fill_rows_glbs {rg : ReducedGrid} {opts : Options} {parts : Nat → Int} {mypart : Int}
    {region : Region} {inp isp : Bool} (rows : List Nat) {s s1 : NState}
    (h : fill_rows rg opts parts mypart region inp isp rows s = .ok s1) :
    s1.nodes.map (fun nd => nd.glb_idx)
      = s.nodes.map (fun nd => nd.glb_idx) ++ rows.flatMap (row_glbs rg opts region) := by
  induction rows generalizing s with
  | nil => simp [fill_rows] at h; subst h; simp
  | cons jlat rest ih =>
    simp only [fill_rows] at h
    split at h
    · cases h
    · rename_i s2 h2
      rw [ih h, fill_row_glbs h2]
      simp

theorem fill_rows_not_badParameter {rg : ReducedGrid} {opts : Options} {parts : Nat → Int}
    {mypart : Int} {region : Region} {inp isp : Bool} (rows : List Nat) (s : NState) :
    fill_rows rg opts parts mypart region inp isp rows s ≠ .error .badParameter := by
  induction rows generalizing s with
  | nil => simp [fill_rows]
  | cons jlat rest ih =>
    simp only [fill_rows]
    split
    · rename_i e h2
      unfold fill_row at h2
      simp only at h2
      split at h2
      · split at h2
        · cases h2; simp
        · cases h2
      · cases h2
    · exact ih _

/-- C10: `generate_mesh` raises `BadParameter` if and only if
`three_dimensional` is set and `nb_parts` differs from 1. -/
theorem generate_mesh_badParameter_iff (rg : ReducedGrid) (opts : Options) (parts : Nat → Int)
    (region : Region) (rank : Nat) (elem_counts : List Nat) :
    generate_mesh rg opts parts region rank elem_counts = .error .badParameter
      ↔ (opts.three_dimensional = true ∧ opts.nb_parts ≠ 1) := by
  unfold generate_mesh
  simp only
  by_cases hc : opts.three_dimensional = true ∧ opts.nb_parts ≠ 1
  · simp [hc]
  · rw [if_neg hc]
    simp only [hc, iff_false]
    split
    · rename_i e he
      intro h
      cases h
      exact fill_rows_not_badParameter _ _ he
    · intro h; cases h

theorem fill_row_nodes {rg : ReducedGrid} {opts : Options} {parts : Nat → Int}
    {region : Region} {jlat : Nat} {s s1 : NState}
    (h : fill_row rg opts parts opts.part region (include_north_pole rg opts)
      (include_south_pole rg opts) jlat s = .ok s1) :
    (¬ ((!opts.three_dimensional) = true ∧ geti region.lat_end jlat = (rg.nlon jlat : Int) - 1) ∧
      s1.nodes = s.nodes ++ row_regular rg opts parts region jlat) ∨
    (((!opts.three_dimensional) = true ∧ geti region.lat_end jlat = (rg.nlon jlat : Int) - 1) ∧
      ∃ prev, (s.nodes ++ row_regular rg opts parts region jlat).getLast? = some prev ∧
        s1.nodes = s.nodes ++ row_regular rg opts parts region jlat
          ++ [periodic_node rg opts jlat prev.part]) := by
  unfold fill_row at h
  simp only at h
  split at h
  · rename_i hc
    right
    refine ⟨hc, ?_⟩
    split at h
    · cases h
    · rename_i prev hp
      cases h
      exact ⟨prev, hp, rfl⟩
  · rename_i hc
    left
    cases h
    exact ⟨hc, rfl⟩

theorem mem_fill_row_of_mem {rg : ReducedGrid} {opts : Options} {parts : Nat → Int}
    {region : Region} {jlat : Nat} {s s1 : NState}
    (h : fill_row rg opts parts opts.part region (include_north_pole rg opts)
      (include_south_pole rg opts) jlat s = .ok s1) {nd : Node}
    (hn : nd ∈ s.nodes ∨ nd ∈ row_regular rg opts parts region jlat) : nd ∈ s1.nodes := by
  rcases fill_row_nodes h with ⟨_, h1⟩ | ⟨_, prev, _, h1⟩ <;> rw [h1] <;> simp <;> tauto

theorem mem_fill_rows {rg : ReducedGrid} {opts : Options} {parts : Nat → Int}
    {region : Region} (rows : List Nat) {s s1 : NState}
    (h : fill_rows rg opts parts opts.part region (include_north_pole rg opts)
      (include_south_pole rg opts) rows s = .ok s1) {nd : Node}
    (hn : nd ∈ s.nodes ∨ ∃ jlat ∈ rows, nd ∈ row_regular rg opts parts region jlat) :
    nd ∈ s1.nodes := by
  induction rows generalizing s with
  | nil => simp [fill_rows] at h; subst h; simpa using hn
  | cons jlat rest ih =>
    simp only [fill_rows] at h
    split at h
    · cases h
    · rename_i s2 h2
      apply ih h
      rcases hn with hn | ⟨j, hj, hn⟩
      · exact Or.inl (mem_fill_row_of_mem h2 (Or.inl hn))
      · rcases List.mem_cons.1 hj with rfl | hj
        · exact Or.inl (mem_fill_row_of_mem h2 (Or.inr hn))
        · exact Or.inr ⟨j, hj, hn⟩

theorem generate_mesh_nodes {rg : ReducedGrid} {opts : Options} {parts : Nat → Int}
    {region : Region} {rank : Nat} {elem_counts : List Nat} {mesh : Mesh}
    (h : generate_mesh rg opts parts region rank elem_counts = .ok mesh) :
    ∃ ns, fill_rows rg opts parts opts.part region (include_north_pole rg opts)
        (include_south_pole rg opts)
        (List.range' region.north (region.south + 1 - region.north))
        { l := 0, offset_loc := [], nodes := [] } = .ok ns ∧
      mesh.nodes = ns.nodes
        ++ (if include_north_pole rg opts then [north_pole_node rg opts] else [])
        ++ (if include_south_pole rg opts then [south_pole_node rg opts] else []) := by
  unfold generate_mesh at h
  simp only at h
  split at h
  · cases h
  · split at h
    · cases h
    · rename_i ns hns
      refine ⟨ns, hns, ?_⟩
      cases h
      simp only [generate_global_element_numbering]
      by_cases h1 : include_north_pole rg opts = true <;>
        by_cases h2 : include_south_pole rg opts = true <;> simp [h1, h2]

theorem fill_row_cases {rg : ReducedGrid} {opts : Options} {parts : Nat → Int}
    {region : Region} {jlat : Nat} {s s1 : NState}
    (h : fill_row rg opts parts opts.part region (include_north_pole rg opts)
      (include_south_pole rg opts) jlat s = .ok s1) {nd : Node} (hn : nd ∈ s1.nodes) :
    nd ∈ s.nodes ∨ nd ∈ row_regular rg opts parts region jlat ∨
    (((!opts.three_dimensional) = true ∧ geti region.lat_end jlat = (rg.nlon jlat : Int) - 1) ∧
      ∃ p, nd = periodic_node rg opts jlat p) := by
  rcases fill_row_nodes h with ⟨_, h1⟩ | ⟨hc, prev, _, h1⟩
  · rw [h1] at hn
    rcases List.mem_append.1 hn with hn | hn
    · exact Or.inl hn
    · exact Or.inr (Or.inl hn)
  · rw [h1] at hn
    rcases List.mem_append.1 hn with hn | hn
    · rcases List.mem_append.1 hn with hn | hn
      · exact Or.inl hn
      · exact Or.inr (Or.inl hn)
    · exact Or.inr (Or.inr ⟨hc, prev.part, by simpa using hn⟩)

theorem fill_rows_cases {rg : ReducedGrid} {opts : Options} {parts : Nat → Int}
    {region : Region} (rows : List Nat) {s s1 : NState}
    (h : fill_rows rg opts parts opts.part region (include_north_pole rg opts)
      (include_south_pole rg opts) rows s = .ok s1) {nd : Node} (hn : nd ∈ s1.nodes) :
    nd ∈ s.nodes ∨ ∃ jlat ∈ rows, nd ∈ row_regular rg opts parts region jlat ∨
    (((!opts.three_dimensional) = true ∧ geti region.lat_end jlat = (rg.nlon jlat : Int) - 1) ∧
      ∃ p, nd = periodic_node rg opts jlat p) := by
  induction rows generalizing s with
  | nil => simp [fill_rows] at h; subst h; exact Or.inl hn
  | cons jlat rest ih =>
    simp only [fill_rows] at h
    split at h
    · cases h
    · rename_i s2 h2
      rcases ih h with h3 | ⟨j, hj, h3⟩
      · rcases fill_row_cases h2 h3 with h4 | h4
        · exact Or.inl h4
        · exact Or.inr ⟨jlat, List.mem_cons_self _ _, h4⟩
      · exact Or.inr ⟨j, List.mem_cons_of_mem _ hj, h3⟩

theorem mem_row_regular {rg : ReducedGrid} {opts : Options} {parts : Nat → Int}
    {region : Region} {jlat : Nat} {nd : Node} :
    nd ∈ row_regular rg opts parts region jlat ↔
      ∃ jlon : Nat, (geti region.lat_begin jlat).toNat ≤ jlon ∧
        (jlon : Int) < (geti region.lat_begin jlat).toNat
          + (geti region.lat_end jlat + 1 - geti region.lat_begin jlat).toNat ∧
        nd = grid_node rg opts parts jlat jlon := by
  unfold row_regular
  simp only [List.mem_map, List.mem_range'_1]
  constructor
  · rintro ⟨c, ⟨h1, h2⟩, rfl⟩
    exact ⟨c, h1, by omega, rfl⟩
  · rintro ⟨c, h1, h2, rfl⟩
    exact ⟨c, ⟨h1, by omega⟩, rfl⟩

/-- C4: for every grid point (row `r`, column `c`) in the retained range of a
region, the node row written by `generate_mesh` has
`glb_idx = 1 + (sum of the lengths of rows 0..r-1) + c`; two runs on the same
grid with different options, part and partition assignment write the same
global index for the same grid position. -/
theorem glb_idx_partition_invariant (rg : ReducedGrid) (opts1 opts2 : Options)
    (parts1 parts2 : Nat → Int) (region1 region2 : Region) (rank1 rank2 : Nat)
    (counts1 counts2 : List Nat) (mesh1 mesh2 : Mesh)
    (h1 : generate_mesh rg opts1 parts1 region1 rank1 counts1 = .ok mesh1)
    (h2 : generate_mesh rg opts2 parts2 region2 rank2 counts2 = .ok mesh2)
    (r c : Nat)
    (hr1 : region1.north ≤ r ∧ r ≤ region1.south)
    (hc1 : geti region1.lat_begin r ≤ c ∧ (c : Int) ≤ geti region1.lat_end r)
    (hr2 : region2.north ≤ r ∧ r ≤ region2.south)
    (hc2 : geti region2.lat_begin r ≤ c ∧ (c : Int) ≤ geti region2.lat_end r) :
    grid_node rg opts1 parts1 r c ∈ mesh1.nodes ∧
    grid_node rg opts2 parts2 r c ∈ mesh2.nodes ∧
    (grid_node rg opts1 parts1 r c).glb_idx = 1 + ((rg.nlons.take r).sum : Int) + c ∧
    (grid_node rg opts2 parts2 r c).glb_idx = (grid_node rg opts1 parts1 r c).glb_idx := by
  have key : ∀ (opts : Options) (parts : Nat → Int) (region : Region) (rank : Nat)
      (counts : List Nat) (mesh : Mesh),
      generate_mesh rg opts parts region rank counts = .ok mesh →
      (region.north ≤ r ∧ r ≤ region.south) →
      (geti region.lat_begin r ≤ c ∧ (c : Int) ≤ geti region.lat_end r) →
      grid_node rg opts parts r c ∈ mesh.nodes := by
    intro opts parts region rank counts mesh h hr hc
    obtain ⟨ns, hns, hm⟩ := generate_mesh_nodes h
    rw [hm]
    apply List.mem_append_left
    apply List.mem_append_left
    apply mem_fill_rows _ hns
    right
    refine ⟨r, ?_, ?_⟩
    · rw [List.mem_range'_1]; omega
    · rw [mem_row_regular]
      exact ⟨c, by omega, by omega, rfl⟩
  refine ⟨key _ _ _ _ _ _ h1 hr1 hc1, key _ _ _ _ _ _ h2 hr2 hc2, ?_, ?_⟩
  · simp only [grid_node, regular_node_glb, ReducedGrid.offset]
    push_cast
    ring
  · simp only [grid_node, regular_node_glb]

set_option maxRecDepth 100000 in
theorem glb_idx_partition_invariant_witness :
    (grid_node grid4664 default_options (fun _ => 0) 2 3).glb_idx = 1 + ((4 + 6 : Nat) : Int) + 3 ∧
    (grid_node grid4664 (two_parts_options 1) parts_rows2 2 3).glb_idx
      = (grid_node grid4664 default_options (fun _ => 0) 2 3).glb_idx :=
  (glb_idx_partition_invariant grid4664 default_options
    (two_parts_options 1) (fun _ => 0) parts_rows2
    (region_of (generate_region 20 grid4664 default_options (fun _ => 0) 0))
    (region_of (generate_region 20 grid4664 default_options parts_rows2 1)) 0 1 [0] [16, 16]
    (mesh_of (generate_mesh grid4664 default_options (fun _ => 0)
      (region_of (generate_region 20 grid4664 default_options (fun _ => 0) 0)) 0 [0]))
    (mesh_of (generate_mesh grid4664 (two_parts_options 1) parts_rows2
      (region_of (generate_region 20 grid4664 default_options parts_rows2 1)) 1 [16, 16]))
    (by decide!) (by decide!) 2 3 (by decide!) (by decide!) (by decide!) (by decide!)).2.2

theorem grid_node_east (rg : ReducedGrid) (opts : Options) (parts : Nat → Int) (jlat jlon : Nat) :
    (grid_node rg opts parts jlat jlon).flags.east = false := by
  simp only [grid_node, regular_node, Flags.reset]
  split_ifs <;> rfl

theorem generate_mesh_node_cases {rg : ReducedGrid} {opts : Options} {parts : Nat → Int}
    {region : Region} {rank : Nat} {elem_counts : List Nat} {mesh : Mesh}
    (h : generate_mesh rg opts parts region rank elem_counts = .ok mesh) {nd : Node}
    (hn : nd ∈ mesh.nodes) :
    (∃ jlat, (region.north ≤ jlat ∧ jlat ≤ region.south) ∧
      (nd ∈ row_regular rg opts parts region jlat ∨
        (((!opts.three_dimensional) = true ∧
            geti region.lat_end jlat = (rg.nlon jlat : Int) - 1) ∧
          ∃ p, nd = periodic_node rg opts jlat p))) ∨
    (include_north_pole rg opts = true ∧ nd = north_pole_node rg opts) ∨
    (include_south_pole rg opts = true ∧ nd = south_pole_node rg opts) := by
  obtain ⟨ns, hns, hm⟩ := generate_mesh_nodes h
  rw [hm] at hn
  rcases List.mem_append.1 hn with hn | hn
  · rcases List.mem_append.1 hn with hn | hn
    · rcases fill_rows_cases _ hns hn with h1 | ⟨j, hj, h1⟩
      · simp at h1
      · left
        rw [List.mem_range'_1] at hj
        exact ⟨j, by omega, h1⟩
    · right; left
      split at hn
      · rename_i hc; exact ⟨hc, by simpa using hn⟩
      · simp at hn
  · right; right
    split at hn
    · rename_i hc; exact ⟨hc, by simpa using hn⟩
    · simp at hn

set_option maxRecDepth 100000 in
/-- C6 fails as stated: for `[4,6,6,4]` with one partition the periodic ghost
node written after the four nodes of row 0 has global index 21, whereas the
cumulative offset of row 0 plus its length is 4. -/
theorem periodic_node_glb_idx_counterexample :
    ((result_nodes (generate 20 grid4664 default_options (fun _ => 0) 0 [0])).get? 4).map
        (fun nd => (nd.flags.east, nd.flags.ghost, nd.glb_idx)) = some (true, true, 21) ∧
      (grid4664.offset 0 : Int) + (grid4664.nlon 0 : Int) = 4 := by
  decide!

/-! ## Uniqueness of global node indices -/

theorem offset_succ (rg : ReducedGrid) (r : Nat) :
    rg.offset (r + 1) = rg.offset r + rg.nlon r := by
  unfold ReducedGrid.offset ReducedGrid.nlon
  generalize rg.nlons = l
  induction l generalizing r with
  | nil => simp
  | cons a t ih =>
    cases r with
    | zero => simp
    | succ n =>
      simp only [List.take_succ_cons, List.sum_cons, List.getD_cons_succ]
      rw [ih n]; omega

theorem offset_mono (rg : ReducedGrid) {r s : Nat} (h : r ≤ s) : rg.offset r ≤ rg.offset s := by
  induction s with
  | zero => simp at h; subst h; exact Nat.le_refl _
  | succ n ih =>
    rcases Nat.eq_or_lt_of_le h with h1 | h1
    · subst h1; exact Nat.le_refl _
    · have := ih (by omega)
      rw [offset_succ]; omega

theorem offset_nlat (rg : ReducedGrid) : rg.offset rg.nlat = rg.npts := by
  simp [ReducedGrid.offset, ReducedGrid.nlat, ReducedGrid.npts]

theorem offset_le_npts (rg : ReducedGrid) {r : Nat} (h : r ≤ rg.nlat) : rg.offset r ≤ rg.npts := by
  rw [← offset_nlat]; exact offset_mono rg h

theorem nonempty_before (rg : ReducedGrid) (hrows : ∀ j < rg.nlat, 0 < rg.nlon j) {r : Nat}
    (h : r ≤ rg.nlat) :
    ((rg.nlons.take r).filter (fun k => decide (k > 0))).length = r := by
  have h1 : (rg.nlons.take r).filter (fun k => decide (k > 0)) = rg.nlons.take r := by
    rw [List.filter_eq_self]
    intro a ha
    obtain ⟨i, hi, rfl⟩ := List.getElem_of_mem (List.mem_of_mem_take ha)
    have := hrows i hi
    simp only [ReducedGrid.nlon, List.getD_eq_getElem?_getD, List.getElem?_eq_getElem hi,
      Option.getD_some] at this
    simpa using this
  rw [h1, List.length_take]
  unfold ReducedGrid.nlat at h
  omega

theorem mem_row_glbs {rg : ReducedGrid} {opts : Options} {region : Region} {jlat : Nat} {g : Int}
    (h : g ∈ row_glbs rg opts region jlat) :
    (∃ c : Nat, (geti region.lat_begin jlat).toNat ≤ c ∧
        (c : Int) < (geti region.lat_begin jlat).toNat
          + (geti region.lat_end jlat + 1 - geti region.lat_begin jlat).toNat ∧
        g = ((rg.offset jlat + c : Nat) : Int) + 1) ∨
    (opts.three_dimensional = false ∧ geti region.lat_end jlat = (rg.nlon jlat : Int) - 1 ∧
      g = periodic_glb rg opts.three_dimensional jlat + 1) := by
  unfold row_glbs at h
  simp only at h
  rcases List.mem_append.1 h with h | h
  · left
    simp only [List.mem_map, List.mem_range'_1] at h
    obtain ⟨c, ⟨h1, h2⟩, rfl⟩ := h
    exact ⟨c, h1, by omega, rfl⟩
  · right
    split at h
    · rename_i hc
      exact ⟨by simpa using hc.1, hc.2, by simpa using h⟩
    · simp at h

theorem row_glbs_nodup (rg : ReducedGrid) (opts : Options) (region : Region) (jlat : Nat)
    (hrows : ∀ j < rg.nlat, 0 < rg.nlon j) (hj : jlat < rg.nlat)
    (hb : 0 ≤ geti region.lat_begin jlat ∧ geti region.lat_end jlat ≤ (rg.nlon jlat : Int) - 1) :
    (row_glbs rg opts region jlat).Nodup := by
  unfold row_glbs
  simp only
  rw [List.nodup_append]
  refine ⟨?_, ?_, ?_⟩
  · apply List.Nodup.map
    · intro a b hab
      simp only at hab
      omega
    · exact List.nodup_range' _ _
  · split
    · exact List.nodup_singleton _
    · exact List.nodup_nil
  · intro g hg hg2
    split at hg2
    · rename_i hc
      have h3 : opts.three_dimensional = false := by simpa using hc.1
      simp only [List.mem_singleton] at hg2
      simp only [List.mem_map, List.mem_range'_1] at hg
      obtain ⟨c, ⟨h1, h2⟩, rfl⟩ := hg
      have hpos := hrows jlat hj
      have hne := nonempty_before rg hrows (Nat.le_of_lt hj)
      have ho : rg.offset (jlat + 1) ≤ rg.npts := offset_le_npts rg hj
      rw [offset_succ] at ho
      simp only [periodic_glb, hpos, h3, hne] at hg2
      simp at hg2
      omega
    · simp at hg2

theorem region_glbs_nodup (rg : ReducedGrid) (opts : Options) (region : Region)
    (hrows : ∀ j < rg.nlat, 0 < rg.nlon j) (hb : RegionBounds rg region) :
    ((List.range' region.north (region.south + 1 - region.north)).flatMap
      (row_glbs rg opts region)).Nodup := by
  rw [List.nodup_flatMap]
  constructor
  · intro j hj
    rw [List.mem_range'_1] at hj
    exact row_glbs_nodup rg opts region j hrows (by have := hb.1; omega)
      (hb.2 j (by omega) (by omega))
  · apply List.Pairwise.imp_of_mem _ (List.pairwise_lt_range' _ _)
    intro a b ha hb2 hab g hga hgb
    rw [List.mem_range'_1] at ha hb2
    have hal : a < rg.nlat := by have := hb.1; omega
    have hbl : b < rg.nlat := by have := hb.1; omega
    have hba := hb.2 a (by omega) (by omega)
    have hbb := hb.2 b (by omega) (by omega)
    have hm : rg.offset (a + 1) ≤ rg.offset b := offset_mono rg hab
    have hob : rg.offset (b + 1) ≤ rg.npts := offset_le_npts rg hbl
    rw [offset_succ] at hob hm
    have hna := nonempty_before rg hrows (Nat.le_of_lt hal)
    have hnb := nonempty_before rg hrows (Nat.le_of_lt hbl)
    have hpa := hrows a hal
    have hpb := hrows b hbl
    rcases mem_row_glbs hga with ⟨c, h1, h2, rfl⟩ | ⟨h3, h4, rfl⟩ <;>
      rcases mem_row_glbs hgb with ⟨c2, h5, h6, h7⟩ | ⟨h8, h9, h7⟩
    · omega
    · simp only [periodic_glb, hpb, h8, hnb] at h7
      simp at h7
      omega
    · simp only [periodic_glb, hpa, h3, hna] at h7
      simp at h7
      omega
    · simp only [periodic_glb, hpa, hpb, h3, hna, hnb] at h7
      simp at h7
      omega
theorem region_glb_le {rg : ReducedGrid} {opts : Options} {region : Region}
    (hrows : ∀ j < rg.nlat, 0 < rg.nlon j) (hb : RegionBounds rg region) {g : Int}
    (hg : g ∈ (List.range' region.north (region.south + 1 - region.north)).flatMap
      (row_glbs rg opts region)) :
    g ≤ rg.npts ∨ (opts.three_dimensional = false ∧ g ≤ (rg.npts : Int) + rg.nlat) := by
  rw [List.mem_flatMap] at hg
  obtain ⟨j, hj, hg⟩ := hg
  rw [List.mem_range'_1] at hj
  have hjl : j < rg.nlat := by have := hb.1; omega
  have hbj := hb.2 j (by omega) (by omega)
  have ho : rg.offset (j + 1) ≤ rg.npts := offset_le_npts rg hjl
  rw [offset_succ] at ho
  have hn := nonempty_before rg hrows (Nat.le_of_lt hjl)
  have hp := hrows j hjl
  rcases mem_row_glbs hg with ⟨c, h1, h2, rfl⟩ | ⟨h3, h4, rfl⟩
  · left; omega
  · right
    refine ⟨h3, ?_⟩
    simp only [periodic_glb, hp, h3, hn]
    simp
    omega

theorem pole_glb (rg : ReducedGrid) (opts : Options) (hrows : ∀ j < rg.nlat, 0 < rg.nlon j)
    (hn : 0 < rg.nlat) :
    (opts.three_dimensional = false ∧
      periodic_glb rg opts.three_dimensional (rg.nlat - 1) = (rg.npts : Int) + rg.nlat - 1) ∨
    (opts.three_dimensional = true ∧
      periodic_glb rg opts.three_dimensional (rg.nlat - 1) = (rg.npts : Int) - 1) := by
  have hl : rg.nlat - 1 < rg.nlat := by omega
  have hp := hrows _ hl
  have hne := nonempty_before rg hrows (Nat.le_of_lt hl)
  have ho : rg.offset (rg.nlat - 1 + 1) = rg.npts := by
    rw [Nat.sub_add_cancel hn, offset_nlat]
  rw [offset_succ] at ho
  cases h3 : opts.three_dimensional
  · left
    refine ⟨rfl, ?_⟩
    simp only [periodic_glb, hp, hne]
    simp
    omega
  · right
    refine ⟨rfl, ?_⟩
    simp only [periodic_glb, hp]
    simp
    omega

theorem pole_glb_gt (rg : ReducedGrid) (opts : Options) (hrows : ∀ j < rg.nlat, 0 < rg.nlon j)
    (hn : 0 < rg.nlat) {g : Int}
    (hg : g ≤ rg.npts ∨ (opts.three_dimensional = false ∧ g ≤ (rg.npts : Int) + rg.nlat)) :
    g < periodic_glb rg opts.three_dimensional (rg.nlat - 1) + 2 := by
  rcases pole_glb rg opts hrows hn with ⟨h3, h4⟩ | ⟨h3, h4⟩
  · rw [h4]
    rcases hg with h1 | ⟨_, h2⟩ <;> omega
  · rw [h4]
    rcases hg with h1 | ⟨h1, _⟩
    · omega
    · rw [h3] at h1; cases h1

theorem generate_mesh_glbs_nodup {rg : ReducedGrid} {opts : Options} {parts : Nat → Int}
    {region : Region} {rank : Nat} {elem_counts : List Nat} {mesh : Mesh}
    (hrows : ∀ j < rg.nlat, 0 < rg.nlon j) (hb : RegionBounds rg region)
    (h : generate_mesh rg opts parts region rank elem_counts = .ok mesh) :
    (mesh.nodes.map (fun nd => nd.glb_idx)).Nodup := by
  obtain ⟨ns, hns, hm⟩ := generate_mesh_nodes h
  have hg := fill_rows_glbs _ hns
  simp only [List.map_nil, List.nil_append] at hg
  rw [hm, List.map_append, List.map_append, hg]
  have hnd := region_glbs_nodup rg opts region hrows hb
  have hlt : ∀ g ∈ (List.range' region.north (region.south + 1 - region.north)).flatMap
      (row_glbs rg opts region),
      g < periodic_glb rg opts.three_dimensional (rg.nlat - 1) + 2 :=
    fun g hg => pole_glb_gt rg opts hrows (by have := hb.1; omega) (region_glb_le hrows hb hg)
  rw [List.nodup_append, List.nodup_append]
  refine ⟨⟨hnd, ?_, ?_⟩, ?_, ?_⟩
  · split <;> simp
  · intro g hg hg2
    split at hg2
    · simp only [List.map_cons, List.map_nil, List.mem_singleton, north_pole_node] at hg2
      have := hlt g hg
      omega
    · simp at hg2
  · split <;> simp
  · intro g hg hg2
    split at hg2
    · simp only [List.map_cons, List.map_nil, List.mem_singleton, south_pole_node] at hg2
      rcases List.mem_append.1 hg with hg | hg
      · have := hlt g hg
        omega
      · split at hg
        · simp only [List.map_cons, List.map_nil, List.mem_singleton, north_pole_node] at hg
          omega
        · simp at hg
    · simp at hg2
/-! ## Bounds of the regions returned by `generate_region` -/

theorem geti_set (l : List Int) (i j : Nat) (v : Int) :
    geti (l.set i v) j = if i = j ∧ i < l.length then v else geti l j := by
  unfold geti
  simp only [List.getD_eq_getElem?_getD, List.getElem?_set]
  by_cases h : i = j
  · subst h
    by_cases h2 : i < l.length
    · simp [h2]
    · simp [h2, List.getElem?_eq_none (Nat.le_of_not_lt h2)]
  · simp [h]

theorem geti_of_length_le (l : List Int) (j : Nat) (h : l.length ≤ j) : geti l j = -1 := by
  unfold geti
  simp [List.getD_eq_getElem?_getD, List.getElem?_eq_none h]

theorem geti_replicate (n j : Nat) : geti (List.replicate n (-1)) j = -1 := by
  unfold geti
  simp only [List.getD_eq_getElem?_getD, List.getElem?_replicate]
  split <;> rfl

theorem touch_end_other (le : List Int) (latN latS : Nat) (eN eS : Int) (j : Nat)
    (h1 : j ≠ latN) (h2 : j ≠ latS) : geti (touch_end le latN latS eN eS) j = geti le j := by
  unfold touch_end
  simp only [geti_set]
  rw [if_neg (fun h => h2 h.1.symm), if_neg (fun h => h1 h.1.symm)]

theorem touch_begin_length (lb : List Int) (latN latS : Nat) (bN bS : Int) :
    (touch_begin lb latN latS bN bS).length = lb.length := by
  unfold touch_begin
  simp only [List.length_set]
  split_ifs <;> simp

theorem touch_end_length (le : List Int) (latN latS : Nat) (eN eS : Int) :
    (touch_end le latN latS eN eS).length = le.length := by
  unfold touch_end
  simp

theorem zipper_step_shape (rg : ReducedGrid) (opts : Options) (parts : Nat → Int) (mypart : Int)
    (jlat endN endS : Nat) (s : ZState) :
    ((zipper_step rg opts parts mypart jlat endN endS s).lat_end = s.lat_end ∨
      ∃ eN eS, (zipper_step rg opts parts mypart jlat endN endS s).lat_end
        = touch_end s.lat_end jlat (jlat + 1) eN eS) ∧
    ((zipper_step rg opts parts mypart jlat endN endS s).lat_begin = s.lat_begin ∨
      ∃ bN bS, (zipper_step rg opts parts mypart jlat endN endS s).lat_begin
        = touch_begin s.lat_begin jlat (jlat + 1) bN bS) := by
  unfold zipper_step
  simp only [next_cursors, accept_elem]
  split_ifs <;> exact ⟨by first | exact Or.inl rfl | exact Or.inr ⟨_, _, rfl⟩,
    by first | exact Or.inl rfl | exact Or.inr ⟨_, _, rfl⟩⟩

theorem zipper_loop_shape (rg : ReducedGrid) (opts : Options) (parts : Nat → Int) (mypart : Int)
    (jlat endN endS : Nat) (fuel : Nat) (s s1 : ZState)
    (h : zipper_loop rg opts parts mypart jlat endN endS fuel s = some s1) :
    (∀ j, j ≠ jlat → j ≠ jlat + 1 → geti s1.lat_end j = geti s.lat_end j) ∧
    s1.lat_begin.length = s.lat_begin.length ∧ s1.lat_end.length = s.lat_end.length := by
  induction fuel generalizing s with
  | zero =>
    simp only [zipper_loop] at h
    split at h
    · cases h; exact ⟨fun _ _ _ => rfl, rfl, rfl⟩
    · cases h
  | succ n ih =>
    simp only [zipper_loop] at h
    split at h
    · cases h; exact ⟨fun _ _ _ => rfl, rfl, rfl⟩
    · obtain ⟨h1, h2, h3⟩ := ih _ h
      obtain ⟨he, hb⟩ := zipper_step_shape rg opts parts mypart jlat endN endS s
      refine ⟨?_, ?_, ?_⟩
      · intro j hj1 hj2
        rw [h1 j hj1 hj2]
        rcases he with he | ⟨eN, eS, he⟩
        · rw [he]
        · rw [he, touch_end_other _ _ _ _ _ _ hj1 hj2]
      · rw [h2]
        rcases hb with hb | ⟨bN, bS, hb⟩
        · rw [hb]
        · rw [hb, touch_begin_length]
      · rw [h3]
        rcases he with he | ⟨eN, eS, he⟩
        · rw [he]
        · rw [he, touch_end_length]

theorem endBounded_set (rg : ReducedGrid) {le : List Int} (i : Nat) (v : Int)
    (h : ∀ j, j ≠ i → geti le j ≤ (rg.nlon j : Int) - 1) (hv : v ≤ (rg.nlon i : Int) - 1) :
    ∀ j, geti (le.set i v) j ≤ (rg.nlon j : Int) - 1 := by
  intro j
  rw [geti_set]
  split
  · rename_i hc; rw [← hc.1]; exact hv
  · by_cases hji : j = i
    · subst hji
      by_cases hl : j < le.length
      · rename_i hc; exact absurd ⟨rfl, hl⟩ hc
      · rw [geti_of_length_le _ _ (Nat.le_of_not_lt hl)]; omega
    · exact h j hji

theorem clip_lat_end_bounded (rg : ReducedGrid) (up : Bool) (jlat : Nat) (le : List Int)
    (h : ∀ j, j ≠ jlat → j ≠ jlat + 1 → geti le j ≤ (rg.nlon j : Int) - 1) :
    EndBounded rg (clip_lat_end rg up jlat le) := by
  have e1 : ∀ j, j ≠ jlat + 1 → geti (le.set jlat
      (min (geti le jlat) ((rg.nlon jlat : Int) - 1))) j ≤ (rg.nlon j : Int) - 1 := by
    intro j hj
    rw [geti_set]
    split
    · rename_i hc; rw [← hc.1]; exact min_le_right _ _
    · by_cases hji : j = jlat
      · subst hji
        by_cases hl : j < le.length
        · rename_i hc; exact absurd ⟨rfl, hl⟩ hc
        · rw [geti_of_length_le _ _ (Nat.le_of_not_lt hl)]; omega
      · exact h j hji hj
  have e2 := endBounded_set rg (jlat + 1)
    (min (geti (le.set jlat (min (geti le jlat) ((rg.nlon jlat : Int) - 1)))
      (jlat + 1)) ((rg.nlon (jlat + 1) : Int) - 1)) e1 (min_le_right _ _)
  have e3 : ∀ (l : List Int), (∀ j, geti l j ≤ (rg.nlon j : Int) - 1) → ∀ (i : Nat) (j : Nat),
      geti (l.set i ((rg.nlon i : Int) - 1)) j ≤ (rg.nlon j : Int) - 1 :=
    fun l hl i => endBounded_set rg i _ (fun j _ => hl j) (le_refl _)
  intro j
  unfold clip_lat_end
  simp only
  split_ifs
  · exact e3 _ (e3 _ e2 _) _ j
  · exact e3 _ e2 _ j
  · exact e3 _ e2 _ j
  · exact e2 j

theorem region_row_bounds {rg : ReducedGrid} {opts : Options} {parts : Nat → Int} {mypart : Int}
    {up : Bool} {fuel jlat : Nat} {r r1 : RState}
    (h : region_row rg opts parts mypart up fuel jlat r = some r1)
    (hb : EndBounded rg r.lat_end) :
    EndBounded rg r1.lat_end ∧ r1.lat_begin.length = r.lat_begin.length := by
  unfold region_row at h
  split at h
  · cases h
  · rename_i s hs
    obtain ⟨h1, h2, h3⟩ := zipper_loop_shape _ _ _ _ _ _ _ _ _ _ hs
    cases h
    refine ⟨?_, h2⟩
    apply clip_lat_end_bounded
    intro j hj1 hj2
    rw [h1 j hj1 hj2]
    exact hb j

theorem region_rows_bounds {rg : ReducedGrid} {opts : Options} {parts : Nat → Int} {mypart : Int}
    {up : Bool} {fuel : Nat} (rows : List Nat) {r r1 : RState}
    (h : region_rows rg opts parts mypart up fuel rows r = some r1)
    (hb : EndBounded rg r.lat_end) :
    EndBounded rg r1.lat_end ∧ r1.lat_begin.length = r.lat_begin.length := by
  induction rows generalizing r with
  | nil => simp [region_rows] at h; subst h; exact ⟨hb, rfl⟩
  | cons jlat rest ih =>
    simp only [region_rows] at h
    split at h
    · cases h
    · rename_i r2 h2
      obtain ⟨h3, h4⟩ := region_row_bounds h2 hb
      obtain ⟨h5, h6⟩ := ih h h3
      exact ⟨h5, h6.trans h4⟩

theorem region_nodes_begin (rg : ReducedGrid) (rows : List Nat) (lb le : List Int) (n : Int)
    (j : Nat) (hj : j < lb.length) (h : j ∈ rows ∨ 0 ≤ geti lb j) :
    0 ≤ geti (region_nodes rg rows lb le n).1 j ∧
      (region_nodes rg rows lb le n).1.length = lb.length := by
  induction rows generalizing lb n with
  | nil =>
    simp only [region_nodes]
    rcases h with h | h
    · simp at h
    · exact ⟨h, trivial⟩
  | cons a rest ih =>
    simp only [region_nodes]
    have hlen : (lb.set a (max 0 (geti lb a))).length = lb.length := List.length_set _ _ _
    have := ih (lb.set a (max 0 (geti lb a)))
      (if geti le a = (rg.nlon a : Int) - 1
        then n + (geti le a - geti (lb.set a (max 0 (geti lb a))) a + 1) + 1
        else n + (geti le a - geti (lb.set a (max 0 (geti lb a))) a + 1)) (by rw [hlen]; exact hj)
      (by
        by_cases hja : j = a
        · right
          subst hja
          rw [geti_set, if_pos ⟨rfl, hj⟩]
          exact le_max_left _ _
        · rcases h with h | h
          · left
            rcases List.mem_cons.1 h with h | h
            · exact absurd h hja
            · exact h
          · right
            rw [geti_set, if_neg (fun hc => hja hc.1.symm)]
            exact h)
    rw [hlen] at this
    exact this

theorem find_lat_south_lt {rg : ReducedGrid} {parts : Nat → Int} {mypart : Int} {j : Nat}
    (h : find_lat_south rg parts mypart = some j) : j < rg.nlat := by
  unfold find_lat_south at h
  have := List.mem_of_find?_eq_some h
  simpa using this

theorem connect_south_lt {rg : ReducedGrid} {s0 : Nat} (h : s0 < rg.nlat) :
    connect_south rg s0 < rg.nlat := by
  unfold connect_south
  split <;> omega

theorem finish_region_ok {rg : ReducedGrid} {north south : Nat} {r : RState} {region : Region}
    (h : finish_region rg north south r = .ok region) :
    region.north = north ∧ region.south = south ∧ region.elems = r.elems ∧
    region.ntriags = r.ntriags ∧ region.nquads = r.nquads ∧
    region.lat_end = r.lat_end ∧ region.nb_lat_elems = r.nb_lat_elems ∧
    region.lat_begin = (region_nodes rg (List.range' north (south + 1 - north))
      r.lat_begin r.lat_end 0).1 ∧
    region.nnodes = (region_nodes rg (List.range' north (south + 1 - north))
      r.lat_begin r.lat_end 0).2 := by
  unfold finish_region at h
  simp only at h
  split at h
  · cases h
  · cases h
    exact ⟨rfl, rfl, rfl, rfl, rfl, rfl, rfl, rfl, rfl⟩

theorem generate_region_ok {fuel : Nat} {rg : ReducedGrid} {opts : Options}
    {parts : Nat → Int} {mypart : Int} {region : Region}
    (h : generate_region fuel rg opts parts mypart = some (.ok region)) :
    ∃ n0 s0 r, find_lat_north rg parts mypart = some n0 ∧
      find_lat_south rg parts mypart = some s0 ∧
      region_rows rg opts parts mypart (unique_pole_active rg opts) fuel
        (List.range' (connect_north rg n0) (connect_south rg s0 - connect_north rg n0))
        (initial_rstate rg) = some r ∧
      finish_region rg (connect_north rg n0) (connect_south rg s0) r = .ok region := by
  unfold generate_region at h
  split at h
  · rename_i n0 s0 hn hs
    simp only at h
    split at h
    · cases h
    · rename_i r hr
      refine ⟨n0, s0, r, hn, hs, hr, ?_⟩
      simpa using h
  · cases h

theorem generate_region_bounds {fuel : Nat} {rg : ReducedGrid} {opts : Options}
    {parts : Nat → Int} {mypart : Int} {region : Region}
    (h : generate_region fuel rg opts parts mypart = some (.ok region)) :
    RegionBounds rg region := by
  obtain ⟨n0, s0, r, hn, hs, hr, hf⟩ := generate_region_ok h
  obtain ⟨e1, e2, _, _, _, e6, _, e8, _⟩ := finish_region_ok hf
  have hs0 := connect_south_lt (find_lat_south_lt hs)
  have hb0 : EndBounded rg (initial_rstate rg).lat_end := by
    intro j; simp only [initial_rstate]; rw [geti_replicate]; omega
  obtain ⟨h1, h2⟩ := region_rows_bounds _ hr hb0
  simp only [initial_rstate, List.length_replicate] at h2
  refine ⟨by rw [e2]; exact hs0, ?_⟩
  intro j hj1 hj2
  rw [e1] at hj1
  rw [e2] at hj2
  rw [e6, e8]
  refine ⟨?_, h1 j⟩
  refine (region_nodes_begin rg _ r.lat_begin r.lat_end 0 j (by omega) ?_).1
  left
  rw [List.mem_range'_1]
  omega
theorem generate_ok {fuel : Nat} {rg : ReducedGrid} {opts : Options} {parts : Nat → Int}
    {rank : Nat} {elem_counts : List Nat} {mesh : Mesh}
    (h : generate fuel rg opts parts rank elem_counts = some (.ok mesh)) :
    ∃ region, generate_region fuel rg opts parts opts.part = some (.ok region) ∧
      generate_mesh rg opts parts region rank elem_counts = .ok mesh := by
  unfold generate at h
  split at h
  · cases h
  · cases h
  · rename_i region hr
    exact ⟨region, hr, by simpa using h⟩

/-- C5: global node indices are unique within a generated local mesh: for every
grid whose rows are all non-empty and every option combination and partition,
no two node rows written by `generate_mesh` (regular points, periodic ghost
points, pole points) carry the same `glb_idx`. -/
theorem glb_idx_unique (fuel : Nat) (rg : ReducedGrid) (opts : Options) (parts : Nat → Int)
    (rank : Nat) (elem_counts : List Nat) (mesh : Mesh)
    (hrows : ∀ j < rg.nlat, 0 < rg.nlon j)
    (h : generate fuel rg opts parts rank elem_counts = some (.ok mesh)) :
    (mesh.nodes.map (fun nd => nd.glb_idx)).Nodup := by
  obtain ⟨region, hr, hm⟩ := generate_ok h
  exact generate_mesh_glbs_nodup hrows (generate_region_bounds hr) hm

set_option maxRecDepth 100000 in
theorem glb_idx_unique_witness :
    ((run_mesh (generate 20 grid4664 include_pole_options
      (fun _ => 0) 0 [0])).nodes.map (fun nd => nd.glb_idx)).Nodup ∧
    (run_mesh (generate 20 grid4664 include_pole_options
      (fun _ => 0) 0 [0])).nodes.length = 26 :=
  ⟨glb_idx_unique 20 grid4664 include_pole_options (fun _ => 0) 0 [0]
    (run_mesh (generate 20 grid4664 include_pole_options
      (fun _ => 0) 0 [0])) (by decide!) (by decide!), by decide!⟩
/-! ## Node ownership -/

theorem grid_node_ghost (rg : ReducedGrid) (opts : Options) (parts : Nat → Int) (jlat jlon : Nat) :
    (grid_node rg opts parts jlat jlon).flags.ghost = false ↔
      parts (rg.offset jlat + jlon) = opts.part := by
  simp only [grid_node, regular_node, Flags.reset]
  split_ifs <;> simp_all

theorem grid_node_glb (rg : ReducedGrid) (opts : Options) (parts : Nat → Int) (jlat jlon : Nat) :
    (grid_node rg opts parts jlat jlon).glb_idx = ((rg.offset jlat + jlon : Nat) : Int) + 1 := rfl

theorem offset_inj (rg : ReducedGrid) {r c r2 c2 : Nat} (hc : c < rg.nlon r)
    (hc2 : c2 < rg.nlon r2) (h : rg.offset r + c = rg.offset r2 + c2) : r = r2 ∧ c = c2 := by
  rcases Nat.lt_trichotomy r r2 with h1 | h1 | h1
  · have hm : rg.offset (r + 1) ≤ rg.offset r2 := offset_mono rg h1
    rw [offset_succ] at hm
    omega
  · subst h1; exact ⟨rfl, by omega⟩
  · have hm : rg.offset (r2 + 1) ≤ rg.offset r := offset_mono rg h1
    rw [offset_succ] at hm
    omega

theorem filter_length_le_one_of_nodup {α β : Type} [DecidableEq β] (f : α → β) (g : β)
    (l : List α) (h : (l.map f).Nodup) : (l.filter (fun x => decide (f x = g))).length ≤ 1 := by
  induction l with
  | nil => simp
  | cons a t ih =>
    rw [List.map_cons, List.nodup_cons] at h
    by_cases hg : f a = g
    · have ht : t.filter (fun x => decide (f x = g)) = [] := by
        rw [List.filter_eq_nil_iff]
        intro x hx hfx
        apply h.1
        rw [hg]
        exact List.mem_map.2 ⟨x, hx, by simpa using hfx⟩
      simp [List.filter_cons, hg, ht]
    · simp only [List.filter_cons, hg, decide_False, Bool.false_eq_true, if_false]
      exact ih h.2

/-- C3: in a local mesh produced from a grid without empty rows,
a grid point (row `r`, column `c`) occurs at most once; it is stored as a
non-ghost node only in the mesh of its owner and only inside the retained
column range of its row, and it is stored there as a non-ghost node whenever
its owner's region retains its column. -/
theorem node_ownership (fuel : Nat) (rg : ReducedGrid) (opts : Options) (parts : Nat → Int)
    (rank : Nat) (elem_counts : List Nat) (region : Region) (mesh : Mesh)
    (hrows : ∀ j < rg.nlat, 0 < rg.nlon j)
    (h1 : generate_region fuel rg opts parts opts.part = some (.ok region))
    (h2 : generate_mesh rg opts parts region rank elem_counts = .ok mesh)
    (r c : Nat) (hr : r < rg.nlat) (hc : c < rg.nlon r) :
    (mesh.nodes.filter
      (fun nd => decide (nd.glb_idx = ((rg.offset r + c : Nat) : Int) + 1))).length ≤ 1 ∧
    (∀ nd ∈ mesh.nodes, nd.glb_idx = ((rg.offset r + c : Nat) : Int) + 1 →
      nd.flags.ghost = false →
      parts (rg.offset r + c) = opts.part ∧ region.north ≤ r ∧ r ≤ region.south ∧
        geti region.lat_begin r ≤ c ∧ (c : Int) ≤ geti region.lat_end r) ∧
    (parts (rg.offset r + c) = opts.part → region.north ≤ r → r ≤ region.south →
      geti region.lat_begin r ≤ c → (c : Int) ≤ geti region.lat_end r →
      ∃ nd ∈ mesh.nodes, nd.glb_idx = ((rg.offset r + c : Nat) : Int) + 1 ∧
        nd.flags.ghost = false) := by
  have hb := generate_region_bounds h1
  refine ⟨filter_length_le_one_of_nodup _ _ _ (generate_mesh_glbs_nodup hrows hb h2), ?_, ?_⟩
  · intro nd hn hg hgh
    have hnpts : rg.offset (r + 1) ≤ rg.npts := offset_le_npts rg hr
    rw [offset_succ] at hnpts
    rcases generate_mesh_node_cases h2 hn with ⟨j, hj, h3 | ⟨hcnd, p, rfl⟩⟩ | ⟨_, rfl⟩ | ⟨_, rfl⟩
    · rw [mem_row_regular] at h3
      obtain ⟨c2, h4, h5, rfl⟩ := h3
      have hbj := hb.2 j hj.1 hj.2
      rw [grid_node_glb] at hg
      have hjc : c2 < rg.nlon j := by omega
      obtain ⟨rfl, rfl⟩ := offset_inj rg hjc hc (by omega)
      exact ⟨(grid_node_ghost _ _ _ _ _).1 hgh, hj.1, hj.2, by omega, by omega⟩
    · simp [periodic_node, Flags.reset] at hgh
    · exfalso
      simp only [north_pole_node] at hg
      have := pole_glb_gt rg opts hrows (by omega)
        (g := ((rg.offset r + c : Nat) : Int) + 1) (Or.inl (by omega))
      omega
    · exfalso
      simp only [south_pole_node] at hg
      have := pole_glb_gt rg opts hrows (by omega)
        (g := ((rg.offset r + c : Nat) : Int) + 1) (Or.inl (by omega))
      omega
  · intro hp hr1 hr2 hc1 hc2
    refine ⟨grid_node rg opts parts r c, ?_, rfl, (grid_node_ghost _ _ _ _ _).2 hp⟩
    obtain ⟨ns, hns, hm⟩ := generate_mesh_nodes h2
    rw [hm]
    apply List.mem_append_left
    apply List.mem_append_left
    apply mem_fill_rows _ hns
    right
    refine ⟨r, ?_, ?_⟩
    · rw [List.mem_range'_1]; omega
    · rw [mem_row_regular]
      exact ⟨c, by omega, by omega, rfl⟩

set_option maxRecDepth 100000 in
theorem node_ownership_witness :
    owned_count (run_mesh (generate 20 grid4664 (two_parts_options 0)
        parts_rows2 0 [16, 16]))
      + owned_count (run_mesh (generate 20 grid4664
        (two_parts_options 1) parts_rows2 1 [16, 16]))
      = grid4664.npts ∧
    ∃ nd ∈ (mesh_of (generate_mesh grid4664 (two_parts_options 1)
        parts_rows2 (region_of (generate_region 20 grid4664
          (two_parts_options 1) parts_rows2 1)) 1 [16, 16])).nodes,
      nd.glb_idx = ((grid4664.offset 2 + 0 : Nat) : Int) + 1 ∧ nd.flags.ghost = false :=
  ⟨by decide!,
    (node_ownership 20 grid4664 (two_parts_options 1) parts_rows2 1
      [16, 16]
      (region_of (generate_region 20 grid4664
        (two_parts_options 1) parts_rows2 1))
      (mesh_of (generate_mesh grid4664 (two_parts_options 1)
        parts_rows2 (region_of (generate_region 20 grid4664
          (two_parts_options 1) parts_rows2 1)) 1 [16, 16]))
      (by decide!) (by decide!) (by decide!) 2 0 (by decide!) (by decide!)).2.2
      (by decide!) (by decide!) (by decide!) (by decide!) (by decide!)⟩

set_option maxRecDepth 100000 in
/-- C3 fails as stated: on the 4x4 grid with point 5 (row 1, column 1) and the
last row owned by partition 1, both partitions generate a mesh, yet the
non-ghost node counts sum to 15 for 16 grid points: point 5 (global index 6)
is a ghost node in the mesh of partition 0 and absent from the mesh of its
owner, partition 1. -/
theorem node_ownership_counterexample :
    succeeded (generate 20 grid4x4 (two_parts_options 0)
      parts_isolated 0 [16, 8]) = true ∧
    succeeded (generate 20 grid4x4 (two_parts_options 1)
      parts_isolated 1 [16, 8]) = true ∧
    owned_count (run_mesh (generate 20 grid4x4 (two_parts_options 0)
        parts_isolated 0 [16, 8]))
      + owned_count (run_mesh (generate 20 grid4x4
        (two_parts_options 1) parts_isolated 1 [16, 8])) = 15 ∧
    grid4x4.npts = 16 ∧ parts_isolated 5 = 1 ∧
    ((run_mesh (generate 20 grid4x4 (two_parts_options 0)
        parts_isolated 0 [16, 8])).nodes.filter (fun nd => decide (nd.glb_idx = 6))).map
      (fun nd => nd.flags.ghost) = [true] ∧
    (run_mesh (generate 20 grid4x4 (two_parts_options 1)
        parts_isolated 1 [16, 8])).nodes.filter (fun nd => decide (nd.glb_idx = 6)) = [] := by
  decide!
/-! ## Partition of the periodic node -/

set_option maxRecDepth 100000 in
/-- C7, failing input: 5 rows of 4 points, points 0 and 11 owned by partition
1, generated for part 1 of 2.  The retained range of row 3 is empty
(`lat_begin = 4`, `lat_end = 3`), its periodic node (global index 24) is
written right after the periodic node of row 2 and copies partition 1 from
it, although column 3 of row 3 (point 15) belongs to partition 0; the mesh of
part 0 stores the same node with partition 0. -/
theorem periodic_node_partition_failing_input :
    geti (region_of (generate_region 20 grid5x4 (two_parts_options 1) parts_corner 1)).lat_begin 3
      = 4 ∧
    geti (region_of (generate_region 20 grid5x4 (two_parts_options 1) parts_corner 1)).lat_end 3
      = 3 ∧
    (run_mesh (generate 20 grid5x4 (two_parts_options 1) parts_corner 1 [29, 3])).nodes.map
        (fun nd => (nd.glb_idx, nd.part, nd.flags.east))
      = [(1, 1, false), (2, 0, false), (5, 0, false), (6, 0, false), (7, 0, false),
         (8, 0, false), (22, 0, true), (12, 1, false), (23, 1, true), (24, 1, true)] ∧
    parts_corner (grid5x4.offset 3 + 3) = 0 ∧
    ((run_mesh (generate 20 grid5x4 (two_parts_options 0) parts_corner 0 [29, 3])).nodes.filter
        (fun nd => decide (nd.glb_idx = 24))).map (fun nd => nd.part) = [0] := by
  decide!
/-! ## Pole fans -/

theorem foldl_push_triag (α : Type) (mypart : Int) (a b c : α → Int) (l : List α) (s : EState) :
    ((l.foldl (fun s x => push_triag mypart s (a x) (b x) (c x)) s).triags.map Triag.vertices
      = s.triags.map Triag.vertices ++ l.map (fun x => (a x, b x, c x))) ∧
    (l.foldl (fun s x => push_triag mypart s (a x) (b x) (c x)) s).quads = s.quads := by
  induction l generalizing s with
  | nil => simp
  | cons x t ih =>
    simp only [List.foldl_cons, List.map_cons]
    obtain ⟨h1, h2⟩ := ih (push_triag mypart s (a x) (b x) (c x))
    rw [h1, h2]
    simp [push_triag, Triag.vertices]

theorem north_fan_vertices (rg : ReducedGrid) (opts : Options) (mypart : Int)
    (offset_loc : List Int) (jnorth : Int) (s : EState) :
    (north_fan rg opts mypart offset_loc jnorth s).triags.map Triag.vertices
      = s.triags.map Triag.vertices ++ (List.range (rg.nlon 0)).map (fun (k : Nat) =>
          (jnorth, geti offset_loc 0 + (k : Int),
            geti offset_loc 0 + fan_column opts.three_dimensional (rg.nlon 0) (k + 1))) := by
  have h := (foldl_push_triag Nat mypart (fun _ => jnorth + 0)
    (fun ip2 => geti offset_loc 0 + (ip2 : Int))
    (fun ip2 => geti offset_loc 0 +
      (((if opts.three_dimensional ∧ ip2 + 1 = rg.nlon 0 then 0 else ip2 + 1 : Nat)) : Int))
    (List.range (rg.nlon 0)) s).1
  refine h.trans ?_
  congr 1
  apply List.map_congr_left
  intro k _
  simp only [fan_column, add_zero, Prod.mk.injEq, true_and]
  split_ifs <;> simp

theorem south_fan_vertices (rg : ReducedGrid) (opts : Options) (mypart : Int) (region : Region)
    (offset_loc : List Int) (jsouth : Int) (s : EState) :
    (south_fan rg opts mypart region offset_loc jsouth s).triags.map Triag.vertices
      = s.triags.map Triag.vertices ++ (List.range (rg.nlon (rg.nlat - 1))).map (fun (k : Nat) =>
          (jsouth, geti offset_loc (region.south - region.north)
              + fan_column opts.three_dimensional (rg.nlon (rg.nlat - 1)) (k + 1),
            geti offset_loc (region.south - region.north) + (k : Int))) := by
  have h := (foldl_push_triag Nat mypart (fun _ => jsouth + 0)
    (fun ip2 => if opts.three_dimensional ∧ ip2 = rg.nlon (rg.nlat - 1)
      then geti offset_loc (region.south - region.north) + 0
      else geti offset_loc (region.south - region.north) + (ip2 : Int))
    (fun ip2 => geti offset_loc (region.south - region.north) + ((ip2 : Int) - 1))
    (List.range' 1 (rg.nlon (rg.nlat - 1))) s).1
  refine h.trans ?_
  congr 1
  rw [List.range'_eq_map_range, List.map_map]
  apply List.map_congr_left
  intro k _
  simp only [fan_column, add_zero, Function.comp, Prod.mk.injEq, true_and]
  constructor
  · have e : (1 + k = rg.nlon (rg.nlat - 1)) ↔ (k + 1 = rg.nlon (rg.nlat - 1)) := by omega
    simp only [e]
    split_ifs <;> simp
    omega
  · push_cast; ring

theorem numbering_vertices (rank : Nat) (elem_counts : List Nat) (mesh : Mesh) :
    (generate_global_element_numbering rank elem_counts mesh).triags.map Triag.vertices
      = mesh.triags.map Triag.vertices ∧
    (generate_global_element_numbering rank elem_counts mesh).nodes = mesh.nodes := by
  unfold generate_global_element_numbering
  simp only [List.map_map, and_true]
  have : (Triag.vertices ∘ fun (et : Nat × Triag) =>
      if (et.1 : Int) < mesh.ntriags then
        ({ et.2 with glb_idx := 1 + (elem_displs elem_counts rank : Int)
            + (mesh.nquads.toNat : Int) + (et.1 : Int) } : Triag)
      else et.2)
      = Triag.vertices ∘ Prod.snd := by
    funext et
    simp only [Function.comp]
    split <;> rfl
  rw [this, ← List.map_map, List.enum_map_snd]
/-! ## The zipper visits the same candidates for every partition -/

theorem zipper_step_eq (rg : ReducedGrid) (opts : Options) (parts : Nat → Int) (mypart : Int)
    (jlat endN endS : Nat) (s : ZState) :
    zipper_step rg opts parts mypart jlat endN endS s
      = next_cursors endN endS
          (if step_accept rg opts parts mypart jlat s
           then accept_elem s jlat (jlat + 1) (step_try rg opts jlat s).quad
             (step_elem rg opts jlat s) (step_cursors rg opts jlat s).1
             (step_cursors rg opts jlat s).2
           else s)
          (step_cursors rg opts jlat s).1 (step_cursors rg opts jlat s).2 := by
  unfold zipper_step step_accept step_elem step_cursors
  simp only
  by_cases hq : (step_try rg opts jlat s).quad = true
  · simp only [hq, if_true]
  · by_cases hd : (step_try rg opts jlat s).down = true
    · simp only [hq, hd, if_true, if_false]
      simp
    · simp only [hq, hd, if_false]
      simp

theorem step_try_congr (rg : ReducedGrid) (opts : Options) (jlat : Nat) {s t : ZState}
    (h : SameCursors s t) : step_try rg opts jlat s = step_try rg opts jlat t := by
  obtain ⟨h1, h2, h3, h4⟩ := h
  unfold step_try
  rw [h1, h2, h3, h4]

theorem step_cursors_congr (rg : ReducedGrid) (opts : Options) (jlat : Nat) {s t : ZState}
    (h : SameCursors s t) : step_cursors rg opts jlat s = step_cursors rg opts jlat t := by
  unfold step_cursors
  rw [step_try_congr rg opts jlat h]
  obtain ⟨h1, h2, h3, h4⟩ := h
  rw [h1, h2, h3, h4]

theorem step_elem_congr (rg : ReducedGrid) (opts : Options) (jlat : Nat) {s t : ZState}
    (h : SameCursors s t) : step_elem rg opts jlat s = step_elem rg opts jlat t := by
  unfold step_elem
  rw [step_try_congr rg opts jlat h]
  obtain ⟨h1, h2, h3, h4⟩ := h
  rw [h1, h2, h3, h4]

theorem step_accept_congr (rg : ReducedGrid) (opts : Options) (parts : Nat → Int) (mypart : Int)
    (jlat : Nat) {s t : ZState} (h : SameCursors s t) :
    step_accept rg opts parts mypart jlat s = step_accept rg opts parts mypart jlat t := by
  unfold step_accept owner_N2 owner_S2 owner_N1 owner_S1
  rw [step_try_congr rg opts jlat h]
  obtain ⟨h1, h2, h3, h4⟩ := h
  rw [h1, h2, h3, h4]

theorem zipper_step_cursors (rg : ReducedGrid) (opts : Options) (parts : Nat → Int)
    (mypart : Int) (jlat endN endS : Nat) (s : ZState) :
    (zipper_step rg opts parts mypart jlat endN endS s).ipN1 = (step_cursors rg opts jlat s).1 ∧
    (zipper_step rg opts parts mypart jlat endN endS s).ipS1 = (step_cursors rg opts jlat s).2 ∧
    (zipper_step rg opts parts mypart jlat endN endS s).ipN2
      = min endN ((step_cursors rg opts jlat s).1 + 1) ∧
    (zipper_step rg opts parts mypart jlat endN endS s).ipS2
      = min endS ((step_cursors rg opts jlat s).2 + 1) := by
  rw [zipper_step_eq]
  simp [next_cursors]

theorem zipper_step_sameCursors (rg : ReducedGrid) (opts : Options) (parts1 parts2 : Nat → Int)
    (mypart1 mypart2 : Int) (jlat endN endS : Nat) {s t : ZState} (h : SameCursors s t) :
    SameCursors (zipper_step rg opts parts1 mypart1 jlat endN endS s)
      (zipper_step rg opts parts2 mypart2 jlat endN endS t) := by
  obtain ⟨a1, a2, a3, a4⟩ := zipper_step_cursors rg opts parts1 mypart1 jlat endN endS s
  obtain ⟨b1, b2, b3, b4⟩ := zipper_step_cursors rg opts parts2 mypart2 jlat endN endS t
  have hc := step_cursors_congr rg opts jlat h
  exact ⟨by rw [a1, b1, hc], by rw [a2, b2, hc], by rw [a3, b3, hc], by rw [a4, b4, hc]⟩

theorem zipper_step_row (rg : ReducedGrid) (opts : Options) (parts : Nat → Int)
    (mypart : Int) (jlat endN endS : Nat) (s : ZState) :
    (zipper_step rg opts parts mypart jlat endN endS s).row
      = s.row ++ (if step_accept rg opts parts mypart jlat s
          then [step_elem rg opts jlat s] else []) := by
  rw [zipper_step_eq]
  simp only [next_cursors, accept_elem]
  split <;> simp

/-- The rows accepted by the zipper of one row pair are the accepted
candidates, and whether the loop finishes does not depend on the partition. -/
theorem zipper_loop_row (rg : ReducedGrid) (opts : Options) (parts : Nat → Int) (mypart : Int)
    (jlat endN endS : Nat) (fuel : Nat) (s t r : ZState) (hst : SameCursors s t)
    (h : zipper_loop rg opts parts mypart jlat endN endS fuel s = some r) :
    r.row = s.row ++ ((snapshots rg opts jlat endN endS fuel t).filter
      (step_accept rg opts parts mypart jlat)).map (step_elem rg opts jlat) := by
  induction fuel generalizing s t with
  | zero =>
    simp only [zipper_loop] at h
    split at h
    · cases h; simp [snapshots]
    · cases h
  | succ n ih =>
    simp only [zipper_loop] at h
    have hat : (s.ipN1 = endN ∧ s.ipS1 = endS) ↔ (t.ipN1 = endN ∧ t.ipS1 = endS) := by
      rw [hst.1, hst.2.1]
    split at h
    · rename_i hc
      cases h
      simp [snapshots, hat.1 hc]
    · rename_i hc
      have hc2 : ¬ (t.ipN1 = endN ∧ t.ipS1 = endS) := fun h3 => hc (hat.2 h3)
      rw [ih _ _ (zipper_step_sameCursors rg opts parts (fun _ => 0) mypart 0 jlat endN endS hst) h]
      rw [zipper_step_row]
      simp only [snapshots, hc2, if_false, List.filter_cons]
      rw [step_accept_congr rg opts parts mypart jlat hst, step_elem_congr rg opts jlat hst]
      split <;> simp

theorem zipper_loop_isSome_congr (rg : ReducedGrid) (opts : Options) (parts1 parts2 : Nat → Int)
    (mypart1 mypart2 : Int) (jlat endN endS : Nat) (fuel : Nat) (s t : ZState)
    (hst : SameCursors s t) :
    (zipper_loop rg opts parts1 mypart1 jlat endN endS fuel s).isSome
      = (zipper_loop rg opts parts2 mypart2 jlat endN endS fuel t).isSome := by
  induction fuel generalizing s t with
  | zero =>
    simp only [zipper_loop]
    rw [hst.1, hst.2.1]
    split <;> rfl
  | succ n ih =>
    simp only [zipper_loop]
    rw [hst.1, hst.2.1]
    split
    · rfl
    · exact ih _ _ (zipper_step_sameCursors rg opts parts1 parts2 mypart1 mypart2 jlat endN endS hst)
theorem region_row_elems {rg : ReducedGrid} {opts : Options} {parts : Nat → Int} {mypart : Int}
    {fuel jlat : Nat} {r r1 : RState}
    (h : region_row rg opts parts mypart (unique_pole_active rg opts) fuel jlat r = some r1) :
    r1.elems = r.elems ++ [accepted_row fuel rg opts parts mypart jlat] := by
  unfold region_row at h
  split at h
  · cases h
  · rename_i s hs
    cases h
    simp only
    have := zipper_loop_row rg opts parts mypart jlat _ _ fuel
      (start_state rg (unique_pole_active rg opts) jlat r)
      (start_state rg (unique_pole_active rg opts) jlat (initial_rstate rg)) s
      ⟨rfl, rfl, rfl, rfl⟩ hs
    rw [this]
    simp [start_state, accepted_row, candidates]

theorem region_row_isSome (rg : ReducedGrid) (opts : Options) (parts : Nat → Int) (mypart : Int)
    (fuel jlat : Nat) (r : RState) :
    (region_row rg opts parts mypart (unique_pole_active rg opts) fuel jlat r).isSome
      = row_finishes fuel rg opts jlat := by
  unfold region_row row_finishes
  rw [← zipper_loop_isSome_congr rg opts parts (fun _ => 0) mypart 0 jlat _ _ fuel
    (start_state rg (unique_pole_active rg opts) jlat r)
    (start_state rg (unique_pole_active rg opts) jlat (initial_rstate rg)) ⟨rfl, rfl, rfl, rfl⟩]
  split <;> rename_i h1 <;> simp [h1]

theorem region_rows_elems {rg : ReducedGrid} {opts : Options} {parts : Nat → Int} {mypart : Int}
    {fuel : Nat} (rows : List Nat) {r r1 : RState}
    (h : region_rows rg opts parts mypart (unique_pole_active rg opts) fuel rows r = some r1) :
    r1.elems = r.elems ++ rows.map (accepted_row fuel rg opts parts mypart) := by
  induction rows generalizing r with
  | nil => simp [region_rows] at h; subst h; simp
  | cons jlat rest ih =>
    simp only [region_rows] at h
    split at h
    · cases h
    · rename_i r2 h2
      rw [ih h, region_row_elems h2]
      simp

theorem region_rows_isSome (rg : ReducedGrid) (opts : Options) (parts : Nat → Int) (mypart : Int)
    (fuel : Nat) (rows : List Nat) (r : RState) :
    (region_rows rg opts parts mypart (unique_pole_active rg opts) fuel rows r).isSome
      = rows.all (row_finishes fuel rg opts) := by
  induction rows generalizing r with
  | nil => simp [region_rows]
  | cons jlat rest ih =>
    simp only [region_rows, List.all_cons]
    rw [← region_row_isSome rg opts parts mypart fuel jlat r]
    split
    · rename_i h1; simp [h1]
    · rename_i r2 h1; rw [ih]; simp [h1]
/-! ## Every candidate is accepted by exactly one partition -/

theorem step_accept_iff (rg : ReducedGrid) (opts : Options) (parts : Nat → Int) (mypart : Int)
    (jlat : Nat) (s : ZState) :
    step_accept rg opts parts mypart jlat s = true ↔ mypart = step_owner rg opts parts jlat s := by
  unfold step_accept step_owner
  split
  · exact add_quad_iff _ _ _ _ _ _ _ _ _ _
  · split
    · exact add_triag_down_iff _ _ _ _ _ _ _ _ _
    · exact add_triag_up_iff _ _ _ _ _ _ _ _ _

theorem quad_owner_mem (pN1 pN2 pS1 pS2 latN latS nlat : Int) (yN yS : ℚ) :
    quad_owner pN1 pN2 pS1 pS2 latN latS nlat yN yS = pN1 ∨
    quad_owner pN1 pN2 pS1 pS2 latN latS nlat yN yS = pN2 ∨
    quad_owner pN1 pN2 pS1 pS2 latN latS nlat yN yS = pS1 ∨
    quad_owner pN1 pN2 pS1 pS2 latN latS nlat yN yS = pS2 := by
  unfold quad_owner
  split_ifs <;> simp

theorem triag_down_owner_mem (pN1 pN2 pS1 latN latS nlat : Int) (yN yS : ℚ) :
    triag_down_owner pN1 pN2 pS1 latN latS nlat yN yS = pN1 ∨
    triag_down_owner pN1 pN2 pS1 latN latS nlat yN yS = pN2 ∨
    triag_down_owner pN1 pN2 pS1 latN latS nlat yN yS = pS1 := by
  unfold triag_down_owner
  split_ifs <;> simp

theorem triag_up_owner_mem (pN1 pS1 pS2 latN latS nlat : Int) (yN yS : ℚ) :
    triag_up_owner pN1 pS1 pS2 latN latS nlat yN yS = pN1 ∨
    triag_up_owner pN1 pS1 pS2 latN latS nlat yN yS = pS1 ∨
    triag_up_owner pN1 pS1 pS2 latN latS nlat yN yS = pS2 := by
  unfold triag_up_owner
  split_ifs <;> simp

theorem step_owner_mem (rg : ReducedGrid) (opts : Options) (parts : Nat → Int) (jlat : Nat)
    (s : ZState) :
    step_owner rg opts parts jlat s = owner_N1 rg parts jlat s ∨
    step_owner rg opts parts jlat s = owner_N2 rg parts jlat s ∨
    step_owner rg opts parts jlat s = owner_S1 rg parts jlat s ∨
    step_owner rg opts parts jlat s = owner_S2 rg parts jlat s := by
  unfold step_owner
  split
  · exact quad_owner_mem _ _ _ _ _ _ _ _ _
  · split
    · rcases triag_down_owner_mem (owner_N1 rg parts jlat s) (owner_N2 rg parts jlat s)
        (owner_S1 rg parts jlat s) jlat ((jlat + 1 : Nat) : Int) rg.nlat (rg.lat jlat)
        (rg.lat (jlat + 1)) with h | h | h
      · exact Or.inl h
      · exact Or.inr (Or.inl h)
      · exact Or.inr (Or.inr (Or.inl h))
    · rcases triag_up_owner_mem (owner_N1 rg parts jlat s) (owner_S1 rg parts jlat s)
        (owner_S2 rg parts jlat s) jlat ((jlat + 1 : Nat) : Int) rg.nlat (rg.lat jlat)
        (rg.lat (jlat + 1)) with h | h | h
      · exact Or.inl h
      · exact Or.inr (Or.inr (Or.inl h))
      · exact Or.inr (Or.inr (Or.inr h))

theorem owners_in_rows (rg : ReducedGrid) (parts : Nat → Int) (jlat endN endS : Nat) (s : ZState)
    (hN : 0 < rg.nlon jlat) (hS : 0 < rg.nlon (jlat + 1))
    (heN : endN ≤ rg.nlon jlat) (heS : endS ≤ rg.nlon (jlat + 1))
    (hinv : CursorInv endN endS s) :
    OwnsIn rg parts (owner_N1 rg parts jlat s) jlat ∧
    OwnsIn rg parts (owner_N2 rg parts jlat s) jlat ∧
    OwnsIn rg parts (owner_S1 rg parts jlat s) (jlat + 1) ∧
    OwnsIn rg parts (owner_S2 rg parts jlat s) (jlat + 1) := by
  obtain ⟨h1, h2, h3, h4⟩ := hinv
  have a1 : OwnsIn rg parts (owner_N1 rg parts jlat s) jlat := by
    unfold owner_N1
    split
    · exact ⟨s.ipN1, by omega, rfl⟩
    · rename_i hc
      refine ⟨s.ipN1 - 1, by omega, ?_⟩
      congr 1
      omega
  have a3 : OwnsIn rg parts (owner_S1 rg parts jlat s) (jlat + 1) := by
    unfold owner_S1
    split
    · exact ⟨s.ipS1, by omega, rfl⟩
    · rename_i hc
      refine ⟨s.ipS1 - 1, by omega, ?_⟩
      congr 1
      omega
  refine ⟨a1, ?_, a3, ?_⟩
  · unfold owner_N2
    split
    · exact a1
    · exact ⟨s.ipN2, by omega, rfl⟩
  · unfold owner_S2
    split
    · exact a3
    · exact ⟨s.ipS2, by omega, rfl⟩

theorem step_owner_in_rows (rg : ReducedGrid) (opts : Options) (parts : Nat → Int)
    (jlat endN endS : Nat) (s : ZState)
    (hN : 0 < rg.nlon jlat) (hS : 0 < rg.nlon (jlat + 1))
    (heN : endN ≤ rg.nlon jlat) (heS : endS ≤ rg.nlon (jlat + 1))
    (hinv : CursorInv endN endS s) :
    OwnsIn rg parts (step_owner rg opts parts jlat s) jlat ∨
    OwnsIn rg parts (step_owner rg opts parts jlat s) (jlat + 1) := by
  obtain ⟨a1, a2, a3, a4⟩ := owners_in_rows rg parts jlat endN endS s hN hS heN heS hinv
  rcases step_owner_mem rg opts parts jlat s with h | h | h | h <;> rw [h]
  · exact Or.inl a1
  · exact Or.inl a2
  · exact Or.inr a3
  · exact Or.inr a4

theorem zipper_step_cursorInv (rg : ReducedGrid) (opts : Options) (parts : Nat → Int)
    (mypart : Int) (jlat endN endS : Nat) (s : ZState) (hinv : CursorInv endN endS s) :
    CursorInv endN endS (zipper_step rg opts parts mypart jlat endN endS s) := by
  obtain ⟨h1, h2, h3, h4⟩ := hinv
  obtain ⟨a1, a2, a3, a4⟩ := zipper_step_cursors rg opts parts mypart jlat endN endS s
  have hc : (step_cursors rg opts jlat s).1 ≤ endN ∧ (step_cursors rg opts jlat s).2 ≤ endS := by
    unfold step_cursors
    split_ifs <;> simp only <;> omega
  exact ⟨by rw [a1]; exact hc.1, by rw [a2]; exact hc.2, by rw [a3, a1], by rw [a4, a2]⟩

theorem snapshots_cursorInv (rg : ReducedGrid) (opts : Options) (jlat endN endS : Nat)
    (fuel : Nat) (s : ZState) (hinv : CursorInv endN endS s) :
    ∀ c ∈ snapshots rg opts jlat endN endS fuel s, CursorInv endN endS c := by
  induction fuel generalizing s with
  | zero => simp [snapshots]
  | succ n ih =>
    intro c hc
    simp only [snapshots] at hc
    split at hc
    · simp at hc
    · rcases List.mem_cons.1 hc with rfl | hc
      · exact hinv
      · exact ih _ (zipper_step_cursorInv rg opts _ _ jlat endN endS s hinv) c hc

theorem start_state_cursorInv (rg : ReducedGrid) (up : Bool) (jlat : Nat) (r : RState) :
    CursorInv (row_ends rg up jlat).1 (row_ends rg up jlat).2 (start_state rg up jlat r) := by
  unfold CursorInv start_state
  simp only
  refine ⟨Nat.zero_le _, Nat.zero_le _, ?_, ?_⟩ <;> exact Nat.min_comm _ _

theorem row_ends_le (rg : ReducedGrid) (up : Bool) (jlat : Nat) :
    (row_ends rg up jlat).1 ≤ rg.nlon jlat ∧ (row_ends rg up jlat).2 ≤ rg.nlon (jlat + 1) := by
  unfold row_ends
  constructor <;> simp only <;> split <;> omega

theorem candidates_owner (fuel : Nat) (rg : ReducedGrid) (opts : Options) (parts : Nat → Int)
    (jlat : Nat) (hN : 0 < rg.nlon jlat) (hS : 0 < rg.nlon (jlat + 1)) :
    ∀ c ∈ candidates fuel rg opts jlat,
      OwnsIn rg parts (step_owner rg opts parts jlat c) jlat ∨
      OwnsIn rg parts (step_owner rg opts parts jlat c) (jlat + 1) := by
  intro c hc
  have hinv := snapshots_cursorInv rg opts jlat _ _ fuel _
    (start_state_cursorInv rg (unique_pole_active rg opts) jlat (initial_rstate rg)) c hc
  exact step_owner_in_rows rg opts parts jlat _ _ c hN hS
    (row_ends_le rg _ jlat).1 (row_ends_le rg _ jlat).2 hinv
/-! ## The region of a part covers every row pair in which it accepts an element -/

theorem row_has_part_iff (rg : ReducedGrid) (parts : Nat → Int) (p : Int) (r : Nat) :
    row_has_part rg parts p r = true ↔ OwnsIn rg parts p r := by
  unfold row_has_part OwnsIn
  simp [List.any_eq_true]

theorem find?_le_of_mem {l : List Nat} (hl : l.Pairwise (fun a b => a < b)) {p : Nat → Bool}
    {x : Nat} (hx : x ∈ l) (hp : p x = true) : ∃ y, l.find? p = some y ∧ y ≤ x := by
  induction l with
  | nil => simp at hx
  | cons a t ih =>
    rw [List.pairwise_cons] at hl
    by_cases ha : p a = true
    · refine ⟨a, by simp [List.find?_cons, ha], ?_⟩
      rcases List.mem_cons.1 hx with rfl | hx
      · exact Nat.le_refl _
      · exact Nat.le_of_lt (hl.1 x hx)
    · rcases List.mem_cons.1 hx with rfl | hx
      · exact absurd hp ha
      · obtain ⟨y, hy, hyx⟩ := ih hl.2 hx
        exact ⟨y, by simp [List.find?_cons, ha, hy], hyx⟩

theorem find?_ge_of_mem {l : List Nat} (hl : l.Pairwise (fun a b => a > b)) {p : Nat → Bool}
    {x : Nat} (hx : x ∈ l) (hp : p x = true) : ∃ y, l.find? p = some y ∧ x ≤ y := by
  induction l with
  | nil => simp at hx
  | cons a t ih =>
    rw [List.pairwise_cons] at hl
    by_cases ha : p a = true
    · refine ⟨a, by simp [List.find?_cons, ha], ?_⟩
      rcases List.mem_cons.1 hx with rfl | hx
      · exact Nat.le_refl _
      · exact Nat.le_of_lt (hl.1 x hx)
    · rcases List.mem_cons.1 hx with rfl | hx
      · exact absurd hp ha
      · obtain ⟨y, hy, hyx⟩ := ih hl.2 hx
        exact ⟨y, by simp [List.find?_cons, ha, hy], hyx⟩

theorem find_lat_of_owns {rg : ReducedGrid} {parts : Nat → Int} {p : Int} {r : Nat}
    (hr : r < rg.nlat) (h : OwnsIn rg parts p r) :
    ∃ n0 s0, find_lat_north rg parts p = some n0 ∧ find_lat_south rg parts p = some s0 ∧
      n0 ≤ r ∧ r ≤ s0 ∧ s0 < rg.nlat := by
  have hp := (row_has_part_iff rg parts p r).2 h
  obtain ⟨n0, hn0, hn⟩ := find?_le_of_mem (List.pairwise_lt_range rg.nlat)
    (List.mem_range.2 hr) hp
  have hrev : (List.range rg.nlat).reverse.Pairwise (fun a b => a > b) := by
    rw [List.pairwise_reverse]
    exact List.pairwise_lt_range rg.nlat
  obtain ⟨s0, hs0, hs⟩ := find?_ge_of_mem hrev (List.mem_reverse.2 (List.mem_range.2 hr)) hp
  exact ⟨n0, s0, hn0, hs0, hn, hs, find_lat_south_lt hs0⟩

theorem region_covers {rg : ReducedGrid} {parts : Nat → Int} {p : Int} {jlat n0 s0 : Nat}
    (hrows : ∀ j < rg.nlat, 0 < rg.nlon j) (hj : jlat + 1 < rg.nlat)
    (hn : find_lat_north rg parts p = some n0) (hs : find_lat_south rg parts p = some s0)
    (h : OwnsIn rg parts p jlat ∨ OwnsIn rg parts p (jlat + 1)) :
    connect_north rg n0 ≤ jlat ∧ jlat < connect_south rg s0 := by
  have key : ∃ r, (r = jlat ∨ r = jlat + 1) ∧ n0 ≤ r ∧ r ≤ s0 ∧ s0 < rg.nlat := by
    rcases h with h | h
    · obtain ⟨n1, s1, h1, h2, h3, h4, h5⟩ := find_lat_of_owns (by omega) h
      rw [hn] at h1; rw [hs] at h2
      cases h1; cases h2
      exact ⟨jlat, Or.inl rfl, h3, h4, h5⟩
    · obtain ⟨n1, s1, h1, h2, h3, h4, h5⟩ := find_lat_of_owns hj h
      rw [hn] at h1; rw [hs] at h2
      cases h1; cases h2
      exact ⟨jlat + 1, Or.inr rfl, h3, h4, h5⟩
  obtain ⟨r, hr, h3, h4, h5⟩ := key
  unfold connect_north connect_south
  constructor
  · split
    · omega
    · rename_i hc
      have : ¬ (1 ≤ n0) := by
        intro h1
        exact hc ⟨h1, hrows (n0 - 1) (by omega)⟩
      omega
  · split
    · omega
    · rename_i hc
      have : ¬ (s0 + 1 + 1 ≤ rg.nlat) := by
        intro h1
        exact hc ⟨h1, hrows (s0 + 1) (by omega)⟩
      omega

theorem accepted_row_eq_nil_of_not_owns (fuel : Nat) (rg : ReducedGrid) (opts : Options)
    (parts : Nat → Int) (p : Int) (jlat : Nat)
    (hN : 0 < rg.nlon jlat) (hS : 0 < rg.nlon (jlat + 1))
    (h : ¬ (OwnsIn rg parts p jlat ∨ OwnsIn rg parts p (jlat + 1))) :
    accepted_row fuel rg opts parts p jlat = [] := by
  unfold accepted_row
  rw [List.map_eq_nil_iff, List.filter_eq_nil_iff]
  intro c hc hacc
  apply h
  have := candidates_owner fuel rg opts parts jlat hN hS c hc
  rw [(step_accept_iff rg opts parts p jlat c).1 hacc]
  exact this

theorem generate_region_row_elems {fuel : Nat} {rg : ReducedGrid} {opts : Options}
    {parts : Nat → Int} {mypart : Int} {region : Region}
    (h : generate_region fuel rg opts parts mypart = some (.ok region)) (jlat : Nat) :
    row_elems region jlat
      = if region.north ≤ jlat ∧ jlat < region.south
        then accepted_row fuel rg opts parts mypart jlat else [] := by
  obtain ⟨n0, s0, r, hn, hs, hr, hf⟩ := generate_region_ok h
  obtain ⟨e1, e2, e3, _⟩ := finish_region_ok hf
  have he := region_rows_elems _ hr
  simp only [initial_rstate, List.nil_append] at he
  unfold row_elems
  split
  · rename_i hc
    rw [e3, he, e1, e2] at *
    rw [List.getD_eq_getElem?_getD, List.getElem?_map, List.getElem?_range' _ _ (by omega)]
    simp only [Option.map_some', Option.getD_some]
    congr 1
    omega
  · rfl
/-! ## A part that accepts an element has a node -/

theorem geti_set_self (l : List Int) (i : Nat) (v : Int) (h : i < l.length) :
    geti (l.set i v) i = v := by
  rw [geti_set, if_pos ⟨rfl, h⟩]

theorem geti_set_ne (l : List Int) (i j : Nat) (v : Int) (h : i ≠ j) :
    geti (l.set i v) j = geti l j := by
  rw [geti_set, if_neg (fun hc => h hc.1)]

theorem geti_ite_set (c : Prop) [Decidable c] (l : List Int) (i j : Nat) (v : Int) :
    geti (if c then l.set i v else l) j = if c ∧ i = j ∧ i < l.length then v else geti l j := by
  by_cases hc : c
  · simp only [hc, if_true, true_and, geti_set]
  · simp only [hc, if_false, false_and]

theorem length_ite_set (c : Prop) [Decidable c] (l : List Int) (i : Nat) (v : Int) :
    (if c then l.set i v else l).length = l.length := by
  split <;> simp

theorem touch_begin_other (lb : List Int) (latN latS : Nat) (bN bS : Int) (j : Nat)
    (h1 : j ≠ latN) (h2 : j ≠ latS) : geti (touch_begin lb latN latS bN bS) j = geti lb j := by
  unfold touch_begin
  simp only [geti_set, geti_ite_set, Ne.symm h1, Ne.symm h2, false_and, and_false, if_false]

theorem touch_begin_N (lb : List Int) (latN latS : Nat) (bN bS : Int) (hne : latN ≠ latS)
    (hl : latN < lb.length) :
    geti (touch_begin lb latN latS bN bS) latN
      = min (if geti lb latN = -1 then bN else geti lb latN) bN := by
  unfold touch_begin
  simp only [geti_set, geti_ite_set, List.length_set, length_ite_set, Ne.symm hne, hne, hl,
    false_and, and_false, if_false, true_and, and_true, and_self, if_true]

theorem touch_begin_S (lb : List Int) (latN latS : Nat) (bN bS : Int) (hne : latN ≠ latS)
    (hl : latS < lb.length) :
    geti (touch_begin lb latN latS bN bS) latS
      = min (if geti lb latS = -1 then bS else geti lb latS) bS := by
  unfold touch_begin
  simp only [geti_set, geti_ite_set, List.length_set, length_ite_set, Ne.symm hne, hne, hl,
    false_and, and_false, if_false, true_and, and_true, and_self, if_true]

theorem touch_end_N (le : List Int) (latN latS : Nat) (eN eS : Int) (hne : latN ≠ latS)
    (hl : latN < le.length) :
    geti (touch_end le latN latS eN eS) latN = max (geti le latN) eN := by
  unfold touch_end
  simp only
  rw [geti_set_ne _ _ _ _ (Ne.symm hne), geti_set_self _ _ _ hl]

theorem touch_end_S (le : List Int) (latN latS : Nat) (eN eS : Int) (hne : latN ≠ latS)
    (hl : latS < le.length) :
    geti (touch_end le latN latS eN eS) latS = max (geti le latS) eS := by
  unfold touch_end
  simp only
  rw [geti_set_self _ _ _ (by simpa using hl), geti_set_ne _ _ _ _ hne]

/-- Accepting an element keeps the range invariant and marks both rows. -/
theorem touch_rowInv (rg : ReducedGrid) (lb le : List Int) (jlat : Nat) (bN bS eN eS : Int)
    (h : RowInv rg lb le)
    (hbN : 0 ≤ bN ∧ bN ≤ (rg.nlon jlat : Int) ∧ bN ≤ eN)
    (hbS : 0 ≤ bS ∧ bS ≤ (rg.nlon (jlat + 1) : Int) ∧ bS ≤ eS) :
    RowInv rg (touch_begin lb jlat (jlat + 1) bN bS) (touch_end le jlat (jlat + 1) eN eS) ∧
    (∀ j, 0 ≤ geti lb j → 0 ≤ geti (touch_begin lb jlat (jlat + 1) bN bS) j) ∧
    (jlat < lb.length → 0 ≤ geti (touch_begin lb jlat (jlat + 1) bN bS) jlat) := by
  obtain ⟨hlen, hinv⟩ := h
  have hne : jlat ≠ jlat + 1 := by omega
  have key : ∀ j, (geti (touch_begin lb jlat (jlat + 1) bN bS) j = geti lb j ∧
        geti (touch_end le jlat (jlat + 1) eN eS) j = geti le j) ∨
      (j = jlat ∧ j < lb.length ∧
        geti (touch_begin lb jlat (jlat + 1) bN bS) j
          = min (if geti lb jlat = -1 then bN else geti lb jlat) bN ∧
        geti (touch_end le jlat (jlat + 1) eN eS) j = max (geti le jlat) eN) ∨
      (j = jlat + 1 ∧ j < lb.length ∧
        geti (touch_begin lb jlat (jlat + 1) bN bS) j
          = min (if geti lb (jlat + 1) = -1 then bS else geti lb (jlat + 1)) bS ∧
        geti (touch_end le jlat (jlat + 1) eN eS) j = max (geti le (jlat + 1)) eS) := by
    intro j
    by_cases h1 : j = jlat
    · subst h1
      by_cases h2 : j < lb.length
      · right; left
        exact ⟨rfl, h2, touch_begin_N _ _ _ _ _ hne h2, touch_end_N _ _ _ _ _ hne (hlen ▸ h2)⟩
      · left
        have hA : lb.length ≤ j := Nat.le_of_not_lt h2
        have e1 := geti_of_length_le (touch_begin lb j (j + 1) bN bS) j
          (by rw [touch_begin_length]; exact hA)
        have e2 := geti_of_length_le (touch_end le j (j + 1) eN eS) j
          (by rw [touch_end_length, ← hlen]; exact hA)
        have e3 := geti_of_length_le lb j hA
        have e4 := geti_of_length_le le j (by rw [← hlen]; exact hA)
        exact ⟨e1.trans e3.symm, e2.trans e4.symm⟩
    · by_cases h3 : j = jlat + 1
      · subst h3
        by_cases h2 : jlat + 1 < lb.length
        · right; right
          exact ⟨rfl, h2, touch_begin_S _ _ _ _ _ hne h2, touch_end_S _ _ _ _ _ hne (hlen ▸ h2)⟩
        · left
          have hA : lb.length ≤ jlat + 1 := Nat.le_of_not_lt h2
          have e1 := geti_of_length_le (touch_begin lb jlat (jlat + 1) bN bS) (jlat + 1)
            (by rw [touch_begin_length]; exact hA)
          have e2 := geti_of_length_le (touch_end le jlat (jlat + 1) eN eS) (jlat + 1)
            (by rw [touch_end_length, ← hlen]; exact hA)
          have e3 := geti_of_length_le lb (jlat + 1) hA
          have e4 := geti_of_length_le le (jlat + 1) (by rw [← hlen]; exact hA)
          exact ⟨e1.trans e3.symm, e2.trans e4.symm⟩
      · left
        exact ⟨touch_begin_other _ _ _ _ _ _ h1 h3, touch_end_other _ _ _ _ _ _ h1 h3⟩
  refine ⟨⟨by rw [touch_begin_length, touch_end_length, hlen], ?_⟩, ?_, ?_⟩
  · intro j
    have hj := hinv j
    rcases key j with ⟨e1, e2⟩ | ⟨rfl, _, e1, e2⟩ | ⟨rfl, _, e1, e2⟩
    · rw [e1, e2]; exact hj
    · rw [e1, e2]
      split_ifs with hc
      · simp only [min_self]
        exact ⟨Or.inr ⟨hbN.1, hbN.2.1⟩, Or.inl (le_trans hbN.2.2 (le_max_right _ _))⟩
      · rcases hj.1 with h5 | h5
        · exact absurd h5 hc
        · refine ⟨Or.inr ⟨le_min h5.1 hbN.1, le_trans (min_le_left _ _) h5.2⟩, Or.inl ?_⟩
          exact le_trans (min_le_right _ _) (le_trans hbN.2.2 (le_max_right _ _))
    · rw [e1, e2]
      split_ifs with hc
      · simp only [min_self]
        exact ⟨Or.inr ⟨hbS.1, hbS.2.1⟩, Or.inl (le_trans hbS.2.2 (le_max_right _ _))⟩
      · rcases hj.1 with h5 | h5
        · exact absurd h5 hc
        · refine ⟨Or.inr ⟨le_min h5.1 hbS.1, le_trans (min_le_left _ _) h5.2⟩, Or.inl ?_⟩
          exact le_trans (min_le_right _ _) (le_trans hbS.2.2 (le_max_right _ _))
  · intro j hj0
    rcases key j with ⟨e1, _⟩ | ⟨rfl, _, e1, _⟩ | ⟨rfl, _, e1, _⟩
    · rw [e1]; exact hj0
    · rw [e1]
      split_ifs with hc
      · simp only [min_self]; exact hbN.1
      · exact le_min hj0 hbN.1
    · rw [e1]
      split_ifs with hc
      · simp only [min_self]; exact hbS.1
      · exact le_min hj0 hbS.1
  · intro hl
    rw [touch_begin_N _ _ _ _ _ hne hl]
    split_ifs with hc
    · simp only [min_self]; exact hbN.1
    · rcases (hinv jlat).1 with h5 | h5
      · exact absurd h5 hc
      · exact le_min h5.1 hbN.1
theorem step_cursors_ge (rg : ReducedGrid) (opts : Options) (jlat endN endS : Nat) (s : ZState)
    (hinv : CursorInv endN endS s) :
    s.ipN1 ≤ (step_cursors rg opts jlat s).1 ∧ s.ipS1 ≤ (step_cursors rg opts jlat s).2 ∧
    (step_cursors rg opts jlat s).1 ≤ endN ∧ (step_cursors rg opts jlat s).2 ≤ endS := by
  obtain ⟨h1, h2, h3, h4⟩ := hinv
  unfold step_cursors
  split_ifs <;> simp only <;> omega

theorem zipper_step_rowInv (rg : ReducedGrid) (opts : Options) (parts : Nat → Int) (mypart : Int)
    (jlat endN endS : Nat) (s : ZState)
    (heN : endN ≤ rg.nlon jlat) (heS : endS ≤ rg.nlon (jlat + 1))
    (hc : CursorInv endN endS s) (h : RowInv rg s.lat_begin s.lat_end) :
    RowInv rg (zipper_step rg opts parts mypart jlat endN endS s).lat_begin
      (zipper_step rg opts parts mypart jlat endN endS s).lat_end ∧
    (∀ j, 0 ≤ geti s.lat_begin j →
      0 ≤ geti (zipper_step rg opts parts mypart jlat endN endS s).lat_begin j) ∧
    (s.row.length < (zipper_step rg opts parts mypart jlat endN endS s).row.length →
      jlat < s.lat_begin.length →
      0 ≤ geti (zipper_step rg opts parts mypart jlat endN endS s).lat_begin jlat) ∧
    (zipper_step rg opts parts mypart jlat endN endS s).lat_begin.length = s.lat_begin.length ∧
    s.row.length ≤ (zipper_step rg opts parts mypart jlat endN endS s).row.length := by
  obtain ⟨g1, g2, g3, g4⟩ := step_cursors_ge rg opts jlat endN endS s hc
  obtain ⟨c1, c2, _, _⟩ := hc
  rw [zipper_step_eq]
  by_cases hacc : step_accept rg opts parts mypart jlat s = true
  · simp only [hacc, if_true, next_cursors, accept_elem]
    obtain ⟨t1, t2, t3⟩ := touch_rowInv rg s.lat_begin s.lat_end jlat s.ipN1 s.ipS1
      (step_cursors rg opts jlat s).1 (step_cursors rg opts jlat s).2 h
      ⟨by omega, by omega, by omega⟩ ⟨by omega, by omega, by omega⟩
    exact ⟨t1, t2, fun _ hl => t3 hl, touch_begin_length _ _ _ _ _, by simp⟩
  · simp only [hacc, if_false, next_cursors]
    exact ⟨h, fun _ hj => hj, fun hlt => absurd hlt (Nat.lt_irrefl _), rfl, Nat.le_refl _⟩

theorem zipper_loop_rowInv (rg : ReducedGrid) (opts : Options) (parts : Nat → Int) (mypart : Int)
    (jlat endN endS : Nat) (fuel : Nat) (s r : ZState)
    (heN : endN ≤ rg.nlon jlat) (heS : endS ≤ rg.nlon (jlat + 1))
    (hc : CursorInv endN endS s) (h : RowInv rg s.lat_begin s.lat_end)
    (hr : zipper_loop rg opts parts mypart jlat endN endS fuel s = some r) :
    RowInv rg r.lat_begin r.lat_end ∧
    (∀ j, 0 ≤ geti s.lat_begin j → 0 ≤ geti r.lat_begin j) ∧
    (s.row.length < r.row.length → jlat < s.lat_begin.length → 0 ≤ geti r.lat_begin jlat) ∧
    s.row.length ≤ r.row.length := by
  induction fuel generalizing s with
  | zero =>
    simp only [zipper_loop] at hr
    split at hr
    · cases hr
      exact ⟨h, fun _ hj => hj, fun hlt => absurd hlt (Nat.lt_irrefl _), Nat.le_refl _⟩
    · cases hr
  | succ n ih =>
    simp only [zipper_loop] at hr
    split at hr
    · cases hr
      exact ⟨h, fun _ hj => hj, fun hlt => absurd hlt (Nat.lt_irrefl _), Nat.le_refl _⟩
    · obtain ⟨a1, a2, a3, a4, a5⟩ :=
        zipper_step_rowInv rg opts parts mypart jlat endN endS s heN heS hc h
      obtain ⟨b1, b2, b3, b4⟩ := ih _
        (zipper_step_cursorInv rg opts parts mypart jlat endN endS s hc) a1 hr
      refine ⟨b1, fun j hj => b2 j (a2 j hj), ?_, Nat.le_trans a5 b4⟩
      intro hlt hl
      by_cases hx : s.row.length
          < (zipper_step rg opts parts mypart jlat endN endS s).row.length
      · exact b2 jlat (a3 hx hl)
      · exact b3 (by omega) (by rw [a4]; exact hl)

theorem geti_clip_cases (rg : ReducedGrid) (up : Bool) (jlat : Nat) (le : List Int) (j : Nat) :
    geti (clip_lat_end rg up jlat le) j = geti le j ∨
    geti (clip_lat_end rg up jlat le) j = min (geti le j) ((rg.nlon j : Int) - 1) ∨
    geti (clip_lat_end rg up jlat le) j = (rg.nlon j : Int) - 1 := by
  unfold clip_lat_end
  simp only [geti_set, geti_ite_set, List.length_set, length_ite_set]
  by_cases h1 : jlat = j
  · subst h1
    have h2 : ¬ (jlat + 1 = jlat) := by omega
    simp only [h2, false_and, and_false, if_false, true_and]
    split_ifs <;>
      first
      | exact Or.inl rfl
      | exact Or.inr (Or.inl rfl)
      | exact Or.inr (Or.inr rfl)
  · by_cases h2 : jlat + 1 = j
    · subst h2
      simp only [h1, false_and, and_false, if_false, true_and]
      split_ifs <;>
        first
        | exact Or.inl rfl
        | exact Or.inr (Or.inl rfl)
        | exact Or.inr (Or.inr rfl)
    · simp only [h1, h2, false_and, and_false, if_false, true_or]

theorem clip_lat_end_length (rg : ReducedGrid) (up : Bool) (jlat : Nat) (le : List Int) :
    (clip_lat_end rg up jlat le).length = le.length := by
  unfold clip_lat_end
  simp only
  split_ifs <;> simp

theorem clip_rowInv (rg : ReducedGrid) (up : Bool) (jlat : Nat) (lb le : List Int)
    (h : RowInv rg lb le) : RowInv rg lb (clip_lat_end rg up jlat le) := by
  refine ⟨by rw [clip_lat_end_length]; exact h.1, ?_⟩
  intro j
  have hj := h.2 j
  refine ⟨hj.1, ?_⟩
  rcases geti_clip_cases rg up jlat le j with e | e | e <;> rw [e]
  · exact hj.2
  · rcases hj.2 with h1 | h1
    · by_cases h2 : geti le j ≤ (rg.nlon j : Int) - 1
      · left; rw [min_eq_left h2]; exact h1
      · right; rw [min_eq_right (by omega)]
    · right; exact le_min h1 (le_refl _)
  · right; exact le_refl _
theorem region_row_rowInv {rg : ReducedGrid} {opts : Options} {parts : Nat → Int} {mypart : Int}
    {fuel jlat : Nat} {r r1 : RState}
    (h : region_row rg opts parts mypart (unique_pole_active rg opts) fuel jlat r = some r1)
    (hinv : RowInv rg r.lat_begin r.lat_end) :
    RowInv rg r1.lat_begin r1.lat_end ∧
    (∀ j, 0 ≤ geti r.lat_begin j → 0 ≤ geti r1.lat_begin j) ∧
    (accepted_row fuel rg opts parts mypart jlat ≠ [] → jlat < r.lat_begin.length →
      0 ≤ geti r1.lat_begin jlat) := by
  have hel := region_row_elems h
  unfold region_row at h
  split at h
  · cases h
  · rename_i s hs
    obtain ⟨a1, a2, a3, a4⟩ := zipper_loop_rowInv rg opts parts mypart jlat _ _ fuel _ s
      (row_ends_le rg _ jlat).1 (row_ends_le rg _ jlat).2
      (start_state_cursorInv rg _ jlat r) hinv hs
    cases h
    simp only at hel ⊢
    refine ⟨clip_rowInv rg _ jlat _ _ a1, a2, ?_⟩
    intro hne hl
    apply a3 _ hl
    have e : s.row = accepted_row fuel rg opts parts mypart jlat := by
      have := List.append_cancel_left hel
      simpa using this
    rw [e]
    simp only [start_state, List.length_nil]
    exact List.length_pos.2 hne

theorem region_rows_rowInv {rg : ReducedGrid} {opts : Options} {parts : Nat → Int} {mypart : Int}
    {fuel : Nat} (rows : List Nat) {r r1 : RState}
    (h : region_rows rg opts parts mypart (unique_pole_active rg opts) fuel rows r = some r1)
    (hinv : RowInv rg r.lat_begin r.lat_end) :
    RowInv rg r1.lat_begin r1.lat_end ∧
    (∀ j, 0 ≤ geti r.lat_begin j → 0 ≤ geti r1.lat_begin j) ∧
    (∀ j ∈ rows, accepted_row fuel rg opts parts mypart j ≠ [] → j < r.lat_begin.length →
      0 ≤ geti r1.lat_begin j) := by
  induction rows generalizing r with
  | nil => simp [region_rows] at h; subst h; exact ⟨hinv, fun _ hj => hj, by simp⟩
  | cons jlat rest ih =>
    simp only [region_rows] at h
    split at h
    · cases h
    · rename_i r2 h2
      obtain ⟨a1, a2, a3⟩ := region_row_rowInv h2 hinv
      obtain ⟨b1, b2, b3⟩ := ih h a1
      refine ⟨b1, fun j hj => b2 j (a2 j hj), ?_⟩
      intro j hj hne hl
      rcases List.mem_cons.1 hj with rfl | hj
      · exact b2 _ (a3 hne hl)
      · apply b3 j hj hne
        have : r2.lat_begin.length = r.lat_begin.length := by
          unfold region_row at h2
          split at h2
          · cases h2
          · rename_i s hs
            cases h2
            exact (zipper_loop_shape _ _ _ _ _ _ _ _ _ _ hs).2.1
        rw [this]; exact hl
theorem region_nodes_ge (rg : ReducedGrid) (rows : List Nat) (lb le : List Int) (n : Int)
    (hnd : rows.Nodup) (hrows : ∀ j ∈ rows, j < lb.length ∧ 0 < rg.nlon j)
    (hinv : ∀ j ∈ rows, (geti lb j = -1 ∨ (0 ≤ geti lb j ∧ geti lb j ≤ (rg.nlon j : Int))) ∧
      (geti lb j ≤ geti le j ∨ (rg.nlon j : Int) - 1 ≤ geti le j))
    (hb : EndBounded rg le) :
    n ≤ (region_nodes rg rows lb le n).2 ∧
    ((∃ j ∈ rows, 0 ≤ geti lb j) → n + 1 ≤ (region_nodes rg rows lb le n).2) := by
  induction rows generalizing lb n with
  | nil => simp [region_nodes]
  | cons a rest ih =>
    simp only [region_nodes]
    rw [List.nodup_cons] at hnd
    have ha := hrows a (List.mem_cons_self _ _)
    have hia := hinv a (List.mem_cons_self _ _)
    have hba := hb a
    have hga : geti (lb.set a (max 0 (geti lb a))) a = max 0 (geti lb a) :=
      geti_set_self _ _ _ ha.1
    have hrest : ∀ j ∈ rest, geti (lb.set a (max 0 (geti lb a))) j = geti lb j := by
      intro j hj
      apply geti_set_ne
      intro h; subst h; exact hnd.1 hj
    obtain ⟨i1, i2⟩ := ih (lb.set a (max 0 (geti lb a)))
      (if geti le a = (rg.nlon a : Int) - 1
        then n + (geti le a - geti (lb.set a (max 0 (geti lb a))) a + 1) + 1
        else n + (geti le a - geti (lb.set a (max 0 (geti lb a))) a + 1)) hnd.2
      (fun j hj => ⟨by rw [List.length_set]; exact (hrows j (List.mem_cons_of_mem _ hj)).1,
        (hrows j (List.mem_cons_of_mem _ hj)).2⟩)
      (fun j hj => by rw [hrest j hj]; exact hinv j (List.mem_cons_of_mem _ hj))
    rw [hga] at i1 i2
    have hT0 : n ≤ (if geti le a = (rg.nlon a : Int) - 1
        then n + (geti le a - max 0 (geti lb a) + 1) + 1
        else n + (geti le a - max 0 (geti lb a) + 1)) := by
      split_ifs <;> omega
    have hT1 : 0 ≤ geti lb a → n + 1 ≤ (if geti le a = (rg.nlon a : Int) - 1
        then n + (geti le a - max 0 (geti lb a) + 1) + 1
        else n + (geti le a - max 0 (geti lb a) + 1)) := by
      intro h0
      split_ifs <;> omega
    rw [hga]
    refine ⟨le_trans hT0 i1, ?_⟩
    rintro ⟨j, hj, hj0⟩
    rcases List.mem_cons.1 hj with rfl | hj
    · exact le_trans (hT1 hj0) i1
    · exact le_trans (add_le_add_right hT0 1) (i2 ⟨j, hj, by rw [hrest j hj]; exact hj0⟩)

theorem initial_rowInv (rg : ReducedGrid) :
    RowInv rg (initial_rstate rg).lat_begin (initial_rstate rg).lat_end := by
  refine ⟨by simp [initial_rstate], ?_⟩
  intro j
  simp only [initial_rstate, geti_replicate]
  simp

/-- The elements accepted by a finished run of `generate_region` in a row
pair are the accepted candidates of that row pair: a run that raises an error
has accepted none, and a region holds none outside its row pairs. -/
theorem accepted_elems_eq (fuel : Nat) (rg : ReducedGrid) (opts : Options) (parts : Nat → Int)
    (p : Int) (jlat : Nat) (hrows : ∀ j < rg.nlat, 0 < rg.nlon j) (hj : jlat + 1 < rg.nlat)
    (hfin : generate_region fuel rg opts parts p ≠ none) :
    accepted_elems (generate_region fuel rg opts parts p) jlat
      = accepted_row fuel rg opts parts p jlat := by
  have hN := hrows jlat (by omega)
  have hS := hrows (jlat + 1) hj
  have hnil : ¬ (OwnsIn rg parts p jlat ∨ OwnsIn rg parts p (jlat + 1)) →
      accepted_row fuel rg opts parts p jlat = [] :=
    accepted_row_eq_nil_of_not_owns fuel rg opts parts p jlat hN hS
  have hcand : accepted_row fuel rg opts parts p jlat ≠ [] →
      OwnsIn rg parts p jlat ∨ OwnsIn rg parts p (jlat + 1) := by
    intro hne
    by_contra hc
    exact hne (hnil hc)
  cases hg : generate_region fuel rg opts parts p with
  | none => exact absurd hg hfin
  | some res =>
    cases res with
    | ok region =>
      simp only [accepted_elems]
      rw [generate_region_row_elems hg]
      split
      · rfl
      · rename_i hc
        symm
        by_contra hne
        obtain ⟨n0, s0, r, hn, hs, hr, hf⟩ := generate_region_ok hg
        obtain ⟨e1, e2, _⟩ := finish_region_ok hf
        have := region_covers hrows hj hn hs (hcand hne)
        rw [e1, e2] at hc
        exact hc this
    | error e =>
      simp only [accepted_elems]
      symm
      by_contra hne
      have hown := hcand hne
      have hfind : ∃ n0 s0, find_lat_north rg parts p = some n0 ∧
          find_lat_south rg parts p = some s0 := by
        rcases hown with h | h
        · obtain ⟨n0, s0, h1, h2, _⟩ := find_lat_of_owns (by omega) h
          exact ⟨n0, s0, h1, h2⟩
        · obtain ⟨n0, s0, h1, h2, _⟩ := find_lat_of_owns hj h
          exact ⟨n0, s0, h1, h2⟩
      obtain ⟨n0, s0, hn, hs⟩ := hfind
      have hcov := region_covers hrows hj hn hs hown
      have hslt := connect_south_lt (find_lat_south_lt hs)
      unfold generate_region at hg
      rw [hn, hs] at hg
      simp only at hg
      split at hg
      · cases hg
      · rename_i r hr
        obtain ⟨a1, a2, a3⟩ := region_rows_rowInv _ hr (initial_rowInv rg)
        obtain ⟨b1, b2⟩ := region_rows_bounds _ hr (by
          intro j; simp only [initial_rstate]; rw [geti_replicate]; omega)
        simp only [initial_rstate, List.length_replicate] at b2 a3
        have htouched : 0 ≤ geti r.lat_begin jlat :=
          a3 jlat (by rw [List.mem_range'_1]; omega) hne (by omega)
        have hcount := (region_nodes_ge rg
          (List.range' (connect_north rg n0) (connect_south rg s0 + 1 - connect_north rg n0))
          r.lat_begin r.lat_end 0 (List.nodup_range' _ _)
          (fun j hjr => by
            rw [List.mem_range'_1] at hjr
            exact ⟨by omega, hrows j (by omega)⟩)
          (fun j _ => a1.2 j) b1).2
          ⟨jlat, by rw [List.mem_range'_1]; omega, htouched⟩
        simp only [finish_region] at hg
        split at hg
        · rename_i h0
          omega
        · simp at hg
/-! ## Merging the parts of an N-way run -/

theorem flatMap_filter_perm {α : Type} (N : Nat) (f : α → Nat) (l : List α)
    (h : ∀ a ∈ l, f a < N) :
    ((List.range N).flatMap (fun p => l.filter (fun a => decide (f a = p)))).Perm l := by
  induction N generalizing l with
  | zero =>
    cases l with
    | nil => simp
    | cons a t => exact absurd (h a (List.mem_cons_self _ _)) (Nat.not_lt_zero _)
  | succ n ih =>
    rw [List.range_succ, List.flatMap_append]
    simp only [List.flatMap_cons, List.flatMap_nil, List.append_nil]
    have h1 := ih (l.filter (fun a => decide (f a < n))) (by
      intro a ha
      simpa using (List.mem_filter.1 ha).2)
    have h2 : (List.range n).flatMap (fun p => (l.filter (fun a => decide (f a < n))).filter
        (fun a => decide (f a = p)))
        = (List.range n).flatMap (fun p => l.filter (fun a => decide (f a = p))) := by
      apply List.flatMap_congr
      intro p hp
      rw [List.filter_filter]
      apply List.filter_congr
      intro a _
      have := List.mem_range.1 hp
      by_cases hfa : f a = p
      · simp [hfa, this]
      · simp [hfa]
    rw [h2] at h1
    have h3 : l.filter (fun a => decide (f a = n)) = l.filter (fun a => !decide (f a < n)) := by
      apply List.filter_congr
      intro a ha
      have := h a ha
      by_cases hfa : f a = n
      · simp [hfa]
      · have : f a < n := by omega
        simp [hfa, this]
    rw [h3]
    exact (List.Perm.append_right _ h1).trans (List.filter_append_perm _ l)

theorem zipper_loop_stuck (rg : ReducedGrid) (opts : Options) (parts : Nat → Int) (mypart : Int)
    (jlat endN endS : Nat) (fuel : Nat) (s : ZState)
    (hend : ¬ (s.ipN1 = endN ∧ s.ipS1 = endS))
    (hstuck : SameCursors (zipper_step rg opts parts mypart jlat endN endS s) s) :
    zipper_loop rg opts parts mypart jlat endN endS fuel s = none := by
  induction fuel with
  | zero => simp only [zipper_loop]; rw [if_neg hend]
  | succ n ih =>
    simp only [zipper_loop]
    rw [if_neg hend]
    have := zipper_loop_isSome_congr rg opts parts parts mypart mypart jlat endN endS n _ _ hstuck
    rw [ih] at this
    simpa using this

theorem zipper_step_advances (rg : ReducedGrid) (opts : Options) (parts : Nat → Int)
    (mypart : Int) (jlat endN endS : Nat) (fuel : Nat) (s : ZState)
    (hinv : CursorInv endN endS s) (hend : ¬ (s.ipN1 = endN ∧ s.ipS1 = endS))
    (h : (zipper_loop rg opts parts mypart jlat endN endS fuel s).isSome = true) :
    s.ipN1 + s.ipS1 < (zipper_step rg opts parts mypart jlat endN endS s).ipN1
      + (zipper_step rg opts parts mypart jlat endN endS s).ipS1 := by
  by_contra hlt
  obtain ⟨a1, a2, a3, a4⟩ := zipper_step_cursors rg opts parts mypart jlat endN endS s
  obtain ⟨g1, g2, _, _⟩ := step_cursors_ge rg opts jlat endN endS s hinv
  obtain ⟨_, _, i3, i4⟩ := hinv
  have e1 : (step_cursors rg opts jlat s).1 = s.ipN1 := by omega
  have e2 : (step_cursors rg opts jlat s).2 = s.ipS1 := by omega
  have hst : SameCursors (zipper_step rg opts parts mypart jlat endN endS s) s :=
    ⟨by rw [a1, e1], by rw [a2, e2], by rw [a3, e1, i3], by rw [a4, e2, i4]⟩
  rw [zipper_loop_stuck rg opts parts mypart jlat endN endS fuel s hend hst] at h
  cases h

theorem snapshots_increasing (rg : ReducedGrid) (opts : Options) (jlat endN endS : Nat)
    (fuel : Nat) (s : ZState) (hinv : CursorInv endN endS s)
    (h : (zipper_loop rg opts (fun _ => 0) 0 jlat endN endS fuel s).isSome = true) :
    (∀ c ∈ snapshots rg opts jlat endN endS fuel s, s.ipN1 + s.ipS1 ≤ c.ipN1 + c.ipS1) ∧
    (snapshots rg opts jlat endN endS fuel s).Pairwise
      (fun a b => a.ipN1 + a.ipS1 < b.ipN1 + b.ipS1) := by
  induction fuel generalizing s with
  | zero => simp [snapshots]
  | succ n ih =>
    have hadv := zipper_step_advances rg opts (fun _ => 0) 0 jlat endN endS (n + 1) s hinv
    simp only [snapshots]
    simp only [zipper_loop] at h hadv
    split
    · simp
    · rename_i hend
      rw [if_neg hend] at h hadv
      have hlt := hadv hend h
      obtain ⟨i1, i2⟩ := ih _ (zipper_step_cursorInv rg opts _ _ jlat endN endS s hinv) h
      refine ⟨?_, ?_⟩
      · intro c hc
        rcases List.mem_cons.1 hc with rfl | hc
        · exact Nat.le_refl _
        · have := i1 c hc
          omega
      · rw [List.pairwise_cons]
        refine ⟨?_, i2⟩
        intro c hc
        have := i1 c hc
        omega

theorem step_elem_cursors (rg : ReducedGrid) (opts : Options) (jlat : Nat) (s : ZState) :
    (step_elem rg opts jlat s).e0 = (s.ipN1 : Int) ∧
    (step_elem rg opts jlat s).e1 = (s.ipS1 : Int) := by
  unfold step_elem
  split_ifs <;> exact ⟨rfl, rfl⟩

theorem candidates_nodup (fuel : Nat) (rg : ReducedGrid) (opts : Options) (jlat : Nat)
    (h : row_finishes fuel rg opts jlat = true) :
    ((candidates fuel rg opts jlat).map (step_elem rg opts jlat)).Nodup := by
  unfold row_finishes at h
  have hp := (snapshots_increasing rg opts jlat _ _ fuel _
    (start_state_cursorInv rg (unique_pole_active rg opts) jlat (initial_rstate rg)) h).2
  unfold candidates
  rw [List.Nodup, List.pairwise_map]
  refine hp.imp ?_
  intro a b hab heq
  have ha := step_elem_cursors rg opts jlat a
  have hb := step_elem_cursors rg opts jlat b
  rw [heq] at ha
  have e1 : (a.ipN1 : Int) = b.ipN1 := ha.1.symm.trans hb.1
  have e2 : (a.ipS1 : Int) = b.ipS1 := ha.2.symm.trans hb.2
  omega
theorem row_of_point (rg : ReducedGrid) (k n : Nat) (hk : k ≤ rg.nlat) (h : n < rg.offset k) :
    ∃ r, r < k ∧ ∃ i, i < rg.nlon r ∧ n = rg.offset r + i := by
  induction k with
  | zero => simp [ReducedGrid.offset] at h
  | succ m ih =>
    by_cases hm : n < rg.offset m
    · obtain ⟨r, hr, hi⟩ := ih (by omega) hm
      exact ⟨r, by omega, hi⟩
    · rw [offset_succ] at h
      exact ⟨m, by omega, n - rg.offset m, by omega, by omega⟩

theorem owns_of_point {rg : ReducedGrid} {parts : Nat → Int} {p : Int} {n : Nat}
    (hn : n < rg.npts) (hp : parts n = p) : ∃ r, r < rg.nlat ∧ OwnsIn rg parts p r := by
  rw [← offset_nlat] at hn
  obtain ⟨r, hr, i, hi, e⟩ := row_of_point rg rg.nlat n (Nat.le_refl _) hn
  exact ⟨r, hr, i, hi, by rw [← e]; exact hp⟩

theorem owner_range {rg : ReducedGrid} {parts : Nat → Int} {N : Nat} {p : Int} {r : Nat}
    (hparts : ∀ n, n < rg.npts → 0 ≤ parts n ∧ parts n < (N : Int))
    (hr : r < rg.nlat) (h : OwnsIn rg parts p r) : 0 ≤ p ∧ p < (N : Int) := by
  obtain ⟨i, hi, e⟩ := h
  have h1 : rg.offset (r + 1) ≤ rg.npts := offset_le_npts rg (by omega)
  rw [offset_succ] at h1
  rw [← e]
  exact hparts _ (by omega)

theorem step_owner_one (rg : ReducedGrid) (opts : Options) (jlat : Nat) (s : ZState) :
    step_owner rg opts (fun _ => 0) jlat s = 0 := by
  rcases step_owner_mem rg opts (fun _ => 0) jlat s with h | h | h | h <;> rw [h] <;>
    simp [owner_N1, owner_N2, owner_S1, owner_S2]

theorem accepted_row_one (fuel : Nat) (rg : ReducedGrid) (opts : Options) (jlat : Nat) :
    accepted_row fuel rg opts (fun _ => 0) 0 jlat
      = (candidates fuel rg opts jlat).map (step_elem rg opts jlat) := by
  unfold accepted_row
  rw [List.filter_eq_self.2]
  intro c _
  rw [step_accept_iff, step_owner_one]

theorem rows_finish_of_one {fuel : Nat} {rg : ReducedGrid} {opts : Options}
    (hrows : ∀ j < rg.nlat, 0 < rg.nlon j)
    (hfin : generate_region fuel rg opts (fun _ => 0) 0 ≠ none) (jlat : Nat)
    (hj : jlat + 1 < rg.nlat) : row_finishes fuel rg opts jlat = true := by
  have hown : OwnsIn rg (fun _ => 0) 0 jlat := ⟨0, hrows jlat (by omega), rfl⟩
  obtain ⟨n0, s0, hn, hs, _⟩ := find_lat_of_owns (by omega : jlat < rg.nlat) hown
  have hcov := region_covers hrows hj hn hs (Or.inl hown)
  unfold generate_region at hfin
  rw [hn, hs] at hfin
  simp only at hfin
  have hsome : (region_rows rg opts (fun _ => 0) 0 (unique_pole_active rg opts) fuel
      (List.range' (connect_north rg n0) (connect_south rg s0 - connect_north rg n0))
      (initial_rstate rg)).isSome = true := by
    split at hfin
    · exact absurd rfl hfin
    · rename_i r hr; rw [hr]; rfl
  rw [region_rows_isSome, List.all_eq_true] at hsome
  exact hsome jlat (by rw [List.mem_range'_1]; omega)

theorem generate_region_finishes {fuel : Nat} {rg : ReducedGrid} {opts : Options}
    (hrows : ∀ j < rg.nlat, 0 < rg.nlon j)
    (hfin : generate_region fuel rg opts (fun _ => 0) 0 ≠ none) (parts : Nat → Int) (p : Int) :
    generate_region fuel rg opts parts p ≠ none := by
  unfold generate_region
  split
  · rename_i n0 s0 hn hs
    simp only
    have hslt := connect_south_lt (find_lat_south_lt hs)
    have hsome : (region_rows rg opts parts p (unique_pole_active rg opts) fuel
        (List.range' (connect_north rg n0) (connect_south rg s0 - connect_north rg n0))
        (initial_rstate rg)).isSome = true := by
      rw [region_rows_isSome, List.all_eq_true]
      intro j hjr
      rw [List.mem_range'_1] at hjr
      exact rows_finish_of_one hrows hfin j (by omega)
    split
    · rename_i hnone; rw [hnone] at hsome; cases hsome
    · simp
  · simp

theorem generate_region_in_range {fuel : Nat} {rg : ReducedGrid} {opts : Options}
    {parts : Nat → Int} {p : Int} {n : Nat} (hn : n < rg.npts) (hp : parts n = p) :
    generate_region fuel rg opts parts p ≠ some (.error .indexOutOfRange) := by
  obtain ⟨r, hr, hown⟩ := owns_of_point hn hp
  obtain ⟨n0, s0, h1, h2, _⟩ := find_lat_of_owns hr hown
  unfold generate_region
  rw [h1, h2]
  simp only
  split
  · simp
  · simp only [finish_region]
    split
    · simp
    · simp
theorem accepted_row_merge (fuel N : Nat) (rg : ReducedGrid) (opts : Options)
    (parts : Nat → Int) (jlat : Nat) (hrows : ∀ j < rg.nlat, 0 < rg.nlon j)
    (hparts : ∀ n, n < rg.npts → 0 ≤ parts n ∧ parts n < (N : Int))
    (hj : jlat + 1 < rg.nlat) :
    ((List.range N).flatMap (fun (p : Nat) => accepted_row fuel rg opts parts (p : Int) jlat)).Perm
      ((candidates fuel rg opts jlat).map (step_elem rg opts jlat)) := by
  have hN := hrows jlat (by omega)
  have hS := hrows (jlat + 1) hj
  have hrange : ∀ c ∈ candidates fuel rg opts jlat,
      0 ≤ step_owner rg opts parts jlat c ∧ step_owner rg opts parts jlat c < (N : Int) := by
    intro c hc
    rcases candidates_owner fuel rg opts parts jlat hN hS c hc with h | h
    · exact owner_range hparts (by omega) h
    · exact owner_range hparts hj h
  have h1 := flatMap_filter_perm N (fun c => (step_owner rg opts parts jlat c).toNat)
    (candidates fuel rg opts jlat) (by
      intro c hc
      have := hrange c hc
      simp only
      omega)
  have h2 : (List.range N).flatMap (fun (p : Nat) => accepted_row fuel rg opts parts (p : Int) jlat)
      = ((List.range N).flatMap (fun (p : Nat) => (candidates fuel rg opts jlat).filter
          (fun c => decide ((step_owner rg opts parts jlat c).toNat = p)))).map
          (step_elem rg opts jlat) := by
    rw [List.map_flatMap]
    apply List.flatMap_congr
    intro p _
    unfold accepted_row
    congr 1
    apply List.filter_congr
    intro c hc
    have := hrange c hc
    rw [Bool.eq_iff_iff, step_accept_iff, decide_eq_true_iff]
    omega
  rw [h2]
  exact h1.map _

/-- Finishing runs partition the elements: on a grid whose rows are all
non-empty, for every assignment of the
points to the partitions `0..N-1` in which each partition owns a point, and
every row pair `jlat`: if the 1-partition run of `generate_region` finishes
(within `fuel` loop passes), then so does the run of every part, none of them
indexes a row out of range, and the elements the parts `0..N-1` accept in the
row pair, put together, are a rearrangement of the elements the 1-partition run
accepts there and contain no element twice (so the parts are pairwise
disjoint and each element of the 1-partition run is accepted exactly once). -/
theorem nway_elements_partition (fuel N : Nat) (rg : ReducedGrid) (opts : Options)
    (parts : Nat → Int) (jlat : Nat) (hrows : ∀ j, j < rg.nlat → 0 < rg.nlon j)
    (hparts : ∀ n, n < rg.npts → 0 ≤ parts n ∧ parts n < (N : Int))
    (hown : ∀ p, p < N → ∃ n, n < rg.npts ∧ parts n = (p : Int))
    (hj : jlat + 1 < rg.nlat)
    (hfin : generate_region fuel rg opts (fun _ => 0) 0 ≠ none) :
    (∀ p, p < N → generate_region fuel rg opts parts (p : Int) ≠ none ∧
      generate_region fuel rg opts parts (p : Int) ≠ some (.error .indexOutOfRange)) ∧
    ((List.range N).flatMap (fun (p : Nat) =>
      accepted_elems (generate_region fuel rg opts parts (p : Int)) jlat)).Perm
      (accepted_elems (generate_region fuel rg opts (fun _ => 0) 0) jlat) ∧
    ((List.range N).flatMap (fun (p : Nat) =>
      accepted_elems (generate_region fuel rg opts parts (p : Int)) jlat)).Nodup := by
  have hall : ∀ p : Int, generate_region fuel rg opts parts p ≠ none :=
    fun p => generate_region_finishes hrows hfin parts p
  have hone : accepted_elems (generate_region fuel rg opts (fun _ => 0) 0) jlat
      = (candidates fuel rg opts jlat).map (step_elem rg opts jlat) := by
    rw [accepted_elems_eq fuel rg opts _ 0 jlat hrows hj hfin, accepted_row_one]
  have hmerge : (List.range N).flatMap (fun (p : Nat) =>
      accepted_elems (generate_region fuel rg opts parts (p : Int)) jlat)
      = (List.range N).flatMap (fun (p : Nat) => accepted_row fuel rg opts parts (p : Int) jlat) := by
    apply List.flatMap_congr
    intro p _
    exact accepted_elems_eq fuel rg opts parts (p : Int) jlat hrows hj (hall _)
  have hperm := accepted_row_merge fuel N rg opts parts jlat hrows hparts hj
  refine ⟨?_, ?_, ?_⟩
  · intro p hp
    obtain ⟨n, hn, hpn⟩ := hown p hp
    exact ⟨hall _, generate_region_in_range hn hpn⟩
  · rw [hmerge, hone]
    exact hperm
  · rw [hmerge]
    exact hperm.nodup_iff.2 (candidates_nodup fuel rg opts jlat
      (rows_finish_of_one hrows hfin jlat hj))

set_option maxRecDepth 100000 in
/-- Row pair 1 of `[4,6,6,4]`, split into two partitions by row ranges. -/
theorem nway_elements_partition_witness :
    ((List.range 2).flatMap (fun (p : Nat) =>
      accepted_elems (generate_region 100 grid4664 default_options parts_rows2 (p : Int)) 1)).Perm
      (accepted_elems (generate_region 100 grid4664 default_options (fun _ => 0) 0) 1) :=
  (nway_elements_partition 100 2 grid4664 default_options parts_rows2 1
    (by decide!) (by decide!) (by decide!) (by decide!) (by decide!)).2.1
/-! ## The zipper loop terminates on well-formed longitudes -/

theorem lon_le_end (f : Nat → ℚ) (n : Nat) (h : ∀ c, c < n → f c < f (c + 1)) :
    ∀ k a, a + k = n → f a ≤ f n := by
  intro k
  induction k with
  | zero => intro a ha; simp at ha; subst ha; exact le_refl _
  | succ m ih =>
    intro a ha
    exact le_trans (le_of_lt (h a (by omega))) (ih (a + 1) (by omega))

theorem rules_north_end (opts : Options) (jlat ipN1 ipN2 ipS1 ipS2 : Nat) (xN1 xN2 xS1 xS2 : ℚ)
    (hN : ipN1 = ipN2) (hS : ipS1 ≠ ipS2) (hd : |xN1 - xS2| < |xS1 - xN2|) :
    rules opts jlat ipN1 ipN2 ipS1 ipS2 xN1 xN2 xS1 xS2 = ⟨true, false, false⟩ := by
  unfold rules rules_of
  simp only [hN, hS, ne_eq, not_false_eq_true, if_true, hd, ne_of_lt hd, le_of_lt hd, and_self,
    if_false, ite_self]

theorem rules_south_end (opts : Options) (jlat ipN1 ipN2 ipS1 ipS2 : Nat) (xN1 xN2 xS1 xS2 : ℚ)
    (hS : ipS1 = ipS2) (hN : ipN1 ≠ ipN2) (hd : |xS1 - xN2| < |xN1 - xS2|) :
    rules opts jlat ipN1 ipN2 ipS1 ipS2 xN1 xN2 xS1 xS2 = ⟨false, true, false⟩ := by
  unfold rules rules_of
  simp only [hS, hN, ne_eq, not_true_eq_false, not_false_eq_true, if_true, if_false,
    ne_of_gt hd, not_lt_of_gt hd, le_of_lt hd, ge_iff_le, and_self, and_false, and_true, ite_self]

theorem step_cursors_progress (rg : ReducedGrid) (opts : Options) (jlat endN endS : Nat)
    (s : ZState)
    (hN : ∀ c, c < endN → rule_lon rg opts jlat c < rule_lon rg opts jlat (c + 1))
    (hS : ∀ c, c < endS → rule_lon rg opts (jlat + 1) c < rule_lon rg opts (jlat + 1) (c + 1))
    (hw : rule_lon rg opts jlat endN = rule_lon rg opts (jlat + 1) endS)
    (hinv : CursorInv endN endS s) (hend : ¬ (s.ipN1 = endN ∧ s.ipS1 = endS)) :
    s.ipN1 + s.ipS1 < (step_cursors rg opts jlat s).1 + (step_cursors rg opts jlat s).2 := by
  obtain ⟨h1, h2, h3, h4⟩ := hinv
  by_cases a : s.ipN1 = endN
  · have b : s.ipS1 < endS := by
      rcases Nat.lt_or_ge s.ipS1 endS with h | h
      · exact h
      · exact absurd ⟨a, by omega⟩ hend
    have e3 : s.ipN2 = s.ipN1 := by omega
    have e4 : s.ipS2 = s.ipS1 + 1 := by omega
    have l1 := hS s.ipS1 b
    have l2 := lon_le_end (fun c => rule_lon rg opts (jlat + 1) c) endS hS
      (endS - (s.ipS1 + 1)) (s.ipS1 + 1) (by omega)
    simp only at l2
    have hr := rules_north_end opts jlat s.ipN1 s.ipN2 s.ipS1 s.ipS2
      (rule_lon rg opts jlat s.ipN1) (rule_lon rg opts jlat s.ipN2)
      (rule_lon rg opts (jlat + 1) s.ipS1) (rule_lon rg opts (jlat + 1) s.ipS2)
      e3.symm (by omega) (by
        rw [e3, e4, a, hw, abs_of_nonneg (by linarith), abs_of_neg (by linarith)]
        linarith)
    unfold step_cursors step_try
    rw [hr]
    simp only [Bool.false_eq_true, if_false]
    omega
  · by_cases b : s.ipS1 = endS
    · have a1 : s.ipN1 < endN := by omega
      have e3 : s.ipN2 = s.ipN1 + 1 := by omega
      have e4 : s.ipS2 = s.ipS1 := by omega
      have l1 := hN s.ipN1 a1
      have l2 := lon_le_end (fun c => rule_lon rg opts jlat c) endN hN
        (endN - (s.ipN1 + 1)) (s.ipN1 + 1) (by omega)
      simp only at l2
      have hr := rules_south_end opts jlat s.ipN1 s.ipN2 s.ipS1 s.ipS2
        (rule_lon rg opts jlat s.ipN1) (rule_lon rg opts jlat s.ipN2)
        (rule_lon rg opts (jlat + 1) s.ipS1) (rule_lon rg opts (jlat + 1) s.ipS2)
        e4.symm (by omega) (by
          rw [e3, e4, b, ← hw, abs_of_nonneg (by linarith), abs_of_neg (by linarith)]
          linarith)
      unfold step_cursors step_try
      rw [hr]
      simp only [Bool.false_eq_true, if_false, if_true]
      omega
    · unfold step_cursors
      split_ifs <;> simp only <;> omega

theorem step_accept_one (rg : ReducedGrid) (opts : Options) (jlat : Nat) (s : ZState) :
    step_accept rg opts (fun _ => 0) 0 jlat s = true := by
  rw [step_accept_iff, step_owner_one]

theorem zipper_step_one (rg : ReducedGrid) (opts : Options) (jlat endN endS : Nat) (s : ZState) :
    (zipper_step rg opts (fun _ => 0) 0 jlat endN endS s).lat_begin
      = touch_begin s.lat_begin jlat (jlat + 1) s.ipN1 s.ipS1 ∧
    (zipper_step rg opts (fun _ => 0) 0 jlat endN endS s).lat_end
      = touch_end s.lat_end jlat (jlat + 1) (step_cursors rg opts jlat s).1
          (step_cursors rg opts jlat s).2 := by
  rw [zipper_step_eq]
  refine ⟨?_, ?_⟩ <;> simp only [step_accept_one, if_true, next_cursors, accept_elem]

theorem zipper_loop_full (rg : ReducedGrid) (opts : Options) (jlat endN endS : Nat)
    (hpos : 0 < endN ∨ 0 < endS) (fuel : Nat) (s r : ZState)
    (hl : jlat + 1 < s.lat_begin.length) (hll : s.lat_begin.length = s.lat_end.length)
    (hlb : ∀ j, -1 ≤ geti s.lat_begin j)
    (hJ : (s.ipN1 = 0 ∧ s.ipS1 = 0) ∨
      (geti s.lat_begin jlat = 0 ∧ geti s.lat_begin (jlat + 1) = 0 ∧
        (s.ipN1 : Int) ≤ geti s.lat_end jlat ∧ (s.ipS1 : Int) ≤ geti s.lat_end (jlat + 1)))
    (hr : zipper_loop rg opts (fun _ => 0) 0 jlat endN endS fuel s = some r) :
    geti r.lat_begin jlat = 0 ∧ geti r.lat_begin (jlat + 1) = 0 ∧
    (endN : Int) ≤ geti r.lat_end jlat ∧ (endS : Int) ≤ geti r.lat_end (jlat + 1) ∧
    (∀ j, j ≠ jlat → j ≠ jlat + 1 →
      geti r.lat_begin j = geti s.lat_begin j ∧ geti r.lat_end j = geti s.lat_end j) ∧
    r.lat_begin.length = s.lat_begin.length ∧ r.lat_end.length = s.lat_end.length := by
  have hdone : ∀ s : ZState, ((s.ipN1 = 0 ∧ s.ipS1 = 0) ∨
      (geti s.lat_begin jlat = 0 ∧ geti s.lat_begin (jlat + 1) = 0 ∧
        (s.ipN1 : Int) ≤ geti s.lat_end jlat ∧ (s.ipS1 : Int) ≤ geti s.lat_end (jlat + 1))) →
      s.ipN1 = endN ∧ s.ipS1 = endS →
      geti s.lat_begin jlat = 0 ∧ geti s.lat_begin (jlat + 1) = 0 ∧
      (endN : Int) ≤ geti s.lat_end jlat ∧ (endS : Int) ≤ geti s.lat_end (jlat + 1) := by
    intro s hJ hend
    rcases hJ with h | h
    · omega
    · rw [← hend.1, ← hend.2]; exact h
  induction fuel generalizing s with
  | zero =>
    simp only [zipper_loop] at hr
    split at hr
    · rename_i hend
      cases hr
      obtain ⟨a, b, c, d⟩ := hdone _ hJ hend
      exact ⟨a, b, c, d, fun _ _ _ => ⟨rfl, rfl⟩, rfl, rfl⟩
    · cases hr
  | succ n ih =>
    simp only [zipper_loop] at hr
    split at hr
    · rename_i hend
      cases hr
      obtain ⟨a, b, c, d⟩ := hdone _ hJ hend
      exact ⟨a, b, c, d, fun _ _ _ => ⟨rfl, rfl⟩, rfl, rfl⟩
    · obtain ⟨e1, e2⟩ := zipper_step_one rg opts jlat endN endS s
      obtain ⟨c1, c2, _, _⟩ := zipper_step_cursors rg opts (fun _ => 0) 0 jlat endN endS s
      have hne : jlat ≠ jlat + 1 := by omega
      have bN := touch_begin_N s.lat_begin jlat (jlat + 1) s.ipN1 s.ipS1 hne (by omega)
      have bS := touch_begin_S s.lat_begin jlat (jlat + 1) s.ipN1 s.ipS1 hne hl
      have eN := touch_end_N s.lat_end jlat (jlat + 1) (step_cursors rg opts jlat s).1
        (step_cursors rg opts jlat s).2 hne (by omega)
      have eS := touch_end_S s.lat_end jlat (jlat + 1) (step_cursors rg opts jlat s).1
        (step_cursors rg opts jlat s).2 hne (by omega)
      have hN1 := hlb jlat
      have hS1 := hlb (jlat + 1)
      have bN0 : geti (touch_begin s.lat_begin jlat (jlat + 1) s.ipN1 s.ipS1) jlat = 0 := by
        rw [bN]
        rcases hJ with h | h
        · rw [h.1]
          split_ifs <;> simp only [Nat.cast_zero] <;> omega
        · rw [h.1]
          simp
      have bS0 : geti (touch_begin s.lat_begin jlat (jlat + 1) s.ipN1 s.ipS1) (jlat + 1) = 0 := by
        rw [bS]
        rcases hJ with h | h
        · rw [h.2]
          split_ifs <;> simp only [Nat.cast_zero] <;> omega
        · rw [h.2.1]
          simp
      have hstep := ih (zipper_step rg opts (fun _ => 0) 0 jlat endN endS s)
        (by rw [e1, touch_begin_length]; exact hl)
        (by rw [e1, e2, touch_begin_length, touch_end_length]; exact hll)
        (by
          intro j
          rw [e1]
          by_cases h1 : j = jlat
          · subst h1; rw [bN0]; omega
          · by_cases h2 : j = jlat + 1
            · subst h2; rw [bS0]; omega
            · rw [touch_begin_other _ _ _ _ _ _ h1 h2]; exact hlb j)
        (Or.inr (by
          rw [e1, e2, c1, c2, eN, eS]
          exact ⟨bN0, bS0, le_max_right _ _, le_max_right _ _⟩))
        hr
      obtain ⟨r1, r2, r3, r4, r5, r6, r7⟩ := hstep
      refine ⟨r1, r2, r3, r4, ?_, ?_, ?_⟩
      · intro j h1 h2
        obtain ⟨q1, q2⟩ := r5 j h1 h2
        rw [q1, q2, e1, e2, touch_begin_other _ _ _ _ _ _ h1 h2, touch_end_other _ _ _ _ _ _ h1 h2]
        exact ⟨rfl, rfl⟩
      · rw [r6, e1, touch_begin_length]
      · rw [r7, e2, touch_end_length]

theorem geti_clip_plain (rg : ReducedGrid) (jlat : Nat) (le : List Int) (j : Nat)
    (hl : jlat + 1 < le.length) :
    geti (clip_lat_end rg false jlat le) j
      = if j = jlat ∨ j = jlat + 1 then min (geti le j) ((rg.nlon j : Int) - 1)
        else geti le j := by
  unfold clip_lat_end
  simp only [Bool.false_eq_true, and_false, if_false, geti_set, List.length_set]
  by_cases h1 : jlat = j
  · subst h1
    have h2 : ¬ (jlat + 1 = jlat) := by omega
    have h3 : jlat < le.length := by omega
    simp only [h2, h3, false_and, if_false, true_and, and_self, if_true, true_or]
  · by_cases h2 : jlat + 1 = j
    · subst h2
      simp only [h1, hl, false_and, if_false, and_self, if_true, or_true]
    · have h1' : ¬ (j = jlat) := fun h => h1 h.symm
      have h2' : ¬ (j = jlat + 1) := fun h => h2 h.symm
      simp only [h1, h2, h1', h2', false_and, if_false, or_self]

theorem region_row_full (rg : ReducedGrid) (opts : Options) (fuel jlat : Nat) (r r1 : RState)
    (hpos : 0 < rg.nlon jlat ∨ 0 < rg.nlon (jlat + 1))
    (hl : jlat + 1 < r.lat_begin.length) (hll : r.lat_begin.length = r.lat_end.length)
    (hlb : ∀ j, -1 ≤ geti r.lat_begin j)
    (h : region_row rg opts (fun _ => 0) 0 false fuel jlat r = some r1) :
    geti r1.lat_begin jlat = 0 ∧ geti r1.lat_begin (jlat + 1) = 0 ∧
    geti r1.lat_end jlat = (rg.nlon jlat : Int) - 1 ∧
    geti r1.lat_end (jlat + 1) = (rg.nlon (jlat + 1) : Int) - 1 ∧
    (∀ j, j ≠ jlat → j ≠ jlat + 1 →
      geti r1.lat_begin j = geti r.lat_begin j ∧ geti r1.lat_end j = geti r.lat_end j) ∧
    r1.lat_begin.length = r.lat_begin.length ∧ r1.lat_end.length = r.lat_end.length := by
  unfold region_row at h
  split at h
  · cases h
  · rename_i s hs
    cases h
    have he : row_ends rg false jlat = (rg.nlon jlat, rg.nlon (jlat + 1)) := by
      simp [row_ends]
    rw [he] at hs
    obtain ⟨a1, a2, a3, a4, a5, a6, a7⟩ := zipper_loop_full rg opts jlat _ _ hpos fuel _ s
      hl hll hlb (Or.inl ⟨rfl, rfl⟩) hs
    simp only [start_state] at a5 a6 a7
    simp only
    have hl2 : jlat + 1 < s.lat_end.length := by omega
    refine ⟨a1, a2, ?_, ?_, ?_, a6, ?_⟩
    · rw [geti_clip_plain rg jlat _ _ hl2, if_pos (Or.inl rfl)]
      exact min_eq_right (by omega)
    · rw [geti_clip_plain rg jlat _ _ hl2, if_pos (Or.inr rfl)]
      exact min_eq_right (by omega)
    · intro j h1 h2
      rw [geti_clip_plain rg jlat _ _ hl2, if_neg (by tauto)]
      exact a5 j h1 h2
    · rw [clip_lat_end_length]; exact a7

theorem enumFrom_ids {α : Type} (glb : α → Int) (set : α → Int → α)
    (hset : ∀ a v, glb (set a v) = v) (g : Int) (n : Int) (l : List α) (k : Nat)
    (h : k + l.length ≤ n.toNat) :
    ((l.enumFrom k).map (fun p => if (p.1 : Int) < n then set p.2 (g + (p.1 : Int)) else p.2)).map
      glb = (List.range' k l.length).map (fun (e : Nat) => g + (e : Int)) := by
  induction l generalizing k with
  | nil => simp
  | cons a t ih =>
    simp only [List.enumFrom_cons, List.map_cons, List.length_cons, List.range'_succ]
    simp only [List.length_cons] at h
    rw [if_pos (by omega), hset, ih (k + 1) (by omega)]

theorem range'_split (s a b : Nat) :
    List.range' s (a + b) = List.range' s a ++ List.range' (s + a) b := by
  rw [Nat.add_comm a b, ← List.range'_append s a b 1, Nat.one_mul]

theorem sum_take_succ (c : List Nat) (k : Nat) (hk : k < c.length) :
    (c.take (k + 1)).sum = (c.take k).sum + c.get ⟨k, hk⟩ := by
  induction c generalizing k with
  | nil => simp at hk
  | cons a t ih =>
    cases k with
    | zero => simp
    | succ n =>
      simp only [List.length_cons] at hk
      simp only [List.take_succ_cons, List.sum_cons, List.get_cons_succ]
      rw [ih n (by omega)]
      omega

theorem sum_take_le (c : List Nat) (k : Nat) : (c.take k).sum ≤ c.sum := by
  have h := List.sum_take_add_sum_drop c k
  omega

theorem wrap_int_of_range (x : Int) (h0 : 0 ≤ x) (h1 : x < 2147483648) : wrap_int x = x := by
  unfold wrap_int
  omega

theorem elem_displs_eq_sum (c : List Nat) (rank : Nat) (hsum : c.sum < 2147483648) :
    elem_displs c rank = ((c.take rank).sum : Nat) := by
  induction rank with
  | zero => simp [elem_displs]
  | succ r ih =>
    have hle := sum_take_le c (r + 1)
    have hstep : (c.take (r + 1)).sum = (c.take r).sum + c.getD r 0 := by
      by_cases hr : r < c.length
      · rw [sum_take_succ c r hr, List.getD_eq_getElem _ _ hr]
        rfl
      · rw [List.take_of_length_le (by omega), List.take_of_length_le (by omega),
          List.getD_eq_default _ _ (by omega)]
        rfl
    unfold elem_displs
    rw [ih, wrap_int_of_range _ (by omega) (by omega), hstep]
    push_cast
    rfl

theorem numbering_ids (rank : Nat) (c : List Nat) (mesh : Mesh) (hfull : FullStorage mesh)
    (hsum : c.sum < 2147483648) :
    elem_ids (generate_global_element_numbering rank c mesh)
      = (List.range' ((c.take rank).sum + 1) (loc_nb_elems mesh)).map
          (fun (e : Nat) => (e : Int)) := by
  obtain ⟨hq, ht⟩ := hfull
  unfold elem_ids generate_global_element_numbering loc_nb_elems
  rw [elem_displs_eq_sum c rank hsum]
  simp only [List.enum]
  rw [enumFrom_ids (fun (q : Quad) => q.glb_idx) (fun q v => { q with glb_idx := v })
      (fun _ _ => rfl) _ mesh.nquads mesh.quads 0 (by omega),
    enumFrom_ids (fun (t : Triag) => t.glb_idx) (fun t v => { t with glb_idx := v })
      (fun _ _ => rfl) _ mesh.ntriags mesh.triags 0 (by omega)]
  rw [hq, ht, range'_split, List.map_append]
  congr 1
  · rw [List.range'_eq_map_range, List.range'_eq_map_range, List.map_map, List.map_map]
    apply List.map_congr_left
    intro e _
    simp only [Function.comp]
    push_cast
    omega
  · rw [List.range'_eq_map_range, List.range'_eq_map_range, List.map_map, List.map_map]
    apply List.map_congr_left
    intro e _
    simp only [Function.comp]
    push_cast
    omega

theorem gathered_from (c : List Nat) (ms : List Mesh) (k : Nat)
    (hc : ms.map loc_nb_elems = c.drop k) (hfull : ∀ m ∈ ms, FullStorage m)
    (hsum : c.sum < 2147483648) :
    (ms.enumFrom k).flatMap (fun p => elem_ids (generate_global_element_numbering p.1 c p.2))
      = (List.range' ((c.take k).sum + 1) (c.drop k).sum).map (fun (e : Nat) => (e : Int)) := by
  induction ms generalizing k with
  | nil =>
    simp only [List.map_nil] at hc
    rw [← hc]
    simp
  | cons m t ih =>
    simp only [List.map_cons] at hc
    have hk : k < c.length := by
      by_contra hge
      rw [List.drop_eq_nil_of_le (by omega)] at hc
      cases hc
    have hd : c.drop k = c.get ⟨k, hk⟩ :: c.drop (k + 1) := List.drop_eq_getElem_cons hk
    rw [hd] at hc
    obtain ⟨h1, h2⟩ := List.cons.inj hc
    have ht := sum_take_succ c k hk
    simp only [List.enumFrom_cons, List.flatMap_cons]
    rw [numbering_ids k c m (hfull m (List.mem_cons_self _ _)) hsum,
      ih (k + 1) h2 (fun x hx => hfull x (List.mem_cons_of_mem _ hx)), hd, List.sum_cons,
      range'_split, List.map_append, h1, ht]
    congr 3
    omega

/-- C15 (amended): for every vector `c` of per-rank element counts (the
gathered `loc_nb_elems` of meshes whose allocated element rows are all
present) whose total is below `2^31`, the ids that
`generate_global_element_numbering` assigns on rank `r` are exactly
`(sum of c_i, i < r) + 1, ..., (sum of c_i, i <= r)` in row order, and the ids
gathered over all ranks are exactly `1, ..., sum of all c_i`, none repeated. -/
theorem global_element_numbering (c : List Nat) (meshes : List Mesh)
    (hc : meshes.map loc_nb_elems = c) (hfull : ∀ m ∈ meshes, FullStorage m)
    (hsum : c.sum < 2147483648) :
    (∀ r (hr : r < meshes.length),
      elem_ids (generate_global_element_numbering r c (meshes.get ⟨r, hr⟩))
        = (List.range' ((c.take r).sum + 1) (c.getD r 0)).map (fun (e : Nat) => (e : Int))) ∧
    gathered_ids c meshes = (List.range' 1 c.sum).map (fun (e : Nat) => (e : Int)) ∧
    (gathered_ids c meshes).Nodup := by
  have hg : gathered_ids c meshes = (List.range' 1 c.sum).map (fun (e : Nat) => (e : Int)) := by
    have := gathered_from c meshes 0 (by simpa using hc) hfull hsum
    simpa [gathered_ids, List.enum] using this
  refine ⟨?_, hg, ?_⟩
  · intro r hr
    rw [numbering_ids r c _ (hfull _ (List.get_mem _ _ _)) hsum]
    congr 2
    subst hc
    simp [List.getD_eq_getElem?_getD, List.getElem?_map, List.getElem?_eq_getElem hr]
  · rw [hg]
    exact (List.nodup_range' 1 c.sum).map (fun a b hab => by simpa using hab)

theorem global_element_numbering_witness :
    gathered_ids [3, 0, 2] three_ranks = [1, 2, 3, 4, 5] :=
  (global_element_numbering [3, 0, 2] three_ranks (by decide) (by decide) (by decide)).2.1

/-- C15: counterexample.  Three ranks with 2000000000, 2000000000 and 1
elements: the total is above `2^31 - 1`, the displacement of rank 2 computed in
`int` is `-294967296` instead of 4000000000, and the one element of rank 2
receives the id `-294967295` instead of 4000000001. -/
theorem global_element_numbering_counterexample :
    elem_displs [2000000000, 2000000000, 1] 2 = -294967296 ∧
    elem_ids (generate_global_element_numbering 2 [2000000000, 2000000000, 1]
      { nnodes := 0, nquads := 0, ntriags := 1, nodes := [], quads := []
        triags := [⟨0, 1, 2, 0, 2⟩], nodes_max_glb_idx := 0, elems_max_glb_idx := 0 })
      = [-294967295] := by
  decide

theorem numbering_quad_id (rank : Nat) (c : List Nat) (M : Mesh) (k : Nat)
    (hk : k < (generate_global_element_numbering rank c M).quads.length)
    (hlt : (k : Int) < M.nquads) :
    ((generate_global_element_numbering rank c M).quads.get ⟨k, hk⟩).glb_idx
      = (elem_displs c rank : Int) + (k : Int) + 1 := by
  simp only [generate_global_element_numbering, List.get_eq_getElem, List.getElem_map,
    List.getElem_enum, if_pos hlt]
  omega

theorem numbering_triag_id (rank : Nat) (c : List Nat) (M : Mesh) (k : Nat)
    (hk : k < (generate_global_element_numbering rank c M).triags.length)
    (hlt : (k : Int) < M.ntriags) (hq : 0 ≤ M.nquads) :
    ((generate_global_element_numbering rank c M).triags.get ⟨k, hk⟩).glb_idx
      = (elem_displs c rank : Int) + M.nquads + (k : Int) + 1 := by
  simp only [generate_global_element_numbering, List.get_eq_getElem, List.getElem_map,
    List.getElem_enum, if_pos hlt]
  omega

theorem generate_mesh_numbering {rg : ReducedGrid} {opts : Options} {parts : Nat → Int}
    {region : Region} {rank : Nat} {elem_counts : List Nat} {mesh : Mesh}
    (h : generate_mesh rg opts parts region rank elem_counts = .ok mesh) :
    ∃ M, mesh = generate_global_element_numbering rank elem_counts M ∧
      M.nquads = (region.nquads : Int) ∧ M.ntriags = (final_counts rg opts region).2 := by
  unfold generate_mesh at h
  simp only at h
  split at h
  · cases h
  · split at h
    · cases h
    · cases h
      exact ⟨_, rfl, rfl, rfl⟩

/-- C16: after `generate_mesh` on a rank with numbering offset
`o = elem_displs[rank]`, the quad in row `k` has global id `o + k + 1` and the
triangle in row `k` has global id `o + nquads + k + 1`, `nquads` the number of
quad rows: all quads are numbered before all triangles and each group in
storage order. -/
theorem element_numbering_order (rg : ReducedGrid) (opts : Options) (parts : Nat → Int)
    (region : Region) (rank : Nat) (elem_counts : List Nat) (mesh : Mesh)
    (h : generate_mesh rg opts parts region rank elem_counts = .ok mesh) :
    mesh.nquads = (region.nquads : Int) ∧
    (∀ k (hk : k < mesh.quads.length), (k : Int) < mesh.nquads →
      (mesh.quads.get ⟨k, hk⟩).glb_idx = (elem_displs elem_counts rank : Int) + (k : Int) + 1) ∧
    (∀ k (hk : k < mesh.triags.length), (k : Int) < mesh.ntriags →
      (mesh.triags.get ⟨k, hk⟩).glb_idx
        = (elem_displs elem_counts rank : Int) + mesh.nquads + (k : Int) + 1) := by
  obtain ⟨M, rfl, hq, ht⟩ := generate_mesh_numbering h
  have e1 : (generate_global_element_numbering rank elem_counts M).nquads = M.nquads := rfl
  have e2 : (generate_global_element_numbering rank elem_counts M).ntriags = M.ntriags := rfl
  refine ⟨by rw [e1, hq], ?_, ?_⟩
  · intro k hk hlt
    exact numbering_quad_id rank elem_counts M k hk (by rw [← e1]; exact hlt)
  · intro k hk hlt
    rw [e1]
    exact numbering_triag_id rank elem_counts M k hk (by rw [← e2]; exact hlt) (by rw [hq]; omega)
set_option maxRecDepth 100000 in
/-- On `[4,6,6,4]` without triangulation, generated as rank 1 behind a rank
with 5 elements: 6 quads with ids 6..11, then 20 triangles with ids 12..31. -/
theorem element_numbering_order_witness :
    (mesh_of (generate_mesh grid4664 quad_options (fun _ => 0)
      (region_of (generate_region 20 grid4664 quad_options (fun _ => 0) 0)) 1 [5, 26])).nquads = 6 ∧
    (mesh_of (generate_mesh grid4664 quad_options (fun _ => 0)
      (region_of (generate_region 20 grid4664 quad_options (fun _ => 0) 0)) 1 [5, 26])).quads.map
        (fun q => q.glb_idx) = [6, 7, 8, 9, 10, 11] ∧
    ((mesh_of (generate_mesh grid4664 quad_options (fun _ => 0)
      (region_of (generate_region 20 grid4664 quad_options (fun _ => 0) 0)) 1 [5, 26])).triags.map
        (fun t => t.glb_idx)).take 3 = [12, 13, 14] := by
  have h := (element_numbering_order grid4664 quad_options (fun _ => 0)
    (region_of (generate_region 20 grid4664 quad_options (fun _ => 0) 0)) 1 [5, 26]
    (mesh_of (generate_mesh grid4664 quad_options (fun _ => 0)
      (region_of (generate_region 20 grid4664 quad_options (fun _ => 0) 0)) 1 [5, 26]))
    (by decide!)).1
  have e : (region_of (generate_region 20 grid4664 quad_options (fun _ => 0) 0)).nquads = 6 := by
    decide!
  rw [e] at h
  exact ⟨h, by decide!, by decide!⟩
/-! ## Failed calls leave the mesh untouched -/

theorem fill_rows_error {rg : ReducedGrid} {opts : Options} {parts : Nat → Int}
    {mypart : Int} {region : Region} {inp isp : Bool} (rows : List Nat) (s : NState)
    (e : MeshError) (h : fill_rows rg opts parts mypart region inp isp rows s = .error e) :
    e = .indexOutOfRange := by
  induction rows generalizing s with
  | nil => simp [fill_rows] at h
  | cons jlat rest ih =>
    simp only [fill_rows] at h
    split at h
    · rename_i e2 h2
      cases h
      unfold fill_row at h2
      simp only at h2
      split at h2
      · split at h2
        · cases h2; rfl
        · cases h2
      · cases h2
    · exact ih _ h

theorem generate_mesh_error {rg : ReducedGrid} {opts : Options} {parts : Nat → Int}
    {region : Region} {rank : Nat} {elem_counts : List Nat} {e : MeshError}
    (h : generate_mesh rg opts parts region rank elem_counts = .error e) :
    (e = .badParameter ∧ opts.three_dimensional = true ∧ opts.nb_parts ≠ 1) ∨
    e = .indexOutOfRange := by
  unfold generate_mesh at h
  simp only at h
  split at h
  · rename_i hc
    cases h
    exact Or.inl ⟨rfl, hc⟩
  · split at h
    · rename_i e2 he
      cases h
      exact Or.inr (fill_rows_error _ _ _ he)
    · cases h

theorem generate_region_error {fuel : Nat} {rg : ReducedGrid} {opts : Options}
    {parts : Nat → Int} {mypart : Int} {e : MeshError}
    (h : generate_region fuel rg opts parts mypart = some (.error e)) :
    e = .tooManyPartitions ∨ e = .indexOutOfRange := by
  unfold generate_region at h
  split at h
  · simp only at h
    split at h
    · cases h
    · simp only [finish_region, Option.some.injEq] at h
      split at h
      · cases h; exact Or.inl rfl
      · cases h
  · cases h
    exact Or.inr rfl

theorem generate_ops_error {fuel : Nat} {grid : Grid} {opts : Options} {parts : Nat → Int}
    {rank : Nat} {elem_counts : List Nat} {ops : List MeshOp} {e : MeshError}
    (h : generate_ops fuel grid opts parts rank elem_counts = some (ops, .error e))
    (he : e ≠ .indexOutOfRange) : ops = [] := by
  unfold generate_ops at h
  split at h
  · cases h; rfl
  · split at h
    · cases h
    · cases h; rfl
    · rename_i rg region hr
      unfold generate_mesh_ops at h
      split at h
      · rename_i ops2 e2 hm
        cases h
        split at hm
        · cases hm; rfl
        · split at hm
          · rename_i hnc _ e3 he3
            cases hm
            rcases generate_mesh_error he3 with ⟨_, hc⟩ | h3
            · exact absurd hc hnc
            · exact absurd h3 he
          · cases hm
      · cases h

/-- C11: whenever `generate(grid, distribution, mesh)` ends with an error that
the source raises (bad grid type, zero-node region, three-dimensional with
several partitions; every error except the model's stand-in for an unchecked
array access), no operation has been performed on the mesh: for every type
of mesh states and every effect of the mesh operations, the mesh after the
call is the mesh before the call. -/
theorem generate_all_or_nothing {σ : Type} (apply : σ → MeshOp → σ) (mesh0 mesh1 : σ)
    (fuel : Nat) (grid : Grid) (opts : Options) (parts : Nat → Int) (rank : Nat)
    (elem_counts : List Nat) (e : MeshError)
    (h : generate_on apply mesh0 fuel grid opts parts rank elem_counts = some (mesh1, .error e))
    (he : e ≠ .indexOutOfRange) : mesh1 = mesh0 := by
  unfold generate_on at h
  cases hg : generate_ops fuel grid opts parts rank elem_counts with
  | none => rw [hg] at h; cases h
  | some r =>
    rw [hg] at h
    obtain ⟨ops, out⟩ := r
    simp only [Option.map_some', Option.some.injEq, Prod.mk.injEq] at h
    obtain ⟨h1, h2⟩ := h
    subst h2
    rw [generate_ops_error hg he] at h1
    exact h1.symm

set_option maxRecDepth 100000 in
/-- A three-dimensional call for two partitions on `[4,6,6,4]`: the error is
`BadParameter` and a mesh that already records an operation is unchanged. -/
theorem generate_all_or_nothing_witness :
    generate_on record_ops [MeshOp.set_grid] 20 (Grid.reduced grid4664) parallel_3d_options
      (fun _ => 0) 0 [0] = some ([MeshOp.set_grid], .error .badParameter) ∧
    ([MeshOp.set_grid] : List MeshOp) = [MeshOp.set_grid] :=
  ⟨by decide!, generate_all_or_nothing record_ops [MeshOp.set_grid] [MeshOp.set_grid] 20
    (Grid.reduced grid4664) parallel_3d_options (fun _ => 0) 0 [0] .badParameter
    (by decide!) (by decide)⟩
/-! ## The pole patch rejects no row -/

theorem push_triag_length (mypart : Int) (s : EState) (a b c : Int) :
    (push_triag mypart s a b c).triags.length = s.triags.length + 1 := by
  simp [push_triag]

theorem foldl_triags_length (f : PState → Nat → PState)
    (hf : ∀ p x, (f p x).es.triags.length = p.es.triags.length + 2) (l : List Nat) (p : PState) :
    (l.foldl f p).es.triags.length = p.es.triags.length + 2 * l.length := by
  induction l generalizing p with
  | nil => simp
  | cons a t ih =>
    simp only [List.foldl_cons, List.length_cons]
    rw [ih, hf]
    omega

theorem pole_patch_length (mypart o : Int) (nlon_first nlon_loop : Nat) (swap : Bool)
    (s : EState) :
    (pole_patch mypart o nlon_first nlon_loop swap s).triags.length
      = s.triags.length + patch_count nlon_loop := by
  unfold pole_patch patch_count
  cases swap
  · simp only [Bool.false_eq_true, if_false]
    rw [push_triag_length, foldl_triags_length _ (by intro p x; simp [push_triag]),
      List.length_range]
    simp only [push_triag_length]
    omega
  · simp only [if_true]
    rw [push_triag_length, foldl_triags_length _ (by intro p x; simp [push_triag]),
      List.length_range]
    simp only [push_triag_length]
    omega

theorem fill_rows_ok_3d {rg : ReducedGrid} {opts : Options} {parts : Nat → Int}
    {mypart : Int} {region : Region} {inp isp : Bool} (h3d : opts.three_dimensional = true)
    (rows : List Nat) (s : NState) :
    ∃ ns, fill_rows rg opts parts mypart region inp isp rows s = .ok ns := by
  induction rows generalizing s with
  | nil => exact ⟨s, rfl⟩
  | cons jlat rest ih =>
    simp only [fill_rows]
    have : ∃ s1, fill_row rg opts parts mypart region inp isp jlat s = .ok s1 := by
      unfold fill_row
      simp only [h3d, Bool.not_true, Bool.false_eq_true, false_and, if_false]
      exact ⟨_, rfl⟩
    obtain ⟨s1, hs1⟩ := this
    rw [hs1]
    exact ih s1

theorem numbering_triags_length (rank : Nat) (c : List Nat) (M : Mesh) :
    (generate_global_element_numbering rank c M).triags.length = M.triags.length := by
  simp [generate_global_element_numbering]

set_option maxRecDepth 1000000 in
/-- C12: failing input.  Grid `[3,6,6,3]`, three-dimensional, `patch_pole`, one
partition.  The patch is active at both poles and both polar rows have 3
points; no error is raised.  `generate_mesh` allocates `30 + (3-2) + (3-2) = 32`
triangle rows and writes 34: after the 30 triangles of the region the patches
write `(0,1,2)`, `(1,2,2)` and `(15,17,16)`, `(16,17,17)`, the last two at the
row indices 32 and 33, past the last row of the field.  On the grid `[3,6,6,5]`
the polar rows of 3 and of 5 points are not rejected either. -/
theorem patch_pole_failing_input :
    patch_north_pole grid3663 patch_options = true ∧
    patch_south_pole grid3663 patch_options = true ∧
    grid3663.nlon 0 = 3 ∧ grid3663.nlon (grid3663.nlat - 1) = 3 ∧
    succeeded (generate 40 grid3663 patch_options (fun _ => 0) 0 [34]) = true ∧
    (region_of (generate_region 40 grid3663 patch_options (fun _ => 0) 0)).ntriags = 30 ∧
    (run_mesh (generate 40 grid3663 patch_options (fun _ => 0) 0 [34])).ntriags = 32 ∧
    (run_mesh (generate 40 grid3663 patch_options (fun _ => 0) 0 [34])).triags.length = 34 ∧
    ((run_mesh (generate 40 grid3663 patch_options (fun _ => 0) 0 [34])).triags.drop 30).map
      Triag.vertices = [(0, 1, 2), (1, 2, 2), (15, 17, 16), (16, 17, 17)] ∧
    ¬ FullStorage (run_mesh (generate 40 grid3663 patch_options (fun _ => 0) 0 [34])) ∧
    grid3665.nlon 0 = 3 ∧ grid3665.nlon 3 = 5 ∧
    succeeded (generate 20 grid3665 patch_options (fun _ => 0) 0 [36]) = true ∧
    ((run_mesh (generate 20 grid3665 patch_options (fun _ => 0) 0 [36])).triags.drop 32).map
      Triag.vertices = [(0, 1, 2), (1, 2, 2), (15, 17, 16), (16, 17, 17)] := by
  decide!
/-! ## Empty rows inside a region -/

theorem region_nodes_ge_empty (rg : ReducedGrid) (rows : List Nat) (lb le : List Int) (n : Int)
    (hnd : rows.Nodup) (hrows : ∀ j ∈ rows, j < lb.length)
    (hinv : ∀ j ∈ rows, (geti lb j = -1 ∨ (0 ≤ geti lb j ∧ geti lb j ≤ (rg.nlon j : Int))) ∧
      (geti lb j ≤ geti le j ∨ (rg.nlon j : Int) - 1 ≤ geti le j))
    (hb : EndBounded rg le) :
    n ≤ (region_nodes rg rows lb le n).2 ∧
    ((∃ j ∈ rows, rg.nlon j = 0) → n + 1 ≤ (region_nodes rg rows lb le n).2) := by
  induction rows generalizing lb n with
  | nil => simp [region_nodes]
  | cons a rest ih =>
    simp only [region_nodes]
    rw [List.nodup_cons] at hnd
    have ha := hrows a (List.mem_cons_self _ _)
    have hia := hinv a (List.mem_cons_self _ _)
    have hba := hb a
    have hga : geti (lb.set a (max 0 (geti lb a))) a = max 0 (geti lb a) :=
      geti_set_self _ _ _ ha
    have hrest : ∀ j ∈ rest, geti (lb.set a (max 0 (geti lb a))) j = geti lb j := by
      intro j hj
      apply geti_set_ne
      intro h; subst h; exact hnd.1 hj
    obtain ⟨i1, i2⟩ := ih (lb.set a (max 0 (geti lb a)))
      (if geti le a = (rg.nlon a : Int) - 1
        then n + (geti le a - geti (lb.set a (max 0 (geti lb a))) a + 1) + 1
        else n + (geti le a - geti (lb.set a (max 0 (geti lb a))) a + 1)) hnd.2
      (fun j hj => by rw [List.length_set]; exact hrows j (List.mem_cons_of_mem _ hj))
      (fun j hj => by rw [hrest j hj]; exact hinv j (List.mem_cons_of_mem _ hj))
    rw [hga] at i1 i2
    have hT0 : n ≤ (if geti le a = (rg.nlon a : Int) - 1
        then n + (geti le a - max 0 (geti lb a) + 1) + 1
        else n + (geti le a - max 0 (geti lb a) + 1)) := by
      split_ifs <;> omega
    have hT1 : rg.nlon a = 0 → n + 1 ≤ (if geti le a = (rg.nlon a : Int) - 1
        then n + (geti le a - max 0 (geti lb a) + 1) + 1
        else n + (geti le a - max 0 (geti lb a) + 1)) := by
      intro h0
      split_ifs <;> omega
    rw [hga]
    refine ⟨le_trans hT0 i1, ?_⟩
    rintro ⟨j, hj, hj0⟩
    rcases List.mem_cons.1 hj with rfl | hj
    · exact le_trans (hT1 hj0) i1
    · exact le_trans (add_le_add_right hT0 1) (i2 ⟨j, hj, hj0⟩)

theorem connect_le (rg : ReducedGrid) (n0 s0 : Nat) :
    connect_north rg n0 ≤ n0 ∧ s0 ≤ connect_south rg s0 := by
  unfold connect_north connect_south
  constructor <;> split <;> omega

/-- C13: `generate_region` raises no error for a grid with an empty row inside
the region: when `mypart` owns a point in a row `a` and in a row `b` and a
row `j` between them has no point, the result is never an error, whatever the
fuel (the empty row counts one node, its periodic point, so the region has
a node); the row pairs with the empty row are zipped like all others. -/
theorem empty_row_not_rejected (fuel : Nat) (rg : ReducedGrid) (opts : Options)
    (parts : Nat → Int) (mypart : Int) (a j b : Nat) (e : MeshError)
    (ha : OwnsIn rg parts mypart a) (hb : OwnsIn rg parts mypart b)
    (haj : a ≤ j) (hjb : j ≤ b) (hbn : b < rg.nlat) (hj : rg.nlon j = 0) :
    generate_region fuel rg opts parts mypart ≠ some (.error e) := by
  obtain ⟨n0, s0, hn, hs, h1, _, _⟩ := find_lat_of_owns (by omega : a < rg.nlat) ha
  obtain ⟨n1, s1, hn1, hs1, _, h2, h3⟩ := find_lat_of_owns hbn hb
  rw [hs] at hs1
  cases hs1
  obtain ⟨c1, c2⟩ := connect_le rg n0 s0
  have c3 := connect_south_lt h3
  unfold generate_region
  rw [hn, hs]
  simp only
  split
  · simp
  · rename_i r hr
    obtain ⟨a1, _, _⟩ := region_rows_rowInv _ hr (initial_rowInv rg)
    obtain ⟨b1, b2⟩ := region_rows_bounds _ hr (by
      intro k; simp only [initial_rstate]; rw [geti_replicate]; omega)
    simp only [initial_rstate, List.length_replicate] at b2
    have hcount := (region_nodes_ge_empty rg
      (List.range' (connect_north rg n0) (connect_south rg s0 + 1 - connect_north rg n0))
      r.lat_begin r.lat_end 0 (List.nodup_range' _ _)
      (fun k hk => by rw [List.mem_range'_1] at hk; omega)
      (fun k _ => a1.2 k) b1).2
      ⟨j, by rw [List.mem_range'_1]; omega, hj⟩
    simp only [finish_region]
    split
    · rename_i h0
      omega
    · simp

set_option maxRecDepth 100000 in
/-- The grid `[4,0,4]`, all points in partition 0: no too-many-partitions
error. -/
theorem empty_row_not_rejected_witness :
    generate_region 20 grid404 default_options (fun _ => 0) 0
      ≠ some (.error .tooManyPartitions) :=
  empty_row_not_rejected 20 grid404 default_options (fun _ => 0) 0 0 1 2 .tooManyPartitions
    ⟨0, by decide, rfl⟩ ⟨0, by decide, rfl⟩ (by decide) (by decide) (by decide) (by decide)

set_option maxRecDepth 100000 in
/-- C13 fails as stated: on the grid `[4,0,4]` with all points in partition 0
the region is rows 0..2, both of its row pairs have the empty row 1 as south
or north row, and `generate_region` returns a Region with 8 triangles and 11
nodes instead of failing. -/
theorem empty_row_not_rejected_counterexample :
    grid404.nlon 1 = 0 ∧
    returned_region (generate_region 20 grid404 default_options (fun _ => 0) 0) = true ∧
    (region_of (generate_region 20 grid404 default_options (fun _ => 0) 0)).north = 0 ∧
    (region_of (generate_region 20 grid404 default_options (fun _ => 0) 0)).south = 2 ∧
    (region_of (generate_region 20 grid404 default_options (fun _ => 0) 0)).ntriags = 8 ∧
    (region_of (generate_region 20 grid404 default_options (fun _ => 0) 0)).nnodes = 11 ∧
    (region_of (generate_region 20 grid404 default_options (fun _ => 0) 0)).lat_end
      = [3, -1, 3] := by
  decide!

/-! ## A part without any point -/

set_option maxRecDepth 100000 in
/-- C14, failing input: on `[4,6,6,4]` with all points in partition 0, the
searches of part 1 find no row (`lat_north = lat_south = -1`); the run ends
in the access outside the row arrays (row `-1`), not in the
too-many-partitions error. -/
theorem no_point_failing_input :
    find_lat_north grid4664 (fun _ => 0) 1 = none ∧
    find_lat_south grid4664 (fun _ => 0) 1 = none ∧
    generate_region 20 grid4664 (two_parts_options 1) (fun _ => 0) 1
      = some (.error .indexOutOfRange) ∧
    generate_region 20 grid4664 (two_parts_options 1) (fun _ => 0) 1
      ≠ some (.error .tooManyPartitions) := by
  decide!
/-! ## Triangulation path: owner of a triangle -/

theorem elem_partition_eq (p0 p1 p2 : Int) (h0 : 0 ≤ p0) (h1 : 0 ≤ p1) :
    elem_partition p0 p1 p2 = if p1 = p2 then p1 else p0 := by
  unfold elem_partition
  simp only [ge_iff_le, h0, h1, if_true, and_true]

theorem elem_partition_mem (p0 p1 p2 : Int) (h0 : 0 ≤ p0) (h1 : 0 ≤ p1) :
    elem_partition p0 p1 p2 = p0 ∨ elem_partition p0 p1 p2 = p1 := by
  rw [elem_partition_eq p0 p1 p2 h0 h1]
  split
  · exact Or.inr rfl
  · exact Or.inl rfl

/-- C17: for a triangle with non-negative vertex owners `(p0, p1, p2)` (only
`p0` and `p1` need to be non-negative) the owner
computed by `extract_mesh_partition` is `p1` if `p1 = p2` and `p0` otherwise;
it is the partition that owns at least two of the three vertices when there
is one and the owner of the first vertex otherwise, and it is always the
owner of one of the vertices. -/
theorem triangle_owner (p0 p1 p2 : Int) (h0 : 0 ≤ p0) (h1 : 0 ≤ p1) :
    elem_partition p0 p1 p2 = (if p1 = p2 then p1 else p0) ∧
    (∀ q, 2 ≤ [p0, p1, p2].count q → elem_partition p0 p1 p2 = q) ∧
    ((∀ q, [p0, p1, p2].count q < 2) → elem_partition p0 p1 p2 = p0) ∧
    elem_partition p0 p1 p2 ∈ [p0, p1, p2] := by
  have he := elem_partition_eq p0 p1 p2 h0 h1
  refine ⟨he, ?_, ?_, ?_⟩
  · intro q hq
    rw [he]
    simp only [List.count_cons, List.count_nil, beq_iff_eq] at hq
    by_cases a : p1 = p2
    · rw [if_pos a]
      by_contra hne
      have h1q : ¬ (p1 = q) := hne
      have h2q : ¬ (p2 = q) := fun h => hne (a.trans h)
      simp only [h1q, h2q, if_false] at hq
      split at hq <;> omega
    · rw [if_neg a]
      by_contra hne
      have h0q : ¬ (p0 = q) := hne
      simp only [h0q, if_false] at hq
      by_cases b : p1 = q
      · have c : ¬ (p2 = q) := fun h => a (b.trans h.symm)
        simp only [b, c, if_true, if_false] at hq
        omega
      · simp only [b, if_false] at hq
        split at hq <;> omega
  · intro hq
    rw [he]
    by_cases a : p1 = p2
    · have := hq p1
      simp only [List.count_cons, List.count_nil, beq_iff_eq, a, if_true] at this
      split at this <;> omega
    · rw [if_neg a]
  · rw [he]
    split <;> simp

theorem triangle_owner_witness :
    elem_partition 0 1 1 = 1 ∧ elem_partition 0 1 2 = 0 ∧ elem_partition 3 3 0 = 3 :=
  ⟨(triangle_owner 0 1 1 (by decide) (by decide)).2.1 1 (by decide),
   (triangle_owner 0 1 2 (by decide) (by decide)).1,
   (triangle_owner 3 3 0 (by decide) (by decide)).2.1 3 (by decide)⟩
/-! ## Triangulation path: the element loop -/

theorem mem_set_insert (x v : Nat) (l : List Nat) : v ∈ set_insert x l ↔ v = x ∨ v ∈ l := by
  induction l with
  | nil => simp [set_insert]
  | cons y ys ih =>
    simp only [set_insert]
    split
    · simp
    · split
      · rename_i h
        subst h
        simp
      · simp only [List.mem_cons, ih]
        tauto

theorem sorted_set_insert (x : Nat) (l : List Nat) (h : l.Pairwise (fun a b => a < b)) :
    (set_insert x l).Pairwise (fun a b => a < b) := by
  induction l with
  | nil => simp [set_insert]
  | cons y ys ih =>
    rw [List.pairwise_cons] at h
    simp only [set_insert]
    split
    · rename_i hxy
      rw [List.pairwise_cons]
      refine ⟨?_, List.pairwise_cons.2 h⟩
      intro b hb
      rcases List.mem_cons.1 hb with rfl | hb
      · exact hxy
      · exact Nat.lt_trans hxy (h.1 b hb)
    · split
      · exact List.pairwise_cons.2 h
      · rename_i h1 h2
        rw [List.pairwise_cons]
        refine ⟨?_, ih h.2⟩
        intro b hb
        rcases (mem_set_insert x b ys).1 hb with rfl | hb
        · omega
        · exact h.1 b hb

theorem scan_elem_owned (part_ : Int) (g : DMesh) (s : ScanState) (jelem : Nat) :
    (scan_elem part_ g s jelem).owned_elements
      = s.owned_elements ++ (if cell_owner g jelem = part_ then [jelem] else []) := by
  unfold scan_elem
  simp only
  split <;> simp

theorem scan_owned (part_ : Int) (g : DMesh) (l : List Nat) (s : ScanState) :
    (l.foldl (scan_elem part_ g) s).owned_elements
      = s.owned_elements ++ l.filter (fun j => decide (cell_owner g j = part_)) := by
  induction l generalizing s with
  | nil => simp
  | cons a t ih =>
    simp only [List.foldl_cons]
    rw [ih, scan_elem_owned, List.filter_cons]
    split <;> simp_all

theorem fold_insert_mem (P : Nat → Prop) [DecidablePred P] (vs gs : List Nat) (v : Nat) :
    v ∈ vs.foldl (fun gs n => if P n then set_insert n gs else gs) gs ↔
      v ∈ gs ∨ (v ∈ vs ∧ P v) := by
  induction vs generalizing gs with
  | nil => simp
  | cons a t ih =>
    simp only [List.foldl_cons, ih, List.mem_cons]
    by_cases ha : P a
    · simp only [ha, if_true, mem_set_insert]
      constructor
      · rintro ((rfl | h) | h)
        · exact Or.inr ⟨Or.inl rfl, ha⟩
        · exact Or.inl h
        · exact Or.inr ⟨Or.inr h.1, h.2⟩
      · rintro (h | ⟨rfl | h, hp⟩)
        · exact Or.inl (Or.inr h)
        · exact Or.inl (Or.inl rfl)
        · exact Or.inr ⟨h, hp⟩
    · simp only [ha, if_false]
      constructor
      · rintro (h | h)
        · exact Or.inl h
        · exact Or.inr ⟨Or.inr h.1, h.2⟩
      · rintro (h | ⟨rfl | h, hp⟩)
        · exact Or.inl h
        · exact absurd hp ha
        · exact Or.inr ⟨h, hp⟩

theorem fold_insert_sorted (P : Nat → Prop) [DecidablePred P] (vs gs : List Nat)
    (h : gs.Pairwise (fun a b => a < b)) :
    (vs.foldl (fun gs n => if P n then set_insert n gs else gs) gs).Pairwise
      (fun a b => a < b) := by
  induction vs generalizing gs with
  | nil => exact h
  | cons a t ih =>
    simp only [List.foldl_cons]
    apply ih
    split
    · exact sorted_set_insert a gs h
    · exact h

theorem scan_elem_ghost (part_ : Int) (g : DMesh) (s : ScanState) (jelem : Nat) (v : Nat) :
    v ∈ (scan_elem part_ g s jelem).ghost_nodes ↔
      v ∈ s.ghost_nodes ∨ (cell_owner g jelem = part_ ∧ (g.node v).part ≠ part_ ∧
        (v = (g.cell jelem).n0 ∨ v = (g.cell jelem).n1 ∨ v = (g.cell jelem).n2)) := by
  unfold scan_elem
  simp only
  split
  · rename_i h
    rw [fold_insert_mem (fun n => (g.node n).part ≠ cell_owner g jelem)]
    simp only [h, List.mem_cons, List.mem_singleton, List.not_mem_nil, or_false, true_and]
    tauto
  · rename_i h
    simp [h]

theorem scan_elem_sorted (part_ : Int) (g : DMesh) (s : ScanState) (jelem : Nat)
    (h : s.ghost_nodes.Pairwise (fun a b => a < b)) :
    (scan_elem part_ g s jelem).ghost_nodes.Pairwise (fun a b => a < b) := by
  unfold scan_elem
  simp only
  split
  · exact fold_insert_sorted (fun n => (g.node n).part ≠ cell_owner g jelem) _ _ h
  · exact h

theorem scan_ghost (part_ : Int) (g : DMesh) (l : List Nat) (s : ScanState)
    (hs : s.ghost_nodes.Pairwise (fun a b => a < b)) :
    (l.foldl (scan_elem part_ g) s).ghost_nodes.Pairwise (fun a b => a < b) ∧
    ∀ v, v ∈ (l.foldl (scan_elem part_ g) s).ghost_nodes ↔
      v ∈ s.ghost_nodes ∨ ∃ jelem ∈ l, cell_owner g jelem = part_ ∧ (g.node v).part ≠ part_ ∧
        (v = (g.cell jelem).n0 ∨ v = (g.cell jelem).n1 ∨ v = (g.cell jelem).n2) := by
  induction l generalizing s with
  | nil => simp [hs]
  | cons a t ih =>
    simp only [List.foldl_cons]
    obtain ⟨i1, i2⟩ := ih (scan_elem part_ g s a) (scan_elem_sorted part_ g s a hs)
    refine ⟨i1, ?_⟩
    intro v
    rw [i2, scan_elem_ghost, or_assoc]
    simp only [List.mem_cons, exists_eq_or_imp]

/-! ## Triangulation path: the global mesh -/

theorem build_lengths (part_ : Int) (points : List ((ℚ × ℚ) × (ℚ × ℚ))) (dist : Nat → Int)
    (hull : List (Nat × Nat × Nat)) :
    (build_global_mesh part_ points dist hull).nodes.length = points.length ∧
    (build_global_mesh part_ points dist hull).cells.length = hull.length := by
  simp [build_global_mesh]

theorem build_node (part_ : Int) (points : List ((ℚ × ℚ) × (ℚ × ℚ))) (dist : Nat → Int)
    (hull : List (Nat × Nat × Nat)) (v : Nat) (hv : v < points.length) :
    ((build_global_mesh part_ points dist hull).node v).part = dist v ∧
    ((build_global_mesh part_ points dist hull).node v).gidx = (v : Int) + 1 ∧
    ((build_global_mesh part_ points dist hull).node v).ghost
      = (if dist v ≠ part_ then 1 else 0) := by
  simp [DMesh.node, build_global_mesh, List.getD_eq_getElem?_getD, List.getElem?_map,
    List.getElem?_enum, List.getElem?_eq_getElem hv]

theorem build_cell (part_ : Int) (points : List ((ℚ × ℚ) × (ℚ × ℚ))) (dist : Nat → Int)
    (hull : List (Nat × Nat × Nat)) (j : Nat) :
    ((build_global_mesh part_ points dist hull).cell j).n0 = (hull.getD j (0, 0, 0)).1 ∧
    ((build_global_mesh part_ points dist hull).cell j).n1 = (hull.getD j (0, 0, 0)).2.1 ∧
    ((build_global_mesh part_ points dist hull).cell j).n2 = (hull.getD j (0, 0, 0)).2.2 := by
  by_cases hj : j < hull.length
  · simp [DMesh.cell, build_global_mesh, List.getD_eq_getElem?_getD, List.getElem?_map,
      List.getElem?_enum, List.getElem?_eq_getElem hj]
  · simp [DMesh.cell, build_global_mesh, List.getD_eq_getElem?_getD, List.getElem?_map,
      List.getElem?_enum, List.getElem?_eq_none (Nat.le_of_not_lt hj)]

theorem hull_getD_mem (hull : List (Nat × Nat × Nat)) (j : Nat) (hj : j < hull.length) :
    hull.getD j (0, 0, 0) ∈ hull := by
  rw [List.getD_eq_getElem?_getD, List.getElem?_eq_getElem hj]
  exact List.getElem_mem _

theorem build_cell_owner (part_ : Int) (points : List ((ℚ × ℚ) × (ℚ × ℚ))) (dist : Nat → Int)
    (hull : List (Nat × Nat × Nat)) (hhull : HullValid points.length hull) (j : Nat)
    (hj : j < hull.length) :
    cell_owner (build_global_mesh part_ points dist hull) j
      = hull_owner dist (hull.getD j (0, 0, 0)) := by
  obtain ⟨c0, c1, c2⟩ := build_cell part_ points dist hull j
  obtain ⟨v0, v1, v2⟩ := hhull _ (hull_getD_mem hull j hj)
  unfold cell_owner hull_owner
  rw [c0, c1, c2, (build_node part_ points dist hull _ v0).1,
    (build_node part_ points dist hull _ v1).1, (build_node part_ points dist hull _ v2).1]

theorem build_owned_elements (part_ : Int) (points : List ((ℚ × ℚ) × (ℚ × ℚ)))
    (dist : Nat → Int) (hull : List (Nat × Nat × Nat)) (hhull : HullValid points.length hull) :
    (scan_elems part_ (build_global_mesh part_ points dist hull)).owned_elements
      = (List.range hull.length).filter
          (fun j => decide (hull_owner dist (hull.getD j (0, 0, 0)) = part_)) := by
  unfold scan_elems
  rw [scan_owned, (build_lengths part_ points dist hull).2]
  simp only [List.nil_append]
  apply List.filter_congr
  intro j hj
  rw [build_cell_owner part_ points dist hull hhull j (List.mem_range.1 hj)]
/-! ## Triangulation path: merging the parts -/

theorem hull_owner_range {N : Nat} {points : List ((ℚ × ℚ) × (ℚ × ℚ))} {dist : Nat → Int}
    {hull : List (Nat × Nat × Nat)}
    (hdist : ∀ n, n < points.length → 0 ≤ dist n ∧ dist n < (N : Int))
    (hhull : HullValid points.length hull) (t : Nat × Nat × Nat) (ht : t ∈ hull) :
    0 ≤ hull_owner dist t ∧ hull_owner dist t < (N : Int) := by
  obtain ⟨v0, v1, _⟩ := hhull t ht
  unfold hull_owner
  rcases elem_partition_mem (dist t.1) (dist t.2.1) (dist t.2.2) (hdist _ v0).1 (hdist _ v1).1
    with h | h <;> rw [h]
  · exact hdist _ v0
  · exact hdist _ v1

theorem delaunay_cells_gidx (part_ : Int) (N : Nat) (hN : N ≠ 1)
    (points : List ((ℚ × ℚ) × (ℚ × ℚ))) (dist : Nat → Int) (hull : List (Nat × Nat × Nat)) :
    (delaunay_generate part_ N points dist hull).cells.map (fun c => c.gidx)
      = (scan_elems part_ (build_global_mesh part_ points dist hull)).owned_elements.map
          (fun (gelem : Nat) => (gelem : Int) + 1) := by
  unfold delaunay_generate
  rw [if_neg hN]
  simp [extract_mesh_partition, Function.comp]

/-- C18: for every list of global triangles (with valid vertices) and every
partition assignment with values in `[0,N)`, `N > 1`, the lists
`owned_elements` of the parts `0..N-1` together are a rearrangement of all
global triangles `0..T-1`, none listed twice; hence the global indices of the
local triangles of the `N` parts are pairwise different and are exactly
`1..T`. -/
theorem delaunay_nway_merge (N : Nat) (points : List ((ℚ × ℚ) × (ℚ × ℚ))) (dist : Nat → Int)
    (hull : List (Nat × Nat × Nat)) (hN : 1 < N)
    (hdist : ∀ n, n < points.length → 0 ≤ dist n ∧ dist n < (N : Int))
    (hhull : HullValid points.length hull) :
    ((List.range N).flatMap (fun (p : Nat) =>
      (scan_elems (p : Int) (build_global_mesh (p : Int) points dist hull)).owned_elements)).Perm
      (List.range hull.length) ∧
    ((List.range N).flatMap (fun (p : Nat) =>
      (delaunay_generate (p : Int) N points dist hull).cells.map (fun c => c.gidx))).Perm
      ((List.range' 1 hull.length).map (fun (k : Nat) => (k : Int))) ∧
    ((List.range N).flatMap (fun (p : Nat) =>
      (delaunay_generate (p : Int) N points dist hull).cells.map (fun c => c.gidx))).Nodup := by
  have hrange : ∀ j ∈ List.range hull.length,
      0 ≤ hull_owner dist (hull.getD j (0, 0, 0)) ∧
      hull_owner dist (hull.getD j (0, 0, 0)) < (N : Int) := by
    intro j hj
    exact hull_owner_range hdist hhull _ (hull_getD_mem hull j (List.mem_range.1 hj))
  have h1 := flatMap_filter_perm N
    (fun j => (hull_owner dist (hull.getD j (0, 0, 0))).toNat) (List.range hull.length) (by
      intro j hj
      have := hrange j hj
      simp only
      omega)
  have h2 : (List.range N).flatMap (fun (p : Nat) =>
      (scan_elems (p : Int) (build_global_mesh (p : Int) points dist hull)).owned_elements)
      = (List.range N).flatMap (fun (p : Nat) => (List.range hull.length).filter
          (fun j => decide ((hull_owner dist (hull.getD j (0, 0, 0))).toNat = p))) := by
    apply List.flatMap_congr
    intro p _
    rw [build_owned_elements (p : Int) points dist hull hhull]
    apply List.filter_congr
    intro j hj
    have := hrange j hj
    rw [Bool.eq_iff_iff, decide_eq_true_iff, decide_eq_true_iff]
    omega
  have hperm : ((List.range N).flatMap (fun (p : Nat) =>
      (scan_elems (p : Int) (build_global_mesh (p : Int) points dist hull)).owned_elements)).Perm
      (List.range hull.length) := by
    rw [h2]; exact h1
  have h3 : (List.range N).flatMap (fun (p : Nat) =>
      (delaunay_generate (p : Int) N points dist hull).cells.map (fun c => c.gidx))
      = ((List.range N).flatMap (fun (p : Nat) =>
          (scan_elems (p : Int) (build_global_mesh (p : Int) points dist hull)).owned_elements)).map
          (fun (gelem : Nat) => (gelem : Int) + 1) := by
    rw [List.map_flatMap]
    apply List.flatMap_congr
    intro p _
    exact delaunay_cells_gidx (p : Int) N (by omega) points dist hull
  have h4 : (List.range hull.length).map (fun (gelem : Nat) => (gelem : Int) + 1)
      = (List.range' 1 hull.length).map (fun (k : Nat) => (k : Int)) := by
    rw [List.range'_eq_map_range, List.map_map]
    apply List.map_congr_left
    intro k _
    simp only [Function.comp]
    push_cast
    omega
  have hperm2 := hperm.map (fun (gelem : Nat) => (gelem : Int) + 1)
  rw [h4] at hperm2
  refine ⟨hperm, by rw [h3]; exact hperm2, ?_⟩
  rw [h3]
  exact hperm2.nodup_iff.2
    ((List.nodup_range' 1 hull.length).map (fun a b hab => by simpa using hab))

/-- The square split into two partitions. -/
theorem delaunay_nway_merge_witness :
    ((List.range 2).flatMap (fun (p : Nat) =>
      (scan_elems (p : Int)
        (build_global_mesh (p : Int) square_points square_dist square_hull)).owned_elements)).Perm
      (List.range square_hull.length) :=
  (delaunay_nway_merge 2 square_points square_dist square_hull (by decide) (by decide)
    (by decide)).1
/-! ## Triangulation path: the map from global to local nodes -/

theorem from_gnode_fold (L : List Nat) (es m : List (Nat × Nat))
    (hes : ∀ p ∈ es, L.get? p.1 = some p.2)
    (hm : ∀ v k, m.lookup v = some k → L.get? k = some v) :
    (∀ v k, (es.foldl (fun m p => (p.2, p.1) :: m) m).lookup v = some k → L.get? k = some v) ∧
    (∀ v, ((m.lookup v).isSome = true ∨ ∃ p ∈ es, p.2 = v) →
      ((es.foldl (fun m p => (p.2, p.1) :: m) m).lookup v).isSome = true) := by
  induction es generalizing m with
  | nil =>
    refine ⟨hm, ?_⟩
    intro v hv
    rcases hv with h | ⟨p, hp, _⟩
    · exact h
    · simp at hp
  | cons a t ih =>
    simp only [List.foldl_cons]
    have hm2 : ∀ v k, ((a.2, a.1) :: m).lookup v = some k → L.get? k = some v := by
      intro v k hl
      rw [List.lookup_cons] at hl
      split at hl
      · rename_i heq
        cases hl
        have hva : v = a.2 := by simpa using heq
        rw [hva]
        exact hes a (List.mem_cons_self _ _)
      · exact hm v k hl
    obtain ⟨i1, i2⟩ := ih ((a.2, a.1) :: m) (fun p hp => hes p (List.mem_cons_of_mem _ hp)) hm2
    refine ⟨i1, ?_⟩
    intro v hv
    apply i2
    rcases hv with h | ⟨p, hp, hpv⟩
    · left
      rw [List.lookup_cons]
      split
      · rfl
      · exact h
    · rcases List.mem_cons.1 hp with rfl | hp
      · left
        rw [List.lookup_cons, hpv]
        simp
      · exact Or.inr ⟨p, hp, hpv⟩

theorem from_gnode_get (L : List Nat) (v : Nat) (hv : v ∈ L) :
    L.get? (map_get (from_gnode L) v) = some v := by
  obtain ⟨i1, i2⟩ := from_gnode_fold L L.enum [] (by
      intro p hp
      obtain ⟨i, x⟩ := p
      have := List.mk_mem_enum_iff_getElem?.1 hp
      simpa [List.get?_eq_getElem?] using this)
    (by intro v k h; simp at h)
  have hsome := i2 v (Or.inr (by
    obtain ⟨i, hi, hiv⟩ := List.getElem_of_mem hv
    exact ⟨(i, v), List.mk_mem_enum_iff_getElem?.2 (by rw [List.getElem?_eq_getElem hi, hiv]), rfl⟩))
  obtain ⟨k, hk⟩ := Option.isSome_iff_exists.1 hsome
  have := i1 v k hk
  unfold map_get from_gnode
  rw [hk]
  exact this

theorem build_owned_nodes (part_ : Int) (points : List ((ℚ × ℚ) × (ℚ × ℚ))) (dist : Nat → Int)
    (hull : List (Nat × Nat × Nat)) :
    owned_nodes (build_global_mesh part_ points dist hull)
      = (List.range points.length).filter (fun j => decide (dist j = part_)) := by
  unfold owned_nodes
  rw [(build_lengths part_ points dist hull).1]
  apply List.filter_congr
  intro j hj
  rw [(build_node part_ points dist hull j (List.mem_range.1 hj)).2.2]
  by_cases h : dist j = part_ <;> simp [h]

theorem build_ghost_nodes (part_ : Int) (points : List ((ℚ × ℚ) × (ℚ × ℚ))) (dist : Nat → Int)
    (hull : List (Nat × Nat × Nat)) (hhull : HullValid points.length hull) :
    (scan_elems part_ (build_global_mesh part_ points dist hull)).ghost_nodes.Pairwise
      (fun a b => a < b) ∧
    ∀ v, v ∈ (scan_elems part_ (build_global_mesh part_ points dist hull)).ghost_nodes ↔
      ∃ t ∈ hull, hull_owner dist t = part_ ∧ dist v ≠ part_ ∧
        (v = t.1 ∨ v = t.2.1 ∨ v = t.2.2) := by
  obtain ⟨h1, h2⟩ := scan_ghost part_ (build_global_mesh part_ points dist hull)
    (List.range (build_global_mesh part_ points dist hull).cells.length)
    { ghost_nodes := [], owned_elements := [] } List.Pairwise.nil
  refine ⟨h1, ?_⟩
  intro v
  unfold scan_elems
  rw [h2, (build_lengths part_ points dist hull).2]
  simp only [List.not_mem_nil, false_or, List.mem_range]
  constructor
  · rintro ⟨j, hj, ho, hp, hv⟩
    obtain ⟨c0, c1, c2⟩ := build_cell part_ points dist hull j
    have hmem := hull_getD_mem hull j hj
    obtain ⟨v0, v1, v2⟩ := hhull _ hmem
    rw [build_cell_owner part_ points dist hull hhull j hj] at ho
    rw [c0, c1, c2] at hv
    have hvl : v < points.length := by
      rcases hv with h | h | h <;> rw [h] <;> assumption
    rw [(build_node part_ points dist hull v hvl).1] at hp
    exact ⟨_, hmem, ho, hp, hv⟩
  · rintro ⟨t, ht, ho, hp, hv⟩
    obtain ⟨j, hj, hjt⟩ := List.getElem_of_mem ht
    have hgd : hull.getD j (0, 0, 0) = t := by
      rw [List.getD_eq_getElem?_getD, List.getElem?_eq_getElem hj, hjt]
      rfl
    obtain ⟨c0, c1, c2⟩ := build_cell part_ points dist hull j
    obtain ⟨v0, v1, v2⟩ := hhull _ ht
    have hvl : v < points.length := by
      rcases hv with h | h | h <;> rw [h] <;> assumption
    refine ⟨j, hj, ?_, ?_, ?_⟩
    · rw [build_cell_owner part_ points dist hull hhull j hj, hgd]
      exact ho
    · rw [(build_node part_ points dist hull v hvl).1]
      exact hp
    · rw [c0, c1, c2, hgd]
      exact hv

/-- The global node behind every row of the local node table. -/
theorem extract_nodes_gidx (part_ : Int) (dist : Nat → Int) (g : DMesh) :
    (extract_mesh_partition part_ dist g).nodes.map (fun n => n.gidx)
      = (owned_nodes g ++ (scan_elems part_ g).ghost_nodes).map (fun v => (g.node v).gidx) := by
  simp only [extract_mesh_partition, List.map_append, List.map_map]
  rfl

theorem extract_node_gidx (part_ : Int) (dist : Nat → Int) (g : DMesh) (k v : Nat)
    (h : (owned_nodes g ++ (scan_elems part_ g).ghost_nodes).get? k = some v) :
    k < (extract_mesh_partition part_ dist g).nodes.length ∧
    ((extract_mesh_partition part_ dist g).node k).gidx = (g.node v).gidx := by
  have hmap := extract_nodes_gidx part_ dist g
  have hlen := congrArg List.length hmap
  simp only [List.length_map] at hlen
  have hk : k < (owned_nodes g ++ (scan_elems part_ g).ghost_nodes).length := by
    rw [List.get?_eq_getElem?] at h
    exact (List.getElem?_eq_some_iff.1 h).1
  have hk2 : k < (extract_mesh_partition part_ dist g).nodes.length := by omega
  refine ⟨hk2, ?_⟩
  have e1 : ((extract_mesh_partition part_ dist g).nodes.map (fun n => n.gidx))[k]? =
      some ((extract_mesh_partition part_ dist g).node k).gidx := by
    rw [List.getElem?_map]
    simp [DMesh.node, List.getD_eq_getElem?_getD, List.getElem?_eq_getElem hk2]
  rw [hmap, List.getElem?_map] at e1
  rw [List.get?_eq_getElem?] at h
  rw [h] at e1
  simpa using e1.symm

theorem vertex_local (part_ : Int) (points : List ((ℚ × ℚ) × (ℚ × ℚ))) (dist : Nat → Int)
    (hull : List (Nat × Nat × Nat)) (hhull : HullValid points.length hull)
    (t : Nat × Nat × Nat) (ht : t ∈ hull) (ho : hull_owner dist t = part_) (v : Nat)
    (hv : v = t.1 ∨ v = t.2.1 ∨ v = t.2.2) :
    map_get (from_gnode (owned_nodes (build_global_mesh part_ points dist hull) ++
        (scan_elems part_ (build_global_mesh part_ points dist hull)).ghost_nodes)) v
      < (extract_mesh_partition part_ dist (build_global_mesh part_ points dist hull)).nodes.length ∧
    ((extract_mesh_partition part_ dist (build_global_mesh part_ points dist hull)).node
      (map_get (from_gnode (owned_nodes (build_global_mesh part_ points dist hull) ++
        (scan_elems part_ (build_global_mesh part_ points dist hull)).ghost_nodes)) v)).gidx
      = (v : Int) + 1 := by
  obtain ⟨v0, v1, v2⟩ := hhull t ht
  have hvl : v < points.length := by
    rcases hv with h | h | h <;> rw [h] <;> assumption
  have hmem : v ∈ owned_nodes (build_global_mesh part_ points dist hull) ++
      (scan_elems part_ (build_global_mesh part_ points dist hull)).ghost_nodes := by
    rw [List.mem_append]
    by_cases hd : dist v = part_
    · left
      rw [build_owned_nodes]
      exact List.mem_filter.2 ⟨List.mem_range.2 hvl, by simpa using hd⟩
    · right
      exact ((build_ghost_nodes part_ points dist hull hhull).2 v).2 ⟨t, ht, ho, hd, hv⟩
  obtain ⟨h1, h2⟩ := extract_node_gidx part_ dist (build_global_mesh part_ points dist hull) _ v
    (from_gnode_get _ v hmem)
  exact ⟨h1, by rw [h2, (build_node part_ points dist hull v hvl).2.1]⟩

/-- C19: every local triangle written by `extract_mesh_partition` denotes the
global triangle `gelem` it was taken from: its global index is `gelem + 1`,
each of its three connectivity entries is a local node index below the local
node count, and the local node in slot `j` has the global index of the
global triangle's vertex in slot `j` (vertex index plus one). -/
theorem delaunay_remap (part_ : Int) (N : Nat) (points : List ((ℚ × ℚ) × (ℚ × ℚ)))
    (dist : Nat → Int) (hull : List (Nat × Nat × Nat)) (hN : N ≠ 1)
    (hhull : HullValid points.length hull) :
    ∀ c ∈ (delaunay_generate part_ N points dist hull).cells,
      ∃ gelem, gelem < hull.length ∧ hull_owner dist (hull.getD gelem (0, 0, 0)) = part_ ∧
        c.gidx = (gelem : Int) + 1 ∧
        c.n0 < (delaunay_generate part_ N points dist hull).nodes.length ∧
        c.n1 < (delaunay_generate part_ N points dist hull).nodes.length ∧
        c.n2 < (delaunay_generate part_ N points dist hull).nodes.length ∧
        ((delaunay_generate part_ N points dist hull).node c.n0).gidx
          = ((hull.getD gelem (0, 0, 0)).1 : Int) + 1 ∧
        ((delaunay_generate part_ N points dist hull).node c.n1).gidx
          = ((hull.getD gelem (0, 0, 0)).2.1 : Int) + 1 ∧
        ((delaunay_generate part_ N points dist hull).node c.n2).gidx
          = ((hull.getD gelem (0, 0, 0)).2.2 : Int) + 1 := by
  intro c hc
  have hgen : delaunay_generate part_ N points dist hull
      = extract_mesh_partition part_ dist (build_global_mesh part_ points dist hull) := by
    unfold delaunay_generate
    rw [if_neg hN]
  rw [hgen] at hc ⊢
  simp only [extract_mesh_partition, List.mem_map] at hc
  obtain ⟨gelem, hg, rfl⟩ := hc
  rw [build_owned_elements part_ points dist hull hhull, List.mem_filter] at hg
  obtain ⟨hlt, ho⟩ := hg
  rw [List.mem_range] at hlt
  have ho2 : hull_owner dist (hull.getD gelem (0, 0, 0)) = part_ := by simpa using ho
  obtain ⟨c0, c1, c2⟩ := build_cell part_ points dist hull gelem
  have hmem := hull_getD_mem hull gelem hlt
  have w0 := vertex_local part_ points dist hull hhull _ hmem ho2 _ (Or.inl rfl)
  have w1 := vertex_local part_ points dist hull hhull _ hmem ho2 _ (Or.inr (Or.inl rfl))
  have w2 := vertex_local part_ points dist hull hhull _ hmem ho2 _ (Or.inr (Or.inr rfl))
  refine ⟨gelem, hlt, ho2, rfl, ?_, ?_, ?_, ?_, ?_, ?_⟩
  · simp only [c0]; exact w0.1
  · simp only [c1]; exact w1.1
  · simp only [c2]; exact w2.1
  · simp only [c0]; exact w0.2
  · simp only [c1]; exact w1.2
  · simp only [c2]; exact w2.2

/-- Part 1 of the square: its triangle is global triangle 1 with vertices
0, 2, 3. -/
theorem delaunay_remap_witness :
    ∃ gelem, gelem < square_hull.length ∧ (2 : Int) = (gelem : Int) + 1 ∧
      ((delaunay_generate 1 2 square_points square_dist square_hull).node 2).gidx
        = ((square_hull.getD gelem (0, 0, 0)).1 : Int) + 1 := by
  obtain ⟨gelem, h1, _, h3, _, _, _, h7, _, _⟩ :=
    delaunay_remap 1 2 square_points square_dist square_hull (by decide) (by decide)
      { n0 := 2, n1 := 0, n2 := 1, gidx := 2, part := 1 } (by decide)
  exact ⟨gelem, h1, h3, h7⟩
/-! ## Triangulation path: the local node table -/

theorem mem_foreign_vertices (part_ : Int) (dist : Nat → Int) (hull : List (Nat × Nat × Nat))
    (v : Nat) :
    v ∈ foreign_vertices part_ dist hull ↔
      ∃ t ∈ hull, hull_owner dist t = part_ ∧ dist v ≠ part_ ∧
        (v = t.1 ∨ v = t.2.1 ∨ v = t.2.2) := by
  unfold foreign_vertices
  simp only [List.mem_flatMap, List.mem_filter, decide_eq_true_eq, List.mem_cons,
    List.mem_singleton, List.not_mem_nil, or_false]
  constructor
  · rintro ⟨t, ⟨ht, ho⟩, hv, hd⟩
    exact ⟨t, ht, ho, hd, hv⟩
  · rintro ⟨t, ht, ho, hd, hv⟩
    exact ⟨t, ⟨ht, ho⟩, hv, hd⟩

/-- C20: the local node table of part `part_` holds first all global nodes
owned by `part_`, in increasing global order, each non-ghost with partition
`part_`, and then the halo nodes `H`, each ghost with its owner's partition;
`H` is strictly increasing and consists exactly of the vertices of the
triangles owned by `part_` that `part_` does not own, so the number of halo
nodes is the number of distinct such vertices. -/
theorem delaunay_local_nodes (part_ : Int) (N : Nat) (points : List ((ℚ × ℚ) × (ℚ × ℚ)))
    (dist : Nat → Int) (hull : List (Nat × Nat × Nat)) (hN : N ≠ 1)
    (hhull : HullValid points.length hull) :
    (delaunay_generate part_ N points dist hull).nodes.map (fun n => (n.gidx, n.ghost, n.part))
      = ((List.range points.length).filter (fun j => decide (dist j = part_))).map
          (fun (j : Nat) => ((j : Int) + 1, (0 : Int), part_))
        ++ (scan_elems part_ (build_global_mesh part_ points dist hull)).ghost_nodes.map
          (fun (j : Nat) => ((j : Int) + 1, (1 : Int), dist j)) ∧
    (scan_elems part_ (build_global_mesh part_ points dist hull)).ghost_nodes.Pairwise
      (fun a b => a < b) ∧
    (∀ v, v ∈ (scan_elems part_ (build_global_mesh part_ points dist hull)).ghost_nodes ↔
      v ∈ foreign_vertices part_ dist hull) ∧
    (scan_elems part_ (build_global_mesh part_ points dist hull)).ghost_nodes.length
      = (foreign_vertices part_ dist hull).dedup.length := by
  obtain ⟨hs, hmem⟩ := build_ghost_nodes part_ points dist hull hhull
  have hmem2 : ∀ v, v ∈ (scan_elems part_ (build_global_mesh part_ points dist hull)).ghost_nodes ↔
      v ∈ foreign_vertices part_ dist hull := by
    intro v
    rw [hmem, mem_foreign_vertices]
  have hnd : (scan_elems part_ (build_global_mesh part_ points dist hull)).ghost_nodes.Nodup :=
    hs.imp (fun hab => Nat.ne_of_lt hab)
  refine ⟨?_, hs, hmem2, ?_⟩
  · unfold delaunay_generate
    rw [if_neg hN]
    simp only [extract_mesh_partition, List.map_append, List.map_map]
    rw [build_owned_nodes]
    congr 1
    · apply List.map_congr_left
      intro j hj
      have hjl := List.mem_range.1 (List.mem_filter.1 hj).1
      simp only [Function.comp, (build_node part_ points dist hull j hjl).2.1]
    · apply List.map_congr_left
      intro v hv
      obtain ⟨t, ht, _, _, hvt⟩ := (hmem v).1 hv
      obtain ⟨v0, v1, v2⟩ := hhull t ht
      have hvl : v < points.length := by
        rcases hvt with h | h | h <;> rw [h] <;> assumption
      simp only [Function.comp, (build_node part_ points dist hull v hvl).2.1]
  · apply List.Perm.length_eq
    rw [List.perm_ext_iff_of_nodup hnd (List.nodup_dedup _)]
    intro v
    rw [hmem2, List.mem_dedup]

/-- The square split into two partitions: part 0 stores its corners 0 and 1
and one halo node, corner 2. -/
theorem delaunay_local_nodes_witness :
    (delaunay_generate 0 2 square_points square_dist square_hull).nodes.map
        (fun n => (n.gidx, n.ghost, n.part)) = [(1, 0, 0), (2, 0, 0), (3, 1, 1)] ∧
    (scan_elems 0 (build_global_mesh 0 square_points square_dist square_hull)).ghost_nodes.length
      = (foreign_vertices 0 square_dist square_hull).dedup.length ∧
    (foreign_vertices 0 square_dist square_hull).dedup.length = 1 ∧
    (foreign_vertices 1 square_dist square_hull).dedup.length = 1 :=
  ⟨by decide,
   (delaunay_local_nodes 0 2 square_points square_dist square_hull (by decide) (by decide)).2.2.2,
   by decide, by decide⟩
theorem resize_array_get (store : List FieldImpl) (h size k : Nat) :
    (resize_array store h size)[k]?
      = if k = h then (store[k]?).map (fun f => { f with rows := size }) else store[k]? := by
  unfold resize_array
  cases hs : store[h]? with
  | none =>
    by_cases hk : k = h
    · subst hk; simp [hs]
    · simp [hk]
  | some f =>
    have hl : h < store.length := by
      by_contra hc
      rw [List.getElem?_eq_none (by omega)] at hs
      cases hs
    simp only [List.getElem?_set]
    by_cases hk : k = h
    · subst hk; simp [hs, hl]
    · have : ¬ h = k := fun e => hk e.symm
      simp [hk, this]

theorem resize_array_length (store : List FieldImpl) (h size : Nat) :
    (resize_array store h size).length = store.length := by
  unfold resize_array
  cases store[h]? <;> simp

theorem resize_fields_length (m : List (String × Nat)) (store : List FieldImpl) (size : Nat) :
    (m.foldl (fun st p => resize_array st p.2 size) store).length = store.length := by
  induction m generalizing store with
  | nil => rfl
  | cons p rest ih => simp only [List.foldl_cons]; rw [ih, resize_array_length]

theorem resize_fields_get (m : List (String × Nat)) (store : List FieldImpl) (size k : Nat) :
    (m.foldl (fun st p => resize_array st p.2 size) store)[k]?
      = if k ∈ m.map Prod.snd then (store[k]?).map (fun f => { f with rows := size })
        else store[k]? := by
  induction m generalizing store with
  | nil => simp
  | cons p rest ih =>
    simp only [List.foldl_cons, List.map_cons, List.mem_cons]
    rw [ih, resize_array_get]
    by_cases h1 : k = p.2 <;> by_cases h2 : k ∈ rest.map Prod.snd
    · simp only [h1, true_or, if_true, Option.map_map]
      rw [if_pos (h1 ▸ h2)]
      rfl
    · simp only [h1, true_or, if_true]
      rw [if_neg (h1 ▸ h2)]
    · simp only [h1, h2, or_true, if_true, if_false]
    · simp only [h1, h2, or_self, if_false]

theorem store_array_of_get {store : List FieldImpl} {h : Nat} {f : FieldImpl}
    (hf : store[h]? = some f) : store_array store h = f := by
  simp [store_array, hf]

theorem get_of_lt_length {store : List FieldImpl} {h : Nat} (hl : h < store.length) :
    store[h]? = some (store_array store h) := by
  simp [store_array, List.getElem?_eq_getElem hl]

theorem write_row_spec (store : List FieldImpl) (h n : Nat) (v : Int) (hl : h < store.length)
    (hn : n < (store_array store h).rows) :
    ∃ s1, write_row store h n v = some s1 ∧ s1.length = store.length ∧
      (∀ k, (store_array s1 k).rows = (store_array store k).rows) ∧
      (∀ k, (store_array s1 k).name = (store_array store k).name) ∧
      ∀ k i, (store_array s1 k).data i
        = if k = h ∧ i = n then v else (store_array store k).data i := by
  have hg := get_of_lt_length hl
  refine ⟨store.set h { store_array store h with
    data := fun i => if i = n then v else (store_array store h).data i }, ?_, ?_, ?_, ?_, ?_⟩
  · simp [write_row, hg, hn]
  · simp
  · intro k
    by_cases hk : h = k
    · subst hk; simp [store_array, List.getElem?_set, hl]
    · simp [store_array, List.getElem?_set, hk]
  · intro k
    by_cases hk : h = k
    · subst hk; simp [store_array, List.getElem?_set, hl]
    · simp [store_array, List.getElem?_set, hk]
  · intro k i
    by_cases hk : h = k
    · subst hk; simp [store_array, List.getElem?_set, hl]
    · have : ¬ k = h := fun e => hk e.symm
      simp [store_array, List.getElem?_set, hk, this]

theorem default_row_spec (mpi_rank : Int) (self : Nodes) (store : List FieldImpl) (n : Nat)
    (hd : [self.global_index_, self.partition_, self.flags_, self.halo_].Nodup)
    (hb : ∀ h ∈ [self.global_index_, self.partition_, self.flags_, self.halo_],
      h < store.length ∧ n < (store_array store h).rows) :
    ∃ s1, default_row mpi_rank self store n = some s1 ∧ s1.length = store.length ∧
      (∀ k, (store_array s1 k).rows = (store_array store k).rows) ∧
      (∀ k, (store_array s1 k).name = (store_array store k).name) ∧
      ∀ k i, (store_array s1 k).data i
        = if i = n then default_value mpi_rank self k i ((store_array store k).data i)
          else (store_array store k).data i := by
  have b1 := hb self.global_index_ (by simp)
  have b2 := hb self.partition_ (by simp)
  have b3 := hb self.flags_ (by simp)
  have b4 := hb self.halo_ (by simp)
  simp only [List.nodup_cons, List.mem_cons, List.mem_singleton, not_or, List.not_mem_nil,
    not_false_eq_true, List.nodup_nil, and_true] at hd
  obtain ⟨⟨d12, d13, d14⟩, ⟨d23, d24⟩, d34⟩ := hd
  obtain ⟨s1, e1, l1, r1, n1, v1⟩ := write_row_spec store self.global_index_ n (1 + (n : Int))
    b1.1 b1.2
  obtain ⟨s2, e2, l2, r2, n2, v2⟩ := write_row_spec s1 self.partition_ n mpi_rank
    (by rw [l1]; exact b2.1) (by rw [r1]; exact b2.2)
  obtain ⟨s3, e3, l3, r3, n3, v3⟩ := write_row_spec s2 self.flags_ n 0
    (by rw [l2, l1]; exact b3.1) (by rw [r2, r1]; exact b3.2)
  obtain ⟨s4, e4, l4, r4, n4, v4⟩ := write_row_spec s3 self.halo_ n 2147483647
    (by rw [l3, l2, l1]; exact b4.1) (by rw [r3, r2, r1]; exact b4.2)
  refine ⟨s4, ?_, ?_, ?_, ?_, ?_⟩
  · simp [default_row, e1, e2, e3, e4]
  · rw [l4, l3, l2, l1]
  · intro k; rw [r4, r3, r2, r1]
  · intro k; rw [n4, n3, n2, n1]
  · intro k i
    rw [v4, v3, v2, v1]
    unfold default_value
    have d21 : ¬ self.partition_ = self.global_index_ := fun e => d12 e.symm
    have d31 : ¬ self.flags_ = self.global_index_ := fun e => d13 e.symm
    have d41 : ¬ self.halo_ = self.global_index_ := fun e => d14 e.symm
    have d32 : ¬ self.flags_ = self.partition_ := fun e => d23 e.symm
    have d42 : ¬ self.halo_ = self.partition_ := fun e => d24 e.symm
    have d43 : ¬ self.halo_ = self.flags_ := fun e => d34 e.symm
    by_cases hi : i = n
    · subst hi
      by_cases k1 : k = self.global_index_
      · subst k1; simp [*]
      · by_cases k2 : k = self.partition_
        · subst k2; simp [*]
        · by_cases k3 : k = self.flags_
          · subst k3; simp [*]
          · by_cases k4 : k = self.halo_
            · subst k4; simp [*]
            · simp [*]
    · simp [hi]

theorem default_rows_spec (mpi_rank : Int) (self : Nodes) (rows : List Nat)
    (store : List FieldImpl)
    (hd : [self.global_index_, self.partition_, self.flags_, self.halo_].Nodup)
    (hb : ∀ h ∈ [self.global_index_, self.partition_, self.flags_, self.halo_],
      h < store.length ∧ ∀ n ∈ rows, n < (store_array store h).rows) :
    ∃ s1, default_rows mpi_rank self rows store = some s1 ∧ s1.length = store.length ∧
      (∀ k, (store_array s1 k).rows = (store_array store k).rows) ∧
      (∀ k, (store_array s1 k).name = (store_array store k).name) ∧
      ∀ k i, (store_array s1 k).data i
        = if i ∈ rows then default_value mpi_rank self k i ((store_array store k).data i)
          else (store_array store k).data i := by
  induction rows generalizing store with
  | nil => exact ⟨store, rfl, rfl, fun _ => rfl, fun _ => rfl, fun k i => by simp⟩
  | cons n rest ih =>
    obtain ⟨s1, e1, l1, r1, n1, v1⟩ := default_row_spec mpi_rank self store n hd
      (fun h hh => ⟨(hb h hh).1, (hb h hh).2 n (by simp)⟩)
    obtain ⟨s2, e2, l2, r2, n2, v2⟩ := ih s1
      (fun h hh => ⟨by rw [l1]; exact (hb h hh).1,
        fun m hm => by rw [r1]; exact (hb h hh).2 m (by simp [hm])⟩)
    refine ⟨s2, ?_, ?_, ?_, ?_, ?_⟩
    · simp [default_rows, e1, e2]
    · rw [l2, l1]
    · intro k; rw [r2, r1]
    · intro k; rw [n2, n1]
    · intro k i
      rw [v2, v1]
      by_cases h1 : i ∈ rest <;> by_cases h2 : i = n
      · rw [if_pos h1, if_pos h2, if_pos (by simp [h2])]
        unfold default_value
        split_ifs <;> rfl
      · rw [if_pos h1, if_neg h2, if_pos (by simp [h1])]
      · rw [if_neg h1, if_pos h2, if_pos (by simp [h2])]
      · rw [if_neg h1, if_neg h2, if_neg (by simp [h1, h2])]

theorem resize_fields_rows (m : List (String × Nat)) (store : List FieldImpl) (size h : Nat)
    (hl : h < store.length) (hm : h ∈ m.map Prod.snd) :
    (store_array (m.foldl (fun st p => resize_array st p.2 size) store) h).rows = size := by
  unfold store_array
  rw [resize_fields_get, if_pos hm, List.getElem?_eq_getElem hl]
  rfl

theorem resize_grow (mpi_rank : Int) (s : Nodes) (n : Nat) (hreg : s.Registered)
    (hmn : s.size_ < n) :
    ∃ store2, s.resize mpi_rank n = ({ s with size_ := n, store := store2 }, .ok ()) ∧
      store2.length = s.store.length ∧
      (∀ k, (store_array store2 k).rows
        = (store_array (s.fields_.foldl (fun st p => resize_array st p.2 n) s.store) k).rows) ∧
      ∀ k i, (store_array store2 k).data i
        = if s.size_ ≤ i ∧ i < n then default_value mpi_rank s k i ((store_array s.store k).data i)
          else (store_array s.store k).data i := by
  obtain ⟨hd, hb⟩ := hreg
  obtain ⟨s2, e, l, r, _, v⟩ := default_rows_spec mpi_rank s
    (List.range' s.size_ (n - s.size_))
    (s.fields_.foldl (fun st p => resize_array st p.2 n) s.store) hd
    (fun h hh => ⟨by rw [resize_fields_length]; exact (hb h hh).1, fun i hi => by
      rw [resize_fields_rows _ _ _ _ (hb h hh).1 (hb h hh).2]
      rw [List.mem_range'_1] at hi
      omega⟩)
  refine ⟨s2, ?_, ?_, r, ?_⟩
  · unfold Nodes.resize
    rw [if_pos (by omega)]
    simp only [e]
  · rw [l, resize_fields_length]
  · intro k i
    rw [v]
    have hdata : (store_array (s.fields_.foldl (fun st p => resize_array st p.2 n) s.store) k).data i
        = (store_array s.store k).data i := by
      unfold store_array
      rw [resize_fields_get]
      split_ifs
      · cases s.store[k]? <;> rfl
      · rfl
    rw [hdata]
    have hiff : i ∈ List.range' s.size_ (n - s.size_) ↔ s.size_ ≤ i ∧ i < n := by
      rw [List.mem_range'_1]; omega
    by_cases hc : s.size_ ≤ i ∧ i < n
    · rw [if_pos (hiff.2 hc), if_pos hc]
    · rw [if_neg (fun h => hc (hiff.1 h)), if_neg hc]

/-- C23 (amended): on a container of size `m < n` in which the built-in fields
`glb_idx`, `partition`, `flags` and `halo` are registered, `resize(n)` returns normally,
the size becomes `n`, the four arrays have `n` rows and every new row `i` with
`m ≤ i < n` holds global index `i + 1`, partition `mpi_rank`, flags `0` and
halo `2147483647` (the largest `int`); `resize` to the current size changes
nothing. -/
theorem resize_defaults (mpi_rank : Int) (s : Nodes) (n : Nat) :
    (s.Registered → s.size_ < n →
      (s.resize mpi_rank n).2 = .ok () ∧ (s.resize mpi_rank n).1.size_ = n ∧
      (∀ h ∈ [s.global_index_, s.partition_, s.flags_, s.halo_],
        ((s.resize mpi_rank n).1.array h).rows = n) ∧
      ∀ i, s.size_ ≤ i → i < n →
        ((s.resize mpi_rank n).1.array (s.resize mpi_rank n).1.global_index_).data i
          = (i : Int) + 1 ∧
        ((s.resize mpi_rank n).1.array (s.resize mpi_rank n).1.partition_).data i = mpi_rank ∧
        ((s.resize mpi_rank n).1.array (s.resize mpi_rank n).1.flags_).data i = 0 ∧
        ((s.resize mpi_rank n).1.array (s.resize mpi_rank n).1.halo_).data i = 2147483647) ∧
    s.resize mpi_rank s.size_ = (s, .ok ()) := by
  refine ⟨fun hreg hmn => ?_, ?_⟩
  · obtain ⟨store2, e, _, r, v⟩ := resize_grow mpi_rank s n hreg hmn
    have hd := hreg.1
    simp only [List.nodup_cons, List.mem_cons, List.mem_singleton, not_or, List.not_mem_nil,
      not_false_eq_true, List.nodup_nil, and_true] at hd
    obtain ⟨⟨d12, d13, d14⟩, ⟨d23, d24⟩, d34⟩ := hd
    have d21 : ¬ s.partition_ = s.global_index_ := fun e => d12 e.symm
    have d31 : ¬ s.flags_ = s.global_index_ := fun e => d13 e.symm
    have d41 : ¬ s.halo_ = s.global_index_ := fun e => d14 e.symm
    have d32 : ¬ s.flags_ = s.partition_ := fun e => d23 e.symm
    have d42 : ¬ s.halo_ = s.partition_ := fun e => d24 e.symm
    have d43 : ¬ s.halo_ = s.flags_ := fun e => d34 e.symm
    rw [e]
    refine ⟨rfl, rfl, ?_, ?_⟩
    · intro h hh
      show (store_array store2 h).rows = n
      rw [r, resize_fields_rows _ _ _ _ (hreg.2 h hh).1 (hreg.2 h hh).2]
    · intro i h1 h2
      simp only [Nodes.array]
      rw [v, v, v, v, if_pos ⟨h1, h2⟩]
      unfold default_value
      simp [*]
      ring
  · unfold Nodes.resize
    simp

theorem resize_defaults_witness :
    fresh_nodes.Registered ∧ fresh_nodes.size_ < 3 ∧
    ((fresh_nodes.resize 5 3).1.array (fresh_nodes.resize 5 3).1.global_index_).data 2 = 3 ∧
    ((fresh_nodes.resize 5 3).1.array (fresh_nodes.resize 5 3).1.partition_).data 2 = 5 ∧
    ((fresh_nodes.resize 5 3).1.array (fresh_nodes.resize 5 3).1.flags_).data 2 = 0 ∧
    ((fresh_nodes.resize 5 3).1.array (fresh_nodes.resize 5 3).1.halo_).data 2 = 2147483647 :=
  ⟨by decide, by decide,
   ((resize_defaults 5 fresh_nodes 3).1 (by decide) (by decide)).2.2.2 2 (by decide) (by decide)⟩
/-- C23: counterexample.  After the constructor, `remove_field("glb_idx")`
returns normally and takes the field out of `fields_`; `resize(3)` then sets
the size to 3 but does not resize the array behind `global_index()`, which
keeps 0 rows, so the write `glb_idx(0) = 1` lies outside the array: no new row
receives its default. -/
theorem resize_defaults_counterexample :
    (fresh_nodes.remove_field has_key "glb_idx").2 = .ok () ∧
    (fresh_nodes.remove_field has_key "glb_idx").1.size_ = 0 ∧
    smap_find (fresh_nodes.remove_field has_key "glb_idx").1.fields_ "glb_idx" = none ∧
    ((fresh_nodes.remove_field has_key "glb_idx").1.resize 0 3).2 = .error .outOfRange ∧
    ((fresh_nodes.remove_field has_key "glb_idx").1.resize 0 3).1.size_ = 3 ∧
    (((fresh_nodes.remove_field has_key "glb_idx").1.resize 0 3).1.array
      ((fresh_nodes.remove_field has_key "glb_idx").1.resize 0 3).1.global_index_).rows = 0 := by
  decide

theorem smap_find_isSome {α : Type} (m : List (String × α)) (name : String) :
    (smap_find m name).isSome = true ↔ name ∈ m.map Prod.fst := by
  induction m with
  | nil => simp [smap_find]
  | cons p rest ih =>
    obtain ⟨k, v⟩ := p
    simp only [smap_find, List.map_cons, List.mem_cons]
    by_cases hk : k = name
    · simp [hk]
    · rw [if_neg hk, ih]
      constructor
      · exact Or.inr
      · rintro (h | h)
        · exact absurd h.symm hk
        · exact h

theorem has_field_eq (has_field : List (String × Nat) → String → Bool)
    (hf : ∀ m name, has_field m name = (smap_find m name).isSome) : has_field = has_key := by
  funext m name
  rw [hf]
  rfl

/-- C22: when `has_field` tests membership in `fields_`, the constructor
returns a container of size 0 whose fields are exactly `glb_idx`,
`remote_idx`, `partition`, `xy`, `lonlat`, `ghost`, `flags` and `halo`, each
with 0 rows, and the lookups of the connectivities `edge` and `cell` return
normally. -/
theorem nodes_create (has_field : List (String × Nat) → String → Bool)
    (hf : ∀ m name, has_field m name = (smap_find m name).isSome) :
    Nodes.create has_field = .ok fresh_nodes ∧ fresh_nodes.size_ = 0 ∧
    (∀ name, (smap_find fresh_nodes.fields_ name).isSome = true ↔
      name ∈ ["glb_idx", "remote_idx", "partition", "xy", "lonlat", "ghost", "flags", "halo"]) ∧
    fresh_nodes.fields_.length = 8 ∧
    (∀ p ∈ fresh_nodes.fields_, (fresh_nodes.array p.2).rows = 0) ∧
    fresh_nodes.connectivity "edge" = .ok ⟨"edge", []⟩ ∧
    fresh_nodes.connectivity "cell" = .ok ⟨"cell", []⟩ := by
  rw [has_field_eq has_field hf]
  refine ⟨rfl, rfl, ?_, rfl, by decide, rfl, rfl⟩
  intro name
  rw [smap_find_isSome]
  rfl

theorem nodes_create_witness :
    Nodes.create has_key = .ok fresh_nodes ∧ fresh_nodes.size_ = 0 ∧
    fresh_nodes.fields_.length = 8 :=
  ⟨(nodes_create has_key (fun _ _ => rfl)).1, (nodes_create has_key (fun _ _ => rfl)).2.1,
   (nodes_create has_key (fun _ _ => rfl)).2.2.2.1⟩
theorem smap_set_keys {α : Type} (m : List (String × α)) (name : String) (v : α) :
    (smap_set m name v).map Prod.fst
      = if name ∈ m.map Prod.fst then m.map Prod.fst else m.map Prod.fst ++ [name] := by
  induction m with
  | nil => simp [smap_set]
  | cons p rest ih =>
    obtain ⟨k, w⟩ := p
    simp only [smap_set, List.map_cons, List.mem_cons]
    by_cases hk : k = name
    · simp [hk]
    · have hk2 : ¬ name = k := fun e => hk e.symm
      rw [if_neg hk, List.map_cons, ih]
      by_cases hm : name ∈ rest.map Prod.fst
      · simp [hm]
      · simp [hm, hk2]

theorem smap_erase_keys {α : Type} (m : List (String × α)) (name : String) :
    (smap_erase m name).map Prod.fst = (m.map Prod.fst).filter (fun k => decide (k ≠ name)) := by
  unfold smap_erase
  induction m with
  | nil => rfl
  | cons p rest ih =>
    obtain ⟨k, w⟩ := p
    by_cases hk : k = name
    · simp only [List.filter_cons, List.map_cons, hk, ne_eq, not_true_eq_false, decide_False]
      exact ih
    · simp only [List.filter_cons, List.map_cons, hk, ne_eq, not_false_eq_true, decide_True,
        if_true]
      rw [← ih]

theorem smap_set_nodup {α : Type} (m : List (String × α)) (name : String) (v : α)
    (h : (m.map Prod.fst).Nodup) : ((smap_set m name v).map Prod.fst).Nodup := by
  rw [smap_set_keys]
  split_ifs with hm
  · exact h
  · rw [List.nodup_append]
    refine ⟨h, by simp, ?_⟩
    intro a ha hb
    simp only [List.mem_singleton] at hb
    subst hb
    exact hm ha

theorem smap_erase_nodup {α : Type} (m : List (String × α)) (name : String)
    (h : (m.map Prod.fst).Nodup) : ((smap_erase m name).map Prod.fst).Nodup := by
  rw [smap_erase_keys]
  exact h.filter _

theorem add_present (has_field : List (String × Nat) → String → Bool) (s : Nodes)
    (f : FieldImpl) (hname : f.name ≠ "") (hp : has_field s.fields_ f.name = true) :
    s.add has_field f = (s, .error .exception) := by
  unfold Nodes.add
  rw [if_neg hname, if_pos hp]

theorem add_absent (has_field : List (String × Nat) → String → Bool) (s : Nodes)
    (f : FieldImpl) (hname : f.name ≠ "") (hp : ¬ has_field s.fields_ f.name = true) :
    s.add has_field f
      = ({ s with
           store := s.store ++ [f]
           fields_ := smap_set s.fields_ f.name s.store.length }, .ok s.store.length) := by
  unfold Nodes.add
  rw [if_neg hname, if_neg hp]

theorem remove_present (has_field : List (String × Nat) → String → Bool) (s : Nodes)
    (name : String) (hp : has_field s.fields_ name = true) :
    s.remove_field has_field name
      = ({ s with fields_ := smap_erase s.fields_ name }, .ok ()) := by
  unfold Nodes.remove_field
  simp [hp]

theorem remove_absent (has_field : List (String × Nat) → String → Bool) (s : Nodes)
    (name : String) (hp : ¬ has_field s.fields_ name = true) :
    s.remove_field has_field name = (s, .error .exception) := by
  unfold Nodes.remove_field
  simp [hp]

/-- C25: when `has_field` tests membership in `fields_`, `add` of a field with a
non-empty name fails exactly when the name is already a key of `fields_`, and a
failed `add` returns the container unchanged; `remove_field(name)` and
`field(name)` fail exactly when `name` is not a key; the keys stay free of
repetitions under `add` and `remove_field`. -/
theorem attribute_names (has_field : List (String × Nat) → String → Bool)
    (hf : ∀ m name, has_field m name = (smap_find m name).isSome)
    (s : Nodes) (f : FieldImpl) (name : String) (hname : f.name ≠ "") :
    ((s.add has_field f).2.isOk = false ↔ f.name ∈ s.fields_.map Prod.fst) ∧
    ((s.add has_field f).2.isOk = false → (s.add has_field f).1 = s) ∧
    ((s.add has_field f).2.isOk = true → f.name ∈ (s.add has_field f).1.fields_.map Prod.fst) ∧
    ((s.remove_field has_field name).2.isOk = false ↔ name ∉ s.fields_.map Prod.fst) ∧
    ((s.remove_field has_field name).2.isOk = true →
      name ∉ (s.remove_field has_field name).1.fields_.map Prod.fst) ∧
    ((s.field has_field name).isOk = false ↔ name ∉ s.fields_.map Prod.fst) ∧
    ((s.fields_.map Prod.fst).Nodup →
      ((s.add has_field f).1.fields_.map Prod.fst).Nodup ∧
      ((s.remove_field has_field name).1.fields_.map Prod.fst).Nodup) := by
  rw [has_field_eq has_field hf]
  have hk : ∀ n, has_key s.fields_ n = true ↔ n ∈ s.fields_.map Prod.fst :=
    fun n => smap_find_isSome s.fields_ n
  have hadd : (s.add has_key f).2.isOk = false ↔ f.name ∈ s.fields_.map Prod.fst := by
    by_cases hp : has_key s.fields_ f.name = true
    · rw [add_present _ _ _ hname hp]
      exact ⟨fun _ => (hk _).1 hp, fun _ => rfl⟩
    · rw [add_absent _ _ _ hname hp]
      exact ⟨fun h => (by cases h), fun h => absurd ((hk _).2 h) hp⟩
  have hrem : (s.remove_field has_key name).2.isOk = false ↔ name ∉ s.fields_.map Prod.fst := by
    by_cases hp : has_key s.fields_ name = true
    · rw [remove_present _ _ _ hp]
      exact ⟨fun h => (by cases h), fun h => absurd ((hk _).1 hp) h⟩
    · rw [remove_absent _ _ _ hp]
      exact ⟨fun _ h => hp ((hk _).2 h), fun _ => rfl⟩
  refine ⟨hadd, ?_, ?_, hrem, ?_, ?_, ?_⟩
  · intro h
    rw [add_present _ _ _ hname ((hk _).2 (hadd.1 h))]
  · intro h
    have hp : ¬ has_key s.fields_ f.name = true := by
      intro hp
      rw [add_present _ _ _ hname hp] at h
      cases h
    rw [add_absent _ _ _ hname hp]
    show f.name ∈ (smap_set s.fields_ f.name s.store.length).map Prod.fst
    rw [smap_set_keys]
    split_ifs with hm
    · exact hm
    · simp
  · intro h
    have hp : has_key s.fields_ name = true := by
      by_contra hp
      rw [remove_absent _ _ _ hp] at h
      cases h
    rw [remove_present _ _ _ hp]
    show name ∉ (smap_erase s.fields_ name).map Prod.fst
    rw [smap_erase_keys]
    simp
  · unfold Nodes.field
    by_cases hp : has_key s.fields_ name = true
    · have hs : (smap_find s.fields_ name).isSome = true := hp
      cases hfind : smap_find s.fields_ name with
      | none => rw [hfind] at hs; cases hs
      | some h =>
        simp only [hp, Bool.not_true, Bool.false_eq_true, if_false]
        exact ⟨fun h => (by cases h), fun h => absurd ((hk _).1 hp) h⟩
    · have hp2 : has_key s.fields_ name = false := by simpa using hp
      simp only [hp2, Bool.not_false, if_true]
      exact ⟨fun _ h => hp ((hk _).2 h), fun _ => rfl⟩
  · intro hnd
    constructor
    · by_cases hp : has_key s.fields_ f.name = true
      · rw [add_present _ _ _ hname hp]
        exact hnd
      · rw [add_absent _ _ _ hname hp]
        exact smap_set_nodup _ _ _ hnd
    · by_cases hp : has_key s.fields_ name = true
      · rw [remove_present _ _ _ hp]
        exact smap_erase_nodup _ _ hnd
      · rw [remove_absent _ _ _ hp]
        exact hnd

theorem attribute_names_witness :
    (new_field "halo" 0 []).name ≠ "" ∧
    (fresh_nodes.add has_key (new_field "halo" 0 [])).2.isOk = false ∧
    (fresh_nodes.field has_key "temperature").isOk = false :=
  ⟨by decide,
   (attribute_names has_key (fun _ _ => rfl) fresh_nodes (new_field "halo" 0 []) "temperature"
      (by decide)).1.2 (by decide),
   (attribute_names has_key (fun _ _ => rfl) fresh_nodes (new_field "halo" 0 []) "temperature"
      (by decide)).2.2.2.2.2.1.2 (by decide)⟩
theorem smap_set_mem {α : Type} (m : List (String × α)) (name : String) (v : α)
    (p : String × α) (hp : p ∈ smap_set m name v) : p ∈ m ∨ p.2 = v := by
  induction m with
  | nil =>
    simp only [smap_set, List.mem_singleton] at hp
    exact Or.inr (by rw [hp])
  | cons q rest ih =>
    obtain ⟨k, w⟩ := q
    simp only [smap_set] at hp
    split_ifs at hp with hk
    · rcases List.mem_cons.1 hp with h | h
      · exact Or.inr (by rw [h])
      · exact Or.inl (List.mem_cons_of_mem _ h)
    · rcases List.mem_cons.1 hp with h | h
      · exact Or.inl (by rw [h]; exact List.mem_cons_self _ _)
      · rcases ih h with h1 | h1
        · exact Or.inl (List.mem_cons_of_mem _ h1)
        · exact Or.inr h1

theorem store_array_append_left (store : List FieldImpl) (f : FieldImpl) (h : Nat)
    (hl : h < store.length) : store_array (store ++ [f]) h = store_array store h := by
  unfold store_array
  rw [List.getElem?_append_left hl]

theorem store_array_append_self (store : List FieldImpl) (f : FieldImpl) :
    store_array (store ++ [f]) store.length = f := by
  unfold store_array
  rw [List.getElem?_append_right (le_refl _)]
  simp

theorem add_rowsAgree (has_field : List (String × Nat) → String → Bool) (s : Nodes)
    (f : FieldImpl) (hs : RowsAgree s) (hrows : f.rows = s.size_) :
    RowsAgree (s.add has_field f).1 := by
  unfold Nodes.add
  split_ifs
  · exact hs
  · exact hs
  · intro p hp
    simp only at hp
    rcases smap_set_mem _ _ _ _ hp with h | h
    · obtain ⟨h1, h2⟩ := hs p h
      refine ⟨by simp; omega, ?_⟩
      show (store_array (s.store ++ [f]) p.2).rows = s.size_
      rw [store_array_append_left _ _ _ h1]
      exact h2
    · refine ⟨by simp [h], ?_⟩
      show (store_array (s.store ++ [f]) p.2).rows = s.size_
      rw [h, store_array_append_self]
      exact hrows

theorem remove_rowsAgree (has_field : List (String × Nat) → String → Bool) (s : Nodes)
    (name : String) (hs : RowsAgree s) : RowsAgree (s.remove_field has_field name).1 := by
  unfold Nodes.remove_field
  split_ifs
  · exact hs
  · intro p hp
    simp only [smap_erase] at hp
    exact hs p (List.mem_of_mem_filter hp)

theorem default_row_rows (mpi_rank : Int) (self : Nodes) (store s1 : List FieldImpl) (n : Nat)
    (h : default_row mpi_rank self store n = some s1) :
    s1.length = store.length ∧ ∀ k, (store_array s1 k).rows = (store_array store k).rows := by
  have hw : ∀ (st st1 : List FieldImpl) (h n : Nat) (v : Int), write_row st h n v = some st1 →
      st1.length = st.length ∧ ∀ k, (store_array st1 k).rows = (store_array st k).rows := by
    intro st st1 h n v hw
    unfold write_row at hw
    cases hg : st[h]? with
    | none => rw [hg] at hw; cases hw
    | some f =>
      rw [hg] at hw
      simp only at hw
      split_ifs at hw with hn
      have hl : h < st.length := by
        by_contra hc
        rw [List.getElem?_eq_none (by omega)] at hg
        cases hg
      have hsa : store_array st h = f := store_array_of_get hg
      obtain ⟨s', e, l, r, _, _⟩ := write_row_spec st h n v hl (by rw [hsa]; exact hn)
      have : write_row st h n v = some st1 := by
        unfold write_row
        rw [hg]
        simp only [hn, if_true]
        exact hw
      rw [e] at this
      cases this
      exact ⟨l, r⟩
  unfold default_row at h
  cases h1 : write_row store self.global_index_ n (1 + (n : Int)) with
  | none => rw [h1] at h; cases h
  | some a =>
    rw [h1] at h
    simp only at h
    cases h2 : write_row a self.partition_ n mpi_rank with
    | none => rw [h2] at h; cases h
    | some b =>
      rw [h2] at h
      simp only at h
      cases h3 : write_row b self.flags_ n 0 with
      | none => rw [h3] at h; cases h
      | some c =>
        rw [h3] at h
        simp only at h
        obtain ⟨l1, r1⟩ := hw _ _ _ _ _ h1
        obtain ⟨l2, r2⟩ := hw _ _ _ _ _ h2
        obtain ⟨l3, r3⟩ := hw _ _ _ _ _ h3
        obtain ⟨l4, r4⟩ := hw _ _ _ _ _ h
        exact ⟨by rw [l4, l3, l2, l1], fun k => by rw [r4, r3, r2, r1]⟩

theorem default_rows_rows (mpi_rank : Int) (self : Nodes) (rows : List Nat)
    (store s1 : List FieldImpl) (h : default_rows mpi_rank self rows store = some s1) :
    s1.length = store.length ∧ ∀ k, (store_array s1 k).rows = (store_array store k).rows := by
  induction rows generalizing store with
  | nil =>
    simp only [default_rows] at h
    cases h
    exact ⟨rfl, fun _ => rfl⟩
  | cons n rest ih =>
    simp only [default_rows] at h
    cases h1 : default_row mpi_rank self store n with
    | none => rw [h1] at h; cases h
    | some a =>
      rw [h1] at h
      obtain ⟨l1, r1⟩ := default_row_rows _ _ _ _ _ h1
      obtain ⟨l2, r2⟩ := ih a h
      exact ⟨by rw [l2, l1], fun k => by rw [r2, r1]⟩

theorem resize_of_some (mpi_rank : Int) (s : Nodes) (size : Nat) (store2 : List FieldImpl)
    (hne : size ≠ s.size_)
    (hd : default_rows mpi_rank s (List.range' s.size_ (size - s.size_))
      (s.fields_.foldl (fun st p => resize_array st p.2 size) s.store) = some store2) :
    s.resize mpi_rank size = ({ s with size_ := size, store := store2 }, .ok ()) := by
  unfold Nodes.resize
  rw [if_pos hne]
  simp only [hd]

theorem resize_of_none (mpi_rank : Int) (s : Nodes) (size : Nat) (hne : size ≠ s.size_)
    (hd : default_rows mpi_rank s (List.range' s.size_ (size - s.size_))
      (s.fields_.foldl (fun st p => resize_array st p.2 size) s.store) = none) :
    (s.resize mpi_rank size).2 = .error .outOfRange := by
  unfold Nodes.resize
  rw [if_pos hne]
  simp only [hd]

theorem resize_of_eq (mpi_rank : Int) (s : Nodes) (size : Nat) (he : size = s.size_) :
    s.resize mpi_rank size = (s, .ok ()) := by
  unfold Nodes.resize
  rw [if_neg (by simpa using he)]

theorem resize_rowsAgree (mpi_rank : Int) (s : Nodes) (size : Nat) (hs : RowsAgree s)
    (hok : (s.resize mpi_rank size).2 ≠ .error .outOfRange) :
    RowsAgree (s.resize mpi_rank size).1 := by
  by_cases hne : size = s.size_
  · rw [resize_of_eq _ _ _ hne]
    exact hs
  · cases hd : default_rows mpi_rank s (List.range' s.size_ (size - s.size_))
        (s.fields_.foldl (fun st p => resize_array st p.2 size) s.store) with
    | none => exact absurd (resize_of_none _ _ _ hne hd) hok
    | some store2 =>
      rw [resize_of_some _ _ _ _ hne hd]
      obtain ⟨l, r⟩ := default_rows_rows _ _ _ _ _ hd
      intro p hp
      obtain ⟨h1, _⟩ := hs p hp
      refine ⟨by show p.2 < store2.length; rw [l, resize_fields_length]; exact h1, ?_⟩
      show (store_array store2 p.2).rows = size
      rw [r]
      exact resize_fields_rows _ _ _ _ h1 (List.mem_map_of_mem _ hp)

theorem apply_add_fst (has_field : List (String × Nat) → String → Bool) (mpi_rank : Int)
    (s : Nodes) (f : FieldImpl) :
    (s.apply has_field mpi_rank (.add f)).1 = (s.add has_field f).1 := by
  simp only [Nodes.apply]
  rcases h : s.add has_field f with ⟨s1, r⟩
  cases r <;> rfl

theorem run_cons (has_field : List (String × Nat) → String → Bool) (mpi_rank : Int)
    (s t : Nodes) (op : NodesOp) (ops : List NodesOp)
    (h : Nodes.run has_field mpi_rank s (op :: ops) = some t) :
    (s.apply has_field mpi_rank op).2 ≠ .error .outOfRange ∧
    Nodes.run has_field mpi_rank (s.apply has_field mpi_rank op).1 ops = some t := by
  unfold Nodes.run at h
  rcases ha : s.apply has_field mpi_rank op with ⟨s1, r⟩
  rw [ha] at h
  cases r with
  | ok u => exact ⟨fun e => (by cases e), h⟩
  | error e =>
    cases e with
    | exception => exact ⟨fun e => (by cases e), h⟩
    | assertion => exact ⟨fun e => (by cases e), h⟩
    | outOfRange => cases h

theorem apply_rowsAgree (has_field : List (String × Nat) → String → Bool) (mpi_rank : Int)
    (s : Nodes) (op : NodesOp) (hs : RowsAgree s)
    (hadd : match op with
      | .add field => field.rows = s.size_
      | _ => True)
    (hok : (s.apply has_field mpi_rank op).2 ≠ .error .outOfRange) :
    RowsAgree (s.apply has_field mpi_rank op).1 := by
  cases op with
  | add f =>
    rw [apply_add_fst]
    exact add_rowsAgree has_field s f hs hadd
  | remove_field name => exact remove_rowsAgree has_field s name hs
  | resize size => exact resize_rowsAgree mpi_rank s size hs hok

theorem run_rowsAgree (has_field : List (String × Nat) → String → Bool) (mpi_rank : Int)
    (ops : List NodesOp) (s0 s : Nodes) (h0 : RowsAgree s0)
    (hadd : AddsMatch has_field mpi_rank s0 ops)
    (hrun : Nodes.run has_field mpi_rank s0 ops = some s) : RowsAgree s := by
  induction ops generalizing s0 with
  | nil =>
    simp only [Nodes.run] at hrun
    cases hrun
    exact h0
  | cons op rest ih =>
    obtain ⟨hok, hr⟩ := run_cons _ _ _ _ _ _ hrun
    exact ih _ (apply_rowsAgree has_field mpi_rank s0 op h0 hadd.1 hok) hadd.2 hr

theorem create_has_key : Nodes.create has_key = .ok fresh_nodes := rfl

/-- C24 (amended): after the constructor and any sequence of `add`,
`remove_field` and `resize` calls that writes inside its arrays and in which
every field passed to `add` has as many rows as the container has at that
call, every array registered in `fields_` has `size_` rows; this includes the
array behind each built-in accessor (`global_index()`, `partition()`, ...) as
long as its field is still registered. -/
theorem row_count_invariant (has_field : List (String × Nat) → String → Bool)
    (hf : ∀ m name, has_field m name = (smap_find m name).isSome) (mpi_rank : Int)
    (s0 s : Nodes) (ops : List NodesOp) (hc : Nodes.create has_field = .ok s0)
    (hadd : AddsMatch has_field mpi_rank s0 ops)
    (hrun : Nodes.run has_field mpi_rank s0 ops = some s) :
    (∀ p ∈ s.fields_, (s.array p.2).rows = s.size_) ∧
    (∀ h ∈ [s.global_index_, s.remote_index_, s.partition_, s.xy_, s.lonlat_, s.ghost_,
        s.flags_, s.halo_],
      h ∈ s.fields_.map Prod.snd → (s.array h).rows = s.size_) := by
  rw [has_field_eq has_field hf] at hc hadd hrun
  rw [create_has_key] at hc
  cases hc
  have h1 : ∀ p ∈ s.fields_, (s.array p.2).rows = s.size_ := fun p hp =>
    (run_rowsAgree has_key mpi_rank ops fresh_nodes s (by decide) hadd hrun p hp).2
  refine ⟨h1, ?_⟩
  intro h _ hm
  obtain ⟨p, hp, e⟩ := List.mem_map.1 hm
  rw [← e]
  exact h1 p hp

/-- A sequence of calls that adds a field of three rows after a resize to
three rows and removes a built-in field: the added array, of handle 8, has as
many rows as the container. -/
theorem row_count_invariant_witness :
    ((((fresh_nodes.resize 0 3).1.add has_key (new_field "temperature" 3 [])).1.remove_field
        has_key "remote_idx").1.array 8).rows
      = (((fresh_nodes.resize 0 3).1.add has_key (new_field "temperature" 3 [])).1.remove_field
        has_key "remote_idx").1.size_ :=
  (row_count_invariant has_key (fun _ _ => rfl) 0 fresh_nodes
    (((fresh_nodes.resize 0 3).1.add has_key (new_field "temperature" 3 [])).1.remove_field
        has_key "remote_idx").1
    [.resize 3, .add (new_field "temperature" 3 []), .remove_field "remote_idx"]
    rfl ⟨trivial, rfl, trivial, trivial⟩ rfl).1 ("temperature", 8) (by decide)

/-- C24: counterexample.  After the constructor, `add` of a field of five rows
returns normally and leaves the container with size 0 and a registered array
of five rows.  And after the constructor, `resize(3)`, `remove_field("glb_idx")`
and `resize(2)` return normally and leave the container with size 2 while the
array that `global_index()` returns, no longer registered, keeps 3 rows. -/
theorem row_count_counterexample :
    (Nodes.run has_key 0 fresh_nodes [.add field5]
      = some (fresh_nodes.add has_key field5).1 ∧
    (fresh_nodes.add has_key field5).2 = .ok 8 ∧
    (fresh_nodes.add has_key field5).1.size_ = 0 ∧
    smap_find (fresh_nodes.add has_key field5).1.fields_ "temperature" = some 8 ∧
    ((fresh_nodes.add has_key field5).1.array 8).rows = 5 ∧
    ¬ RowsAgree (fresh_nodes.add has_key field5).1) ∧
    (Nodes.run has_key 0 fresh_nodes [.resize 3, .remove_field "glb_idx", .resize 2]
      = some (((fresh_nodes.resize 0 3).1.remove_field has_key "glb_idx").1.resize 0 2).1 ∧
    (((fresh_nodes.resize 0 3).1.remove_field has_key "glb_idx").1.resize 0 2).1.size_ = 2 ∧
    smap_find (((fresh_nodes.resize 0 3).1.remove_field has_key "glb_idx").1.resize 0 2).1.fields_
      "glb_idx" = none ∧
    ((((fresh_nodes.resize 0 3).1.remove_field has_key "glb_idx").1.resize 0 2).1.array
      (((fresh_nodes.resize 0 3).1.remove_field has_key "glb_idx").1.resize 0
        2).1.global_index_).rows = 3) :=
  ⟨⟨rfl, rfl, rfl, rfl, rfl, by decide⟩, rfl, by decide, by decide, by decide⟩
/-- C21 (amended): in the local mesh written by `extract_mesh_partition` the
field `halo` has one row per node, and every row holds 0, for the owned nodes
and for the ghost nodes alike. -/
theorem extract_halo_zero (part_ : Int) (dist : Nat → Int) (g : DMesh) :
    (extract_halo part_ g).length = (extract_mesh_partition part_ dist g).nodes.length ∧
    ∀ j, j < (extract_mesh_partition part_ dist g).nodes.length →
      (extract_halo part_ g).getD j 1 = 0 := by
  have hl : (extract_halo part_ g).length = (extract_mesh_partition part_ dist g).nodes.length := by
    simp [extract_halo, extract_mesh_partition]
  refine ⟨hl, fun j hj => ?_⟩
  rw [← hl] at hj
  rw [List.getD_eq_getElem?_getD, List.getElem?_eq_getElem hj]
  simp [extract_halo]

set_option maxRecDepth 100000 in
theorem extract_halo_zero_witness :
    2 < (extract_mesh_partition 0 square_dist
      (build_global_mesh 0 square_points square_dist square_hull)).nodes.length ∧
    (extract_halo 0 (build_global_mesh 0 square_points square_dist square_hull)).getD 2 1 = 0 :=
  ⟨by decide!,
   (extract_halo_zero 0 square_dist
      (build_global_mesh 0 square_points square_dist square_hull)).2 2 (by decide!)⟩

set_option maxRecDepth 100000 in
/-- C21: counterexample.  For the square split into two partitions, row 2 of
the local mesh of partition 0 is a ghost node (corner 2, owned by partition 1)
and its halo value is 0, not 1. -/
theorem extract_halo_counterexample :
    ((extract_mesh_partition 0 square_dist
      (build_global_mesh 0 square_points square_dist square_hull)).node 2).ghost = 1 ∧
    ((extract_mesh_partition 0 square_dist
      (build_global_mesh 0 square_points square_dist square_hull)).node 2).part = 1 ∧
    (extract_halo 0 (build_global_mesh 0 square_points square_dist square_hull)).getD 2 1 = 0 ∧
    (extract_halo 0 (build_global_mesh 0 square_points square_dist square_hull)).getD 2 1 ≠ 1 := by
  decide!

theorem add_connectivity_ok (s : Nodes) (c : Connectivity) :
    (s.add_connectivity c).2 = .ok c := rfl

theorem connectivity_fails_iff (s : Nodes) (name : String) :
    (s.connectivity name).isOk = false ↔ name ∉ s.connectivities_.map Prod.fst := by
  unfold Nodes.connectivity
  rw [← smap_find_isSome]
  cases smap_find s.connectivities_ name with
  | none => simp [Except.isOk, Except.toBool]
  | some c => simp [Except.isOk, Except.toBool]

/-- C26: failing input.  On a freshly constructed container, which holds a
connectivity named `edge`, `add` of a second connectivity named `edge` returns
normally: it replaces the entry of `connectivities_`, while the member
`edge_connectivity_` keeps the first one. -/
theorem add_connectivity_failing_input :
    fresh_nodes.connectivity "edge" = .ok ⟨"edge", []⟩ ∧
    (fresh_nodes.add_connectivity ⟨"edge", [[0, 1]]⟩).2 = .ok ⟨"edge", [[0, 1]]⟩ ∧
    (fresh_nodes.add_connectivity ⟨"edge", [[0, 1]]⟩).1.connectivity "edge"
      = .ok ⟨"edge", [[0, 1]]⟩ ∧
    (fresh_nodes.add_connectivity ⟨"edge", [[0, 1]]⟩).1.edge_connectivity_
      = some ⟨"edge", []⟩ :=
  ⟨rfl, rfl, rfl, rfl⟩
theorem zipper_loop_diverges_step (rg : ReducedGrid) (opts : Options) (parts : Nat → Int)
    (mypart : Int) (jlat endN endS : Nat) (s : ZState)
    (hend : ¬ (s.ipN1 = endN ∧ s.ipS1 = endS))
    (h : ∀ fuel, zipper_loop rg opts parts mypart jlat endN endS fuel
      (zipper_step rg opts parts mypart jlat endN endS s) = none) :
    ∀ fuel, zipper_loop rg opts parts mypart jlat endN endS fuel s = none := by
  intro fuel
  cases fuel with
  | zero => simp only [zipper_loop]; rw [if_neg hend]
  | succ n => simp only [zipper_loop]; rw [if_neg hend]; exact h n

theorem snapshots_length_of_diverges (rg : ReducedGrid) (opts : Options) (jlat endN endS : Nat)
    (fuel : Nat) (s : ZState)
    (h : ∀ fuel, zipper_loop rg opts (fun _ => 0) 0 jlat endN endS fuel s = none) :
    (snapshots rg opts jlat endN endS fuel s).length = fuel := by
  induction fuel generalizing s with
  | zero => rfl
  | succ n ih =>
    have hend : ¬ (s.ipN1 = endN ∧ s.ipS1 = endS) := by
      intro hc
      have := h 0
      simp only [zipper_loop] at this
      rw [if_pos hc] at this
      cases this
    simp only [snapshots]
    rw [if_neg hend, List.length_cons, ih]
    intro f
    have := h (f + 1)
    simp only [zipper_loop] at this
    rw [if_neg hend] at this
    exact this

set_option maxRecDepth 100000 in
theorem stagger_diverges (fuel : Nat) :
    zipper_loop grid44 stagger_options (fun _ => 0) 0 0 4 4 fuel
      (zipper_start grid44 stagger_options 0) = none := by
  have h7 : ∀ fuel, zipper_loop grid44 stagger_options (fun _ => 0) 0 0 4 4 fuel
      ((zipper_step grid44 stagger_options (fun _ => 0) 0 0 4 4)^[7]
        (zipper_start grid44 stagger_options 0)) = none := fun fuel =>
    zipper_loop_stuck grid44 stagger_options (fun _ => 0) 0 0 4 4 fuel _ (by decide!)
      (by unfold SameCursors; decide!)
  have h6 := zipper_loop_diverges_step grid44 stagger_options (fun _ => 0) 0 0 4 4
    ((zipper_step grid44 stagger_options (fun _ => 0) 0 0 4 4)^[6]
      (zipper_start grid44 stagger_options 0)) (by decide!) h7
  have h5 := zipper_loop_diverges_step grid44 stagger_options (fun _ => 0) 0 0 4 4
    ((zipper_step grid44 stagger_options (fun _ => 0) 0 0 4 4)^[5]
      (zipper_start grid44 stagger_options 0)) (by decide!) h6
  have h4 := zipper_loop_diverges_step grid44 stagger_options (fun _ => 0) 0 0 4 4
    ((zipper_step grid44 stagger_options (fun _ => 0) 0 0 4 4)^[4]
      (zipper_start grid44 stagger_options 0)) (by decide!) h5
  have h3 := zipper_loop_diverges_step grid44 stagger_options (fun _ => 0) 0 0 4 4
    ((zipper_step grid44 stagger_options (fun _ => 0) 0 0 4 4)^[3]
      (zipper_start grid44 stagger_options 0)) (by decide!) h4
  have h2 := zipper_loop_diverges_step grid44 stagger_options (fun _ => 0) 0 0 4 4
    ((zipper_step grid44 stagger_options (fun _ => 0) 0 0 4 4)^[2]
      (zipper_start grid44 stagger_options 0)) (by decide!) h3
  have h1 := zipper_loop_diverges_step grid44 stagger_options (fun _ => 0) 0 0 4 4
    ((zipper_step grid44 stagger_options (fun _ => 0) 0 0 4 4)^[1]
      (zipper_start grid44 stagger_options 0)) (by decide!) h2
  exact zipper_loop_diverges_step grid44 stagger_options (fun _ => 0) 0 0 4 4
    (zipper_start grid44 stagger_options 0) (by decide!) h1 fuel

set_option maxRecDepth 100000 in
theorem stagger_row_ends :
    row_ends grid44 (unique_pole_active grid44 stagger_options) 0 = (4, 4) := by
  decide!

theorem stagger_row_never_finishes (fuel : Nat) :
    row_finishes fuel grid44 stagger_options 0 = false := by
  unfold row_finishes
  rw [stagger_row_ends]
  have := stagger_diverges fuel
  unfold zipper_start at this
  rw [this]
  rfl

theorem generate_region_diverges (fuel : Nat) (rg : ReducedGrid) (opts : Options)
    (hn : find_lat_north rg (fun _ => 0) 0 = some 0)
    (hs : find_lat_south rg (fun _ => 0) 0 = some 1)
    (hcn : connect_north rg 0 = 0) (hcs : connect_south rg 1 = 1)
    (hrow : row_finishes fuel rg opts 0 = false) :
    generate_region fuel rg opts (fun _ => 0) 0 = none := by
  have hr := region_rows_isSome rg opts (fun _ => 0) 0 fuel
    (List.range' 0 (1 - 0)) (initial_rstate rg)
  have hall : (List.range' 0 (1 - 0)).all (row_finishes fuel rg opts) = false := by
    simp [List.range', hrow]
  rw [hall] at hr
  unfold generate_region
  rw [hn, hs]
  simp only [hcn, hcs]
  cases hrr : region_rows rg opts (fun _ => 0) 0
      (unique_pole_active rg opts) fuel (List.range' 0 (1 - 0)) (initial_rstate rg) with
  | none => rfl
  | some r => rw [hrr] at hr; cases hr

set_option maxRecDepth 100000 in
/-- C27: failing input.  Rows of 4 points at longitudes `90*c`, options
`stagger` and `triangulate`, `angle = 0`: the rule longitudes of both rows
increase strictly up to the periodic column (0, ..., 360 and 45, ..., 405).
After seven passes the north cursor is at its end 4 and the south cursor at 3;
the two diagonals are equal, the parity of `jlat + ipN1 = 4` selects the
triangle down, and the pass leaves all four cursors as they are.  The loop
never leaves: `generate_region` returns for no amount of fuel. -/
theorem zipper_stagger_failing_input (fuel : Nat) :
    ((zipper_step grid44 stagger_options (fun _ => 0) 0 0 4 4)^[7]
      (zipper_start grid44 stagger_options 0)).ipN1 = 4 ∧
    ((zipper_step grid44 stagger_options (fun _ => 0) 0 0 4 4)^[7]
      (zipper_start grid44 stagger_options 0)).ipS1 = 3 ∧
    step_try grid44 stagger_options 0 ((zipper_step grid44 stagger_options (fun _ => 0) 0 0 4 4)^[7]
      (zipper_start grid44 stagger_options 0)) = ⟨false, true, false⟩ ∧
    step_cursors grid44 stagger_options 0
      ((zipper_step grid44 stagger_options (fun _ => 0) 0 0 4 4)^[7]
        (zipper_start grid44 stagger_options 0)) = (4, 3) ∧
    row_finishes fuel grid44 stagger_options 0 = false ∧
    generate_region fuel grid44 stagger_options (fun _ => 0) 0 = none := by
  exact ⟨by decide!, by decide!, by decide!, by decide!, stagger_row_never_finishes fuel,
    generate_region_diverges fuel grid44 stagger_options (by decide) (by decide) (by decide)
      (by decide) (stagger_row_never_finishes fuel)⟩

/-- C28: failing input.  On the staggered rows `grid44` with `stagger` and
`triangulate` set and one partition, the zipper emits no quad and one candidate
triangle per pass, and it never leaves its loop: within `fuel` passes it emits
`fuel` candidates, all accepted, instead of `4 + 4`. -/
theorem triangulate_stagger_failing_input (fuel : Nat) :
    (candidates fuel grid44 stagger_options 0).length = fuel ∧
    (accepted_row fuel grid44 stagger_options (fun _ => 0) 0 0).length = fuel ∧
    (candidates fuel grid44 stagger_options 0).all
      (fun c => !(step_try grid44 stagger_options 0 c).quad) = true := by
  have hl : (candidates fuel grid44 stagger_options 0).length = fuel := by
    unfold candidates
    rw [stagger_row_ends]
    exact snapshots_length_of_diverges grid44 stagger_options 0 4 4 fuel _ stagger_diverges
  refine ⟨hl, ?_, ?_⟩
  · rw [accepted_row_one, List.length_map, hl]
  · rw [List.all_eq_true]
    intro c _
    have : (step_try grid44 stagger_options 0 c).quad = false := by
      unfold step_try rules rules_of
      simp only [stagger_options, default_options]
      split_ifs <;> rfl
    rw [this]
    rfl

set_option maxRecDepth 100000 in
theorem ragged_diverges (fuel : Nat) :
    zipper_loop grid_ragged negative_angle_options (fun _ => 0) 0 0 4 4 fuel
      (zipper_start grid_ragged negative_angle_options 0) = none := by
  have h4 : ∀ fuel, zipper_loop grid_ragged negative_angle_options (fun _ => 0) 0 0 4 4 fuel
      ((zipper_step grid_ragged negative_angle_options (fun _ => 0) 0 0 4 4)^[4]
        (zipper_start grid_ragged negative_angle_options 0)) = none := fun fuel =>
    zipper_loop_stuck grid_ragged negative_angle_options (fun _ => 0) 0 0 4 4 fuel _ (by decide!)
      (by unfold SameCursors; decide!)
  have h3 := zipper_loop_diverges_step grid_ragged negative_angle_options (fun _ => 0) 0 0 4 4
    ((zipper_step grid_ragged negative_angle_options (fun _ => 0) 0 0 4 4)^[3]
      (zipper_start grid_ragged negative_angle_options 0)) (by decide!) h4
  have h2 := zipper_loop_diverges_step grid_ragged negative_angle_options (fun _ => 0) 0 0 4 4
    ((zipper_step grid_ragged negative_angle_options (fun _ => 0) 0 0 4 4)^[2]
      (zipper_start grid_ragged negative_angle_options 0)) (by decide!) h3
  have h1 := zipper_loop_diverges_step grid_ragged negative_angle_options (fun _ => 0) 0 0 4 4
    ((zipper_step grid_ragged negative_angle_options (fun _ => 0) 0 0 4 4)^[1]
      (zipper_start grid_ragged negative_angle_options 0)) (by decide!) h2
  exact zipper_loop_diverges_step grid_ragged negative_angle_options (fun _ => 0) 0 0 4 4
    (zipper_start grid_ragged negative_angle_options 0) (by decide!) h1 fuel

set_option maxRecDepth 100000 in
theorem ragged_row_never_finishes (fuel : Nat) :
    row_finishes fuel grid_ragged negative_angle_options 0 = false := by
  have he : row_ends grid_ragged (unique_pole_active grid_ragged negative_angle_options) 0
      = (4, 4) := by decide!
  unfold row_finishes
  rw [he]
  have := ragged_diverges fuel
  unfold zipper_start at this
  rw [this]
  rfl

set_option maxRecDepth 100000 in
/-- C30: failing input.  Rows of 4 points, the north row at longitudes `90*c`,
the south row at `10*c`, a negative `angle`, one partition.  After four passes
the north cursor is at column 0 and the south cursor at its end 4.  No skew
angle is within the tolerance, the diagonal `|xN1-xS2| = 40` is shorter than
`|xS1-xN2| = 50` and the south cursor cannot advance, so neither split is
legal; the rules set no flag (the `Exception` object of source line 461 is
built and not thrown).  The pass then stores the triangle up `(0, 4, 4, -1)`,
which is accepted, and leaves the cursors as they are: `generate_region`
raises no error and returns for no amount of fuel. -/
theorem geometry_violation_failing_input (fuel : Nat) :
    ((zipper_step grid_ragged negative_angle_options (fun _ => 0) 0 0 4 4)^[4]
      (zipper_start grid_ragged negative_angle_options 0)).ipN1 = 0 ∧
    ((zipper_step grid_ragged negative_angle_options (fun _ => 0) 0 0 4 4)^[4]
      (zipper_start grid_ragged negative_angle_options 0)).ipS1 = 4 ∧
    ((zipper_step grid_ragged negative_angle_options (fun _ => 0) 0 0 4 4)^[4]
      (zipper_start grid_ragged negative_angle_options 0)).ipS2 = 4 ∧
    |rule_lon grid_ragged negative_angle_options 0 0
        - rule_lon grid_ragged negative_angle_options 1 4|
      < |rule_lon grid_ragged negative_angle_options 1 4
        - rule_lon grid_ragged negative_angle_options 0 1| ∧
    step_try grid_ragged negative_angle_options 0
      ((zipper_step grid_ragged negative_angle_options (fun _ => 0) 0 0 4 4)^[4]
        (zipper_start grid_ragged negative_angle_options 0)) = ⟨false, false, false⟩ ∧
    ((zipper_step grid_ragged negative_angle_options (fun _ => 0) 0 0 4 4)^[5]
      (zipper_start grid_ragged negative_angle_options 0)).row
      = [⟨0, 0, 1, -1⟩, ⟨0, 1, 2, -1⟩, ⟨0, 2, 3, -1⟩, ⟨0, 3, 4, -1⟩, ⟨0, 4, 4, -1⟩] ∧
    generate_region fuel grid_ragged negative_angle_options (fun _ => 0) 0 = none :=
  ⟨by decide!, by decide!, by decide!, by decide!, by decide!, by decide!,
   generate_region_diverges fuel grid_ragged negative_angle_options (by decide) (by decide)
     (by decide) (by decide) (ragged_row_never_finishes fuel)⟩
theorem step_try_no_quad (rg : ReducedGrid) (opts : Options) (jlat : Nat) (s : ZState)
    (htri : opts.triangulate = true) : (step_try rg opts jlat s).quad = false := by
  unfold step_try rules rules_of
  simp only [htri, if_true]
  split_ifs <;> rfl

theorem zipper_pass_advances (rg : ReducedGrid) (opts : Options) (jlat endN endS : Nat)
    (s : ZState)
    (hN : ∀ c, c < endN → rule_lon rg opts jlat c < rule_lon rg opts jlat (c + 1))
    (hS : ∀ c, c < endS → rule_lon rg opts (jlat + 1) c < rule_lon rg opts (jlat + 1) (c + 1))
    (hw : rule_lon rg opts jlat endN = rule_lon rg opts (jlat + 1) endS)
    (hinv : CursorInv endN endS s) (hend : ¬ (s.ipN1 = endN ∧ s.ipS1 = endS)) :
    ((step_cursors rg opts jlat s).1 = s.ipN1 ∨ (step_cursors rg opts jlat s).1 = s.ipN1 + 1) ∧
    ((step_cursors rg opts jlat s).2 = s.ipS1 ∨ (step_cursors rg opts jlat s).2 = s.ipS1 + 1) ∧
    s.ipN1 + s.ipS1 < (step_cursors rg opts jlat s).1 + (step_cursors rg opts jlat s).2 ∧
    (step_cursors rg opts jlat s).1 ≤ endN ∧ (step_cursors rg opts jlat s).2 ≤ endS ∧
    (opts.triangulate = true →
      (step_cursors rg opts jlat s).1 + (step_cursors rg opts jlat s).2
        = s.ipN1 + s.ipS1 + 1) := by
  have hp := step_cursors_progress rg opts jlat endN endS s hN hS hw hinv hend
  obtain ⟨g1, g2, g3, g4⟩ := step_cursors_ge rg opts jlat endN endS s hinv
  obtain ⟨h1, h2, h3, h4⟩ := hinv
  have hu : (step_cursors rg opts jlat s).1 ≤ s.ipN1 + 1 ∧
      (step_cursors rg opts jlat s).2 ≤ s.ipS1 + 1 := by
    unfold step_cursors
    split_ifs <;> simp only <;> omega
  refine ⟨by omega, by omega, hp, g3, g4, fun htri => ?_⟩
  have hq := step_try_no_quad rg opts jlat s htri
  have hone : (step_cursors rg opts jlat s).1 = s.ipN1 ∨
      (step_cursors rg opts jlat s).2 = s.ipS1 := by
    unfold step_cursors
    rw [hq]
    simp only [Bool.false_eq_true, if_false]
    split_ifs
    · exact Or.inr rfl
    · exact Or.inl rfl
  omega

theorem snapshots_length_bounds (rg : ReducedGrid) (opts : Options) (jlat endN endS : Nat)
    (hN : ∀ c, c < endN → rule_lon rg opts jlat c < rule_lon rg opts jlat (c + 1))
    (hS : ∀ c, c < endS → rule_lon rg opts (jlat + 1) c < rule_lon rg opts (jlat + 1) (c + 1))
    (hw : rule_lon rg opts jlat endN = rule_lon rg opts (jlat + 1) endS)
    (fuel : Nat) (s : ZState) (hinv : CursorInv endN endS s)
    (hfuel : (endN - s.ipN1) + (endS - s.ipS1) ≤ fuel) :
    max (endN - s.ipN1) (endS - s.ipS1) ≤ (snapshots rg opts jlat endN endS fuel s).length ∧
    (snapshots rg opts jlat endN endS fuel s).length ≤ (endN - s.ipN1) + (endS - s.ipS1) ∧
    (opts.triangulate = true →
      (snapshots rg opts jlat endN endS fuel s).length = (endN - s.ipN1) + (endS - s.ipS1)) := by
  induction fuel generalizing s with
  | zero =>
    have := hinv.1
    have := hinv.2.1
    simp only [snapshots, List.length_nil]
    refine ⟨by omega, by omega, fun _ => by omega⟩
  | succ n ih =>
    simp only [snapshots]
    by_cases hend : s.ipN1 = endN ∧ s.ipS1 = endS
    · rw [if_pos hend]
      simp only [List.length_nil]
      refine ⟨by omega, by omega, fun _ => by omega⟩
    · rw [if_neg hend, List.length_cons]
      obtain ⟨a1, a2, a3, a4, a5, a6⟩ :=
        zipper_pass_advances rg opts jlat endN endS s hN hS hw hinv hend
      obtain ⟨c1, c2, _, _⟩ := zipper_step_cursors rg opts (fun _ => 0) 0 jlat endN endS s
      have hi := hinv.1
      have hi2 := hinv.2.1
      obtain ⟨b1, b2, b3⟩ := ih (zipper_step rg opts (fun _ => 0) 0 jlat endN endS s)
        (zipper_step_cursorInv rg opts _ _ jlat endN endS s hinv) (by rw [c1, c2]; omega)
      rw [c1, c2] at b1 b2 b3
      refine ⟨by omega, by omega, fun htri => ?_⟩
      have := b3 htri
      have := a6 htri
      omega

/-- Number of passes of the zipper of a row pair whose rule longitudes increase
strictly along both rows and agree at the two periodic columns (not
three-dimensional): at least the longer row length, at most the sum of the row
lengths, and exactly the sum when `triangulate` is set. -/
theorem zipper_pass_count {rg : ReducedGrid} {opts : Options} {fuel jlat : Nat}
    (h3d : opts.three_dimensional = false) (hlon : WellFormedLon rg opts)
    (hj : jlat + 1 < rg.nlat) (hfuel : rg.nlon jlat + rg.nlon (jlat + 1) ≤ fuel) :
    max (rg.nlon jlat) (rg.nlon (jlat + 1)) ≤ (candidates fuel rg opts jlat).length ∧
    (candidates fuel rg opts jlat).length ≤ rg.nlon jlat + rg.nlon (jlat + 1) ∧
    (opts.triangulate = true →
      (candidates fuel rg opts jlat).length = rg.nlon jlat + rg.nlon (jlat + 1)) := by
  have hup : unique_pole_active rg opts = false := by simp [unique_pole_active, h3d]
  have he : row_ends rg false jlat = (rg.nlon jlat, rg.nlon (jlat + 1)) := by
    simp [row_ends]
  have h := snapshots_length_bounds rg opts jlat (rg.nlon jlat) (rg.nlon (jlat + 1))
    (hlon.1 jlat (by omega)) (hlon.1 (jlat + 1) hj) (hlon.2 jlat (by omega)) fuel
    (start_state rg false jlat (initial_rstate rg))
    (by have := start_state_cursorInv rg false jlat (initial_rstate rg); rw [he] at this; exact this)
    (by simp only [start_state]; omega)
  unfold candidates
  rw [hup, he]
  simpa [start_state] using h

set_option maxRecDepth 100000 in
/-- The grid `[4,6,6,4]` with one partition and `triangulate`: the three row
pairs give 10, 12 and 10 candidates and the region holds 32 triangles and no
quad. -/
theorem grid4664_triangles :
    (candidates 20 grid4664 default_options 0).length = 10 ∧
    (candidates 20 grid4664 default_options 1).length = 12 ∧
    (candidates 20 grid4664 default_options 2).length = 10 ∧
    (region_of (generate_region 20 grid4664 default_options (fun _ => 0) 0)).ntriags = 32 ∧
    (region_of (generate_region 20 grid4664 default_options (fun _ => 0) 0)).nquads = 0 := by
  decide!
/-- C31: in the first row pair (`latN = 0`) each of the three ownership tests
holds exactly when `mypart` owns the north vertex N1; in the last row pair
(`latS = nlat-1`, `latN ≠ 0`) the quad and triangle-up tests hold exactly when
`mypart` owns S2 and the triangle-down test exactly when it owns S1. -/
theorem pole_row_delegation (pN1 pN2 pS1 pS2 mypart latN latS nlat : Int) (yN yS : ℚ) :
    (latN = 0 →
      (add_quad pN1 pN2 pS1 pS2 mypart latN latS nlat yN yS = true ↔ pN1 = mypart) ∧
      (add_triag_down pN1 pN2 pS1 mypart latN latS nlat yN yS = true ↔ pN1 = mypart) ∧
      (add_triag_up pN1 pS1 pS2 mypart latN latS nlat yN yS = true ↔ pN1 = mypart)) ∧
    (latN ≠ 0 → latS = nlat - 1 →
      (add_quad pN1 pN2 pS1 pS2 mypart latN latS nlat yN yS = true ↔ pS2 = mypart) ∧
      (add_triag_down pN1 pN2 pS1 mypart latN latS nlat yN yS = true ↔ pS1 = mypart) ∧
      (add_triag_up pN1 pS1 pS2 mypart latN latS nlat yN yS = true ↔ pS2 = mypart)) := by
  rw [add_quad_iff, add_triag_down_iff, add_triag_up_iff]
  unfold quad_owner triag_down_owner triag_up_owner
  refine ⟨fun h1 => ?_, fun h1 h2 => ?_⟩
  · simp only [h1, if_true]
    exact ⟨eq_comm, eq_comm, eq_comm⟩
  · simp only [h1, h2, if_true, if_false]
    exact ⟨eq_comm, eq_comm, eq_comm⟩

theorem pole_row_delegation_witness :
    (0 : Int) = 0 ∧
    (add_quad 1 2 3 4 1 0 1 4 60 20 = true ↔ (1 : Int) = 1) ∧
    (3 : Int) = 4 - 1 ∧
    (add_triag_down 1 2 3 3 2 3 4 (-20) (-60) = true ↔ (3 : Int) = 3) :=
  ⟨rfl, ((pole_row_delegation 1 2 3 4 1 0 1 4 60 20).1 rfl).1, rfl,
   ((pole_row_delegation 1 2 3 4 3 2 3 4 (-20) (-60)).2 (by decide) rfl).2.1⟩

/-- C32 (amended): in a row pair that touches neither the first nor the last
row, a partition that owns at least three of the four vertices of a quad
accepts it, and a partition that owns strictly more vertices of a triangle than
every other partition accepts it. -/
theorem majority_owner_wins (pN1 pN2 pS1 pS2 p latN latS nlat : Int) (yN yS : ℚ)
    (hN : latN ≠ 0) (hS : latS ≠ nlat - 1) :
    (3 ≤ [pN1, pN2, pS1, pS2].count p →
      add_quad pN1 pN2 pS1 pS2 p latN latS nlat yN yS = true) ∧
    (StrictMajority [pN1, pN2, pS1] p →
      add_triag_down pN1 pN2 pS1 p latN latS nlat yN yS = true) ∧
    (StrictMajority [pN1, pS1, pS2] p →
      add_triag_up pN1 pS1 pS2 p latN latS nlat yN yS = true) := by
  rw [add_quad_iff, add_triag_down_iff, add_triag_up_iff]
  unfold quad_owner triag_down_owner triag_up_owner StrictMajority
  simp only [hN, hS, if_false]
  refine ⟨fun h => ?_, fun h => ?_, fun h => ?_⟩
  · simp only [List.count_cons, List.count_nil, beq_iff_eq] at h
    by_cases a : pN1 = p <;> by_cases b : pN2 = p <;> by_cases c : pS1 = p <;>
      by_cases d : pS2 = p <;> simp only [a, b, c, d, if_true, if_false] at h <;>
      omega
  · have h1 := h pN1
    have h2 := h pN2
    have h3 := h pS1
    simp only [List.count_cons, List.count_nil, beq_iff_eq] at h1 h2 h3
    by_cases a : pN1 = p <;> by_cases b : pN2 = p <;> by_cases c : pS1 = p <;>
      simp only [a, b, c, if_true, if_false, ne_eq, not_true_eq_false, not_false_eq_true,
        true_implies, false_implies, eq_self_iff_true] at h1 h2 h3 <;>
      first
      | (exfalso; split_ifs at h1 h2 h3 <;> omega)
      | (clear h h1 h2 h3; subst_vars; split_ifs <;> simp_all)
  · have h1 := h pN1
    have h2 := h pS1
    have h3 := h pS2
    simp only [List.count_cons, List.count_nil, beq_iff_eq] at h1 h2 h3
    by_cases a : pN1 = p <;> by_cases b : pS1 = p <;> by_cases c : pS2 = p <;>
      simp only [a, b, c, if_true, if_false, ne_eq, not_true_eq_false, not_false_eq_true,
        true_implies, false_implies, eq_self_iff_true] at h1 h2 h3 <;>
      first
      | (exfalso; split_ifs at h1 h2 h3 <;> omega)
      | (clear h h1 h2 h3; subst_vars; split_ifs <;> simp_all)

theorem majority_owner_wins_witness :
    (2 : Int) ≠ 0 ∧ (3 : Int) ≠ 6 - 1 ∧ 3 ≤ ([7, 7, 5, 7] : List Int).count 7 ∧
    add_quad 7 7 5 7 7 2 3 6 20 10 = true :=
  ⟨by decide, by decide, by decide,
   (majority_owner_wins 7 7 5 7 7 2 3 6 20 10 (by decide) (by decide)).1 (by decide)⟩

set_option maxRecDepth 100000 in
/-- C32: counterexample.  Interior row pair in the northern hemisphere, quad
with owners N1 = N2 = 0, S1 = 1, S2 = 2: partition 0 owns two vertices and the
others one each, but the quad is rejected by partition 0 and accepted by
partition 1, the owner of S1. -/
theorem majority_owner_wins_counterexample :
    ([0, 0, 1, 2] : List Int).count 0 = 2 ∧ ([0, 0, 1, 2] : List Int).count 1 = 1 ∧
    ([0, 0, 1, 2] : List Int).count 2 = 1 ∧
    add_quad 0 0 1 2 0 1 2 4 20 10 = false ∧
    add_quad 0 0 1 2 1 1 2 4 20 10 = true := by
  decide!

/-- C33: in a row pair that touches neither the first nor the last row, a
triangle whose three owners are pairwise different and a quad whose most
frequent owners are tied are accepted exactly by the owner of the southern
vertex (S1 for the quad and the triangle down, S2 for the triangle up) when
`0.5*(yN+yS) > 1e-6`, and exactly by the owner of the northern vertex (N2 for
the quad, N1 for the triangles) otherwise. -/
theorem hemisphere_tie_break (pN1 pN2 pS1 pS2 mypart latN latS nlat : Int) (yN yS : ℚ)
    (hN : latN ≠ 0) (hS : latS ≠ nlat - 1) :
    (Tied [pN1, pN2, pS1, pS2] →
      (add_quad pN1 pN2 pS1 pS2 mypart latN latS nlat yN yS = true ↔
        mypart = if (1 / 2 : ℚ) * (yN + yS) > 1 / 1000000 then pS1 else pN2)) ∧
    ([pN1, pN2, pS1].Nodup →
      (add_triag_down pN1 pN2 pS1 mypart latN latS nlat yN yS = true ↔
        mypart = if (1 / 2 : ℚ) * (yN + yS) > 1 / 1000000 then pS1 else pN1)) ∧
    ([pN1, pS1, pS2].Nodup →
      (add_triag_up pN1 pS1 pS2 mypart latN latS nlat yN yS = true ↔
        mypart = if (1 / 2 : ℚ) * (yN + yS) > 1 / 1000000 then pS2 else pN1)) := by
  rw [add_quad_iff, add_triag_down_iff, add_triag_up_iff]
  unfold quad_owner triag_down_owner triag_up_owner
  simp only [hN, hS, if_false]
  refine ⟨fun h => ?_, fun h => ?_, fun h => ?_⟩
  · obtain ⟨p, q, hpq, hc, hmax⟩ := h
    have h1 := hmax pN1
    have h2 := hmax pS1
    have e1 : ¬ (pN1 = pN2 ∧ (pN1 = pS1 ∨ pN1 = pS2)) := by
      rintro ⟨a, b⟩
      simp only [List.count_cons, List.count_nil, beq_iff_eq] at h1 hc
      rcases b with b | b <;> subst_vars <;> split_ifs at h1 hc <;> omega
    have e2 : ¬ (pS1 = pS2 ∧ (pS1 = pN1 ∨ pS1 = pN2)) := by
      rintro ⟨a, b⟩
      simp only [List.count_cons, List.count_nil, beq_iff_eq] at h2 hc
      rcases b with b | b <;> subst_vars <;> split_ifs at h2 hc <;> omega
    rw [if_neg e1, if_neg e2]
  · simp only [List.nodup_cons, List.mem_cons, List.mem_singleton, not_or, List.not_mem_nil,
      not_false_eq_true, List.nodup_nil, and_true] at h
    obtain ⟨⟨a, b⟩, c⟩ := h
    rw [if_neg a, if_neg b, if_neg c]
  · simp only [List.nodup_cons, List.mem_cons, List.mem_singleton, not_or, List.not_mem_nil,
      not_false_eq_true, List.nodup_nil, and_true] at h
    obtain ⟨⟨a, b⟩, c⟩ := h
    rw [if_neg a, if_neg b, if_neg c]

set_option maxRecDepth 100000 in
theorem hemisphere_tie_break_witness :
    (2 : Int) ≠ 0 ∧ (3 : Int) ≠ 6 - 1 ∧ ([1, 2, 3] : List Int).Nodup ∧
    (add_triag_down 1 2 3 3 2 3 6 20 10 = true ↔
      (3 : Int) = if (1 / 2 : ℚ) * (20 + 10) > 1 / 1000000 then 3 else 1) :=
  ⟨by decide, by decide, by decide,
   (hemisphere_tie_break 1 2 3 0 3 2 3 6 20 10 (by decide) (by decide)).2.1 (by decide)⟩
theorem visited_congr (rg : ReducedGrid) (opts : Options) (parts1 parts2 : Nat → Int)
    (p1 p2 : Int) (jlat endN endS fuel : Nat) (s t : ZState) (hst : SameCursors s t) :
    (visited rg opts parts1 p1 jlat endN endS fuel s).map (fun v => (v.1, v.2.1))
      = (visited rg opts parts2 p2 jlat endN endS fuel t).map (fun v => (v.1, v.2.1)) := by
  induction fuel generalizing s t with
  | zero => rfl
  | succ n ih =>
    simp only [visited]
    have hat : (s.ipN1 = endN ∧ s.ipS1 = endS) ↔ (t.ipN1 = endN ∧ t.ipS1 = endS) := by
      rw [hst.1, hst.2.1]
    by_cases hc : s.ipN1 = endN ∧ s.ipS1 = endS
    · rw [if_pos hc, if_pos (hat.1 hc)]
    · rw [if_neg hc, if_neg (fun h => hc (hat.2 h))]
      simp only [List.map_cons]
      rw [step_try_congr rg opts jlat hst, step_elem_congr rg opts jlat hst,
        ih _ _ (zipper_step_sameCursors rg opts parts1 parts2 p1 p2 jlat endN endS hst)]

theorem visited_row (rg : ReducedGrid) (opts : Options) (parts : Nat → Int) (mypart : Int)
    (jlat endN endS fuel : Nat) (s : ZState) :
    (zipper_loop rg opts parts mypart jlat endN endS fuel s).map (fun z => z.row)
      = (zipper_loop rg opts parts mypart jlat endN endS fuel s).map (fun _ =>
          s.row ++ ((visited rg opts parts mypart jlat endN endS fuel s).filter
            (fun v => v.2.2)).map (fun v => v.2.1)) := by
  induction fuel generalizing s with
  | zero =>
    simp only [zipper_loop, visited]
    split <;> simp
  | succ n ih =>
    simp only [zipper_loop, visited]
    by_cases hc : s.ipN1 = endN ∧ s.ipS1 = endS
    · rw [if_pos hc, if_pos hc]
      simp
    · rw [if_neg hc, if_neg hc, ih, zipper_step_row]
      cases zipper_loop rg opts parts mypart jlat endN endS n
          (zipper_step rg opts parts mypart jlat endN endS s) with
      | none => rfl
      | some z =>
        simp only [Option.map_some', List.filter_cons]
        by_cases ha : step_accept rg opts parts mypart jlat s = true
        · simp [ha]
        · simp [ha]

/-- C38: for a row pair, the sequence of candidates that the zipper visits
(the flags chosen by the rules and the element of each pass) is the same for any
two partition assignments and parts, whatever the region fields the loop starts
from; the row stored for a part consists of the visited candidates that the part
accepts, in order. -/
theorem candidate_sequence_independent (rg : ReducedGrid) (opts : Options)
    (parts1 parts2 : Nat → Int) (p1 p2 : Int) (jlat fuel : Nat) (r1 r2 : RState) :
    (visited rg opts parts1 p1 jlat (row_ends rg (unique_pole_active rg opts) jlat).1
        (row_ends rg (unique_pole_active rg opts) jlat).2 fuel
        (start_state rg (unique_pole_active rg opts) jlat r1)).map (fun v => (v.1, v.2.1))
      = (visited rg opts parts2 p2 jlat (row_ends rg (unique_pole_active rg opts) jlat).1
        (row_ends rg (unique_pole_active rg opts) jlat).2 fuel
        (start_state rg (unique_pole_active rg opts) jlat r2)).map (fun v => (v.1, v.2.1)) ∧
    (region_row rg opts parts1 p1 (unique_pole_active rg opts) fuel jlat r1).map
        (fun r => r.elems)
      = (region_row rg opts parts1 p1 (unique_pole_active rg opts) fuel jlat r1).map
        (fun _ => r1.elems ++
          [((visited rg opts parts1 p1 jlat (row_ends rg (unique_pole_active rg opts) jlat).1
            (row_ends rg (unique_pole_active rg opts) jlat).2 fuel
            (start_state rg (unique_pole_active rg opts) jlat r1)).filter
              (fun v => v.2.2)).map (fun v => v.2.1)]) := by
  refine ⟨visited_congr rg opts parts1 parts2 p1 p2 jlat _ _ fuel _ _ ⟨rfl, rfl, rfl, rfl⟩, ?_⟩
  have h := visited_row rg opts parts1 p1 jlat (row_ends rg (unique_pole_active rg opts) jlat).1
    (row_ends rg (unique_pole_active rg opts) jlat).2 fuel
    (start_state rg (unique_pole_active rg opts) jlat r1)
  unfold region_row
  cases hz : zipper_loop rg opts parts1 p1 jlat (row_ends rg (unique_pole_active rg opts) jlat).1
      (row_ends rg (unique_pole_active rg opts) jlat).2 fuel
      (start_state rg (unique_pole_active rg opts) jlat r1) with
  | none => rfl
  | some z =>
    rw [hz] at h
    simp only [Option.map_some', Option.some.injEq] at h
    simp only [Option.map_some', Option.some.injEq]
    rw [h]
    simp [start_state]
set_option maxRecDepth 1000000 in
/-- C36: failing input.  Grid `[6,8,8,4]`, three-dimensional, `patch_pole`, one
partition.  The last row has 4 points, stored in the node rows 22 to 25 of 26.
The north patch writes the 4 triangles on the columns 0 to 5 of the first row;
the south patch writes 2 triangles, and both have the vertex 27, which is
column `rg.nlon(0)-1 = 5` of the last row: not a column of that row and not a
node row. -/
theorem pole_patch_failing_input :
    (run_mesh (generate 40 grid6884 patch_options (fun _ => 0) 0 [0])).nodes.length = 26 ∧
    (run_mesh (generate 40 grid6884 patch_options (fun _ => 0) 0 [0])).triags.length = 48 ∧
    (((run_mesh (generate 40 grid6884 patch_options (fun _ => 0) 0 [0])).triags.drop 42).take 4).map
      Triag.vertices = [(0, 1, 5), (1, 4, 5), (1, 2, 4), (2, 3, 4)] ∧
    ((run_mesh (generate 40 grid6884 patch_options (fun _ => 0) 0 [0])).triags.drop 46).map
      Triag.vertices = [(22, 27, 23), (23, 27, 24)] ∧
    pole_patch 0 22 (grid6884.nlon 0) (grid6884.nlon 3) true ⟨[], []⟩
      = ⟨[], [⟨22, 27, 23, 1, 0⟩, ⟨23, 27, 24, 2, 0⟩]⟩ := by
  decide!
theorem step_try_quad_cursors (rg : ReducedGrid) (opts : Options) (jlat : Nat) (s : ZState)
    (h : (step_try rg opts jlat s).quad = true) : s.ipN1 ≠ s.ipN2 ∧ s.ipS1 ≠ s.ipS2 := by
  unfold step_try rules rules_of at h
  simp only at h
  split_ifs at h <;> first | (exact absurd h (by decide)) | exact ⟨‹_›, ‹_›⟩

theorem fill_elem_quad (rg : ReducedGrid) (opts : Options) (mypart : Int) (region : Region)
    (offset_loc : List Int) (jlat : Nat) (st : EState) (a b c d : Nat)
    (hc : 0 < c) (hd : 0 < d) :
    fill_elem rg opts mypart region offset_loc jlat st ⟨a, b, c, d⟩
      = { st with quads := st.quads ++
          [{ n0 := node_slot rg opts region offset_loc false (jlat - region.north) jlat a
             n1 := node_slot rg opts region offset_loc false (jlat - region.north + 1) (jlat + 1) b
             n2 := node_slot rg opts region offset_loc true (jlat - region.north + 1) (jlat + 1) c
             n3 := node_slot rg opts region offset_loc true (jlat - region.north) jlat d
             glb_idx := (st.quads.length : Int) + (st.triags.length : Int) + 1
             part := mypart }] } := by
  unfold fill_elem node_slot
  have h1 : (0 : Int) < (c : Int) := by exact_mod_cast hc
  have h2 : (0 : Int) < (d : Int) := by exact_mod_cast hd
  simp only [gt_iff_lt, h1, h2, and_self, if_true]
  simp

theorem fill_elem_up (rg : ReducedGrid) (opts : Options) (mypart : Int) (region : Region)
    (offset_loc : List Int) (jlat : Nat) (st : EState) (a b c : Nat) :
    fill_elem rg opts mypart region offset_loc jlat st ⟨a, b, c, -1⟩
      = push_triag mypart st
          (node_slot rg opts region offset_loc true (jlat - region.north) jlat a)
          (node_slot rg opts region offset_loc false (jlat - region.north + 1) (jlat + 1) b)
          (node_slot rg opts region offset_loc true (jlat - region.north + 1) (jlat + 1) c) := by
  unfold fill_elem node_slot
  simp

theorem fill_elem_down (rg : ReducedGrid) (opts : Options) (mypart : Int) (region : Region)
    (offset_loc : List Int) (jlat : Nat) (st : EState) (a b d : Nat) :
    fill_elem rg opts mypart region offset_loc jlat st ⟨a, b, -1, d⟩
      = push_triag mypart st
          (node_slot rg opts region offset_loc false (jlat - region.north) jlat a)
          (node_slot rg opts region offset_loc true (jlat - region.north + 1) (jlat + 1) b)
          (node_slot rg opts region offset_loc true (jlat - region.north) jlat d) := by
  unfold fill_elem node_slot
  have h2 : ¬ ((d : Int) < 0) := by omega
  simp [h2]

/-- C37: for a pass of the zipper with the cursors inside their rows, the shape
test of the connectivity loop recovers the shape that the rules chose.  A quad
is stored as `(N1,S1,S2,N2)` with slots 2 and 3 positive and gives a quad row on
these four corners; a triangle down is stored as `(N1,S1,-1,N2)` (with
`N2 ≥ 1` when the north row is not empty) and gives a triangle row on
`(N1,S1,N2)`; a triangle up is stored as `(N1,S1,S2,-1)` and gives a triangle
row on `(N1,S1,S2)`. -/
theorem sentinel_round_trip (rg : ReducedGrid) (opts : Options) (mypart : Int)
    (region : Region) (offset_loc : List Int) (jlat endN endS : Nat) (s : ZState)
    (st : EState) (hinv : CursorInv endN endS s) :
    ((step_try rg opts jlat s).quad = true →
      step_elem rg opts jlat s = ⟨s.ipN1, s.ipS1, s.ipS2, s.ipN2⟩ ∧ 0 < s.ipS2 ∧ 0 < s.ipN2 ∧
      fill_elem rg opts mypart region offset_loc jlat st (step_elem rg opts jlat s)
        = { st with quads := st.quads ++
            [{ n0 := node_slot rg opts region offset_loc false (jlat - region.north) jlat s.ipN1
               n1 := node_slot rg opts region offset_loc false (jlat - region.north + 1)
                 (jlat + 1) s.ipS1
               n2 := node_slot rg opts region offset_loc true (jlat - region.north + 1)
                 (jlat + 1) s.ipS2
               n3 := node_slot rg opts region offset_loc true (jlat - region.north) jlat s.ipN2
               glb_idx := (st.quads.length : Int) + (st.triags.length : Int) + 1
               part := mypart }] }) ∧
    ((step_try rg opts jlat s).quad = false → (step_try rg opts jlat s).down = true →
      step_elem rg opts jlat s = ⟨s.ipN1, s.ipS1, -1, s.ipN2⟩ ∧ (0 < endN → 1 ≤ s.ipN2) ∧
      fill_elem rg opts mypart region offset_loc jlat st (step_elem rg opts jlat s)
        = push_triag mypart st
          (node_slot rg opts region offset_loc false (jlat - region.north) jlat s.ipN1)
          (node_slot rg opts region offset_loc true (jlat - region.north + 1) (jlat + 1) s.ipS1)
          (node_slot rg opts region offset_loc true (jlat - region.north) jlat s.ipN2)) ∧
    ((step_try rg opts jlat s).quad = false → (step_try rg opts jlat s).down = false →
      step_elem rg opts jlat s = ⟨s.ipN1, s.ipS1, s.ipS2, -1⟩ ∧
      fill_elem rg opts mypart region offset_loc jlat st (step_elem rg opts jlat s)
        = push_triag mypart st
          (node_slot rg opts region offset_loc true (jlat - region.north) jlat s.ipN1)
          (node_slot rg opts region offset_loc false (jlat - region.north + 1) (jlat + 1) s.ipS1)
          (node_slot rg opts region offset_loc true (jlat - region.north + 1) (jlat + 1)
            s.ipS2)) := by
  obtain ⟨h1, h2, h3, h4⟩ := hinv
  refine ⟨fun hq => ?_, fun hq hd => ?_, fun hq hd => ?_⟩
  · obtain ⟨c1, c2⟩ := step_try_quad_cursors rg opts jlat s hq
    have e : step_elem rg opts jlat s = ⟨s.ipN1, s.ipS1, s.ipS2, s.ipN2⟩ := by
      unfold step_elem
      rw [if_pos hq]
    have p1 : 0 < s.ipS2 := by omega
    have p2 : 0 < s.ipN2 := by omega
    have f := fill_elem_quad rg opts mypart region offset_loc jlat st
      s.ipN1 s.ipS1 s.ipS2 s.ipN2 p1 p2
    rw [← e] at f
    exact ⟨e, p1, p2, f⟩
  · have e : step_elem rg opts jlat s = ⟨s.ipN1, s.ipS1, -1, s.ipN2⟩ := by
      unfold step_elem
      rw [if_neg (by simp [hq]), if_pos hd]
    have f := fill_elem_down rg opts mypart region offset_loc jlat st s.ipN1 s.ipS1 s.ipN2
    rw [← e] at f
    have p : 0 < endN → 1 ≤ s.ipN2 := fun _ => by omega
    exact ⟨e, p, f⟩
  · have e : step_elem rg opts jlat s = ⟨s.ipN1, s.ipS1, s.ipS2, -1⟩ := by
      unfold step_elem
      rw [if_neg (by simp [hq]), if_neg (by simp [hd])]
    have f := fill_elem_up rg opts mypart region offset_loc jlat st s.ipN1 s.ipS1 s.ipS2
    rw [← e] at f
    exact ⟨e, f⟩

set_option maxRecDepth 100000 in
theorem sentinel_round_trip_witness :
    CursorInv 6 6 ⟨0, 0, 1, 1, [], 0, 0, 0, [], []⟩ ∧
    (step_try grid4664 quad_options 1 ⟨0, 0, 1, 1, [], 0, 0, 0, [], []⟩).quad = true ∧
    step_elem grid4664 quad_options 1 ⟨0, 0, 1, 1, [], 0, 0, 0, [], []⟩ = ⟨0, 0, 1, 1⟩ :=
  ⟨⟨by decide, by decide, rfl, rfl⟩, by decide!,
   ((sentinel_round_trip grid4664 quad_options 0
      (region_of (generate_region 20 grid4664 quad_options (fun _ => 0) 0)) [0, 5, 12, 19] 1 6 6
      ⟨0, 0, 1, 1, [], 0, 0, 0, [], []⟩ ⟨[], []⟩ ⟨by decide, by decide, rfl, rfl⟩).1
        (by decide!)).1⟩

/-! ## Faces of the elements -/

theorem face_matches_pair (n2f : List (List Nat)) (a b face : Nat) :
    face_matches n2f [a, b] face = true ↔ face ∈ n2f.getD a [] ∧ face ∈ n2f.getD b [] := by
  unfold face_matches
  simp only [List.filter_cons, List.filter_nil, List.elem_eq_mem,
    decide_eq_true_eq]
  by_cases ha : face ∈ n2f.getD a [] <;> by_cases hb : face ∈ n2f.getD b [] <;>
    simp only [ha, hb, if_true, if_false, and_self, and_false, false_and] <;> simp

theorem find_face_some (s : FaceAcc) (hinv : FacesInv s) (a b k : Nat) (hab : a ≠ b)
    (hk : k < s.nb_faces) (hs : same_side (face_pair s k) (a, b)) :
    find_face s.node_to_face [a, b] = some k := by
  obtain ⟨_, _, hmem, hne, huniq⟩ := hinv
  have hka : k ∈ s.node_to_face.getD a [] := by
    rw [hmem]; refine ⟨hk, ?_⟩
    rcases hs with ⟨h1, _⟩ | ⟨_, h2⟩
    · exact Or.inl h1
    · exact Or.inr h2
  have hkb : k ∈ s.node_to_face.getD b [] := by
    rw [hmem]; refine ⟨hk, ?_⟩
    rcases hs with ⟨_, h2⟩ | ⟨h1, _⟩
    · exact Or.inr h2
    · exact Or.inl h1
  unfold find_face
  simp only [List.getD_cons_zero]
  cases hf : (s.node_to_face.getD a []).find? (face_matches s.node_to_face [a, b]) with
  | none =>
    rw [List.find?_eq_none] at hf
    exact absurd ((face_matches_pair _ a b k).2 ⟨hka, hkb⟩) (hf k hka)
  | some j =>
    have hj := List.find?_some hf
    rw [face_matches_pair] at hj
    obtain ⟨hja, hjb⟩ := hj
    rw [hmem] at hja hjb
    obtain ⟨hjn, hja⟩ := hja
    obtain ⟨_, hjb⟩ := hjb
    have hd := (hne j hjn).1
    have : same_side (face_pair s j) (face_pair s k) := by
      unfold same_side at hs ⊢
      simp only at hs
      rcases hs with ⟨h1, h2⟩ | ⟨h1, h2⟩ <;> rcases hja with hja | hja <;>
        rcases hjb with hjb | hjb <;> first
          | (exfalso; omega)
          | (left; constructor <;> omega)
          | (right; constructor <;> omega)
    rw [huniq j k hjn hk this]

theorem find_face_none (s : FaceAcc) (hinv : FacesInv s) (a b : Nat) (hab : a ≠ b)
    (hs : ∀ k, k < s.nb_faces → ¬ same_side (face_pair s k) (a, b)) :
    find_face s.node_to_face [a, b] = none := by
  obtain ⟨_, _, hmem, hne, _⟩ := hinv
  unfold find_face
  simp only [List.getD_cons_zero]
  rw [List.find?_eq_none]
  intro j _ hj
  rw [face_matches_pair, hmem, hmem] at hj
  obtain ⟨⟨hjn, hja⟩, _, hjb⟩ := hj
  have hd := (hne j hjn).1
  apply hs j hjn
  unfold same_side
  simp only
  rcases hja with hja | hja <;> rcases hjb with hjb | hjb <;> first
    | (exfalso; omega)
    | (left; constructor <;> omega)
    | (right; constructor <;> omega)

theorem add_side_found (index : Int) (face0 : Face) (e : Nat) (fn : List Nat) (s : FaceAcc)
    (k : Nat) (h : find_face s.node_to_face fn = some k) :
    add_side index face0 e fn s =
      { s with
        connectivity_edge_to_elem := set_second s.connectivity_edge_to_elem k ⟨index, e⟩
        nb_inner_faces := s.nb_inner_faces + 1 } := by
  unfold add_side
  rw [h]

theorem set_first_length (v : List Face) (i : Nat) (r : ElementRef) :
    (set_first v i r).length = v.length := by
  unfold set_first
  split <;> simp

theorem set_second_length (v : List Face) (i : Nat) (r : ElementRef) :
    (set_second v i r).length = v.length := by
  unfold set_second
  split <;> simp

theorem set_new_face (v : List Face) (face0 : Face) (r1 r2 : ElementRef) :
    set_second (set_first (v ++ [face0]) v.length r1) v.length r2 = v ++ [⟨r1, r2⟩] := by
  have h1 : set_first (v ++ [face0]) v.length r1 = v ++ [{ face0 with first := r1 }] := by
    unfold set_first
    simp
  rw [h1]
  unfold set_second
  simp

theorem add_side_new (index : Int) (face0 : Face) (e a b : Nat) (s : FaceAcc)
    (hlen : s.connectivity_edge_to_elem.length = s.nb_faces)
    (h : find_face s.node_to_face [a, b] = none) :
    add_side index face0 e [a, b] s =
      { node_to_face := push_at (push_at s.node_to_face a s.nb_faces) b s.nb_faces
        face_nodes_data := s.face_nodes_data ++ [a, b]
        connectivity_edge_to_elem :=
          s.connectivity_edge_to_elem ++ [⟨⟨index, e⟩, ⟨-1, -1⟩⟩]
        nb_faces := s.nb_faces + 1
        nb_inner_faces := s.nb_inner_faces } := by
  unfold add_side
  rw [h]
  simp only [List.foldl_cons, List.foldl_nil, List.append_assoc, List.singleton_append]
  have := set_new_face s.connectivity_edge_to_elem face0 ⟨index, e⟩ ⟨-1, -1⟩
  rw [hlen] at this
  rw [this]

theorem push_at_length (v : List (List Nat)) (i x : Nat) : (push_at v i x).length = v.length := by
  unfold push_at
  split <;> simp

theorem push_at_getD (v : List (List Nat)) (i x n : Nat) (hi : i < v.length) :
    (push_at v i x).getD n [] = if n = i then v.getD n [] ++ [x] else v.getD n [] := by
  unfold push_at
  rw [List.getElem?_eq_getElem hi]
  simp only [List.getD_eq_getElem?_getD]
  by_cases hn : n = i
  · subst hn
    simp [hi]
  · rw [if_neg hn, List.getElem?_set_ne (Ne.symm hn)]

theorem face_pair_old (s s1 : FaceAcc) (a b k : Nat)
    (hd : s1.face_nodes_data = s.face_nodes_data ++ [a, b])
    (hlen : s.face_nodes_data.length = 2 * s.nb_faces) (hk : k < s.nb_faces) :
    face_pair s1 k = face_pair s k := by
  unfold face_pair
  rw [hd]
  simp only [List.getD_eq_getElem?_getD]
  rw [List.getElem?_append_left (by omega), List.getElem?_append_left (by omega)]

theorem face_pair_new (s s1 : FaceAcc) (a b : Nat)
    (hd : s1.face_nodes_data = s.face_nodes_data ++ [a, b])
    (hlen : s.face_nodes_data.length = 2 * s.nb_faces) :
    face_pair s1 s.nb_faces = (a, b) := by
  unfold face_pair
  rw [hd]
  simp only [List.getD_eq_getElem?_getD]
  rw [List.getElem?_append_right (by omega), List.getElem?_append_right (by omega)]
  have h1 : 2 * s.nb_faces - s.face_nodes_data.length = 0 := by omega
  have h2 : 2 * s.nb_faces + 1 - s.face_nodes_data.length = 1 := by omega
  rw [h1, h2]
  rfl

theorem add_side_length (index : Int) (face0 : Face) (e a b : Nat) (s : FaceAcc)
    (hinv : FacesInv s) :
    (add_side index face0 e [a, b] s).node_to_face.length = s.node_to_face.length := by
  cases hf : find_face s.node_to_face [a, b] with
  | some k => rw [add_side_found index face0 e _ s k hf]
  | none =>
    rw [add_side_new index face0 e a b s hinv.1 hf]
    simp only [push_at_length]

theorem add_side_inv (index : Int) (face0 : Face) (e a b : Nat) (s : FaceAcc)
    (hinv : FacesInv s) (hab : a ≠ b) (ha : a < s.node_to_face.length)
    (hb : b < s.node_to_face.length) :
    FacesInv (add_side index face0 e [a, b] s) := by
  cases hf : find_face s.node_to_face [a, b] with
  | some k =>
    rw [add_side_found index face0 e _ s k hf]
    obtain ⟨h1, h2, h3, h4, h5⟩ := hinv
    exact ⟨by simp only [set_second_length]; exact h1, h2, h3, h4, h5⟩
  | none =>
    have hnone : ∀ k, k < s.nb_faces → ¬ same_side (face_pair s k) (a, b) := by
      intro k hk hs
      rw [find_face_some s hinv a b k hab hk hs] at hf
      cases hf
    rw [add_side_new index face0 e a b s hinv.1 hf]
    obtain ⟨h1, h2, h3, h4, h5⟩ := hinv
    generalize hs1 : ({ node_to_face := push_at (push_at s.node_to_face a s.nb_faces) b s.nb_faces
                        face_nodes_data := s.face_nodes_data ++ [a, b]
                        connectivity_edge_to_elem :=
                          s.connectivity_edge_to_elem ++ [⟨⟨index, e⟩, ⟨-1, -1⟩⟩]
                        nb_faces := s.nb_faces + 1
                        nb_inner_faces := s.nb_inner_faces } : FaceAcc) = s1
    have hd : s1.face_nodes_data = s.face_nodes_data ++ [a, b] := by rw [← hs1]
    have hn : s1.nb_faces = s.nb_faces + 1 := by rw [← hs1]
    have hc : s1.connectivity_edge_to_elem =
        s.connectivity_edge_to_elem ++ [⟨⟨index, e⟩, ⟨-1, -1⟩⟩] := by rw [← hs1]
    have hf1 : s1.node_to_face = push_at (push_at s.node_to_face a s.nb_faces) b s.nb_faces := by
      rw [← hs1]
    have hold := fun k hk => face_pair_old s s1 a b k hd h2 hk
    have hnew := face_pair_new s s1 a b hd h2
    have hget : ∀ n, s1.node_to_face.getD n [] =
        (if n = b then
          (if n = a then s.node_to_face.getD n [] ++ [s.nb_faces] else s.node_to_face.getD n [])
            ++ [s.nb_faces]
        else
          (if n = a then s.node_to_face.getD n [] ++ [s.nb_faces]
            else s.node_to_face.getD n [])) := by
      intro n
      rw [hf1, push_at_getD _ _ _ _ (by rw [push_at_length]; exact hb), push_at_getD _ _ _ _ ha]
    have hlen1 : s1.node_to_face.length = s.node_to_face.length := by
      rw [hf1, push_at_length, push_at_length]
    refine ⟨?_, ?_, ?_, ?_, ?_⟩
    · rw [hc, hn, List.length_append, h1]; rfl
    · rw [hd, hn, List.length_append, h2]; simp only [List.length_cons, List.length_nil]; omega
    · intro n k
      have hmem : k ∈ s1.node_to_face.getD n [] ↔
          k ∈ s.node_to_face.getD n [] ∨ (k = s.nb_faces ∧ (n = a ∨ n = b)) := by
        rw [hget n]
        by_cases hnb : n = b <;> by_cases hna : n = a
        · exact absurd (hna.symm.trans hnb) hab
        · rw [if_pos hnb, if_neg hna]
          simp only [List.mem_append, List.mem_singleton]
          tauto
        · rw [if_neg hnb, if_pos hna]
          simp only [List.mem_append, List.mem_singleton]
          tauto
        · rw [if_neg hnb, if_neg hna]
          tauto
      rw [hmem, hn, h3 n k]
      by_cases hk : k < s.nb_faces
      · rw [hold k hk]
        constructor
        · rintro (⟨_, h⟩ | ⟨h, _⟩)
          · exact ⟨by omega, h⟩
          · omega
        · rintro ⟨_, h⟩
          exact Or.inl ⟨hk, h⟩
      · by_cases hk2 : k = s.nb_faces
        · subst hk2
          rw [hnew]
          constructor
          · rintro (⟨h, _⟩ | ⟨_, h⟩)
            · omega
            · exact ⟨by omega, by rcases h with h | h <;> simp [h]⟩
          · rintro ⟨_, h⟩
            refine Or.inr ⟨rfl, ?_⟩
            rcases h with h | h
            · exact Or.inl h.symm
            · exact Or.inr h.symm
        · constructor
          · rintro (⟨h, _⟩ | ⟨h, _⟩) <;> omega
          · rintro ⟨h, _⟩
            omega
    · intro k hk
      rw [hn] at hk
      rw [hlen1]
      by_cases hk1 : k < s.nb_faces
      · rw [hold k hk1]; exact h4 k hk1
      · have : k = s.nb_faces := by omega
        subst this
        rw [hnew]
        exact ⟨hab, ha, hb⟩
    · intro k l hk hl hs
      rw [hn] at hk hl
      by_cases hk1 : k < s.nb_faces <;> by_cases hl1 : l < s.nb_faces
      · rw [hold k hk1, hold l hl1] at hs
        exact h5 k l hk1 hl1 hs
      · have : l = s.nb_faces := by omega
        subst this
        rw [hold k hk1, hnew] at hs
        exact absurd hs (hnone k hk1)
      · have : k = s.nb_faces := by omega
        subst this
        rw [hold l hl1, hnew] at hs
        exfalso
        apply hnone l hl1
        unfold same_side at hs ⊢
        simp only at hs ⊢
        rcases hs with ⟨p, q⟩ | ⟨p, q⟩
        · exact Or.inl ⟨p.symm, q.symm⟩
        · exact Or.inr ⟨q.symm, p.symm⟩
      · omega

theorem facesInv_empty (nb_nodes : Nat) : FacesInv (FaceAcc.empty nb_nodes) := by
  refine ⟨rfl, rfl, ?_, ?_, ?_⟩
  · intro n k
    have : (FaceAcc.empty nb_nodes).node_to_face.getD n [] = [] := by
      unfold FaceAcc.empty
      simp only [List.getD_eq_getElem?_getD]
      by_cases hn : n < nb_nodes
      · rw [List.getElem?_eq_getElem (by simpa using hn)]
        simp
      · rw [List.getElem?_eq_none (by simpa using hn)]
        rfl
    rw [this]
    constructor
    · intro h; cases h
    · rintro ⟨h, _⟩; exact absurd h (Nat.not_lt_zero k)
  · intro k hk; exact absurd hk (Nat.not_lt_zero k)
  · intro k l hk; exact absurd hk (Nat.not_lt_zero k)

theorem sides_fold_inv (fs : ElemSpace) (face0 : Face) (nb_nodes e : Nat)
    (numbering : List (Nat × Nat))
    (hv : ∀ f ∈ numbering,
      (fs.nodes.getD e []).getD f.1 0 ≠ (fs.nodes.getD e []).getD f.2 0 ∧
      (fs.nodes.getD e []).getD f.1 0 < nb_nodes ∧ (fs.nodes.getD e []).getD f.2 0 < nb_nodes)
    (s : FaceAcc) (hinv : FacesInv s) (hl : s.node_to_face.length = nb_nodes) :
    FacesInv (numbering.foldl
      (fun (s : FaceAcc) f => add_side fs.index face0 e (side_nodes fs e f) s) s) ∧
    (numbering.foldl
      (fun (s : FaceAcc) f => add_side fs.index face0 e (side_nodes fs e f) s)
        s).node_to_face.length = nb_nodes := by
  induction numbering generalizing s with
  | nil => exact ⟨hinv, hl⟩
  | cons f rest ih =>
    rw [List.foldl_cons]
    obtain ⟨hne, ha, hb⟩ := hv f (List.mem_cons_self _ _)
    apply ih (fun g hg => hv g (List.mem_cons_of_mem _ hg))
    · exact add_side_inv fs.index face0 e _ _ s hinv hne (by rw [hl]; exact ha)
        (by rw [hl]; exact hb)
    · unfold side_nodes
      rw [add_side_length fs.index face0 e _ _ s hinv, hl]

theorem elems_fold_inv (fs : ElemSpace) (face0 : Face) (nb_nodes : Nat)
    (numbering : List (Nat × Nat)) (es : List Nat)
    (hv : ∀ e ∈ es, ∀ f ∈ numbering,
      (fs.nodes.getD e []).getD f.1 0 ≠ (fs.nodes.getD e []).getD f.2 0 ∧
      (fs.nodes.getD e []).getD f.1 0 < nb_nodes ∧ (fs.nodes.getD e []).getD f.2 0 < nb_nodes)
    (s : FaceAcc) (hinv : FacesInv s) (hl : s.node_to_face.length = nb_nodes) :
    FacesInv (es.foldl (fun (s : FaceAcc) e => numbering.foldl
      (fun (s : FaceAcc) f => add_side fs.index face0 e (side_nodes fs e f) s) s) s) ∧
    (es.foldl (fun (s : FaceAcc) e => numbering.foldl
      (fun (s : FaceAcc) f => add_side fs.index face0 e (side_nodes fs e f) s) s)
        s).node_to_face.length = nb_nodes := by
  induction es generalizing s with
  | nil => exact ⟨hinv, hl⟩
  | cons e rest ih =>
    rw [List.foldl_cons]
    obtain ⟨h1, h2⟩ := sides_fold_inv fs face0 nb_nodes e numbering
      (hv e (List.mem_cons_self _ _)) s hinv hl
    exact ih (fun g hg => hv g (List.mem_cons_of_mem _ hg)) _ h1 h2

theorem accumulate_faces_inv (fs : ElemSpace) (face0 : Face) (nb_nodes : Nat) (s0 : FaceAcc)
    (hname : fs.name = "quads" ∨ fs.name = "triags") (hv : ValidSides fs nb_nodes)
    (h0 : FacesInv s0) (hl : s0.node_to_face.length = nb_nodes) :
    ∃ s, accumulate_faces fs face0 s0 = some s ∧ FacesInv s ∧
      s.node_to_face.length = nb_nodes := by
  have hnum : ∃ numbering, face_node_numbering fs.name = some numbering := by
    rcases hname with h | h <;> rw [h] <;> exact ⟨_, rfl⟩
  obtain ⟨numbering, hnum⟩ := hnum
  unfold accumulate_faces
  rw [hnum]
  refine ⟨_, rfl, ?_⟩
  apply elems_fold_inv fs face0 nb_nodes numbering _ _ s0 h0 hl
  intro e he f hf
  unfold ValidSides at hv
  rw [hnum] at hv
  exact hv e (List.mem_range.1 he) f hf

/-- C39: `accumulate_faces` keeps the faces unique.  The empty outputs satisfy
the invariant `FacesInv`; from outputs that satisfy it, for a function space of
quads or triangles whose sides join two different node indices of the mesh,
`accumulate_faces` returns outputs with one entry of `connectivity_edge_to_elem`
and two of `face_nodes_data` per face in which no two faces have the same
unordered node pair, and which satisfy the invariant again.  Each side is
handled so: when its two nodes, in either order, are those of a recorded face
`k`, only the second element of face `k` is set to the current element and
`nb_inner_faces` grows by one; otherwise a new face is appended with the
current element first and `(-1, -1)` second. -/
theorem accumulate_faces_unique (fs : ElemSpace) (face0 : Face) (nb_nodes : Nat) (s0 : FaceAcc)
    (hname : fs.name = "quads" ∨ fs.name = "triags") (hv : ValidSides fs nb_nodes)
    (h0 : FacesInv s0) (hl : s0.node_to_face.length = nb_nodes) :
    FacesInv (FaceAcc.empty nb_nodes) ∧
    (FaceAcc.empty nb_nodes).node_to_face.length = nb_nodes ∧
    (∃ s, accumulate_faces fs face0 s0 = some s ∧
      s.connectivity_edge_to_elem.length = s.nb_faces ∧
      s.face_nodes_data.length = 2 * s.nb_faces ∧
      (∀ k l, k < s.nb_faces → l < s.nb_faces →
        same_side (face_pair s k) (face_pair s l) → k = l) ∧
      FacesInv s ∧ s.node_to_face.length = nb_nodes) ∧
    (∀ (s : FaceAcc) (e a b : Nat), FacesInv s → a ≠ b → a < s.node_to_face.length →
      b < s.node_to_face.length →
      FacesInv (add_side fs.index face0 e [a, b] s) ∧
      (∀ k, k < s.nb_faces → same_side (face_pair s k) (a, b) →
        add_side fs.index face0 e [a, b] s =
          { s with
            connectivity_edge_to_elem :=
              set_second s.connectivity_edge_to_elem k ⟨fs.index, e⟩
            nb_inner_faces := s.nb_inner_faces + 1 }) ∧
      ((∀ k, k < s.nb_faces → ¬ same_side (face_pair s k) (a, b)) →
        add_side fs.index face0 e [a, b] s =
          { node_to_face := push_at (push_at s.node_to_face a s.nb_faces) b s.nb_faces
            face_nodes_data := s.face_nodes_data ++ [a, b]
            connectivity_edge_to_elem :=
              s.connectivity_edge_to_elem ++ [⟨⟨fs.index, e⟩, ⟨-1, -1⟩⟩]
            nb_faces := s.nb_faces + 1
            nb_inner_faces := s.nb_inner_faces })) := by
  refine ⟨facesInv_empty nb_nodes, ?_, ?_, ?_⟩
  · unfold FaceAcc.empty
    simp
  · obtain ⟨s, hs, hinv, hlen⟩ := accumulate_faces_inv fs face0 nb_nodes s0 hname hv h0 hl
    exact ⟨s, hs, hinv.1, hinv.2.1, hinv.2.2.2.2, hinv, hlen⟩
  · intro s e a b hinv hab ha hb
    refine ⟨add_side_inv fs.index face0 e a b s hinv hab ha hb, ?_, ?_⟩
    · intro k hk hs
      exact add_side_found fs.index face0 e _ s k (find_face_some s hinv a b k hab hk hs)
    · intro hs
      exact add_side_new fs.index face0 e a b s hinv.1 (find_face_none s hinv a b hab hs)

theorem accumulate_faces_unique_witness :
    ValidSides two_triags 4 ∧
    accumulate_faces two_triags face_unset (FaceAcc.empty 4) =
      some { node_to_face := [[0, 2], [0, 1, 3], [1, 2, 4], [3, 4]]
             face_nodes_data := [0, 1, 1, 2, 2, 0, 1, 3, 3, 2]
             connectivity_edge_to_elem :=
               [⟨⟨1, 0⟩, ⟨-1, -1⟩⟩, ⟨⟨1, 0⟩, ⟨1, 1⟩⟩, ⟨⟨1, 0⟩, ⟨-1, -1⟩⟩, ⟨⟨1, 1⟩, ⟨-1, -1⟩⟩,
                ⟨⟨1, 1⟩, ⟨-1, -1⟩⟩]
             nb_faces := 5
             nb_inner_faces := 1 } ∧
    FacesInv ((accumulate_faces two_triags face_unset (FaceAcc.empty 4)).getD (FaceAcc.empty 4)) :=
  ⟨by decide, by decide,
   by
    obtain ⟨s, hs, _, _, _, hinv, _⟩ :=
      (accumulate_faces_unique two_triags face_unset 4 (FaceAcc.empty 4) (Or.inr rfl)
        (by decide) (facesInv_empty 4) rfl).2.2.1
    rw [hs]
    exact hinv⟩

/-! ## Connectivity entries refer to stored nodes -/

theorem elem_vertices_step (rg : ReducedGrid) (opts : Options) (jlat endN endS : Nat)
    (s : ZState) (hinv : CursorInv endN endS s) :
    elem_vertices jlat (step_elem rg opts jlat s)
      = if (step_try rg opts jlat s).quad then
          [(jlat, (s.ipN1 : Int)), (jlat + 1, (s.ipS1 : Int)), (jlat + 1, (s.ipS2 : Int)),
            (jlat, (s.ipN2 : Int))]
        else if (step_try rg opts jlat s).down then
          [(jlat, (s.ipN1 : Int)), (jlat + 1, (s.ipS1 : Int)), (jlat, (s.ipN2 : Int))]
        else [(jlat, (s.ipN1 : Int)), (jlat + 1, (s.ipS1 : Int)), (jlat + 1, (s.ipS2 : Int))] := by
  obtain ⟨h1, h2, h3, h4⟩ := hinv
  unfold step_elem elem_vertices
  by_cases hq : (step_try rg opts jlat s).quad = true
  · obtain ⟨q1, q2⟩ := step_try_quad_cursors rg opts jlat s hq
    have p1 : (0 : Int) < (s.ipS2 : Int) := by omega
    have p2 : (0 : Int) < (s.ipN2 : Int) := by omega
    simp only [hq, if_true, gt_iff_lt, p1, p2, and_self]
  · simp only [hq, if_false]
    by_cases hd : (step_try rg opts jlat s).down = true
    · have p2 : ¬ ((s.ipN2 : Int) < 0) := by omega
      simp only [hd, if_true, gt_iff_lt, p2, if_false]
      simp
    · simp only [hd, if_false]
      simp

theorem step_vertices_bounds (rg : ReducedGrid) (opts : Options) (jlat endN endS : Nat)
    (s : ZState) (hinv : CursorInv endN endS s) :
    ∀ rc ∈ elem_vertices jlat (step_elem rg opts jlat s),
      (rc.1 = jlat ∧ (s.ipN1 : Int) ≤ rc.2 ∧ rc.2 ≤ ((step_cursors rg opts jlat s).1 : Int) ∧
        rc.2 ≤ (endN : Int)) ∨
      (rc.1 = jlat + 1 ∧ (s.ipS1 : Int) ≤ rc.2 ∧
        rc.2 ≤ ((step_cursors rg opts jlat s).2 : Int) ∧ rc.2 ≤ (endS : Int)) := by
  rw [elem_vertices_step rg opts jlat endN endS s hinv]
  obtain ⟨h1, h2, h3, h4⟩ := hinv
  have a1 : s.ipN1 ≤ s.ipN2 ∧ s.ipN2 ≤ endN := by omega
  have a2 : s.ipS1 ≤ s.ipS2 ∧ s.ipS2 ≤ endS := by omega
  clear h3 h4
  unfold step_cursors
  intro rc hrc
  by_cases hq : (step_try rg opts jlat s).quad = true
  · rw [if_pos hq] at hrc ⊢
    simp only [List.mem_cons, List.mem_singleton, List.mem_nil_iff, or_false] at hrc
    rcases hrc with h | h | h | h <;> rw [h] <;> first
      | (left; refine ⟨rfl, ?_, ?_, ?_⟩ <;> simp only <;> omega)
      | (right; refine ⟨rfl, ?_, ?_, ?_⟩ <;> simp only <;> omega)
  · rw [if_neg hq] at hrc ⊢
    by_cases hd : (step_try rg opts jlat s).down = true
    · rw [if_pos hd] at hrc ⊢
      simp only [List.mem_cons, List.mem_singleton, List.mem_nil_iff, or_false] at hrc
      rcases hrc with h | h | h <;> rw [h] <;> first
        | (left; refine ⟨rfl, ?_, ?_, ?_⟩ <;> simp only <;> omega)
        | (right; refine ⟨rfl, ?_, ?_, ?_⟩ <;> simp only <;> omega)
    · rw [if_neg hd] at hrc ⊢
      simp only [List.mem_cons, List.mem_singleton, List.mem_nil_iff, or_false] at hrc
      rcases hrc with h | h | h <;> rw [h] <;> first
        | (left; refine ⟨rfl, ?_, ?_, ?_⟩ <;> simp only <;> omega)
        | (right; refine ⟨rfl, ?_, ?_, ?_⟩ <;> simp only <;> omega)

theorem geti_lt_length (v : List Int) (j : Nat) (h : 0 ≤ geti v j) : j < v.length := by
  by_contra hc
  unfold geti at h
  rw [List.getD_eq_default _ _ (by omega)] at h
  omega

theorem covered_touch (rg : ReducedGrid) (lb le : List Int) (jlat : Nat) (bN bS eN eS : Int)
    (hlen : lb.length = le.length) (hbN : 0 ≤ bN) (hbS : 0 ≤ bS) (r : Nat) (c : Int)
    (h : Covered rg lb le r c) :
    Covered rg (touch_begin lb jlat (jlat + 1) bN bS) (touch_end le jlat (jlat + 1) eN eS) r c ∧
    Covered rg lb (touch_end le jlat (jlat + 1) eN eS) r c := by
  obtain ⟨h1, h2, h3⟩ := h
  have hr := geti_lt_length lb r h1
  have hne : jlat ≠ jlat + 1 := by omega
  have hE : geti le r ≤ geti (touch_end le jlat (jlat + 1) eN eS) r := by
    by_cases e1 : r = jlat
    · subst e1
      rw [touch_end_N le _ _ eN eS hne (by omega)]
      exact le_max_left _ _
    · by_cases e2 : r = jlat + 1
      · subst e2
        rw [touch_end_S le _ _ eN eS hne (by omega)]
        exact le_max_left _ _
      · rw [touch_end_other le _ _ eN eS r e1 e2]
  have hB : 0 ≤ geti (touch_begin lb jlat (jlat + 1) bN bS) r ∧
      geti (touch_begin lb jlat (jlat + 1) bN bS) r ≤ geti lb r := by
    by_cases e1 : r = jlat
    · subst e1
      rw [touch_begin_N lb _ _ bN bS hne hr]
      have : geti lb r ≠ -1 := by omega
      rw [if_neg this]
      exact ⟨le_min h1 hbN, min_le_left _ _⟩
    · by_cases e2 : r = jlat + 1
      · subst e2
        rw [touch_begin_S lb _ _ bN bS hne hr]
        have : geti lb (jlat + 1) ≠ -1 := by omega
        rw [if_neg this]
        exact ⟨le_min h1 hbS, min_le_left _ _⟩
      · rw [touch_begin_other lb _ _ bN bS r e1 e2]
        exact ⟨h1, le_refl _⟩
  exact ⟨⟨hB.1, le_trans hB.2 h2, le_trans h3 hE⟩, ⟨h1, h2, le_trans h3 hE⟩⟩

theorem zipper_step_covered (rg : ReducedGrid) (opts : Options) (parts : Nat → Int)
    (mypart : Int) (jlat endN endS : Nat) (s : ZState)
    (heN : endN ≤ rg.nlon jlat) (heS : endS ≤ rg.nlon (jlat + 1))
    (hc : CursorInv endN endS s) (h : RowInv rg s.lat_begin s.lat_end)
    (hl : jlat + 1 < s.lat_begin.length) :
    (∀ r c, Covered rg s.lat_begin s.lat_end r c →
      Covered rg (zipper_step rg opts parts mypart jlat endN endS s).lat_begin
        (zipper_step rg opts parts mypart jlat endN endS s).lat_end r c) ∧
    (step_accept rg opts parts mypart jlat s = true →
      ∀ rc ∈ elem_vertices jlat (step_elem rg opts jlat s),
        0 ≤ rc.2 ∧ rc.2 ≤ (rg.nlon rc.1 : Int) ∧
        Covered rg (zipper_step rg opts parts mypart jlat endN endS s).lat_begin
          (zipper_step rg opts parts mypart jlat endN endS s).lat_end rc.1 rc.2) := by
  have hv := step_vertices_bounds rg opts jlat endN endS s hc
  obtain ⟨g1, g2, g3, g4⟩ := step_cursors_ge rg opts jlat endN endS s hc
  obtain ⟨c1, c2, _, _⟩ := hc
  have hne : jlat ≠ jlat + 1 := by omega
  have hlen := h.1
  rw [zipper_step_eq]
  by_cases hacc : step_accept rg opts parts mypart jlat s = true
  · simp only [hacc, if_true, next_cursors, accept_elem]
    refine ⟨fun r c hcov => (covered_touch rg _ _ jlat _ _ _ _ hlen (by omega) (by omega)
      r c hcov).1, ?_⟩
    intro _ rc hrc
    have hj := h.2
    rcases hv rc hrc with ⟨e, b1, b2, b3⟩ | ⟨e, b1, b2, b3⟩
    · rw [e]
      refine ⟨by omega, by omega, ?_, ?_, ?_⟩
      · rw [touch_begin_N _ _ _ _ _ hne (by omega)]
        rcases (hj jlat).1 with q | q
        · rw [if_pos q, min_self]; omega
        · have : geti s.lat_begin jlat ≠ -1 := by omega
          rw [if_neg this]
          exact le_min q.1 (by omega)
      · rw [touch_begin_N _ _ _ _ _ hne (by omega)]
        exact le_trans (min_le_right _ _) b1
      · rw [touch_end_N _ _ _ _ _ hne (by omega)]
        exact le_trans (min_le_left _ _) (le_trans b2 (le_max_right _ _))
    · rw [e]
      refine ⟨by omega, by omega, ?_, ?_, ?_⟩
      · rw [touch_begin_S _ _ _ _ _ hne (by omega)]
        rcases (hj (jlat + 1)).1 with q | q
        · rw [if_pos q, min_self]; omega
        · have : geti s.lat_begin (jlat + 1) ≠ -1 := by omega
          rw [if_neg this]
          exact le_min q.1 (by omega)
      · rw [touch_begin_S _ _ _ _ _ hne (by omega)]
        exact le_trans (min_le_right _ _) b1
      · rw [touch_end_S _ _ _ _ _ hne (by omega)]
        exact le_trans (min_le_left _ _) (le_trans b2 (le_max_right _ _))
  · simp only [hacc, if_false, next_cursors]
    exact ⟨fun r c hcov => hcov, fun hf => absurd hf (by simp)⟩

theorem zipper_loop_covered (rg : ReducedGrid) (opts : Options) (parts : Nat → Int)
    (mypart : Int) (jlat endN endS : Nat) (fuel : Nat) (s t : ZState)
    (heN : endN ≤ rg.nlon jlat) (heS : endS ≤ rg.nlon (jlat + 1))
    (hc : CursorInv endN endS s) (h : RowInv rg s.lat_begin s.lat_end)
    (hl : jlat + 1 < s.lat_begin.length)
    (hr : zipper_loop rg opts parts mypart jlat endN endS fuel s = some t) :
    (∀ r c, Covered rg s.lat_begin s.lat_end r c → Covered rg t.lat_begin t.lat_end r c) ∧
    ((∀ elem ∈ s.row, ∀ rc ∈ elem_vertices jlat elem,
        0 ≤ rc.2 ∧ rc.2 ≤ (rg.nlon rc.1 : Int) ∧ Covered rg s.lat_begin s.lat_end rc.1 rc.2) →
      ∀ elem ∈ t.row, ∀ rc ∈ elem_vertices jlat elem,
        0 ≤ rc.2 ∧ rc.2 ≤ (rg.nlon rc.1 : Int) ∧ Covered rg t.lat_begin t.lat_end rc.1 rc.2) := by
  induction fuel generalizing s with
  | zero =>
    simp only [zipper_loop] at hr
    split at hr
    · cases hr
      exact ⟨fun _ _ hcov => hcov, fun hs => hs⟩
    · cases hr
  | succ n ih =>
    simp only [zipper_loop] at hr
    split at hr
    · cases hr
      exact ⟨fun _ _ hcov => hcov, fun hs => hs⟩
    · obtain ⟨a1, _, _, a4, _⟩ :=
        zipper_step_rowInv rg opts parts mypart jlat endN endS s heN heS hc h
      obtain ⟨c1, c2⟩ := zipper_step_covered rg opts parts mypart jlat endN endS s heN heS hc h hl
      obtain ⟨b1, b2⟩ := ih _
        (zipper_step_cursorInv rg opts parts mypart jlat endN endS s hc) a1
        (by rw [a4]; exact hl) hr
      refine ⟨fun r c hcov => b1 r c (c1 r c hcov), ?_⟩
      intro hs
      apply b2
      intro elem he rc hrc
      rw [zipper_step_row] at he
      rcases List.mem_append.1 he with he | he
      · obtain ⟨p1, p2, p3⟩ := hs elem he rc hrc
        exact ⟨p1, p2, c1 _ _ p3⟩
      · by_cases hacc : step_accept rg opts parts mypart jlat s = true
        · rw [if_pos hacc] at he
          rw [List.mem_singleton] at he
          subst he
          exact c2 hacc rc hrc
        · rw [if_neg hacc] at he
          cases he

theorem covered_clip (rg : ReducedGrid) (up : Bool) (jlat : Nat) (lb le : List Int)
    (r : Nat) (c : Int) (h : Covered rg lb le r c) :
    Covered rg lb (clip_lat_end rg up jlat le) r c := by
  obtain ⟨h1, h2, h3⟩ := h
  refine ⟨h1, h2, ?_⟩
  rcases geti_clip_cases rg up jlat le r with e | e | e <;> rw [e]
  · exact h3
  · exact le_min h3 (min_le_right _ _)
  · exact min_le_right _ _

theorem region_row_covered {rg : ReducedGrid} {opts : Options} {parts : Nat → Int}
    {mypart : Int} {fuel jlat : Nat} {r r1 : RState}
    (h : region_row rg opts parts mypart (unique_pole_active rg opts) fuel jlat r = some r1)
    (hinv : RowInv rg r.lat_begin r.lat_end) (hl : jlat + 1 < r.lat_begin.length) :
    (∀ j c, Covered rg r.lat_begin r.lat_end j c → Covered rg r1.lat_begin r1.lat_end j c) ∧
    (∀ elem ∈ accepted_row fuel rg opts parts mypart jlat, ∀ rc ∈ elem_vertices jlat elem,
      0 ≤ rc.2 ∧ rc.2 ≤ (rg.nlon rc.1 : Int) ∧ Covered rg r1.lat_begin r1.lat_end rc.1 rc.2) := by
  have hel := region_row_elems h
  unfold region_row at h
  split at h
  · cases h
  · rename_i s hs
    obtain ⟨a1, a2⟩ := zipper_loop_covered rg opts parts mypart jlat _ _ fuel _ s
      (row_ends_le rg _ jlat).1 (row_ends_le rg _ jlat).2
      (start_state_cursorInv rg _ jlat r) hinv hl hs
    cases h
    simp only at hel ⊢
    have e : s.row = accepted_row fuel rg opts parts mypart jlat := by
      have := List.append_cancel_left hel
      simpa using this
    refine ⟨fun j c hcov => covered_clip rg _ jlat _ _ j c (a1 j c hcov), ?_⟩
    intro elem he rc hrc
    rw [← e] at he
    obtain ⟨p1, p2, p3⟩ := a2 (by intro x hx; simp [start_state] at hx) elem he rc hrc
    exact ⟨p1, p2, covered_clip rg _ jlat _ _ _ _ p3⟩

theorem region_row_length {rg : ReducedGrid} {opts : Options} {parts : Nat → Int}
    {mypart : Int} {up : Bool} {fuel jlat : Nat} {r r1 : RState}
    (h : region_row rg opts parts mypart up fuel jlat r = some r1) :
    r1.lat_begin.length = r.lat_begin.length := by
  unfold region_row at h
  split at h
  · cases h
  · rename_i s hs
    cases h
    exact (zipper_loop_shape _ _ _ _ _ _ _ _ _ _ hs).2.1

theorem region_rows_covered {rg : ReducedGrid} {opts : Options} {parts : Nat → Int}
    {mypart : Int} {fuel : Nat} (rows : List Nat) {r r1 : RState}
    (h : region_rows rg opts parts mypart (unique_pole_active rg opts) fuel rows r = some r1)
    (hinv : RowInv rg r.lat_begin r.lat_end) (hl : ∀ j ∈ rows, j + 1 < r.lat_begin.length) :
    (∀ j c, Covered rg r.lat_begin r.lat_end j c → Covered rg r1.lat_begin r1.lat_end j c) ∧
    (∀ j ∈ rows, ∀ elem ∈ accepted_row fuel rg opts parts mypart j,
      ∀ rc ∈ elem_vertices j elem,
        0 ≤ rc.2 ∧ rc.2 ≤ (rg.nlon rc.1 : Int) ∧
        Covered rg r1.lat_begin r1.lat_end rc.1 rc.2) := by
  induction rows generalizing r with
  | nil =>
    simp only [region_rows] at h
    cases h
    exact ⟨fun _ _ hcov => hcov, by simp⟩
  | cons jlat rest ih =>
    simp only [region_rows] at h
    split at h
    · cases h
    · rename_i r2 h2
      obtain ⟨a1, _, _⟩ := region_row_rowInv h2 hinv
      obtain ⟨c1, c2⟩ := region_row_covered h2 hinv (hl jlat (List.mem_cons_self _ _))
      have hlen := region_row_length h2
      obtain ⟨b1, b2⟩ := ih h a1
        (fun j hj => by rw [hlen]; exact hl j (List.mem_cons_of_mem _ hj))
      refine ⟨fun j c hcov => b1 j c (c1 j c hcov), ?_⟩
      intro j hj elem he rc hrc
      rcases List.mem_cons.1 hj with e | hj
      · subst e
        obtain ⟨p1, p2, p3⟩ := c2 elem he rc hrc
        exact ⟨p1, p2, b1 _ _ p3⟩
      · exact b2 j hj elem he rc hrc

theorem region_nodes_begin_eq (rg : ReducedGrid) (rows : List Nat) (lb le : List Int) (n : Int)
    (j : Nat) (h : 0 ≤ geti lb j) : geti (region_nodes rg rows lb le n).1 j = geti lb j := by
  induction rows generalizing lb n with
  | nil => rfl
  | cons a rest ih =>
    simp only [region_nodes]
    have e : geti (lb.set a (max 0 (geti lb a))) j = geti lb j := by
      by_cases ha : a = j
      · subst ha
        rw [geti_set, if_pos ⟨rfl, geti_lt_length lb a h⟩]
        exact max_eq_right h
      · rw [geti_set]
        simp [ha]
    rw [ih _ _ (by rw [e]; exact h), e]

theorem elem_vertices_rows (jlat : Nat) (elem : Elem) :
    ∀ rc ∈ elem_vertices jlat elem, rc.1 = jlat ∨ rc.1 = jlat + 1 := by
  intro rc hrc
  unfold elem_vertices at hrc
  split_ifs at hrc <;>
    simp only [List.mem_cons, List.mem_singleton, List.mem_nil_iff, or_false] at hrc <;>
    rcases hrc with h | h | h | h <;> subst_vars <;> simp

theorem generate_region_covered {fuel : Nat} {rg : ReducedGrid} {opts : Options}
    {parts : Nat → Int} {mypart : Int} {region : Region}
    (h : generate_region fuel rg opts parts mypart = some (.ok region)) (jlat : Nat) :
    ∀ elem ∈ row_elems region jlat, ∀ rc ∈ elem_vertices jlat elem,
      0 ≤ rc.2 ∧ rc.2 ≤ (rg.nlon rc.1 : Int) ∧
      Covered rg region.lat_begin region.lat_end rc.1 rc.2 := by
  intro elem he rc hrc
  have hb := generate_region_bounds h
  rw [generate_region_row_elems h jlat] at he
  obtain ⟨n0, s0, r, _, _, hrows, hfin⟩ := generate_region_ok h
  obtain ⟨f1, f2, _, _, _, f6, _, f8, _⟩ := finish_region_ok hfin
  by_cases hj : region.north ≤ jlat ∧ jlat < region.south
  · rw [if_pos hj] at he
    have hmem : jlat ∈ List.range' (connect_north rg n0)
        (connect_south rg s0 - connect_north rg n0) := by
      rw [List.mem_range']
      exact ⟨jlat - connect_north rg n0, by omega, by omega⟩
    obtain ⟨_, c2⟩ := region_rows_covered _ hrows (initial_rowInv rg) (by
      intro j hj2
      rw [List.mem_range'] at hj2
      obtain ⟨i, hi, e⟩ := hj2
      have := hb.1
      simp only [initial_rstate, List.length_replicate]
      omega)
    obtain ⟨p1, p2, p3, p4, p5⟩ := c2 jlat hmem elem he rc hrc
    refine ⟨p1, p2, ?_, ?_, ?_⟩
    · rw [f8, region_nodes_begin_eq _ _ _ _ _ _ p3]; exact p3
    · rw [f8, region_nodes_begin_eq _ _ _ _ _ _ p3]; exact p4
    · rw [f6]; exact p5
  · rw [if_neg hj] at he
    cases he

theorem fill_row_layout {rg : ReducedGrid} {opts : Options} {parts : Nat → Int} {mypart : Int}
    {region : Region} {inp isp : Bool} {jlat : Nat} {s s1 : NState}
    (h : fill_row rg opts parts mypart region inp isp jlat s = .ok s1)
    (hl : s.l = (s.nodes.length : Int)) (h0 : 0 ≤ geti region.lat_begin jlat)
    (h1 : geti region.lat_begin jlat ≤ geti region.lat_end jlat + 1) :
    s1.l = (s1.nodes.length : Int) ∧ s1.offset_loc = s.offset_loc ++ [s.l] ∧
    (∃ t, s1.nodes = s.nodes ++ t) ∧
    (∀ c : Nat, geti region.lat_begin jlat ≤ (c : Int) → (c : Int) ≤ geti region.lat_end jlat →
      s1.nodes[(s.l + (c : Int) - geti region.lat_begin jlat).toNat]?
        = some (regular_node rg opts parts mypart inp isp jlat c)) ∧
    (opts.three_dimensional = false → geti region.lat_end jlat = (rg.nlon jlat : Int) - 1 →
      ∃ p, s1.nodes[(s.l + geti region.lat_end jlat - geti region.lat_begin jlat + 1).toNat]?
        = some (periodic_node rg opts jlat p)) := by
  generalize hlb : geti region.lat_begin jlat = lb at h0 h1 ⊢
  generalize hle : geti region.lat_end jlat = le at h1 ⊢
  have hrow : ∀ c : Nat, lb ≤ (c : Int) → (c : Int) ≤ le → ∀ t : List Node,
      (s.nodes ++ (List.range' lb.toNat (le + 1 - lb).toNat).map
        (regular_node rg opts parts mypart inp isp jlat) ++ t)[(s.l + (c : Int) - lb).toNat]?
        = some (regular_node rg opts parts mypart inp isp jlat c) := by
    intro c c1 c2 t
    have e : (s.l + (c : Int) - lb).toNat = s.nodes.length + (c - lb.toNat) := by omega
    rw [e, List.append_assoc, List.getElem?_append_right (by omega)]
    have e2 : s.nodes.length + (c - lb.toNat) - s.nodes.length = c - lb.toNat := by omega
    rw [e2, List.getElem?_append_left (by
      rw [List.length_map, List.length_range']
      omega)]
    rw [List.getElem?_map, List.getElem?_range' _ _ (by omega)]
    simp only [Option.map_some', one_mul]
    congr 2
    omega
  have hlen : ((List.range' lb.toNat (le + 1 - lb).toNat).map
      (regular_node rg opts parts mypart inp isp jlat)).length = (le + 1 - lb).toNat := by
    rw [List.length_map, List.length_range']
  unfold fill_row at h
  simp only [hlb, hle] at h
  split_ifs at h with hp
  · split at h
    · cases h
    · rename_i prev hprev
      cases h
      refine ⟨?_, rfl, ⟨_, (List.append_assoc _ _ _)⟩, ?_, ?_⟩
      · simp only [List.length_append, hlen, List.length_singleton]
        push_cast
        omega
      · intro c c1 c2
        exact hrow c c1 c2 _
      · intro _ _
        refine ⟨prev.part, ?_⟩
        have e : (s.l + le - lb + 1).toNat
            = (s.nodes ++ (List.range' lb.toNat (le + 1 - lb).toNat).map
                (regular_node rg opts parts mypart inp isp jlat)).length := by
          rw [List.length_append, hlen]
          omega
        rw [e, List.getElem?_concat_length]
  · cases h
    refine ⟨?_, rfl, ⟨_, rfl⟩, ?_, ?_⟩
    · simp only [List.length_append, hlen]
      push_cast
      omega
    · intro c c1 c2
      have := hrow c c1 c2 []
      rw [List.append_nil] at this
      exact this
    · intro h3 h4
      exfalso
      apply hp
      rw [h3]
      exact ⟨rfl, h4⟩

theorem getElem?_append_some {α : Type} (l t : List α) (i : Nat) (x : α) (h : l[i]? = some x) :
    (l ++ t)[i]? = some x := by
  have hi : i < l.length := by
    by_contra hc
    rw [List.getElem?_eq_none (by omega)] at h
    cases h
  rw [List.getElem?_append_left hi, h]

theorem geti_append_left (l t : List Int) (i : Nat) (h : i < l.length) :
    geti (l ++ t) i = geti l i := by
  unfold geti
  simp only [List.getD_eq_getElem?_getD]
  rw [List.getElem?_append_left h]

theorem fill_rows_layout {rg : ReducedGrid} {opts : Options} {parts : Nat → Int} {mypart : Int}
    {region : Region} {inp isp : Bool} (rows : List Nat) {s s1 : NState}
    (h : fill_rows rg opts parts mypart region inp isp rows s = .ok s1)
    (hl : s.l = (s.nodes.length : Int))
    (hb : ∀ r ∈ rows, 0 ≤ geti region.lat_begin r ∧
      geti region.lat_begin r ≤ geti region.lat_end r + 1) :
    s1.l = (s1.nodes.length : Int) ∧ (∃ t, s1.nodes = s.nodes ++ t) ∧
    (∃ t, s1.offset_loc = s.offset_loc ++ t) ∧
    s1.offset_loc.length = s.offset_loc.length + rows.length ∧
    ∀ k, k < rows.length →
      0 ≤ geti s1.offset_loc (s.offset_loc.length + k) ∧
      (∀ c : Nat, geti region.lat_begin (rows.getD k 0) ≤ (c : Int) →
        (c : Int) ≤ geti region.lat_end (rows.getD k 0) →
        s1.nodes[(geti s1.offset_loc (s.offset_loc.length + k) + (c : Int)
          - geti region.lat_begin (rows.getD k 0)).toNat]?
          = some (regular_node rg opts parts mypart inp isp (rows.getD k 0) c)) ∧
      (opts.three_dimensional = false →
        geti region.lat_end (rows.getD k 0) = (rg.nlon (rows.getD k 0) : Int) - 1 →
        ∃ p, s1.nodes[(geti s1.offset_loc (s.offset_loc.length + k)
          + geti region.lat_end (rows.getD k 0)
          - geti region.lat_begin (rows.getD k 0) + 1).toNat]?
          = some (periodic_node rg opts (rows.getD k 0) p)) := by
  induction rows generalizing s with
  | nil =>
    simp only [fill_rows] at h
    cases h
    exact ⟨hl, ⟨[], by simp⟩, ⟨[], by simp⟩, by simp, fun k hk => absurd hk (by simp)⟩
  | cons jlat rest ih =>
    simp only [fill_rows] at h
    split at h
    · cases h
    · rename_i s2 h2
      obtain ⟨hb0, hb1⟩ := hb jlat (List.mem_cons_self _ _)
      obtain ⟨a1, a2, ⟨t2, a3⟩, a4, a5⟩ := fill_row_layout h2 hl hb0 hb1
      obtain ⟨b1, ⟨t1, b2⟩, ⟨u1, b3⟩, b4, b5⟩ := ih h a1
        (fun r hr => hb r (List.mem_cons_of_mem _ hr))
      have hlen2 : s2.offset_loc.length = s.offset_loc.length + 1 := by
        rw [a2]; simp
      refine ⟨b1, ⟨t2 ++ t1, by rw [b2, a3, List.append_assoc]⟩,
        ⟨[s.l] ++ u1, by rw [b3, a2, List.append_assoc]⟩, ?_, ?_⟩
      · rw [b4, hlen2, List.length_cons]; omega
      · intro k hk
        cases k with
        | zero =>
          simp only [List.getD_cons_zero, Nat.add_zero]
          have ho : geti s1.offset_loc s.offset_loc.length = s.l := by
            rw [b3, geti_append_left _ _ _ (by omega), a2]
            unfold geti
            simp
          rw [ho]
          refine ⟨by omega, fun c c1 c2 => ?_, fun h3 h4 => ?_⟩
          · rw [b2]
            exact getElem?_append_some _ _ _ _ (a4 c c1 c2)
          · obtain ⟨p, hp⟩ := a5 h3 h4
            exact ⟨p, by rw [b2]; exact getElem?_append_some _ _ _ _ hp⟩
        | succ k =>
          have := b5 k (by simpa using hk)
          rw [hlen2] at this
          have e : s.offset_loc.length + 1 + k = s.offset_loc.length + (k + 1) := by omega
          rw [e] at this
          simpa using this

theorem region_nodes_begin_val (rg : ReducedGrid) (rows : List Nat) (lb le : List Int) (n : Int)
    (j : Nat) (hj : j < lb.length) (hm : j ∈ rows) :
    geti (region_nodes rg rows lb le n).1 j = max 0 (geti lb j) := by
  induction rows generalizing lb n with
  | nil => cases hm
  | cons a rest ih =>
    simp only [region_nodes]
    by_cases ha : a = j
    · subst ha
      have e : geti (lb.set a (max 0 (geti lb a))) a = max 0 (geti lb a) :=
        geti_set_self _ _ _ hj
      rw [region_nodes_begin_eq _ _ _ _ _ _ (by rw [e]; exact le_max_left _ _), e]
    · rcases List.mem_cons.1 hm with e | hm
      · exact absurd e.symm ha
      · rw [ih _ _ (by simpa using hj) hm, geti_set_ne _ _ _ _ ha]

theorem generate_region_rows {fuel : Nat} {rg : ReducedGrid} {opts : Options}
    {parts : Nat → Int} {mypart : Int} {region : Region}
    (h : generate_region fuel rg opts parts mypart = some (.ok region)) :
    ∀ r ∈ List.range' region.north (region.south + 1 - region.north),
      0 ≤ geti region.lat_begin r ∧ geti region.lat_begin r ≤ geti region.lat_end r + 1 ∧
      geti region.lat_end r ≤ (rg.nlon r : Int) - 1 := by
  intro j hj
  rw [List.mem_range'] at hj
  obtain ⟨i, hi, e⟩ := hj
  have hb := generate_region_bounds h
  obtain ⟨n0, s0, r, _, _, hrows, hfin⟩ := generate_region_ok h
  obtain ⟨f1, f2, _, _, _, f6, _, f8, _⟩ := finish_region_ok hfin
  obtain ⟨hlen, hinv⟩ := (region_rows_rowInv _ hrows (initial_rowInv rg)).1
  have hl := (region_rows_bounds _ hrows (by
    intro j; simp only [initial_rstate]; rw [geti_replicate]; omega)).2
  simp only [initial_rstate, List.length_replicate] at hl
  have hjl : j < r.lat_begin.length := by
    have := hb.1
    omega
  have hmem : j ∈ List.range' (connect_north rg n0) (connect_south rg s0 + 1
      - connect_north rg n0) := by
    rw [List.mem_range']
    exact ⟨i, by omega, by omega⟩
  obtain ⟨b1, b2⟩ := hb.2 j (by omega) (by omega)
  refine ⟨b1, ?_, b2⟩
  rw [f8, region_nodes_begin_val _ _ _ _ _ _ hjl hmem, f6]
  obtain ⟨q1, q2⟩ := hinv j
  rcases q1 with q1 | q1 <;> rcases q2 with q2 | q2 <;> omega

theorem new_entries_quad (st : EState) (q : Quad) :
    new_entries st { st with quads := st.quads ++ [q] } = q.entries := by
  unfold new_entries
  simp

theorem new_entries_triag (mypart : Int) (st : EState) (n0 n1 n2 : Int) :
    new_entries st (push_triag mypart st n0 n1 n2) = [n0, n1, n2] := by
  unfold new_entries push_triag
  simp [Triag.entries]

theorem fill_elem_entries (rg : ReducedGrid) (opts : Options) (mypart : Int) (region : Region)
    (offset_loc : List Int) (jlat : Nat) (st : EState) (elem : Elem)
    (h3d : opts.three_dimensional = false) (hj : region.north ≤ jlat) :
    new_entries st (fill_elem rg opts mypart region offset_loc jlat st elem)
      = (elem_vertices jlat elem).map (fun rc =>
          geti offset_loc (rc.1 - region.north) + rc.2 - geti region.lat_begin rc.1) := by
  have e : jlat + 1 - region.north = jlat - region.north + 1 := by omega
  unfold fill_elem elem_vertices
  simp only [h3d, Bool.false_eq_true, false_and, if_false]
  split_ifs
  · rw [new_entries_quad]
    simp [Quad.entries, e]
  · rw [new_entries_triag]
    simp [e]
  · rw [new_entries_triag]
    simp [e]

/-- C34: in non-3D mode, for a region returned by `generate_region` and a mesh
returned by `generate_mesh`, the node loop finishes with some `offset_loc`, and
for every element stored for a row pair of the region: the connectivity
entries that `fill_elem` writes for it are `offset_loc[r - north] + c -
lat_begin[r]` for its grid points `(r, c)` in order; each such entry is a
valid index into the node rows of the mesh; for a column `c < nlon r` the node
row there is the regular node of grid point `(r, c)`, with `glb_idx` equal to
`offset r + c + 1`; for `c = nlon r` it is the periodic node of row `r`. -/
theorem connectivity_valid (fuel : Nat) (rg : ReducedGrid) (opts : Options)
    (parts : Nat → Int) (region : Region) (rank : Nat) (elem_counts : List Nat) (mesh : Mesh)
    (h3d : opts.three_dimensional = false)
    (hreg : generate_region fuel rg opts parts opts.part = some (.ok region))
    (hmesh : generate_mesh rg opts parts region rank elem_counts = .ok mesh) :
    ∃ ns, fill_rows rg opts parts opts.part region (include_north_pole rg opts)
        (include_south_pole rg opts)
        (List.range' region.north (region.south + 1 - region.north))
        { l := 0, offset_loc := [], nodes := [] } = .ok ns ∧
      ∀ jlat, ∀ elem ∈ row_elems region jlat,
        (∀ st, new_entries st (fill_elem rg opts opts.part region ns.offset_loc jlat st elem)
          = (elem_vertices jlat elem).map (fun rc =>
              geti ns.offset_loc (rc.1 - region.north) + rc.2 - geti region.lat_begin rc.1)) ∧
        ∀ rc ∈ elem_vertices jlat elem,
          0 ≤ rc.2 ∧ rc.2 ≤ (rg.nlon rc.1 : Int) ∧
          0 ≤ geti ns.offset_loc (rc.1 - region.north) + rc.2 - geti region.lat_begin rc.1 ∧
          geti ns.offset_loc (rc.1 - region.north) + rc.2 - geti region.lat_begin rc.1
            < (mesh.nodes.length : Int) ∧
          (rc.2 < (rg.nlon rc.1 : Int) →
            ∃ nd, mesh.nodes[(geti ns.offset_loc (rc.1 - region.north) + rc.2
                - geti region.lat_begin rc.1).toNat]? = some nd ∧
              nd = grid_node rg opts parts rc.1 rc.2.toNat ∧
              nd.glb_idx = (rg.offset rc.1 : Int) + rc.2 + 1) ∧
          (rc.2 = (rg.nlon rc.1 : Int) →
            ∃ p, mesh.nodes[(geti ns.offset_loc (rc.1 - region.north) + rc.2
                - geti region.lat_begin rc.1).toNat]? = some (periodic_node rg opts rc.1 p)) := by
  obtain ⟨ns, hns, hnodes⟩ := generate_mesh_nodes hmesh
  refine ⟨ns, hns, ?_⟩
  have hrows := generate_region_rows hreg
  obtain ⟨_, _, _, _, hlay⟩ := fill_rows_layout _ hns rfl (fun r hr =>
    ⟨(hrows r hr).1, (hrows r hr).2.1⟩)
  have hsome : ∀ (i : Nat) (x : Node), ns.nodes[i]? = some x →
      mesh.nodes[i]? = some x ∧ (i : Int) < (mesh.nodes.length : Int) := by
    intro i x hx
    have : mesh.nodes[i]? = some x := by
      rw [hnodes, List.append_assoc]
      exact getElem?_append_some _ _ _ _ hx
    refine ⟨this, ?_⟩
    by_contra hc
    rw [List.getElem?_eq_none (by omega)] at this
    cases this
  intro jlat elem he
  have hj : region.north ≤ jlat ∧ jlat < region.south := by
    by_contra hc
    unfold row_elems at he
    rw [if_neg hc] at he
    cases he
  refine ⟨fun st => fill_elem_entries rg opts opts.part region ns.offset_loc jlat st elem h3d
    hj.1, ?_⟩
  intro rc hrc
  obtain ⟨p1, p2, p3, p4, p5⟩ := generate_region_covered hreg jlat elem he rc hrc
  have hr := elem_vertices_rows jlat elem rc hrc
  have hk : rc.1 - region.north < (List.range' region.north
      (region.south + 1 - region.north)).length := by
    rw [List.length_range']
    omega
  have hget : (List.range' region.north (region.south + 1 - region.north)).getD
      (rc.1 - region.north) 0 = rc.1 := by
    rw [List.getD_eq_getElem _ _ hk, List.getElem_range']
    omega
  have hmem : rc.1 ∈ List.range' region.north (region.south + 1 - region.north) := by
    rw [List.mem_range']
    exact ⟨rc.1 - region.north, by omega, by omega⟩
  obtain ⟨_, _, hle⟩ := hrows rc.1 hmem
  obtain ⟨o0, oreg, oper⟩ := hlay (rc.1 - region.north) hk
  simp only [List.length_nil, Nat.zero_add] at o0 oreg oper
  rw [hget] at oreg oper
  refine ⟨p1, p2, by omega, ?_, ?_, ?_⟩
  · by_cases hc : rc.2 < (rg.nlon rc.1 : Int)
    · have hm : min rc.2 ((rg.nlon rc.1 : Int) - 1) = rc.2 := min_eq_left (by omega)
      rw [hm] at p5
      have := oreg rc.2.toNat (by omega) (by omega)
      rw [Int.toNat_of_nonneg p1] at this
      have := (hsome _ _ this).2
      omega
    · have hm : min rc.2 ((rg.nlon rc.1 : Int) - 1) = (rg.nlon rc.1 : Int) - 1 :=
        min_eq_right (by omega)
      rw [hm] at p5
      obtain ⟨p, hp⟩ := oper h3d (by omega)
      have e : geti ns.offset_loc (rc.1 - region.north) + geti region.lat_end rc.1
          - geti region.lat_begin rc.1 + 1
          = geti ns.offset_loc (rc.1 - region.north) + rc.2 - geti region.lat_begin rc.1 := by
        omega
      rw [e] at hp
      have := (hsome _ _ hp).2
      omega
  · intro hc
    have hm : min rc.2 ((rg.nlon rc.1 : Int) - 1) = rc.2 := min_eq_left (by omega)
    rw [hm] at p5
    have := oreg rc.2.toNat (by omega) (by omega)
    rw [Int.toNat_of_nonneg p1] at this
    refine ⟨_, (hsome _ _ this).1, rfl, ?_⟩
    simp only [grid_node, regular_node]
    push_cast
    rw [Int.toNat_of_nonneg p1]
  · intro hc
    have hm : min rc.2 ((rg.nlon rc.1 : Int) - 1) = (rg.nlon rc.1 : Int) - 1 :=
      min_eq_right (by omega)
    rw [hm] at p5
    obtain ⟨p, hp⟩ := oper h3d (by omega)
    have e : geti ns.offset_loc (rc.1 - region.north) + geti region.lat_end rc.1
        - geti region.lat_begin rc.1 + 1
        = geti ns.offset_loc (rc.1 - region.north) + rc.2 - geti region.lat_begin rc.1 := by
      omega
    rw [e] at hp
    exact ⟨p, (hsome _ _ hp).1⟩

set_option maxRecDepth 100000 in
theorem connectivity_valid_witness :
    (⟨5, 5, 6, 6⟩ : Elem)
      ∈ row_elems (region_of (generate_region 20 grid4664 quad_options (fun _ => 0) 0)) 1 ∧
    ∃ ns, fill_rows grid4664 quad_options (fun _ => 0) quad_options.part
        (region_of (generate_region 20 grid4664 quad_options (fun _ => 0) 0))
        (include_north_pole grid4664 quad_options) (include_south_pole grid4664 quad_options)
        (List.range' (region_of (generate_region 20 grid4664 quad_options (fun _ => 0) 0)).north
          ((region_of (generate_region 20 grid4664 quad_options (fun _ => 0) 0)).south + 1
            - (region_of (generate_region 20 grid4664 quad_options (fun _ => 0) 0)).north))
        { l := 0, offset_loc := [], nodes := [] } = .ok ns ∧
      ∃ nd, (mesh_of (generate_mesh grid4664 quad_options (fun _ => 0)
          (region_of (generate_region 20 grid4664 quad_options (fun _ => 0) 0)) 0 [26])).nodes[
            (geti ns.offset_loc
              (1 - (region_of (generate_region 20 grid4664 quad_options (fun _ => 0) 0)).north)
              + 5 - geti (region_of
                (generate_region 20 grid4664 quad_options (fun _ => 0) 0)).lat_begin 1).toNat]?
          = some nd ∧ nd.glb_idx = 10 := by
  have hmem : (⟨5, 5, 6, 6⟩ : Elem)
      ∈ row_elems (region_of (generate_region 20 grid4664 quad_options (fun _ => 0) 0)) 1 := by
    decide!
  obtain ⟨ns, hns, h⟩ := connectivity_valid 20 grid4664 quad_options (fun _ => 0)
    (region_of (generate_region 20 grid4664 quad_options (fun _ => 0) 0)) 0 [26]
    (mesh_of (generate_mesh grid4664 quad_options (fun _ => 0)
      (region_of (generate_region 20 grid4664 quad_options (fun _ => 0) 0)) 0 [26]))
    rfl (by decide!) (by decide!)
  obtain ⟨nd, h1, _, h3⟩ := ((h 1 ⟨5, 5, 6, 6⟩ hmem).2 (1, 5) (by decide)).2.2.2.2.1 (by decide)
  exact ⟨hmem, ns, hns, nd, h1, h3.trans (by decide)⟩

/-! ## Allocated and written counts -/

theorem step_elem_quad_slot (rg : ReducedGrid) (opts : Options) (jlat endN endS : Nat)
    (s : ZState) (hinv : CursorInv endN endS s) :
    quad_slot (step_elem rg opts jlat s) = (step_try rg opts jlat s).quad := by
  obtain ⟨h1, h2, h3, h4⟩ := hinv
  unfold step_elem quad_slot
  by_cases hq : (step_try rg opts jlat s).quad = true
  · obtain ⟨q1, q2⟩ := step_try_quad_cursors rg opts jlat s hq
    have p1 : (0 : Int) < (s.ipS2 : Int) := by omega
    have p2 : (0 : Int) < (s.ipN2 : Int) := by omega
    simp only [hq, if_true, gt_iff_lt, p1, p2, and_self, decide_True]
  · have hq2 : (step_try rg opts jlat s).quad = false := by simpa using hq
    simp only [hq2, Bool.false_eq_true, if_false]
    split_ifs <;> simp

theorem zipper_step_counts (rg : ReducedGrid) (opts : Options) (parts : Nat → Int)
    (mypart : Int) (jlat endN endS : Nat) (s : ZState) (hc : CursorInv endN endS s) :
    (zipper_step rg opts parts mypart jlat endN endS s).nquads + (s.row.filter quad_slot).length
      = s.nquads
        + ((zipper_step rg opts parts mypart jlat endN endS s).row.filter quad_slot).length ∧
    (zipper_step rg opts parts mypart jlat endN endS s).ntriags
        + (s.row.filter (fun e => !quad_slot e)).length
      = s.ntriags + ((zipper_step rg opts parts mypart jlat endN endS s).row.filter
          (fun e => !quad_slot e)).length := by
  have hq := step_elem_quad_slot rg opts jlat endN endS s hc
  rw [zipper_step_eq]
  by_cases hacc : step_accept rg opts parts mypart jlat s = true
  · simp only [hacc, if_true, next_cursors, accept_elem, List.filter_append, List.length_append]
    by_cases hqq : (step_try rg opts jlat s).quad = true
    · rw [hqq] at hq
      simp [List.filter_cons, hq, hqq]
      omega
    · have hq2 : (step_try rg opts jlat s).quad = false := by simpa using hqq
      rw [hq2] at hq
      simp [List.filter_cons, hq, hq2]
      omega
  · simp only [hacc, if_false, next_cursors]
    exact ⟨rfl, rfl⟩

theorem zipper_loop_counts (rg : ReducedGrid) (opts : Options) (parts : Nat → Int)
    (mypart : Int) (jlat endN endS : Nat) (fuel : Nat) (s t : ZState)
    (hc : CursorInv endN endS s)
    (hr : zipper_loop rg opts parts mypart jlat endN endS fuel s = some t) :
    t.nquads + (s.row.filter quad_slot).length = s.nquads + (t.row.filter quad_slot).length ∧
    t.ntriags + (s.row.filter (fun e => !quad_slot e)).length
      = s.ntriags + (t.row.filter (fun e => !quad_slot e)).length := by
  induction fuel generalizing s with
  | zero =>
    simp only [zipper_loop] at hr
    split at hr
    · cases hr; exact ⟨rfl, rfl⟩
    · cases hr
  | succ n ih =>
    simp only [zipper_loop] at hr
    split at hr
    · cases hr; exact ⟨rfl, rfl⟩
    · obtain ⟨a1, a2⟩ := zipper_step_counts rg opts parts mypart jlat endN endS s hc
      obtain ⟨b1, b2⟩ := ih _ (zipper_step_cursorInv rg opts parts mypart jlat endN endS s hc) hr
      constructor <;> omega

theorem region_row_counts {rg : ReducedGrid} {opts : Options} {parts : Nat → Int}
    {mypart : Int} {fuel jlat : Nat} {r r1 : RState}
    (h : region_row rg opts parts mypart (unique_pole_active rg opts) fuel jlat r = some r1) :
    r1.nquads = r.nquads + ((accepted_row fuel rg opts parts mypart jlat).filter quad_slot).length ∧
    r1.ntriags = r.ntriags
      + ((accepted_row fuel rg opts parts mypart jlat).filter (fun e => !quad_slot e)).length ∧
    r1.nb_lat_elems
      = r.nb_lat_elems.set jlat (accepted_row fuel rg opts parts mypart jlat).length := by
  have hel := region_row_elems h
  unfold region_row at h
  split at h
  · cases h
  · rename_i s hs
    obtain ⟨a1, a2⟩ := zipper_loop_counts rg opts parts mypart jlat _ _ fuel _ s
      (start_state_cursorInv rg _ jlat r) hs
    cases h
    simp only at hel ⊢
    have e : s.row = accepted_row fuel rg opts parts mypart jlat := by
      have := List.append_cancel_left hel
      simpa using this
    simp only [start_state, List.filter_nil, List.length_nil, Nat.add_zero] at a1 a2
    rw [← e]
    exact ⟨a1, a2, rfl⟩

theorem getD_set_nat (l : List Nat) (i j v : Nat) :
    (l.set i v).getD j 0 = if i = j ∧ i < l.length then v else l.getD j 0 := by
  simp only [List.getD_eq_getElem?_getD, List.getElem?_set]
  by_cases h : i = j
  · subst h
    by_cases h2 : i < l.length
    · simp [h2]
    · simp [h2]
      rw [List.getElem?_eq_none (by omega)]
      rfl
  · simp [h]

theorem region_rows_counts {rg : ReducedGrid} {opts : Options} {parts : Nat → Int}
    {mypart : Int} {fuel : Nat} (rows : List Nat) {r r1 : RState}
    (h : region_rows rg opts parts mypart (unique_pole_active rg opts) fuel rows r = some r1) :
    r1.nquads = r.nquads + (rows.map (fun j =>
      ((accepted_row fuel rg opts parts mypart j).filter quad_slot).length)).sum ∧
    r1.ntriags = r.ntriags + (rows.map (fun j =>
      ((accepted_row fuel rg opts parts mypart j).filter (fun e => !quad_slot e)).length)).sum ∧
    r1.nb_lat_elems.length = r.nb_lat_elems.length ∧
    (∀ j, j < r.nb_lat_elems.length → r1.nb_lat_elems.getD j 0
      = if j ∈ rows then (accepted_row fuel rg opts parts mypart j).length
        else r.nb_lat_elems.getD j 0) := by
  induction rows generalizing r with
  | nil =>
    simp only [region_rows] at h
    cases h
    simp
  | cons jlat rest ih =>
    simp only [region_rows] at h
    split at h
    · cases h
    · rename_i r2 h2
      obtain ⟨a1, a2, a3⟩ := region_row_counts h2
      obtain ⟨b1, b2, b3, b4⟩ := ih h
      have hlen : r2.nb_lat_elems.length = r.nb_lat_elems.length := by rw [a3]; simp
      refine ⟨?_, ?_, by rw [b3, hlen], ?_⟩
      · rw [b1, a1, List.map_cons, List.sum_cons]; omega
      · rw [b2, a2, List.map_cons, List.sum_cons]; omega
      · intro j hj
        rw [b4 j (by rw [hlen]; exact hj)]
        by_cases hr : j ∈ rest
        · rw [if_pos hr, if_pos (List.mem_cons_of_mem _ hr)]
        · rw [if_neg hr, a3, getD_set_nat]
          by_cases e : jlat = j
          · subst e
            rw [if_pos ⟨rfl, hj⟩, if_pos (List.mem_cons_self _ _)]
          · rw [if_neg (fun hc => e hc.1), if_neg (by
              intro hc
              rcases List.mem_cons.1 hc with q | q
              · exact e q.symm
              · exact hr q)]

theorem fill_elem_counts (rg : ReducedGrid) (opts : Options) (mypart : Int) (region : Region)
    (offset_loc : List Int) (jlat : Nat) (st : EState) (elem : Elem) :
    (fill_elem rg opts mypart region offset_loc jlat st elem).quads.length
      = st.quads.length + ([elem].filter quad_slot).length ∧
    (fill_elem rg opts mypart region offset_loc jlat st elem).triags.length
      = st.triags.length + ([elem].filter (fun e => !quad_slot e)).length := by
  unfold fill_elem quad_slot
  by_cases hq : elem.e2 > 0 ∧ elem.e3 > 0
  · simp [hq, List.filter_cons]
  · simp only [hq, if_false, List.filter_cons, decide_False, Bool.false_eq_true, Bool.not_false,
      if_true, List.filter_nil, List.length_nil, List.length_singleton, Nat.add_zero]
    split_ifs <;> simp [push_triag]

theorem fill_row_elems_counts (rg : ReducedGrid) (opts : Options) (mypart : Int)
    (region : Region) (offset_loc : List Int) (jlat : Nat) (l : List Elem) (st : EState) :
    (l.foldl (fill_elem rg opts mypart region offset_loc jlat) st).quads.length
      = st.quads.length + (l.filter quad_slot).length ∧
    (l.foldl (fill_elem rg opts mypart region offset_loc jlat) st).triags.length
      = st.triags.length + (l.filter (fun e => !quad_slot e)).length := by
  induction l generalizing st with
  | nil => simp
  | cons e rest ih =>
    rw [List.foldl_cons]
    obtain ⟨a1, a2⟩ := fill_elem_counts rg opts mypart region offset_loc jlat st e
    obtain ⟨b1, b2⟩ := ih (fill_elem rg opts mypart region offset_loc jlat st e)
    have c1 : ((e :: rest).filter quad_slot).length
        = ([e].filter quad_slot).length + (rest.filter quad_slot).length := by
      rw [← List.length_append, ← List.filter_append]; rfl
    have c2 : ((e :: rest).filter (fun e => !quad_slot e)).length
        = ([e].filter (fun e => !quad_slot e)).length
          + (rest.filter (fun e => !quad_slot e)).length := by
      rw [← List.length_append, ← List.filter_append]; rfl
    constructor <;> omega

theorem fill_rows_elems_counts (rg : ReducedGrid) (opts : Options) (mypart : Int)
    (region : Region) (offset_loc : List Int) (rowf : Nat → List Elem) (rows : List Nat)
    (st : EState) :
    (rows.foldl (fun (s : EState) (jlat : Nat) =>
        (rowf jlat).foldl (fill_elem rg opts mypart region offset_loc jlat) s) st).quads.length
      = st.quads.length + (rows.map (fun j => ((rowf j).filter quad_slot).length)).sum ∧
    (rows.foldl (fun (s : EState) (jlat : Nat) =>
        (rowf jlat).foldl (fill_elem rg opts mypart region offset_loc jlat) s) st).triags.length
      = st.triags.length
        + (rows.map (fun j => ((rowf j).filter (fun e => !quad_slot e)).length)).sum := by
  induction rows generalizing st with
  | nil => simp
  | cons j rest ih =>
    rw [List.foldl_cons]
    obtain ⟨a1, a2⟩ := fill_row_elems_counts rg opts mypart region offset_loc j (rowf j) st
    obtain ⟨b1, b2⟩ := ih ((rowf j).foldl (fill_elem rg opts mypart region offset_loc j) st)
    simp only [List.map_cons, List.sum_cons]
    constructor <;> omega

theorem generate_elems_counts {fuel : Nat} {rg : ReducedGrid} {opts : Options}
    {parts : Nat → Int} {mypart : Int} {region : Region}
    (h : generate_region fuel rg opts parts mypart = some (.ok region)) (opts1 : Options)
    (mypart1 : Int) (offset_loc : List Int) (st : EState) :
    (fill_elems rg opts1 mypart1 region offset_loc st).quads.length
      = st.quads.length + region.nquads ∧
    (fill_elems rg opts1 mypart1 region offset_loc st).triags.length
      = st.triags.length + region.ntriags := by
  have hb := generate_region_bounds h
  obtain ⟨n0, s0, r, _, _, hrows, hfin⟩ := generate_region_ok h
  obtain ⟨f1, f2, f3, f4, f5, _, f7, _, _⟩ := finish_region_ok hfin
  obtain ⟨c1, c2, c3, c4⟩ := region_rows_counts _ hrows
  simp only [initial_rstate, Nat.zero_add, List.length_replicate] at c1 c2 c3 c4
  have hrowf : ∀ j ∈ List.range' region.north (region.south - region.north),
      (region.elems.getD (j - region.north) []).take (region.nb_lat_elems.getD j 0)
        = accepted_row fuel rg opts parts mypart j := by
    intro j hj
    rw [List.mem_range'] at hj
    obtain ⟨i, hi, e⟩ := hj
    have hjr : region.north ≤ j ∧ j < region.south := by omega
    have h1 := generate_region_row_elems h j
    unfold row_elems at h1
    rw [if_pos hjr, if_pos hjr] at h1
    have hmem : j ∈ List.range' (connect_north rg n0)
        (connect_south rg s0 - connect_north rg n0) := by
      rw [List.mem_range']
      exact ⟨i, by omega, by omega⟩
    have h2 := c4 j (by have := hb.1; omega)
    rw [if_pos hmem] at h2
    rw [h1, f7, h2, List.take_length]
  unfold fill_elems
  obtain ⟨a1, a2⟩ := fill_rows_elems_counts rg opts1 mypart1 region offset_loc
    (fun j => (region.elems.getD (j - region.north) []).take (region.nb_lat_elems.getD j 0))
    (List.range' region.north (region.south - region.north)) st
  rw [a1, a2, f5, f4, c1, c2, ← f1, ← f2]
  constructor
  · congr 2
    apply List.map_congr_left
    intro j hj
    rw [hrowf j hj]
  · congr 2
    apply List.map_congr_left
    intro j hj
    rw [hrowf j hj]

theorem north_fan_counts (rg : ReducedGrid) (opts : Options) (mypart : Int)
    (offset_loc : List Int) (jnorth : Int) (s : EState) :
    (north_fan rg opts mypart offset_loc jnorth s).triags.length = s.triags.length + rg.nlon 0 ∧
    (north_fan rg opts mypart offset_loc jnorth s).quads = s.quads := by
  refine ⟨?_, ?_⟩
  · have := congrArg List.length (north_fan_vertices rg opts mypart offset_loc jnorth s)
    simpa using this
  · exact (foldl_push_triag Nat mypart (fun _ => jnorth + 0)
      (fun ip2 => geti offset_loc 0 + (ip2 : Int))
      (fun ip2 => geti offset_loc 0 +
        (((if opts.three_dimensional ∧ ip2 + 1 = rg.nlon 0 then 0 else ip2 + 1 : Nat)) : Int))
      (List.range (rg.nlon 0)) s).2

theorem south_fan_counts (rg : ReducedGrid) (opts : Options) (mypart : Int) (region : Region)
    (offset_loc : List Int) (jsouth : Int) (s : EState) :
    (south_fan rg opts mypart region offset_loc jsouth s).triags.length
      = s.triags.length + rg.nlon (rg.nlat - 1) ∧
    (south_fan rg opts mypart region offset_loc jsouth s).quads = s.quads := by
  refine ⟨?_, ?_⟩
  · have := congrArg List.length (south_fan_vertices rg opts mypart region offset_loc jsouth s)
    simpa using this
  · exact (foldl_push_triag Nat mypart (fun _ => jsouth + 0)
      (fun ip2 => if opts.three_dimensional ∧ ip2 = rg.nlon (rg.nlat - 1)
        then geti offset_loc (region.south - region.north) + 0
        else geti offset_loc (region.south - region.north) + (ip2 : Int))
      (fun ip2 => geti offset_loc (region.south - region.north) + ((ip2 : Int) - 1))
      (List.range' 1 (rg.nlon (rg.nlat - 1))) s).2

theorem numbering_lengths (rank : Nat) (elem_counts : List Nat) (mesh : Mesh) :
    (generate_global_element_numbering rank elem_counts mesh).quads.length = mesh.quads.length ∧
    (generate_global_element_numbering rank elem_counts mesh).triags.length
      = mesh.triags.length ∧
    (generate_global_element_numbering rank elem_counts mesh).nodes = mesh.nodes ∧
    (generate_global_element_numbering rank elem_counts mesh).nnodes = mesh.nnodes ∧
    (generate_global_element_numbering rank elem_counts mesh).nquads = mesh.nquads ∧
    (generate_global_element_numbering rank elem_counts mesh).ntriags = mesh.ntriags := by
  unfold generate_global_element_numbering
  simp

theorem final_counts_plain (rg : ReducedGrid) (opts : Options) (region : Region)
    (hpatch : opts.patch_pole = false) :
    (final_counts rg opts region).1
      = region.nnodes + (if include_north_pole rg opts then 1 else 0)
        + (if include_south_pole rg opts then 1 else 0)
        - (if opts.three_dimensional then
            (((List.range rg.nlat).filter (fun jlat => decide (rg.nlon jlat > 0))).length : Int)
           else 0) ∧
    (final_counts rg opts region).2
      = (region.ntriags : Int) + (if include_north_pole rg opts then (rg.nlon 0 : Int) else 0)
        + (if include_south_pole rg opts then (rg.nlon (rg.nlat - 1) : Int) else 0) := by
  have hpn : patch_north_pole rg opts = false := by simp [patch_north_pole, hpatch]
  have hps : patch_south_pole rg opts = false := by simp [patch_south_pole, hpatch]
  unfold final_counts
  simp only [hpn, hps, Bool.false_eq_true, if_false]
  cases include_north_pole rg opts <;> cases include_south_pole rg opts <;>
    cases opts.three_dimensional <;> simp

theorem generate_mesh_elem_counts {fuel : Nat} {rg : ReducedGrid} {opts : Options}
    {parts : Nat → Int} {mypart : Int} {region : Region} {rank : Nat} {elem_counts : List Nat}
    {mesh : Mesh} (hpatch : opts.patch_pole = false)
    (hreg : generate_region fuel rg opts parts mypart = some (.ok region))
    (hmesh : generate_mesh rg opts parts region rank elem_counts = .ok mesh) :
    (mesh.quads.length : Int) = mesh.nquads ∧ (mesh.triags.length : Int) = mesh.ntriags ∧
    mesh.nnodes = (final_counts rg opts region).1 := by
  have hpn : patch_north_pole rg opts = false := by simp [patch_north_pole, hpatch]
  have hps : patch_south_pole rg opts = false := by simp [patch_south_pole, hpatch]
  have hfc := (final_counts_plain rg opts region hpatch).2
  unfold generate_mesh at hmesh
  simp only at hmesh
  split at hmesh
  · cases hmesh
  · split at hmesh
    · cases hmesh
    · rename_i ns hns
      cases hmesh
      obtain ⟨e1, e2⟩ := generate_elems_counts hreg opts opts.part ns.offset_loc ⟨[], []⟩
      simp only [List.length_nil, Nat.zero_add] at e1 e2
      simp only [generate_global_element_numbering, List.length_map, List.enum_length, hpn, hps,
        Bool.false_eq_true, if_false]
      rw [hfc]
      cases hn : include_north_pole rg opts <;> cases hs : include_south_pole rg opts <;>
        simp only [Bool.false_eq_true, if_false, if_true, (north_fan_counts _ _ _ _ _ _).1,
          (north_fan_counts _ _ _ _ _ _).2, (south_fan_counts _ _ _ _ _ _ _).1,
          (south_fan_counts _ _ _ _ _ _ _).2, e1, e2] <;>
        refine ⟨trivial, ?_, trivial⟩ <;> push_cast <;> omega

theorem fill_row_l {rg : ReducedGrid} {opts : Options} {parts : Nat → Int} {mypart : Int}
    {region : Region} {inp isp : Bool} {jlat : Nat} {s s1 : NState}
    (h : fill_row rg opts parts mypart region inp isp jlat s = .ok s1) :
    s1.l = s.l + (geti region.lat_end jlat - geti region.lat_begin jlat + 1)
      + (if opts.three_dimensional = false ∧ geti region.lat_end jlat = (rg.nlon jlat : Int) - 1
          then 1 else 0) := by
  unfold fill_row at h
  simp only at h
  split_ifs at h with hp
  · have hc : opts.three_dimensional = false ∧
        geti region.lat_end jlat = (rg.nlon jlat : Int) - 1 :=
      ⟨by simpa using hp.1, hp.2⟩
    rw [if_pos hc]
    split at h
    · cases h
    · cases h
      rfl
  · have hc : ¬ (opts.three_dimensional = false ∧
        geti region.lat_end jlat = (rg.nlon jlat : Int) - 1) := by
      intro hc
      apply hp
      exact ⟨by rw [hc.1]; rfl, hc.2⟩
    rw [if_neg hc]
    cases h
    simp

theorem fill_rows_l {rg : ReducedGrid} {opts : Options} {parts : Nat → Int} {mypart : Int}
    {region : Region} {inp isp : Bool} (rows : List Nat) {s s1 : NState}
    (h : fill_rows rg opts parts mypart region inp isp rows s = .ok s1) :
    s1.l = s.l + (rows.map (fun j =>
      geti region.lat_end j - geti region.lat_begin j + 1
        + (if opts.three_dimensional = false ∧ geti region.lat_end j = (rg.nlon j : Int) - 1
            then 1 else 0))).sum := by
  induction rows generalizing s with
  | nil =>
    simp only [fill_rows] at h
    cases h
    simp
  | cons jlat rest ih =>
    simp only [fill_rows] at h
    split at h
    · cases h
    · rename_i s2 h2
      rw [ih h, fill_row_l h2, List.map_cons, List.sum_cons]
      ring

theorem region_nodes_sum (rg : ReducedGrid) (rows : List Nat) (lb le : List Int) (n : Int)
    (hrows : ∀ j ∈ rows, j < lb.length) :
    (region_nodes rg rows lb le n).2 = n + (rows.map (fun j =>
      geti le j - max 0 (geti lb j) + 1
        + (if geti le j = (rg.nlon j : Int) - 1 then 1 else 0))).sum := by
  induction rows generalizing lb n with
  | nil => simp [region_nodes]
  | cons a rest ih =>
    simp only [region_nodes]
    have ha := hrows a (List.mem_cons_self _ _)
    rw [ih _ _ (fun j hj => by
      rw [List.length_set]
      exact hrows j (List.mem_cons_of_mem _ hj))]
    rw [List.map_cons, List.sum_cons, geti_set_self _ _ _ ha]
    have e : rest.map (fun j => geti le j - max 0 (geti (lb.set a (max 0 (geti lb a))) j) + 1
        + (if geti le j = (rg.nlon j : Int) - 1 then 1 else 0))
        = rest.map (fun j => geti le j - max 0 (geti lb j) + 1
        + (if geti le j = (rg.nlon j : Int) - 1 then 1 else 0)) := by
      apply List.map_congr_left
      intro j _
      by_cases hj : a = j
      · subst hj
        rw [geti_set_self _ _ _ ha, max_eq_right (le_max_left _ _)]
      · rw [geti_set_ne _ _ _ _ hj]
    rw [e]
    split_ifs <;> ring

theorem sum_map_indicator (rows : List Nat) (f g : Nat → Int) (b : Bool) (p : Nat → Bool)
    (h : ∀ j ∈ rows, g j = f j + (if b = true ∧ p j = true then 1 else 0)) :
    (rows.map g).sum = (rows.map f).sum + (if b then ((rows.filter p).length : Int) else 0) := by
  induction rows with
  | nil => simp
  | cons a rest ih =>
    rw [List.map_cons, List.sum_cons, List.map_cons, List.sum_cons,
      ih (fun j hj => h j (List.mem_cons_of_mem _ hj)), h a (List.mem_cons_self _ _),
      List.filter_cons]
    cases b <;> cases hp : p a <;> simp <;> ring

theorem generate_nodes_count {fuel : Nat} {rg : ReducedGrid} {opts : Options}
    {parts : Nat → Int} {mypart : Int} {region : Region} {inp isp : Bool} {mypart1 : Int}
    {ns : NState}
    (hreg : generate_region fuel rg opts parts mypart = some (.ok region))
    (hfill : fill_rows rg opts parts mypart1 region inp isp
      (List.range' region.north (region.south + 1 - region.north))
      { l := 0, offset_loc := [], nodes := [] } = .ok ns) :
    (ns.nodes.length : Int)
      + (if opts.three_dimensional then
          (((List.range' region.north (region.south + 1 - region.north)).filter
            (fun j => decide (geti region.lat_end j = (rg.nlon j : Int) - 1))).length : Int)
         else 0) = region.nnodes := by
  have hrows := generate_region_rows hreg
  have hb := generate_region_bounds hreg
  obtain ⟨hl, _⟩ := fill_rows_layout _ hfill rfl (fun r hr =>
    ⟨(hrows r hr).1, (hrows r hr).2.1⟩)
  have hsum := fill_rows_l _ hfill
  obtain ⟨n0, s0, r, _, _, hrr, hfin⟩ := generate_region_ok hreg
  obtain ⟨f1, f2, _, _, _, f6, _, f8, f9⟩ := finish_region_ok hfin
  have hlen := (region_rows_bounds _ hrr (by
    intro j; simp only [initial_rstate]; rw [geti_replicate]; omega)).2
  simp only [initial_rstate, List.length_replicate] at hlen
  have hin : ∀ j ∈ List.range' region.north (region.south + 1 - region.north),
      j < r.lat_begin.length := by
    intro j hj
    rw [List.mem_range'] at hj
    obtain ⟨i, hi, e⟩ := hj
    have := hb.1
    omega
  rw [← f1, ← f2] at f9 f8
  have key := sum_map_indicator (List.range' region.north (region.south + 1 - region.north))
    (fun j => geti region.lat_end j - geti region.lat_begin j + 1
      + (if opts.three_dimensional = false ∧ geti region.lat_end j = (rg.nlon j : Int) - 1
          then 1 else 0))
    (fun j => geti r.lat_end j - max 0 (geti r.lat_begin j) + 1
      + (if geti r.lat_end j = (rg.nlon j : Int) - 1 then 1 else 0))
    opts.three_dimensional
    (fun j => decide (geti region.lat_end j = (rg.nlon j : Int) - 1))
    (by
      intro j hj
      simp only
      rw [f8, region_nodes_begin_val _ _ _ _ _ _ (hin j hj) hj, f6]
      cases opts.three_dimensional <;> simp)
  rw [f9, region_nodes_sum _ _ _ _ _ hin, ← hl, hsum, key]
  simp only [zero_add]

theorem geti_clip_rows (rg : ReducedGrid) (up : Bool) (jlat : Nat) (le : List Int)
    (hl : jlat + 1 < le.length) :
    geti (clip_lat_end rg up jlat le) jlat
      = (if rg.lat jlat = 90 ∧ up = true then (rg.nlon jlat : Int) - 1
         else min (geti le jlat) ((rg.nlon jlat : Int) - 1)) ∧
    geti (clip_lat_end rg up jlat le) (jlat + 1)
      = (if rg.lat (jlat + 1) = -90 ∧ up = true then (rg.nlon (jlat + 1) : Int) - 1
         else min (geti le (jlat + 1)) ((rg.nlon (jlat + 1) : Int) - 1)) ∧
    ∀ j, j ≠ jlat → j ≠ jlat + 1 → geti (clip_lat_end rg up jlat le) j = geti le j := by
  have h2 : ¬ (jlat + 1 = jlat) := by omega
  have h2' : ¬ (jlat = jlat + 1) := by omega
  have h3 : jlat < le.length := by omega
  unfold clip_lat_end
  simp only [geti_set, geti_ite_set, List.length_set, length_ite_set]
  refine ⟨?_, ?_, ?_⟩
  · simp only [h2, h3, false_and, and_false, if_false, true_and, and_self, if_true, and_true]
  · simp only [h2', hl, false_and, and_false, if_false, true_and, and_self, if_true, and_true]
  · intro j hj1 hj2
    have a1 : ¬ (jlat = j) := fun h => hj1 h.symm
    have a2 : ¬ (jlat + 1 = j) := fun h => hj2 h.symm
    simp only [a1, a2, false_and, and_false, if_false]

theorem zipper_loop_reach (rg : ReducedGrid) (opts : Options) (jlat endN endS : Nat)
    (fuel : Nat) (s t : ZState) (hc : CursorInv endN endS s)
    (hl : jlat + 1 < s.lat_end.length)
    (hJ : (s.ipN1 : Int) ≤ max 0 (geti s.lat_end jlat) ∧
      (s.ipS1 : Int) ≤ max 0 (geti s.lat_end (jlat + 1)))
    (hr : zipper_loop rg opts (fun _ => 0) 0 jlat endN endS fuel s = some t) :
    (endN : Int) ≤ max 0 (geti t.lat_end jlat) ∧
    (endS : Int) ≤ max 0 (geti t.lat_end (jlat + 1)) := by
  induction fuel generalizing s with
  | zero =>
    simp only [zipper_loop] at hr
    split at hr
    · rename_i hend
      cases hr
      rw [← hend.1, ← hend.2]
      exact hJ
    · cases hr
  | succ n ih =>
    simp only [zipper_loop] at hr
    split at hr
    · rename_i hend
      cases hr
      rw [← hend.1, ← hend.2]
      exact hJ
    · have hne : jlat ≠ jlat + 1 := by omega
      have hstep := zipper_step_eq rg opts (fun _ => 0) 0 jlat endN endS s
      rw [step_accept_one, if_pos rfl] at hstep
      have hle : (zipper_step rg opts (fun _ => 0) 0 jlat endN endS s).lat_end
          = touch_end s.lat_end jlat (jlat + 1) (step_cursors rg opts jlat s).1
              (step_cursors rg opts jlat s).2 := by
        rw [hstep]; rfl
      have hN : (zipper_step rg opts (fun _ => 0) 0 jlat endN endS s).ipN1
          = (step_cursors rg opts jlat s).1 := by
        rw [hstep]; rfl
      have hS : (zipper_step rg opts (fun _ => 0) 0 jlat endN endS s).ipS1
          = (step_cursors rg opts jlat s).2 := by
        rw [hstep]; rfl
      apply ih _ (zipper_step_cursorInv rg opts (fun _ => 0) 0 jlat endN endS s hc)
        (by rw [hle, touch_end_length]; exact hl) _ hr
      rw [hle, hN, hS, touch_end_N _ _ _ _ _ hne (by omega),
        touch_end_S _ _ _ _ _ hne (by omega)]
      exact ⟨le_trans (le_max_right _ _) (le_max_right _ _),
        le_trans (le_max_right _ _) (le_max_right _ _)⟩

theorem region_row_reach (rg : ReducedGrid) (opts : Options) (up : Bool) (fuel jlat : Nat)
    (r r1 : RState) (hN : 0 < rg.nlon jlat) (hS : 0 < rg.nlon (jlat + 1))
    (hl : jlat + 1 < r.lat_end.length)
    (h : region_row rg opts (fun _ => 0) 0 up fuel jlat r = some r1) :
    geti r1.lat_end jlat = (rg.nlon jlat : Int) - 1 ∧
    geti r1.lat_end (jlat + 1) = (rg.nlon (jlat + 1) : Int) - 1 ∧
    (∀ j, j ≠ jlat → j ≠ jlat + 1 → geti r1.lat_end j = geti r.lat_end j) ∧
    r1.lat_end.length = r.lat_end.length := by
  unfold region_row at h
  split at h
  · cases h
  · rename_i s hs
    obtain ⟨a1, a2⟩ := zipper_loop_reach rg opts jlat _ _ fuel _ s
      (start_state_cursorInv rg up jlat r) hl
      ⟨by simp [start_state], by simp [start_state]⟩ hs
    obtain ⟨b1, _, b3⟩ := zipper_loop_shape _ _ _ _ _ _ _ _ _ _ hs
    simp only [start_state] at b1 b3
    cases h
    simp only
    obtain ⟨c1, c2, c3⟩ := geti_clip_rows rg up jlat s.lat_end (by rw [b3]; exact hl)
    refine ⟨?_, ?_, ?_, by rw [clip_lat_end_length, b3]⟩
    · rw [c1]
      split_ifs with hp
      · rfl
      · have e : (row_ends rg up jlat).1 = rg.nlon jlat := by
          unfold row_ends
          simp only
          rw [if_neg hp]
        rw [e] at a1
        have : (rg.nlon jlat : Int) ≤ geti s.lat_end jlat := by
          rcases le_max_iff.1 a1 with q | q <;> omega
        exact min_eq_right (by omega)
    · rw [c2]
      split_ifs with hp
      · rfl
      · have e : (row_ends rg up jlat).2 = rg.nlon (jlat + 1) := by
          unfold row_ends
          simp only
          rw [if_neg hp]
        rw [e] at a2
        have : (rg.nlon (jlat + 1) : Int) ≤ geti s.lat_end (jlat + 1) := by
          rcases le_max_iff.1 a2 with q | q <;> omega
        exact min_eq_right (by omega)
    · intro j h1 h2
      rw [c3 j h1 h2, b1 j h1 h2]

theorem region_rows_reach (rg : ReducedGrid) (opts : Options) (up : Bool) (fuel : Nat)
    (rows : List Nat) (r r1 : RState)
    (hrows : ∀ j ∈ rows, 0 < rg.nlon j ∧ 0 < rg.nlon (j + 1) ∧ j + 1 < r.lat_end.length)
    (h : region_rows rg opts (fun _ => 0) 0 up fuel rows r = some r1) :
    ∀ j, (geti r.lat_end j = (rg.nlon j : Int) - 1 ∨ j ∈ rows ∨ ∃ i ∈ rows, j = i + 1) →
      geti r1.lat_end j = (rg.nlon j : Int) - 1 := by
  induction rows generalizing r with
  | nil =>
    simp only [region_rows] at h
    cases h
    intro j hj
    rcases hj with hj | hj | ⟨i, hi, _⟩
    · exact hj
    · cases hj
    · cases hi
  | cons jlat rest ih =>
    simp only [region_rows] at h
    split at h
    · cases h
    · rename_i r2 h2
      obtain ⟨p1, p2, p3⟩ := hrows jlat (List.mem_cons_self _ _)
      obtain ⟨a1, a2, a3, a4⟩ := region_row_reach rg opts up fuel jlat r r2 p1 p2 p3 h2
      have ih2 := ih r2 (fun j hj => by
        rw [a4]
        exact hrows j (List.mem_cons_of_mem _ hj)) h
      intro j hj
      apply ih2
      by_cases e1 : j = jlat
      · subst e1; exact Or.inl a1
      · by_cases e2 : j = jlat + 1
        · subst e2; exact Or.inl a2
        · rcases hj with hj | hj | ⟨i, hi, e⟩
          · left; rw [a3 j e1 e2]; exact hj
          · rcases List.mem_cons.1 hj with q | q
            · exact absurd q e1
            · exact Or.inr (Or.inl q)
          · rcases List.mem_cons.1 hi with q | q
            · subst q; exact absurd e e2
            · exact Or.inr (Or.inr ⟨i, q, e⟩)

theorem generate_region_reach {fuel : Nat} {rg : ReducedGrid} {opts : Options}
    {region : Region} (hrows : ∀ j, j < rg.nlat → 0 < rg.nlon j)
    (hreg : generate_region fuel rg opts (fun _ => 0) 0 = some (.ok region)) :
    region.north = 0 ∧ region.south = rg.nlat - 1 ∧ 2 ≤ rg.nlat ∧
    ∀ j, j < rg.nlat → geti region.lat_end j = (rg.nlon j : Int) - 1 := by
  obtain ⟨n0, s0, r, hn, hs, hrr, hfin⟩ := generate_region_ok hreg
  obtain ⟨f1, f2, _, _, _, f6, _, _, f9⟩ := finish_region_ok hfin
  have hpos : 0 < rg.nlat := by
    by_contra hc
    have h0 : rg.nlat = 0 := by omega
    unfold find_lat_north at hn
    rw [h0] at hn
    simp at hn
  have hown : ∀ j, j < rg.nlat → OwnsIn rg (fun _ => 0) 0 j := fun j hj => ⟨0, hrows j hj, rfl⟩
  obtain ⟨n0', s0', hn', hs', hn0, _, hs0⟩ := find_lat_of_owns hpos (hown 0 hpos)
  rw [hn] at hn'
  rw [hs] at hs'
  cases hn'
  cases hs'
  have c3 := connect_south_lt hs0
  have eN : connect_north rg n0 = 0 := by
    unfold connect_north
    split_ifs <;> omega
  by_cases h2 : 2 ≤ rg.nlat
  · have c2 := @region_covers rg (fun _ => 0) 0 (rg.nlat - 2) n0 s0 hrows (by omega) hn hs
      (Or.inl (hown _ (by omega)))
    have eS : connect_south rg s0 = rg.nlat - 1 := by omega
    refine ⟨by rw [f1, eN], by rw [f2, eS], h2, ?_⟩
    rw [eN, eS] at hrr
    intro j hj
    rw [f6]
    apply region_rows_reach rg opts _ fuel _ _ r _ hrr
    · by_cases hj2 : j + 1 < rg.nlat
      · right; left
        rw [List.mem_range']
        exact ⟨j, by omega, by omega⟩
      · right; right
        refine ⟨j - 1, ?_, by omega⟩
        rw [List.mem_range']
        exact ⟨j - 1, by omega, by omega⟩
    · intro i hi
      rw [List.mem_range'] at hi
      obtain ⟨k, hk, e⟩ := hi
      simp only [initial_rstate, List.length_replicate]
      exact ⟨hrows i (by omega), hrows (i + 1) (by omega), by omega⟩
  · exfalso
    have h1 : rg.nlat = 1 := by omega
    have eS : connect_south rg s0 = 0 := by
      unfold connect_south
      split_ifs <;> omega
    rw [eN, eS] at hrr f9
    simp only [Nat.sub_self, List.range'_zero, region_rows] at hrr
    cases hrr
    unfold finish_region at hfin
    rw [eN, eS] at hfin
    have hsum := region_nodes_sum rg (List.range' 0 (0 + 1 - 0)) (initial_rstate rg).lat_begin
      (initial_rstate rg).lat_end 0 (by
        intro j hj
        rw [List.mem_range'] at hj
        simp only [initial_rstate, List.length_replicate]
        omega)
    simp only [initial_rstate, geti_replicate, Nat.sub_zero, Nat.zero_add, List.range'_one,
      List.map_cons, List.map_nil, List.sum_cons, List.sum_nil] at hsum
    have hL := hrows 0 hpos
    have hz : (region_nodes rg (List.range' 0 (0 + 1 - 0)) (initial_rstate rg).lat_begin
        (initial_rstate rg).lat_end 0).2 = 0 := by
      simp only [initial_rstate, Nat.sub_zero, Nat.zero_add, List.range'_one]
      rw [hsum]
      have : ¬ ((-1 : Int) = (rg.nlon 0 : Int) - 1) := by omega
      rw [if_neg this]
      simp
    simp only [hz, if_true] at hfin
    cases hfin

/-- C35: allocated counts equal written counts.  Without `patch_pole`, in
non-3D mode for any partition, and in 3D mode for one partition on a grid
whose rows are all non-empty, with `include_pole` on or off: for a region
returned by `generate_region` and a mesh returned by `generate_mesh`, the
number of node rows written equals the allocated `nnodes`, the number of quad
rows written equals the allocated `nquads`, and the number of triangle rows
written equals the allocated `ntriags`. -/
theorem allocated_equals_written (fuel : Nat) (rg : ReducedGrid) (opts : Options)
    (parts : Nat → Int) (region : Region) (rank : Nat) (elem_counts : List Nat) (mesh : Mesh)
    (hpatch : opts.patch_pole = false)
    (hone : opts.three_dimensional = true →
      opts.part = 0 ∧ (∀ n, parts n = 0) ∧ ∀ j, j < rg.nlat → 0 < rg.nlon j)
    (hreg : generate_region fuel rg opts parts opts.part = some (.ok region))
    (hmesh : generate_mesh rg opts parts region rank elem_counts = .ok mesh) :
    (mesh.nodes.length : Int) = mesh.nnodes ∧ (mesh.quads.length : Int) = mesh.nquads ∧
    (mesh.triags.length : Int) = mesh.ntriags := by
  obtain ⟨hq, ht, hn⟩ := generate_mesh_elem_counts hpatch hreg hmesh
  refine ⟨?_, hq, ht⟩
  obtain ⟨ns, hns, hnodes⟩ := generate_mesh_nodes hmesh
  have hcount := generate_nodes_count hreg hns
  rw [hn, (final_counts_plain rg opts region hpatch).1, hnodes]
  simp only [List.length_append]
  have hpoles : ∀ (b : Bool) (x : Node),
      (((if b = true then [x] else []).length : Nat) : Int) = if b = true then 1 else 0 := by
    intro b x
    cases b <;> simp
  push_cast
  rw [hpoles, hpoles]
  by_cases h3 : opts.three_dimensional = true
  · obtain ⟨hp, hparts, hrows⟩ := hone h3
    have e : parts = fun _ => 0 := funext hparts
    subst e
    rw [hp] at hreg
    obtain ⟨r1, r2, r3, r4⟩ := generate_region_reach hrows hreg
    rw [h3] at hcount
    simp only [if_true] at hcount
    rw [h3]
    simp only [if_true]
    have c1 : (List.range' region.north (region.south + 1 - region.north)).filter
        (fun j => decide (geti region.lat_end j = (rg.nlon j : Int) - 1))
        = List.range' region.north (region.south + 1 - region.north) := by
      rw [List.filter_eq_self]
      intro j hj
      rw [List.mem_range'] at hj
      obtain ⟨i, hi, e⟩ := hj
      simp only [decide_eq_true_eq]
      exact r4 j (by omega)
    have c2 : (List.range rg.nlat).filter (fun jlat => decide (rg.nlon jlat > 0))
        = List.range rg.nlat := by
      rw [List.filter_eq_self]
      intro j hj
      simp only [decide_eq_true_eq]
      exact hrows j (List.mem_range.1 hj)
    rw [c1, List.length_range'] at hcount
    rw [c2, List.length_range]
    have : region.south + 1 - region.north = rg.nlat := by omega
    rw [this] at hcount
    omega
  · have h3' : opts.three_dimensional = false := by simpa using h3
    rw [h3'] at hcount ⊢
    simp only [Bool.false_eq_true, if_false] at hcount ⊢
    omega

set_option maxRecDepth 100000 in
theorem allocated_equals_written_witness :
    (((mesh_of (generate_mesh grid4664 pole_3d_options (fun _ => 0)
        (region_of (generate_region 20 grid4664 pole_3d_options (fun _ => 0) 0))
        0 [40])).nodes.length : Int)
      = (mesh_of (generate_mesh grid4664 pole_3d_options (fun _ => 0)
        (region_of (generate_region 20 grid4664 pole_3d_options (fun _ => 0) 0)) 0 [40])).nnodes ∧
    ((mesh_of (generate_mesh grid4664 pole_3d_options (fun _ => 0)
        (region_of (generate_region 20 grid4664 pole_3d_options (fun _ => 0) 0))
        0 [40])).quads.length : Int)
      = (mesh_of (generate_mesh grid4664 pole_3d_options (fun _ => 0)
        (region_of (generate_region 20 grid4664 pole_3d_options (fun _ => 0) 0)) 0 [40])).nquads ∧
    ((mesh_of (generate_mesh grid4664 pole_3d_options (fun _ => 0)
        (region_of (generate_region 20 grid4664 pole_3d_options (fun _ => 0) 0))
        0 [40])).triags.length : Int)
      = (mesh_of (generate_mesh grid4664 pole_3d_options (fun _ => 0)
        (region_of (generate_region 20 grid4664 pole_3d_options (fun _ => 0) 0))
        0 [40])).ntriags) ∧
    (mesh_of (generate_mesh grid4664 pole_3d_options (fun _ => 0)
      (region_of (generate_region 20 grid4664 pole_3d_options (fun _ => 0) 0)) 0 [40])).nnodes
      = 22 ∧
    (mesh_of (generate_mesh grid4664 pole_3d_options (fun _ => 0)
      (region_of (generate_region 20 grid4664 pole_3d_options (fun _ => 0) 0)) 0 [40])).ntriags
      = 40 :=
  ⟨allocated_equals_written 20 grid4664 pole_3d_options (fun _ => 0)
    (region_of (generate_region 20 grid4664 pole_3d_options (fun _ => 0) 0)) 0 [40]
    (mesh_of (generate_mesh grid4664 pole_3d_options (fun _ => 0)
      (region_of (generate_region 20 grid4664 pole_3d_options (fun _ => 0) 0)) 0 [40]))
    rfl (fun _ => ⟨rfl, fun _ => rfl, by decide⟩) (by decide!) (by decide!),
   by decide!, by decide!⟩
theorem generate_region_none_of_row (fuel : Nat) (rg : ReducedGrid) (opts : Options)
    (parts : Nat → Int) (mypart : Int) (n0 s0 jlat : Nat)
    (hn : find_lat_north rg parts mypart = some n0)
    (hs : find_lat_south rg parts mypart = some s0)
    (hj : jlat ∈ List.range' (connect_north rg n0) (connect_south rg s0 - connect_north rg n0))
    (hrow : row_finishes fuel rg opts jlat = false) :
    generate_region fuel rg opts parts mypart = none := by
  have hr := region_rows_isSome rg opts parts mypart fuel
    (List.range' (connect_north rg n0) (connect_south rg s0 - connect_north rg n0))
    (initial_rstate rg)
  have hall : (List.range' (connect_north rg n0)
      (connect_south rg s0 - connect_north rg n0)).all (row_finishes fuel rg opts) = false := by
    rw [Bool.eq_false_iff]
    intro h
    rw [List.all_eq_true] at h
    have := h jlat hj
    rw [hrow] at this
    cases this
  rw [hall] at hr
  unfold generate_region
  rw [hn, hs]
  simp only
  cases hrr : region_rows rg opts parts mypart (unique_pole_active rg opts) fuel
      (List.range' (connect_north rg n0) (connect_south rg s0 - connect_north rg n0))
      (initial_rstate rg) with
  | none => rfl
  | some r => rw [hrr] at hr; cases hr

set_option maxRecDepth 100000 in
/-- C1: failing input.  Rows of 4 points at longitudes `90*c` with the options
`stagger` and `triangulate`, split into two partitions by rows.  Every row is
non-empty, the rule longitudes of both rows increase strictly up to the
periodic column, every point belongs to partition 0 or 1 and each of the two
owns a point.  The zipper loop of the row pair 0 never leaves: neither the
1-partition run nor the run of part 0 or of part 1 returns, for any amount of
fuel, so no list of accepted elements is produced. -/
theorem nway_partition_failing_input (fuel : Nat) :
    (∀ j, j < grid44.nlat → 0 < grid44.nlon j) ∧
    (∀ j, j < grid44.nlat → ∀ c, c < grid44.nlon j →
      rule_lon grid44 stagger_options j c < rule_lon grid44 stagger_options j (c + 1)) ∧
    (∀ n, n < grid44.npts → 0 ≤ parts_halves n ∧ parts_halves n < 2) ∧
    (∀ p : Nat, p < 2 → ∃ n, n < grid44.npts ∧ parts_halves n = (p : Int)) ∧
    generate_region fuel grid44 stagger_options (fun _ => 0) 0 = none ∧
    generate_region fuel grid44 stagger_options parts_halves 0 = none ∧
    generate_region fuel grid44 stagger_options parts_halves 1 = none := by
  refine ⟨by decide, by decide!, by decide, ?_, ?_, ?_, ?_⟩
  · intro p hp
    interval_cases p
    · exact ⟨0, by decide, by decide⟩
    · exact ⟨4, by decide, by decide⟩
  · exact generate_region_none_of_row fuel grid44 stagger_options (fun _ => 0) 0 0 1 0
      (by decide) (by decide) (by decide) (stagger_row_never_finishes fuel)
  · exact generate_region_none_of_row fuel grid44 stagger_options parts_halves 0 0 0 0
      (by decide) (by decide) (by decide) (stagger_row_never_finishes fuel)
  · exact generate_region_none_of_row fuel grid44 stagger_options parts_halves 1 1 1 0
      (by decide) (by decide) (by decide) (stagger_row_never_finishes fuel)
theorem zipper_loop_begin_other (rg : ReducedGrid) (opts : Options) (parts : Nat → Int)
    (mypart : Int) (jlat endN endS : Nat) (fuel : Nat) (s s1 : ZState)
    (h : zipper_loop rg opts parts mypart jlat endN endS fuel s = some s1) :
    ∀ j, j ≠ jlat → j ≠ jlat + 1 → geti s1.lat_begin j = geti s.lat_begin j := by
  induction fuel generalizing s with
  | zero =>
    simp only [zipper_loop] at h
    split at h
    · cases h; exact fun _ _ _ => rfl
    · cases h
  | succ n ih =>
    simp only [zipper_loop] at h
    split at h
    · cases h; exact fun _ _ _ => rfl
    · have h1 := ih _ h
      obtain ⟨_, hb⟩ := zipper_step_shape rg opts parts mypart jlat endN endS s
      intro j hj1 hj2
      rw [h1 j hj1 hj2]
      rcases hb with hb | ⟨bN, bS, hb⟩
      · rw [hb]
      · rw [hb, touch_begin_other _ _ _ _ _ _ hj1 hj2]

theorem region_row_other {rg : ReducedGrid} {opts : Options} {parts : Nat → Int}
    {mypart : Int} {up : Bool} {fuel jlat : Nat} {r r1 : RState}
    (hl : jlat + 1 < r.lat_end.length)
    (h : region_row rg opts parts mypart up fuel jlat r = some r1) :
    (∀ j, j ≠ jlat → j ≠ jlat + 1 →
      geti r1.lat_begin j = geti r.lat_begin j ∧ geti r1.lat_end j = geti r.lat_end j) ∧
    r1.lat_begin.length = r.lat_begin.length ∧ r1.lat_end.length = r.lat_end.length := by
  unfold region_row at h
  split at h
  · cases h
  · rename_i s hs
    cases h
    obtain ⟨a1, a2, a3⟩ := zipper_loop_shape rg opts parts mypart jlat _ _ fuel _ s hs
    have b1 := zipper_loop_begin_other rg opts parts mypart jlat _ _ fuel _ s hs
    simp only [start_state] at a1 a2 a3 b1
    simp only
    refine ⟨?_, a2, ?_⟩
    · intro j h1 h2
      refine ⟨b1 j h1 h2, ?_⟩
      rw [(geti_clip_rows rg up jlat s.lat_end (by omega)).2.2 j h1 h2]
      exact a1 j h1 h2
    · rw [clip_lat_end_length]; exact a3

theorem region_rows_other {rg : ReducedGrid} {opts : Options} {parts : Nat → Int}
    {mypart : Int} {up : Bool} {fuel : Nat} (rows : List Nat) {r r1 : RState}
    (hl : ∀ i ∈ rows, i + 1 < r.lat_end.length)
    (h : region_rows rg opts parts mypart up fuel rows r = some r1) :
    (∀ j, (∀ i ∈ rows, j ≠ i ∧ j ≠ i + 1) →
      geti r1.lat_begin j = geti r.lat_begin j ∧ geti r1.lat_end j = geti r.lat_end j) ∧
    r1.lat_begin.length = r.lat_begin.length ∧ r1.lat_end.length = r.lat_end.length := by
  induction rows generalizing r with
  | nil =>
    simp only [region_rows] at h
    cases h
    exact ⟨fun _ _ => ⟨rfl, rfl⟩, rfl, rfl⟩
  | cons a rest ih =>
    simp only [region_rows] at h
    split at h
    · cases h
    · rename_i r2 h2
      obtain ⟨b1, b2, b3⟩ := region_row_other (hl a (List.mem_cons_self _ _)) h2
      obtain ⟨c1, c2, c3⟩ := ih (fun i hi => by
        rw [b3]; exact hl i (List.mem_cons_of_mem _ hi)) h
      refine ⟨?_, by rw [c2, b2], by rw [c3, b3]⟩
      intro j hj
      obtain ⟨d1, d2⟩ := c1 j (fun i hi => hj i (List.mem_cons_of_mem _ hi))
      obtain ⟨e1, e2⟩ := b1 j (hj a (List.mem_cons_self _ _)).1 (hj a (List.mem_cons_self _ _)).2
      exact ⟨d1.trans e1, d2.trans e2⟩

theorem region_rows_append (rg : ReducedGrid) (opts : Options) (parts : Nat → Int)
    (mypart : Int) (up : Bool) (fuel : Nat) (l1 l2 : List Nat) (r : RState) :
    region_rows rg opts parts mypart up fuel (l1 ++ l2) r
      = (region_rows rg opts parts mypart up fuel l1 r).bind
          (region_rows rg opts parts mypart up fuel l2) := by
  induction l1 generalizing r with
  | nil => simp [region_rows]
  | cons a rest ih =>
    simp only [List.cons_append, region_rows]
    cases region_row rg opts parts mypart up fuel a r with
    | none => rfl
    | some r1 => exact ih r1

theorem generate_region_polar_rows {fuel : Nat} {rg : ReducedGrid} {opts : Options}
    {region : Region} (hup : unique_pole_active rg opts = false)
    (h0 : 0 < rg.nlon 0) (hK : 0 < rg.nlon (rg.nlat - 1))
    (hreg : generate_region fuel rg opts (fun _ => 0) 0 = some (.ok region)) :
    region.north = 0 ∧ region.south = rg.nlat - 1 ∧ 2 ≤ rg.nlat ∧
    geti region.lat_begin 0 = 0 ∧ geti region.lat_end 0 = (rg.nlon 0 : Int) - 1 ∧
    geti region.lat_begin (rg.nlat - 1) = 0 ∧
    geti region.lat_end (rg.nlat - 1) = (rg.nlon (rg.nlat - 1) : Int) - 1 := by
  obtain ⟨n0, s0, r, hn, hs, hrr, hfin⟩ := generate_region_ok hreg
  obtain ⟨f1, f2, _, _, _, f6, _, f8, _⟩ := finish_region_ok hfin
  have hpos : 0 < rg.nlat := by
    by_contra hc
    have hz : rg.nlat = 0 := by omega
    unfold find_lat_north at hn
    rw [hz] at hn
    simp at hn
  have h2 : 2 ≤ rg.nlat := by
    by_contra hc
    have h1 : rg.nlat = 1 := by omega
    have hrows : ∀ j, j < rg.nlat → 0 < rg.nlon j := by
      intro j hj
      have : j = 0 := by omega
      subst this
      exact h0
    have := (generate_region_reach hrows hreg).2.2.1
    omega
  obtain ⟨n0', s0', hn', hs', hn0, _, _⟩ :=
    @find_lat_of_owns rg (fun _ => 0) 0 0 hpos ⟨0, h0, rfl⟩
  obtain ⟨n0'', s0'', hn'', hs'', _, hs1, hs2⟩ :=
    @find_lat_of_owns rg (fun _ => 0) 0 (rg.nlat - 1) (by omega) ⟨0, hK, rfl⟩
  rw [hn] at hn'
  rw [hs] at hs''
  cases hn'
  cases hs''
  have eN : connect_north rg n0 = 0 := by
    unfold connect_north
    split_ifs <;> omega
  have eS : connect_south rg s0 = rg.nlat - 1 := by
    unfold connect_south
    split_ifs <;> omega
  rw [eN, eS, hup, Nat.sub_zero] at hrr
  have hlen0 : (initial_rstate rg).lat_end.length = rg.nlat := by simp [initial_rstate]
  have hlenb0 : (initial_rstate rg).lat_begin.length = rg.nlat := by simp [initial_rstate]
  -- the first row pair
  have hfirst : geti r.lat_begin 0 = 0 ∧ geti r.lat_end 0 = (rg.nlon 0 : Int) - 1 := by
    have hsplit : List.range' 0 (rg.nlat - 1) = 0 :: List.range' 1 (rg.nlat - 2) := by
      have : rg.nlat - 1 = (rg.nlat - 2) + 1 := by omega
      rw [this, List.range'_succ]
    rw [hsplit] at hrr
    simp only [region_rows] at hrr
    split at hrr
    · cases hrr
    · rename_i ra ha
      obtain ⟨b1, _, b3, _, _, b6, b7⟩ := region_row_full rg opts fuel 0 _ ra (Or.inl h0)
        (by rw [hlenb0]; omega) (by rw [hlenb0, hlen0])
        (by intro j; simp only [initial_rstate, geti_replicate]; exact le_refl _) ha
      obtain ⟨c1, _, _⟩ := region_rows_other (List.range' 1 (rg.nlat - 2)) (by
        intro i hi
        rw [List.mem_range'_1] at hi
        rw [b7, hlen0]; omega) hrr
      obtain ⟨d1, d2⟩ := c1 0 (by
        intro i hi
        rw [List.mem_range'_1] at hi
        omega)
      exact ⟨d1.trans b1, d2.trans b3⟩
  -- the last row pair
  have hlast : geti r.lat_begin (rg.nlat - 1) = 0 ∧
      geti r.lat_end (rg.nlat - 1) = (rg.nlon (rg.nlat - 1) : Int) - 1 := by
    have hsplit : List.range' 0 (rg.nlat - 1)
        = List.range' 0 (rg.nlat - 2) ++ [rg.nlat - 2] := by
      have : rg.nlat - 1 = (rg.nlat - 2) + 1 := by omega
      rw [this, List.range'_1_concat]
      simp
    rw [hsplit, region_rows_append] at hrr
    cases hb : region_rows rg opts (fun _ => 0) 0 false fuel (List.range' 0 (rg.nlat - 2))
        (initial_rstate rg) with
    | none => rw [hb] at hrr; cases hrr
    | some rb =>
      rw [hb] at hrr
      simp only [region_rows, Option.some_bind] at hrr
      cases hc : region_row rg opts (fun _ => 0) 0 false fuel (rg.nlat - 2) rb with
      | none => rw [hc] at hrr; cases hrr
      | some rc =>
        rw [hc] at hrr
        cases hrr
        have hb2 := hb
        rw [← hup] at hb2
        obtain ⟨i1, _, _⟩ := region_rows_rowInv _ hb2 (initial_rowInv rg)
        obtain ⟨_, i3, _⟩ := region_rows_other (List.range' 0 (rg.nlat - 2)) (by
          intro i hi
          rw [List.mem_range'_1] at hi
          rw [hlen0]; omega) hb
        have hm : rg.nlat - 2 + 1 = rg.nlat - 1 := by omega
        obtain ⟨_, b2, _, b4, _⟩ := region_row_full rg opts fuel (rg.nlat - 2) rb _
          (Or.inr (by rw [hm]; exact hK)) (by rw [i3, hlenb0]; omega) i1.1
          (by
            intro j
            rcases (i1.2 j).1 with e | e
            · rw [e]
            · omega) hc
        rw [hm] at b2 b4
        exact ⟨b2, b4⟩
  refine ⟨by rw [f1, eN], by rw [f2, eS], h2, ?_, ?_, ?_, ?_⟩
  · rw [f8, region_nodes_begin_eq _ _ _ _ _ _ (by rw [hfirst.1])]
    exact hfirst.1
  · rw [f6]; exact hfirst.2
  · rw [f8, region_nodes_begin_eq _ _ _ _ _ _ (by rw [hlast.1])]
    exact hlast.1
  · rw [f6]; exact hlast.2

theorem unique_pole_inactive_of_no_pole (rg : ReducedGrid) (opts : Options)
    (hnp : has_north_pole rg = false) (h0 : 0 < rg.nlon 0) :
    unique_pole_active rg opts = false := by
  have hl : rg.lat 0 ≠ 90 := by
    intro hc
    simp [has_north_pole, hc, h0] at hnp
  simp [unique_pole_active, hl]

/-- C9: with `include_pole` on a grid without pole rows whose first and last
rows hold at least one point, generated with one partition, `generate_mesh`
adds exactly one node row per pole after the row nodes (the north pole node at index `jnorth`, the
south pole node at `jnorth + 1`), and after the region triangles exactly `K`
fan triangles per pole, `K` the length of the polar row.  The `k`-th has the
pole node as first vertex and the node rows `o + k` and `o + (k+1)` as the
other two (in the order `k, k+1` at the north pole and `k+1, k` at the south
pole), where `o` is the first node row of the polar row: node row `o + c`
holds column `c` of the polar row for every `c < K`, and node row `o + K`, used
by the last triangle in non-3D mode, holds the periodic column of that row (in
3D mode the last triangle wraps to column 0). -/
theorem include_pole_fans (fuel : Nat) (rg : ReducedGrid) (opts : Options)
    (region : Region) (rank : Nat) (elem_counts : List Nat) (mesh : Mesh)
    (hinc : opts.include_pole = true) (hpart : opts.part = 0) (hnb : opts.nb_parts = 1)
    (hnp : has_north_pole rg = false) (hsp : has_south_pole rg = false)
    (h0 : 0 < rg.nlon 0) (hK : 0 < rg.nlon (rg.nlat - 1))
    (hreg : generate_region fuel rg opts (fun _ => 0) 0 = some (.ok region))
    (h : generate_mesh rg opts (fun _ => 0) region rank elem_counts = .ok mesh) :
    ∃ ns, fill_rows rg opts (fun _ => 0) opts.part region (include_north_pole rg opts)
        (include_south_pole rg opts)
        (List.range' region.north (region.south + 1 - region.north))
        { l := 0, offset_loc := [], nodes := [] } = .ok ns ∧
      mesh.nodes = ns.nodes ++ [north_pole_node rg opts, south_pole_node rg opts] ∧
      mesh.triags.map Triag.vertices
        = (fill_elems rg opts opts.part region ns.offset_loc
            { quads := [], triags := [] }).triags.map Triag.vertices
          ++ (List.range (rg.nlon 0)).map (fun (k : Nat) =>
              ((ns.nodes.length : Int), geti ns.offset_loc 0 + (k : Int),
                geti ns.offset_loc 0 + fan_column opts.three_dimensional (rg.nlon 0) (k + 1)))
          ++ (List.range (rg.nlon (rg.nlat - 1))).map (fun (k : Nat) =>
              ((ns.nodes.length : Int) + 1,
                geti ns.offset_loc (region.south - region.north)
                  + fan_column opts.three_dimensional (rg.nlon (rg.nlat - 1)) (k + 1),
                geti ns.offset_loc (region.south - region.north) + (k : Int))) ∧
      mesh.nodes[ns.nodes.length]? = some (north_pole_node rg opts) ∧
      mesh.nodes[ns.nodes.length + 1]? = some (south_pole_node rg opts) ∧
      0 ≤ geti ns.offset_loc 0 ∧
      (∀ c, c < rg.nlon 0 →
        mesh.nodes[(geti ns.offset_loc 0 + (c : Int)).toNat]?
          = some (grid_node rg opts (fun _ => 0) 0 c)) ∧
      (opts.three_dimensional = false →
        ∃ p, mesh.nodes[(geti ns.offset_loc 0 + (rg.nlon 0 : Int)).toNat]?
          = some (periodic_node rg opts 0 p)) ∧
      0 ≤ geti ns.offset_loc (region.south - region.north) ∧
      (∀ c, c < rg.nlon (rg.nlat - 1) →
        mesh.nodes[(geti ns.offset_loc (region.south - region.north) + (c : Int)).toNat]?
          = some (grid_node rg opts (fun _ => 0) (rg.nlat - 1) c)) ∧
      (opts.three_dimensional = false →
        ∃ p, mesh.nodes[(geti ns.offset_loc (region.south - region.north)
            + (rg.nlon (rg.nlat - 1) : Int)).toNat]?
          = some (periodic_node rg opts (rg.nlat - 1) p)) := by
  have hin : include_north_pole rg opts = true := by
    simp [include_north_pole, hinc, hpart, hnp]
  have his : include_south_pole rg opts = true := by
    simp [include_south_pole, hinc, hpart, hnb, hsp]
  have hup := unique_pole_inactive_of_no_pole rg opts hnp h0
  obtain ⟨r1, r2, r3, p1, p2, p3, p4⟩ := generate_region_polar_rows hup h0 hK hreg
  have hb := generate_region_rows hreg
  obtain ⟨ns, hns, hm⟩ := generate_mesh_nodes h
  rw [hin, his, if_pos rfl, if_pos rfl, List.append_assoc] at hm
  obtain ⟨_, _, _, _, hlay⟩ := fill_rows_layout _ hns rfl
    (fun r hr => ⟨(hb r hr).1, (hb r hr).2.1⟩)
  have hlen : (List.range' region.north (region.south + 1 - region.north)).length
      = rg.nlat := by
    rw [List.length_range', r1, r2]; omega
  have hget : ∀ k, k < rg.nlat →
      (List.range' region.north (region.south + 1 - region.north)).getD k 0 = k := by
    intro k hk
    rw [List.getD_eq_getElem?_getD, List.getElem?_range' _ _ (by rw [r1, r2]; omega)]
    simp only [Option.getD_some]
    rw [r1]; omega
  have hrow : ∀ j, j < rg.nlat → geti region.lat_begin j = 0 →
      geti region.lat_end j = (rg.nlon j : Int) - 1 →
      0 ≤ geti ns.offset_loc j ∧
      (∀ c, c < rg.nlon j →
        mesh.nodes[(geti ns.offset_loc j + (c : Int)).toNat]?
          = some (grid_node rg opts (fun _ => 0) j c)) ∧
      (opts.three_dimensional = false →
        ∃ p, mesh.nodes[(geti ns.offset_loc j + (rg.nlon j : Int)).toNat]?
          = some (periodic_node rg opts j p)) := by
    intro j hj e1 e2
    obtain ⟨l1, l2, l3⟩ := hlay j (by rw [hlen]; exact hj)
    rw [hget j hj] at l2 l3
    simp only [List.length_nil, Nat.zero_add] at l1 l2 l3
    refine ⟨l1, ?_, ?_⟩
    · intro c hc
      have := l2 c (by rw [e1]; omega) (by rw [e2]; omega)
      rw [e1, Int.sub_zero] at this
      rw [hm]
      exact getElem?_append_some _ _ _ _ this
    · intro h3
      obtain ⟨p, hp⟩ := l3 h3 e2
      refine ⟨p, ?_⟩
      rw [hm]
      apply getElem?_append_some
      rw [← hp]
      congr 2
      rw [e1, e2]
      omega
  have hsn : region.south - region.north = rg.nlat - 1 := by rw [r1, r2]; rfl
  obtain ⟨n1, n2, n3⟩ := hrow 0 (by omega) p1 p2
  obtain ⟨s1, s2, s3⟩ := hrow (rg.nlat - 1) (by omega) p3 p4
  rw [← hsn] at s1
  refine ⟨ns, hns, hm, ?_, ?_, ?_, n1, n2, n3, s1, ?_, ?_⟩
  · unfold generate_mesh at h
    simp only at h
    split at h
    · cases h
    · split at h
      · cases h
      · rename_i ns2 hns2
        rw [hns] at hns2
        cases hns2
        cases h
        rw [(numbering_vertices _ _ _).1]
        simp only [hin, his, if_true]
        rw [south_fan_vertices, north_fan_vertices]
        simp [List.length_append]
  · rw [hm, List.getElem?_append_right (Nat.le_refl _), Nat.sub_self]
    rfl
  · rw [hm, List.getElem?_append_right (Nat.le_add_right _ _), Nat.add_sub_cancel_left]
    rfl
  · rw [hsn]; exact s2
  · rw [hsn]; exact s3

set_option maxRecDepth 100000 in
/-- Grid `[4,6,6,4]` with `include_pole`: 32 region triangles and 4 fan
triangles per pole; the node rows `o + c`, `c < 4`, hold the columns of row 0. -/
theorem include_pole_fans_witness :
    (run_mesh (generate 20 grid4664 include_pole_options (fun _ => 0) 0 [0])).triags.length
      = 32 + 4 + 4 ∧
    ∃ o : Int, 0 ≤ o ∧ ∀ c, c < grid4664.nlon 0 →
      (mesh_of (generate_mesh grid4664 include_pole_options (fun _ => 0)
        (region_of (generate_region 20 grid4664 include_pole_options (fun _ => 0) 0)) 0
        [0])).nodes[(o + (c : Int)).toNat]?
        = some (grid_node grid4664 include_pole_options (fun _ => 0) 0 c) := by
  refine ⟨by decide!, ?_⟩
  obtain ⟨ns, _, _, _, _, _, h0, h1, _⟩ := include_pole_fans 20 grid4664 include_pole_options
    (region_of (generate_region 20 grid4664 include_pole_options (fun _ => 0) 0)) 0 [0]
    (mesh_of (generate_mesh grid4664 include_pole_options (fun _ => 0)
      (region_of (generate_region 20 grid4664 include_pole_options (fun _ => 0) 0)) 0 [0]))
    rfl rfl rfl (by decide!) (by decide!) (by decide) (by decide) (by decide!) (by decide!)
  exact ⟨geti ns.offset_loc 0, h0, h1⟩

/-- C6 (amended): in non-3D mode, in the mesh generated for a region, every row
`jlat` of the region that is non-empty and whose last column belongs to the
region has its periodic ghost node in the node row right after its regular
nodes, at index `offset_loc[jlat - north] + (lat_end - lat_begin + 1)`; that
node lies on the latitude of the row, carries the flags `east` and `ghost`, and
its global index is `npts + (number of non-empty rows before jlat) + 1`.
Conversely every node with the flag `east` is the periodic node of a row of
the region; its global index is that value when the row is non-empty and 1
when the row is empty. -/
theorem periodic_node_glb_idx (fuel : Nat) (rg : ReducedGrid) (opts : Options)
    (parts : Nat → Int) (region : Region) (rank : Nat) (elem_counts : List Nat) (mesh : Mesh)
    (h3 : opts.three_dimensional = false)
    (hreg : generate_region fuel rg opts parts opts.part = some (.ok region))
    (h : generate_mesh rg opts parts region rank elem_counts = .ok mesh) :
    ∃ ns, fill_rows rg opts parts opts.part region (include_north_pole rg opts)
        (include_south_pole rg opts)
        (List.range' region.north (region.south + 1 - region.north))
        { l := 0, offset_loc := [], nodes := [] } = .ok ns ∧
      (∀ jlat, region.north ≤ jlat → jlat ≤ region.south → 0 < rg.nlon jlat →
        geti region.lat_end jlat = (rg.nlon jlat : Int) - 1 →
        ∃ nd, mesh.nodes[(geti ns.offset_loc (jlat - region.north)
            + (geti region.lat_end jlat - geti region.lat_begin jlat + 1)).toNat]? = some nd ∧
          nd.lat = rg.lat jlat ∧ nd.flags.east = true ∧ nd.flags.ghost = true ∧
          nd.glb_idx = (rg.npts : Int)
            + (((rg.nlons.take jlat).filter (fun k => decide (k > 0))).length : Int) + 1) ∧
      (∀ nd ∈ mesh.nodes, nd.flags.east = true →
        ∃ jlat p, region.north ≤ jlat ∧ jlat ≤ region.south ∧
          geti region.lat_end jlat = (rg.nlon jlat : Int) - 1 ∧
          nd = periodic_node rg opts jlat p ∧
          nd.glb_idx = (if 0 < rg.nlon jlat then (rg.npts : Int)
            + (((rg.nlons.take jlat).filter (fun k => decide (k > 0))).length : Int) + 1
            else 1)) := by
  obtain ⟨ns, hns, hm⟩ := generate_mesh_nodes h
  have hb := generate_region_rows hreg
  obtain ⟨_, _, _, _, hlay⟩ := fill_rows_layout _ hns rfl (fun r hr => ⟨(hb r hr).1, (hb r hr).2.1⟩)
  refine ⟨ns, hns, ?_, ?_⟩
  · intro jlat hj1 hj2 hpos hle
    have hk : jlat - region.north < (List.range' region.north
        (region.south + 1 - region.north)).length := by
      rw [List.length_range']; omega
    obtain ⟨_, _, hper⟩ := hlay (jlat - region.north) hk
    have hrow : (List.range' region.north (region.south + 1 - region.north)).getD
        (jlat - region.north) 0 = jlat := by
      rw [List.getD_eq_getElem?_getD, List.getElem?_range' _ _ (by omega)]
      simp only [Option.getD_some]
      omega
    rw [hrow] at hper
    obtain ⟨p, hp⟩ := hper h3 hle
    simp only [List.length_nil, Nat.zero_add] at hp
    refine ⟨periodic_node rg opts jlat p, ?_, rfl, rfl, rfl, ?_⟩
    · rw [hm]
      apply getElem?_append_some
      apply getElem?_append_some
      rw [← hp]
      congr 2
      omega
    · simp [periodic_node, periodic_glb, hpos, h3]
  · intro nd hn he
    rcases generate_mesh_node_cases h hn with ⟨j, hj, h1 | ⟨hc, p, rfl⟩⟩ | ⟨_, rfl⟩ | ⟨_, rfl⟩
    · rw [mem_row_regular] at h1
      obtain ⟨c, _, _, rfl⟩ := h1
      rw [grid_node_east] at he
      cases he
    · refine ⟨j, p, hj.1, hj.2, hc.2, rfl, ?_⟩
      by_cases hpos : 0 < rg.nlon j
      · simp [periodic_node, periodic_glb, hpos, h3]
      · simp [periodic_node, periodic_glb, hpos, h3]
    · simp [north_pole_node, Flags.reset] at he
    · simp [south_pole_node, Flags.reset] at he

set_option maxRecDepth 100000 in
/-- Grid `[4,6,6,4]`, one partition: the periodic node of row 1 has the global
index `20 + 1 + 1`. -/
theorem periodic_node_glb_idx_witness :
    ∃ (i : Nat) (nd : Node), (mesh_of (generate_mesh grid4664 default_options (fun _ => 0)
        (region_of (generate_region 20 grid4664 default_options (fun _ => 0) 0)) 0 [0])).nodes[i]?
        = some nd ∧
      nd.lat = grid4664.lat 1 ∧ nd.flags.east = true ∧ nd.glb_idx = 22 := by
  obtain ⟨ns, _, h1, _⟩ := periodic_node_glb_idx 20 grid4664 default_options (fun _ => 0)
    (region_of (generate_region 20 grid4664 default_options (fun _ => 0) 0)) 0 [0]
    (mesh_of (generate_mesh grid4664 default_options (fun _ => 0)
      (region_of (generate_region 20 grid4664 default_options (fun _ => 0) 0)) 0 [0]))
    rfl (by decide!) (by decide!)
  obtain ⟨nd, e1, e2, e3, _, e5⟩ := h1 1 (by decide!) (by decide!) (by decide) (by decide!)
  exact ⟨_, nd, e1, e2, e3, by rw [e5]; decide⟩
end Atlas
